import Mathlib

/-!
# Windowed bundle adjustment of the Multilayer Feature Graph (MFG)

A shallow embedding of the two local bundle-adjustment units

* `src/mfg-ba-ptlnvp.cpp`  (`costFun_BA_PtLnVp`, `Mfg::adjustBundle_PtLnVp`), and
* `src/mfgcore/mfg-ba-g2o.cpp` (`Mfg::bundle_adjust_between`, `Mfg::adjustBundle_G2O`).

Conventions of the embedding.

* C++ `int` is `Int`; `double` is `Rat` (exact arithmetic); `std::vector` is `List`;
  `std::unordered_map<int,int>` is an association list (`IntMap`) in which the newest
  binding of a key shadows the older ones.
* A loop `for (i = a; i < b; ++i)` over machine integers is a fold over `intRange a b`.
* `exit(0)` and undefined behaviour (dereferencing `end()`, indexing past a vector) are
  explicit outcomes of the factor builder (`BuildError`).
* The nonlinear least-squares engines (`g2o`, `levmar`) are collaborators: the solver is a
  parameter of the embedding and every statement quantifies over what it returns.
-/

namespace Mfg

/-! ## Numeric containers -/

/-- A 3-vector of doubles (`cv::Point3d`, `Eigen::Vector3d`, 3x1 `cv::Mat`). -/
structure Vec3 where
  x : Rat
  y : Rat
  z : Rat
deriving DecidableEq, Repr

/-- A 3x3 matrix of doubles, by rows (the rotation `View::R`). -/
structure Mat3 where
  r0 : Vec3
  r1 : Vec3
  r2 : Vec3
deriving DecidableEq, Repr

/-- A 2x2 matrix of doubles, by rows. -/
structure Mat2 where
  m00 : Rat
  m01 : Rat
  m10 : Rat
  m11 : Rat
deriving DecidableEq, Repr

/-- A 2D image point (`cv::Point2d`, a feature point). -/
structure Pt2 where
  x : Rat
  y : Rat
deriving DecidableEq, Repr

/-! ## Map state (the members of `class Mfg` the two units touch) -/

/-- An observed 2D ideal line of a view; only the sampled end points are used here. -/
structure IdealLine2d where
  lsEndpoints : List Pt2
deriving DecidableEq, Repr

/-- A 2D vanishing-point detection of a view with its 2x2 angular covariance `cov_ab`. -/
structure VanishPnt2d where
  x : Rat
  y : Rat
  w : Rat
  cov_ab : Mat2
deriving DecidableEq, Repr

/-- A key frame. -/
structure View where
  id : Int
  R : Mat3
  t : Vec3
  matchable : Bool
  featurePoints : List Pt2
  idealLines : List IdealLine2d
  vanishPoints : List VanishPnt2d
  errAll : Rat
  errPt : Rat
  errLn : Rat
  errPl : Rat
  errPtMean : Rat
  errLnMean : Rat
deriving DecidableEq, Repr

/-- A 3D key point; `viewId_ptLid[j] = (view id, local feature id)`. -/
structure KeyPoint3d where
  x : Rat
  y : Rat
  z : Rat
  gid : Int
  is3D : Bool
  viewId_ptLid : List (Int × Int)
  estViewId : Int
deriving DecidableEq, Repr

/-- A 3D ideal line; `viewId_lnLid[j] = (view id, local line id)`. -/
structure IdealLine3d where
  midpt : Vec3
  direct : Vec3
  vpGid : Int
  gid : Int
  is3D : Bool
  viewId_lnLid : List (Int × Int)
  estViewId : Int
deriving DecidableEq, Repr

/-- A 3D vanishing point; `viewId_vpLid[j] = (view id, local vanishing point id)`. -/
structure VanishPnt3d where
  x : Rat
  y : Rat
  z : Rat
  gid : Int
  viewId_vpLid : List (Int × Int)
deriving DecidableEq, Repr

/-- A primary plane `n . X = d` with its member point and line gids. -/
structure PrimaryPlane3d where
  n : Vec3
  d : Rat
  kptGids : List Int
  ilnGids : List Int
  estViewId : Int
deriving DecidableEq, Repr

/-- One row of `camdist_constraints`: `[view a, view b, measured distance, weight]`,
with the two `(int)` casts of the source already applied to the view ids. -/
structure CamDist where
  a : Int
  b : Int
  dist : Rat
  weight : Rat
deriving DecidableEq, Repr

/-- The map state borrowed by one bundle-adjustment call. -/
structure Map where
  K : Mat3
  views : List View
  keyPoints : List KeyPoint3d
  idealLines : List IdealLine3d
  vanishingPoints : List VanishPnt3d
  primaryPlanes : List PrimaryPlane3d
  camdist_constraints : List CamDist
deriving DecidableEq, Repr

/-- The configuration getters of `MfgSettings` read by `adjustBundle_G2O`. -/
structure MfgSettings where
  baNumFramesVPoint : Int
  baUseKernel : Bool
  baKernelDeltaPoint : Rat
  baKernelDeltaVPoint : Rat
  baKernelDeltaLine : Rat
  baKernelDeltaPlane : Rat
  baWeightVPoint : Rat
  baWeightLine : Rat
  baWeightPlane : Rat
deriving DecidableEq, Repr

/-! ## Window boundaries -/

/-- The values `a, a+1, ..., b-1` of a loop `for (int i = a; i < b; ++i)`. -/
def intRange (a b : Int) : List Int :=
  (List.range (b - a).toNat).map (fun (k : Nat) => a + (k : Int))

/-- `views.back().id`, the id of the newest view (0 on an empty list, where the source
would read past the vector). -/
def backId (views : List View) : Int :=
  match views.getLast? with
  | some v => v.id
  | none => 0

/-- Source `adjustBundle_G2O` l.1051 and `adjustBundle_PtLnVp` l.236:
`max(1, (int)views.size() - numPos)`. -/
def frontPosIdx (size : Nat) (numPos : Int) : Int :=
  max 1 ((size : Int) - numPos)

/-- Source `adjustBundle_G2O` l.1052 and `adjustBundle_PtLnVp` l.237:
`max(0, (int)views.size() - numFrm)`. -/
def frontFrmIdx (size : Nat) (numFrm : Int) : Int :=
  max 0 ((size : Int) - numFrm)

/-- Source `adjustBundle_G2O` l.1053-1054:
`min(frontFrmIdx, max(0, (int)views.size() - getBaNumFramesVPoint()))`. -/
def frontVptIdx (size : Nat) (numFrm numVpFrm : Int) : Int :=
  min (frontFrmIdx size numFrm) (max 0 ((size : Int) - numVpFrm))

/-- `numPos` as hard-wired in `adjustBundle_PtLnVp` (l.220). -/
def ptLnVp_numPos : Int := 3

/-- `numFrm` as hard-wired in `adjustBundle_PtLnVp` (l.221). -/
def ptLnVp_numFrm : Int := 5

/-! ## The g2o problem: vertices, edges and the index bookkeeping -/

/-- A `std::unordered_map<int,int>`; the newest binding of a key comes first. -/
abbrev IntMap := List (Int × Int)

/-- The lookup `m.find(k)`: `none` stands for `m.end()`. -/
def mapFind (m : IntMap) (k : Int) : Option Int :=
  m.lookup k

/-- The assignment `m[k] = v`. -/
def mapSet (m : IntMap) (k v : Int) : IntMap :=
  (k, v) :: m

/-- The read `m[k]`: `operator[]` of `unordered_map` value-initialises a missing key,
so an absent key reads as 0 and is inserted with value 0. -/
def mapIndex (m : IntMap) (k : Int) : Int × IntMap :=
  match m.lookup k with
  | some v => (v, m)
  | none => (0, (k, 0) :: m)

/-- The g2o vertex classes instantiated by the source. `lnpt` is the
`VertexSBAPointXYZ` that carries the midpoint of an ideal line. -/
inductive VertexKind where
  | cam
  | point
  | vnpt
  | lnpt
  | plane
deriving DecidableEq, Repr

/-- The estimate of a vertex. For a camera the pair is `estimate().inverse()`, the pose
in the convention of `View::R`, `View::t` (the source stores the inverse in the `SBACam`
and inverts again on read). -/
inductive Estimate where
  | pose (R : Mat3) (t : Vec3)
  | vec (v : Vec3)
deriving DecidableEq, Repr

/-- A vertex of the optimizer. A fresh g2o vertex is not fixed. -/
structure Vertex where
  id : Int
  kind : VertexKind
  fixed : Bool
  marginalized : Bool
  estimate : Estimate
deriving DecidableEq, Repr

/-- The g2o edge classes instantiated by the source. -/
inductive EdgeKind where
  | camCamDist
  | projectP2MC
  | vnptCam
  | lineVpCam
  | pointPlane
  | lineVpPlane
deriving DecidableEq, Repr

/-- An edge of the optimizer: the ids of the vertices in its slots, the measurement,
the information matrix by rows, the Huber delta when a robust kernel is attached, and
the sampled segment end points of a line edge. -/
structure Edge where
  kind : EdgeKind
  vertices : List Int
  measurement : List Rat
  information : List Rat
  robustKernel : Option Rat
  segpts : List Pt2
deriving DecidableEq, Repr

/-- The optimizer together with the local bookkeeping variables of
`adjustBundle_G2O` / `bundle_adjust_between`. Vectors of vertex pointers hold vertex ids.
`solveLog` is the only ghost component: one entry per call of `optimizer.optimize`, the
information of the camera-distance edges in force during that call. -/
structure Graph where
  vertex_id : Int
  maxIters : Int
  vertices : List Vertex
  camvertVec : List Int
  camvid2fid : IntMap
  camfid2vid : IntMap
  edges_camdist : List Edge
  ptvid2gid : IntMap
  ptgid2vid : IntMap
  ptvertVec : List Int
  kptIdx2Opt : List Int
  kptIdx2Rpj_notOpt : List Int
  vpgid2vid : IntMap
  vpvid2gid : IntMap
  vpIdx2Opt : List Int
  vpvertVec : List Int
  lngid2vid : IntMap
  lnvid2gid : IntMap
  lnIdx2Opt : List Int
  lnIdx2Rpj_notOpt : List Int
  lnvertVec : List Int
  plgid2vid : IntMap
  plvid2gid : IntMap
  plIdx2Opt : List Int
  plvertVec : List Int
  vecEdgeVnpt : List Edge
  vecEdgeKpt : List Edge
  vecEdgeLine : List Edge
  vecEdgePointPlane : List Edge
  vecEdgeLinePlane : List Edge
  solveLog : List (List (List Rat))
deriving DecidableEq, Repr

/-- The state at `int vertex_id = 0;` with `maxIters = 25` and an empty optimizer. -/
def Graph.init : Graph :=
  { vertex_id := 0, maxIters := 25, vertices := [], camvertVec := [], camvid2fid := [],
    camfid2vid := [], edges_camdist := [], ptvid2gid := [], ptgid2vid := [],
    ptvertVec := [], kptIdx2Opt := [], kptIdx2Rpj_notOpt := [], vpgid2vid := [],
    vpvid2gid := [], vpIdx2Opt := [], vpvertVec := [], lngid2vid := [], lnvid2gid := [],
    lnIdx2Opt := [], lnIdx2Rpj_notOpt := [], lnvertVec := [], plgid2vid := [],
    plvid2gid := [], plIdx2Opt := [], plvertVec := [], vecEdgeVnpt := [],
    vecEdgeKpt := [], vecEdgeLine := [], vecEdgePointPlane := [], vecEdgeLinePlane := [],
    solveLog := [] }

/-- The lookup `optimizer.vertices().find(id)`; `none` stands for `end()`. -/
def findVertex (vs : List Vertex) (id : Int) : Option Vertex :=
  vs.find? (fun v => v.id == id)

/-- The call `v->setFixed(b)` through a stored vertex pointer. -/
def setFixed (vs : List Vertex) (id : Int) (b : Bool) : List Vertex :=
  vs.map (fun v => if v.id == id then { v with fixed := b } else v)

/-- How factor construction can leave the call other than by falling through:
`exit(0)` after a failed null check, or undefined behaviour (dereferencing `end()`,
indexing outside a vector, `robustify` through a null kernel). -/
inductive BuildError where
  | exitCalled
  | undefinedBehaviour
deriving DecidableEq, Repr

/-- The element `xs[i]` of a vector indexed by a C++ `int`. -/
def vecAt {α : Type} (xs : List α) (i : Int) : Option α :=
  if i < 0 then none else xs[i.toNat]?

/-- The pose of `views[i]` (the identity pose where the source would read past the
vector). -/
def viewPose (views : List View) (i : Int) : Estimate :=
  match vecAt views i with
  | some v => Estimate.pose v.R v.t
  | none => Estimate.pose ⟨⟨1, 0, 0⟩, ⟨0, 1, 0⟩, ⟨0, 0, 1⟩⟩ ⟨0, 0, 0⟩

/-! ### Camera vertices (source l.114-145 and l.1062-1085) -/

/-- The `VertexCam` created for view `i` with vertex id `id` (l.1067-1078): its estimate
is the pose of `views[i]`, and it is fixed when `i < 1 || i < frontPosIdx`. -/
def camVertex (views : List View) (frontPosIdx id i : Int) : Vertex :=
  { id := id, kind := VertexKind.cam,
    fixed := decide (i < 1) || decide (i < frontPosIdx),
    marginalized := false, estimate := viewPose views i }

/-- The body of the camera loop for view `i` (l.1067-1084). -/
def addCamVertex (views : List View) (frontPosIdx : Int) (g : Graph) (i : Int) : Graph :=
  { g with
    vertices := g.vertices ++ [camVertex views frontPosIdx g.vertex_id i],
    camvid2fid := mapSet g.camvid2fid g.vertex_id i,
    camfid2vid := mapSet g.camfid2vid i g.vertex_id,
    vertex_id := g.vertex_id + 1,
    camvertVec := g.camvertVec ++ [g.vertex_id] }

/-- The camera loop `for (i = front; i < stop; ++i)`; `adjustBundle_G2O` runs it with
`front = frontVptIdx`, `stop = views.size()`, `bundle_adjust_between` with
`front = view_from`, `stop = view_to + 1`. -/
def addCamVertices (views : List View) (front stop frontPosIdx : Int) (g : Graph) : Graph :=
  (List.range (stop - front).toNat).foldl
    (fun g (k : Nat) => addCamVertex views frontPosIdx g (front + (k : Int))) g

/-! ### Camera-distance edges (source l.150-183 and l.1090-1123) -/

/-- The body of the camera-distance loop for one row of `camdist_constraints`.
`newMaxIters` is 20 in `adjustBundle_G2O` and `max(20, view_to - view_from)` in
`bundle_adjust_between`. -/
def addCamDistEdge (newMaxIters : Int) (g : Graph) (c : CamDist) : Except BuildError Graph :=
  if (mapFind g.camfid2vid c.a).isSome && (mapFind g.camfid2vid c.b).isSome then
    let ra := mapIndex g.camfid2vid c.a
    match findVertex g.vertices ra.1 with
    | none => Except.error BuildError.undefinedBehaviour
    | some va =>
      let rb := mapIndex ra.2 c.b
      match findVertex g.vertices rb.1 with
      | none => Except.error BuildError.undefinedBehaviour
      | some vb =>
        Except.ok { g with
          maxIters := newMaxIters,
          camfid2vid := rb.2,
          edges_camdist := g.edges_camdist ++
            [{ kind := EdgeKind.camCamDist, vertices := [va.id, vb.id],
               measurement := [c.dist], information := [1 * c.weight],
               robustKernel := none, segpts := [] }] }
  else Except.ok g

/-- The rows visited by `for (i = size - 1; i >= 0 && i >= size - span; --i)`, newest
first. -/
def camDistRows (cs : List CamDist) (span : Int) : List CamDist :=
  (intRange (max 0 ((cs.length : Int) - span)) (cs.length : Int)).reverse.filterMap
    (fun i => vecAt cs i)

/-- The camera-distance loop. -/
def addCamDistEdges (newMaxIters : Int) (rows : List CamDist) (g : Graph) :
    Except BuildError Graph :=
  rows.foldlM (addCamDistEdge newMaxIters) g

/-! ### Un-fixing under distance constraints (source l.185-192 and l.1125-1132) -/

/-- The loop `for (i = 0; i < camvertVec.size(); ++i) if (i > 0) setFixed(false)`,
started at position `i` of `camvertVec`. -/
def unfixLoop : List Vertex → Nat → List Int → List Vertex
  | vs, _, [] => vs
  | vs, i, vid :: rest =>
    unfixLoop (if 0 < i then setFixed vs vid false else vs) (i + 1) rest

/-- The block `if (edges_camdist.size() > 0) { ... }`. -/
def unfixCams (g : Graph) : Graph :=
  if 0 < g.edges_camdist.length then
    { g with vertices := unfixLoop g.vertices 0 g.camvertVec }
  else g

/-! ### Structure vertices (source l.198-363 and l.1137-1299) -/

/-- A loop `for (int i = i0; i < i0 + xs.size(); ++i) state = body(state, i, xs[i - i0])`
over the elements of a vector, the index running along. -/
def indexedLoop {σ α : Type} (body : σ → Int → α → σ) : σ → Int → List α → σ
  | st, _, [] => st
  | st, i, x :: rest => indexedLoop body (body st i x) (i + 1) rest

/-- The test of the inner loop `for (j ...) if (obs[j][0] >= frontPosIdx) { ...; break; }`:
the guarded block runs once, at the first such `j`, when there is one, and does not
read `j`. -/
def observedFrom (obs : List (Int × Int)) (frontPosIdx : Int) : Bool :=
  obs.any (fun o => decide (frontPosIdx ≤ o.1))

/-- The read `obs[0][0]`, the view of the first observation (evaluated by the source
only inside the guarded block, where the list is not empty). -/
def firstViewId (obs : List (Int × Int)) : Int :=
  match obs with
  | [] => 0
  | o :: _ => o.1

/-- The key-point loop body for `keyPoints[i]`. `newest` is `views.back().id` in
`adjustBundle_G2O` and `view_to` in `bundle_adjust_between`. -/
def addKeyPoint (frontPosIdx frontFrmIdx newest : Int) (g : Graph) (i : Int)
    (kp : KeyPoint3d) : Graph :=
  if !kp.is3D || decide (kp.gid < 0) then g
  else if observedFrom kp.viewId_ptLid frontPosIdx then
    let fixed := decide (firstViewId kp.viewId_ptLid < frontFrmIdx)
      && decide (kp.estViewId < newest) && decide (g.edges_camdist.length = 0)
    { g with
      vertices := g.vertices ++
        [{ id := g.vertex_id, kind := VertexKind.point, fixed := fixed,
           marginalized := true, estimate := Estimate.vec ⟨kp.x, kp.y, kp.z⟩ }],
      kptIdx2Rpj_notOpt := if fixed then g.kptIdx2Rpj_notOpt ++ [i] else g.kptIdx2Rpj_notOpt,
      kptIdx2Opt := if fixed then g.kptIdx2Opt else g.kptIdx2Opt ++ [i],
      ptvertVec := if fixed then g.ptvertVec else g.ptvertVec ++ [g.vertex_id],
      ptgid2vid := mapSet g.ptgid2vid kp.gid g.vertex_id,
      ptvid2gid := mapSet g.ptvid2gid g.vertex_id kp.gid,
      vertex_id := g.vertex_id + 1 }
  else g

/-- The key-point loop from index `i` on. -/
def addKeyPoints (frontPosIdx frontFrmIdx newest : Int) (g : Graph) (i : Int)
    (xs : List KeyPoint3d) : Graph :=
  indexedLoop (addKeyPoint frontPosIdx frontFrmIdx newest) g i xs

/-- The vanishing-point loop body for `vanishingPoints[i]`. -/
def addVanishingPoint (frontPosIdx : Int) (g : Graph) (i : Int) (vp : VanishPnt3d) : Graph :=
  if observedFrom vp.viewId_vpLid frontPosIdx then
    { g with
      vpIdx2Opt := g.vpIdx2Opt ++ [i],
      vertices := g.vertices ++
        [{ id := g.vertex_id, kind := VertexKind.vnpt, fixed := false,
           marginalized := false, estimate := Estimate.vec ⟨vp.x, vp.y, vp.z⟩ }],
      vpvertVec := g.vpvertVec ++ [g.vertex_id],
      vpvid2gid := mapSet g.vpvid2gid g.vertex_id vp.gid,
      vpgid2vid := mapSet g.vpgid2vid vp.gid g.vertex_id,
      vertex_id := g.vertex_id + 1 }
  else g

/-- The vanishing-point loop from index `i` on. -/
def addVanishingPoints (frontPosIdx : Int) (g : Graph) (i : Int) (xs : List VanishPnt3d) :
    Graph :=
  indexedLoop (addVanishingPoint frontPosIdx) g i xs

/-- The ideal-line loop body for `idealLines[i]`. `camDistTest` tells whether the
fixing condition carries the conjunct `edges_camdist.size() == 0`: it does in
`bundle_adjust_between` (l.291-294) and does not in `adjustBundle_G2O` (l.1230-1231). -/
def addIdealLine (camDistTest : Bool) (frontPosIdx frontFrmIdx newest : Int) (g : Graph)
    (i : Int) (ln : IdealLine3d) : Graph :=
  if !ln.is3D || decide (ln.gid < 0) then g
  else if observedFrom ln.viewId_lnLid frontPosIdx then
    let fixed := decide (firstViewId ln.viewId_lnLid < frontFrmIdx)
      && decide (ln.estViewId < newest)
      && (!camDistTest || decide (g.edges_camdist.length = 0))
    { g with
      vertices := g.vertices ++
        [{ id := g.vertex_id, kind := VertexKind.lnpt, fixed := fixed,
           marginalized := false, estimate := Estimate.vec ln.midpt }],
      lngid2vid := mapSet g.lngid2vid ln.gid g.vertex_id,
      lnvid2gid := mapSet g.lnvid2gid g.vertex_id ln.gid,
      lnIdx2Rpj_notOpt := if fixed then g.lnIdx2Rpj_notOpt ++ [i] else g.lnIdx2Rpj_notOpt,
      lnIdx2Opt := if fixed then g.lnIdx2Opt else g.lnIdx2Opt ++ [i],
      lnvertVec := if fixed then g.lnvertVec else g.lnvertVec ++ [g.vertex_id],
      vertex_id := g.vertex_id + 1 }
  else g

/-- The ideal-line loop from index `i` on. -/
def addIdealLines (camDistTest : Bool) (frontPosIdx frontFrmIdx newest : Int) (g : Graph)
    (i : Int) (xs : List IdealLine3d) : Graph :=
  indexedLoop (addIdealLine camDistTest frontPosIdx frontFrmIdx newest) g i xs

/-- The flag `usePlane`: some member point gid is a key of `ptgid2vid` or some member
line gid is a key of `lngid2vid`. -/
def usePlane (g : Graph) (pl : PrimaryPlane3d) : Bool :=
  pl.kptGids.any (fun gid => (mapFind g.ptgid2vid gid).isSome)
    || pl.ilnGids.any (fun gid => (mapFind g.lngid2vid gid).isSome)

/-- The primary-plane loop body for `primaryPlanes[i]`; the estimate is `n / d`. -/
def addPrimaryPlane (frontPosIdx newest : Int) (g : Graph) (i : Int)
    (pl : PrimaryPlane3d) : Graph :=
  if newest - pl.estViewId < 3 then g
  else if !usePlane g pl then g
  else
    { g with
      vertices := g.vertices ++
        [{ id := g.vertex_id, kind := VertexKind.plane,
           fixed := decide (pl.estViewId < frontPosIdx), marginalized := false,
           estimate := Estimate.vec ⟨pl.n.x / pl.d, pl.n.y / pl.d, pl.n.z / pl.d⟩ }],
      plgid2vid := mapSet g.plgid2vid i g.vertex_id,
      plvid2gid := mapSet g.plvid2gid g.vertex_id i,
      plIdx2Opt := g.plIdx2Opt ++ [i],
      plvertVec := g.plvertVec ++ [g.vertex_id],
      vertex_id := g.vertex_id + 1 }

/-- The primary-plane loop from index `i` on. -/
def addPrimaryPlanes (frontPosIdx newest : Int) (g : Graph) (i : Int)
    (xs : List PrimaryPlane3d) : Graph :=
  indexedLoop (addPrimaryPlane frontPosIdx newest) g i xs

/-- All structure vertices, in the order of the source: key points, vanishing points,
ideal lines, primary planes. -/
def addStructure (camDistTest : Bool) (frontPosIdx frontFrmIdx newest : Int) (m : Map)
    (g : Graph) : Graph :=
  let g1 := addKeyPoints frontPosIdx frontFrmIdx newest g 0 m.keyPoints
  let g2 := addVanishingPoints frontPosIdx g1 0 m.vanishingPoints
  let g3 := addIdealLines camDistTest frontPosIdx frontFrmIdx newest g2 0 m.idealLines
  addPrimaryPlanes frontPosIdx newest g3 0 m.primaryPlanes

/-- The camera part shared, statement by statement, by `adjustBundle_G2O` (l.1062-1132)
and `bundle_adjust_between` (l.121-192): camera vertices of the views `front..stop-1`,
camera-distance edges, un-fixing. -/
def cameraPart (views : List View) (front stop frontPosIdx newMaxIters : Int)
    (rows : List CamDist) : Except BuildError Graph :=
  match addCamDistEdges newMaxIters rows
      (addCamVertices views front stop frontPosIdx Graph.init) with
  | Except.error e => Except.error e
  | Except.ok g1 => Except.ok (unfixCams g1)

/-- The camera part of `adjustBundle_G2O(numPos, numFrm)` (l.1050-1132). -/
def adjustBundle_G2O_cameras (s : MfgSettings) (m : Map) (numPos numFrm : Int) :
    Except BuildError Graph :=
  cameraPart m.views (frontVptIdx m.views.length numFrm s.baNumFramesVPoint)
    (m.views.length : Int) (frontPosIdx m.views.length numPos) 20
    (camDistRows m.camdist_constraints numFrm)

/-- The vertex part of `adjustBundle_G2O(numPos, numFrm)` (l.1050-1299): the camera
part, then the structure vertices. -/
def adjustBundle_G2O_vertices (s : MfgSettings) (m : Map) (numPos numFrm : Int) :
    Except BuildError Graph :=
  match adjustBundle_G2O_cameras s m numPos numFrm with
  | Except.error e => Except.error e
  | Except.ok g =>
    Except.ok (addStructure false (frontPosIdx m.views.length numPos)
      (frontFrmIdx m.views.length numFrm) (backId m.views) m g)

/-- The camera part of `bundle_adjust_between(view_from, view_to, cam_from)`
(l.114-192). -/
def bundle_adjust_between_cameras (m : Map) (view_from view_to cam_from : Int) :
    Except BuildError Graph :=
  cameraPart m.views view_from (view_to + 1) cam_from (max 20 (view_to - view_from))
    (camDistRows m.camdist_constraints (view_to - view_from))

/-- The vertex part of `bundle_adjust_between(view_from, view_to, cam_from)`
(l.114-363). -/
def bundle_adjust_between_vertices (m : Map) (view_from view_to cam_from : Int) :
    Except BuildError Graph :=
  match bundle_adjust_between_cameras m view_from view_to cam_from with
  | Except.error e => Except.error e
  | Except.ok g => Except.ok (addStructure true cam_from view_from view_to m g)

/-- The camera vertex an edge of view `fid` attaches to:
`optimizer.vertices().find(camfid2vid.find(fid)->second)`, when both lookups succeed. -/
def camVertexOfView (g : Graph) (fid : Int) : Option Vertex :=
  (mapFind g.camfid2vid fid).bind (findVertex g.vertices)

/-! ## The dense backend `adjustBundle_PtLnVp` -/

/-- The functions of `mfg_utils`, Eigen and OpenCV that the two units call and whose
code is not part of them. They are parameters of the embedding.
`quatMatrix w x y z` is `Quaterniond q(w,x,y,z); q.normalize(); q.matrix()`;
`r2q` returns `(w, x, y, z)`; `norm` is `cv::norm` / `Eigen::norm`; `sqrt2` is the
double `sqrt(2.0)`. -/
structure Helpers where
  r2q : Mat3 → Rat × Rat × Rat × Rat
  quatMatrix : Rat → Rat → Rat → Rat → Mat3
  unitVec2angle : Vec3 → Rat × Rat
  angle2unitVec : Rat → Rat → Vec3
  norm : Vec3 → Rat
  sqrt2 : Rat
  projectPt3d2Ln3d : IdealLine3d → Vec3 → Vec3

/-- The local variables of `adjustBundle_PtLnVp` up to the call of the solver. -/
structure PtLnVp where
  frontPosIdx : Int
  frontFrmIdx : Int
  paraVec : List Rat
  kptIdx2Opt : List Int
  kptIdx2Rpj_notOpt : List Int
  idlIdx2Opt : List Int
  idlIdx2Rpj_notOpt : List Int
  measVec : List Rat
deriving DecidableEq, Repr

/-- The camera block of `paraVec` for `views[i]` (l.239-253): the quaternion, then two
angles for view 1 and the translation for every other view. -/
def camParams (h : Helpers) (views : List View) (i : Int) : List Rat :=
  match vecAt views i with
  | none => []
  | some v =>
    let q := h.r2q v.R
    [q.1, q.2.1, q.2.2.1, q.2.2.2] ++
      (if i = 1 then [(h.unitVec2angle v.t).1, (h.unitVec2angle v.t).2]
       else [v.t.x, v.t.y, v.t.z])

/-- The key-point loop body of the vectorizer for `keyPoints[i]` (l.260-275). -/
def ptLnVp_addKeyPoint (d : PtLnVp) (i : Int) (kp : KeyPoint3d) : PtLnVp :=
  if !kp.is3D then d
  else if observedFrom kp.viewId_ptLid d.frontPosIdx then
    if firstViewId kp.viewId_ptLid < d.frontFrmIdx then
      { d with kptIdx2Rpj_notOpt := d.kptIdx2Rpj_notOpt ++ [i] }
    else
      { d with paraVec := d.paraVec ++ [kp.x, kp.y, kp.z],
               kptIdx2Opt := d.kptIdx2Opt ++ [i] }
  else d

/-- The key-point loop of the vectorizer from index `i` on. -/
def ptLnVp_addKeyPoints (d : PtLnVp) (i : Int) (xs : List KeyPoint3d) : PtLnVp :=
  indexedLoop ptLnVp_addKeyPoint d i xs

/-- The ideal-line loop body of the vectorizer for `idealLines[i]` (l.287-300). -/
def ptLnVp_addIdealLine (d : PtLnVp) (i : Int) (ln : IdealLine3d) : PtLnVp :=
  if !ln.is3D then d
  else if observedFrom ln.viewId_lnLid d.frontPosIdx then
    if firstViewId ln.viewId_lnLid < d.frontFrmIdx then
      { d with idlIdx2Rpj_notOpt := d.idlIdx2Rpj_notOpt ++ [i] }
    else
      { d with paraVec := d.paraVec ++ [ln.midpt.x, ln.midpt.y, ln.midpt.z],
               idlIdx2Opt := d.idlIdx2Opt ++ [i] }
  else d

/-- The ideal-line loop of the vectorizer from index `i` on. -/
def ptLnVp_addIdealLines (d : PtLnVp) (i : Int) (xs : List IdealLine3d) : PtLnVp :=
  indexedLoop ptLnVp_addIdealLine d i xs

/-- The entries `measVec` receives for one observation `o = (vid, lid)` of a key point
(l.313-316): two zeros when `vid >= frontFrmIdx`, nothing otherwise. -/
def obsMeas (frontFrmIdx : Int) (o : Int × Int) : List Rat :=
  if frontFrmIdx ≤ o.1 then [0, 0] else []

/-- The entries `measVec` receives for one key point (l.312-316): two zeros for each
observation in a view `>= frontFrmIdx`. The cost function writes `error[eidx]`,
`error[eidx+1]` under the same test (l.79-89, l.98-108). -/
def kptMeas (frontFrmIdx : Int) (kp : KeyPoint3d) : List Rat :=
  kp.viewId_ptLid.flatMap (obsMeas frontFrmIdx)

/-- The entries `measVec` receives for one ideal line (l.329-336): one zero for each
sampled end point of each observation in a view `>= frontFrmIdx`. -/
def idlMeas (views : List View) (frontFrmIdx : Int) (ln : IdealLine3d) : List Rat :=
  ln.viewId_lnLid.flatMap (fun o =>
    if frontFrmIdx ≤ o.1 then
      match vecAt views o.1 with
      | none => []
      | some v =>
        match vecAt v.idealLines o.2 with
        | none => []
        | some l2 => l2.lsEndpoints.map (fun _ => 0)
    else [])

/-- The measurement vector (l.310-349). -/
def ptLnVp_measVec (m : Map) (d : PtLnVp) : List Rat :=
  (d.kptIdx2Opt.filterMap (vecAt m.keyPoints)).flatMap (kptMeas d.frontFrmIdx)
  ++ (d.kptIdx2Rpj_notOpt.filterMap (vecAt m.keyPoints)).flatMap (kptMeas d.frontFrmIdx)
  ++ (d.idlIdx2Opt.filterMap (vecAt m.idealLines)).flatMap (idlMeas m.views d.frontFrmIdx)
  ++ (d.idlIdx2Rpj_notOpt.filterMap (vecAt m.idealLines)).flatMap
      (idlMeas m.views d.frontFrmIdx)

/-- The views of the camera loops of `adjustBundle_PtLnVp` (l.238 and l.391),
`frontPosIdx .. views.size() - 1`: the poses packed into, and written back from, the
parameter vector. -/
def ptLnVp_freeViews (m : Map) : List Int :=
  intRange (frontPosIdx m.views.length ptLnVp_numPos) (m.views.length : Int)

/-- The Parameter Vectorizer of `adjustBundle_PtLnVp` (l.234-355): cameras, points,
vanishing points, lines, then the measurement vector. -/
def ptLnVp_vectorize (h : Helpers) (m : Map) : PtLnVp :=
  let fp := frontPosIdx m.views.length ptLnVp_numPos
  let ff := frontFrmIdx m.views.length ptLnVp_numFrm
  let d0 : PtLnVp :=
    { frontPosIdx := fp, frontFrmIdx := ff,
      paraVec := (ptLnVp_freeViews m).flatMap (camParams h m.views),
      kptIdx2Opt := [], kptIdx2Rpj_notOpt := [], idlIdx2Opt := [],
      idlIdx2Rpj_notOpt := [], measVec := [] }
  let d1 := ptLnVp_addKeyPoints d0 0 m.keyPoints
  let d2 := { d1 with paraVec := d1.paraVec ++ m.vanishingPoints.flatMap (fun vp => [vp.x, vp.y, vp.z]) }
  let d3 := ptLnVp_addIdealLines d2 0 m.idealLines
  { d3 with measVec := ptLnVp_measVec m d3 }

/-! ## Factor construction of `adjustBundle_G2O` (source l.1301-1683) -/

/-- The cast `dynamic_cast<g2o::OptimizableGraph::Vertex *>(...)` applied to a vertex
found in the optimizer. Every vertex class the source adds derives from
`OptimizableGraph::Vertex`, so the cast of a found vertex is never null. -/
def dynCast (v : Vertex) : Option Vertex :=
  some v

/-- The expression `dynamic_cast<...>(optimizer.vertices().find(id)->second)` followed
by the null test of the source: dereferencing `end()` is undefined behaviour, a null
cast calls `exit(0)`. -/
def lookupVertex (vs : List Vertex) (id : Int) : Except BuildError Vertex :=
  match findVertex vs id with
  | none => Except.error BuildError.undefinedBehaviour
  | some v =>
    match dynCast v with
    | none => Except.error BuildError.exitCalled
    | some w => Except.ok w

/-- The Huber kernel attached under `if (mfgSettings->getBaUseKernel())`. -/
def kernelOf (s : MfgSettings) (delta : Rat) : Option Rat :=
  if s.baUseKernel then some delta else none

/-- The body of the reprojection-edge loops (l.1313-1352 and l.1360-1399) for the key
point with index `idx` and its observation `o = (fid, lid)`. The point vertex is looked
up as `ptgid2vid[idx]`, with the index of the key point as key. -/
def addKptEdge (s : MfgSettings) (views : List View) (frontFrmIdx : Int) (idx : Int)
    (g : Graph) (o : Int × Int) : Except BuildError Graph :=
  match vecAt views o.1 with
  | none => Except.error BuildError.undefinedBehaviour
  | some view =>
    if !view.matchable then Except.ok g
    else if frontFrmIdx ≤ o.1 then
      let r0 := mapIndex g.ptgid2vid idx
      match lookupVertex g.vertices r0.1 with
      | Except.error e => Except.error e
      | Except.ok v0 =>
        let r1 := mapIndex g.camfid2vid o.1
        match lookupVertex g.vertices r1.1 with
        | Except.error e => Except.error e
        | Except.ok v1 =>
          match vecAt view.featurePoints o.2 with
          | none => Except.error BuildError.undefinedBehaviour
          | some fp =>
            Except.ok { g with
              ptgid2vid := r0.2, camfid2vid := r1.2,
              vecEdgeKpt := g.vecEdgeKpt ++
                [{ kind := EdgeKind.projectP2MC, vertices := [v0.id, v1.id],
                   measurement := [fp.x, fp.y], information := [1, 0, 0, 1],
                   robustKernel := kernelOf s s.baKernelDeltaPoint, segpts := [] }] }
    else Except.ok g

/-- The reprojection edges of the key points listed in `idxs` (`kptIdx2Opt`, then
`kptIdx2Rpj_notOpt`). -/
def addKptEdges (s : MfgSettings) (m : Map) (frontFrmIdx : Int) (idxs : List Int)
    (g : Graph) : Except BuildError Graph :=
  idxs.foldlM (fun g idx =>
    match vecAt m.keyPoints idx with
    | none => Except.error BuildError.undefinedBehaviour
    | some kp => kp.viewId_ptLid.foldlM (addKptEdge s m.views frontFrmIdx idx) g) g

/-- The inverse `cov.inverse()` of a 2x2 matrix (Eigen's closed form). -/
def Mat2.inverse (c : Mat2) : Mat2 :=
  let det := c.m00 * c.m11 - c.m01 * c.m10
  ⟨c.m11 / det, -c.m01 / det, -c.m10 / det, c.m00 / det⟩

/-- The information of a vanishing-point edge (l.1447-1452). -/
def vnptInformation (s : MfgSettings) (cov_ab : Mat2) : List Rat :=
  let cov : Mat2 :=
    ⟨max cov_ab.m00 (1 / 1000), cov_ab.m01 * 0, cov_ab.m10 * 0, max cov_ab.m11 (1 / 1000)⟩
  let i := cov.inverse
  [s.baWeightVPoint * i.m00, s.baWeightVPoint * i.m01,
   s.baWeightVPoint * i.m10, s.baWeightVPoint * i.m11]

/-- The functions of OpenCV and `mfg_utils` used to turn an observed 2D vanishing point
into the measured pair of angles (l.1436-1439): `K.inv() * vp.mat()` scaled to unit
norm, then `unitVec2angle`. -/
def vnptMeasurement (h : Helpers) (backProject : Mat3 → VanishPnt2d → Vec3) (K : Mat3)
    (vp : VanishPnt2d) : List Rat :=
  let a := h.unitVec2angle (backProject K vp)
  [a.1, a.2]

/-- The body of the vanishing-point edge loop (l.1410-1463) for the vanishing point with
index `vpGid` and its observation `o = (fid, lid)`. -/
def addVnptEdge (s : MfgSettings) (h : Helpers) (backProject : Mat3 → VanishPnt2d → Vec3)
    (m : Map) (frontVptIdx : Int) (vpGid : Int) (g : Graph) (o : Int × Int) :
    Except BuildError Graph :=
  match vecAt m.views o.1 with
  | none => Except.error BuildError.undefinedBehaviour
  | some view =>
    if !view.matchable then Except.ok g
    else if frontVptIdx ≤ o.1 then
      let r0 := mapIndex g.vpgid2vid vpGid
      match lookupVertex g.vertices r0.1 with
      | Except.error e => Except.error e
      | Except.ok v0 =>
        let r1 := mapIndex g.camfid2vid o.1
        match lookupVertex g.vertices r1.1 with
        | Except.error e => Except.error e
        | Except.ok v1 =>
          match vecAt view.vanishPoints o.2 with
          | none => Except.error BuildError.undefinedBehaviour
          | some vp =>
            Except.ok { g with
              vpgid2vid := r0.2, camfid2vid := r1.2,
              vecEdgeVnpt := g.vecEdgeVnpt ++
                [{ kind := EdgeKind.vnptCam, vertices := [v0.id, v1.id],
                   measurement := vnptMeasurement h backProject m.K vp,
                   information := vnptInformation s vp.cov_ab,
                   robustKernel := kernelOf s s.baKernelDeltaVPoint, segpts := [] }] }
    else Except.ok g

/-- The vanishing-point edges (l.1404-1465). -/
def addVnptEdges (s : MfgSettings) (h : Helpers) (backProject : Mat3 → VanishPnt2d → Vec3)
    (m : Map) (frontVptIdx : Int) (g : Graph) : Except BuildError Graph :=
  g.vpIdx2Opt.foldlM (fun g vpGid =>
    match vecAt m.vanishingPoints vpGid with
    | none => Except.error BuildError.undefinedBehaviour
    | some vp => vp.viewId_vpLid.foldlM (addVnptEdge s h backProject m frontVptIdx vpGid) g) g

/-- The body of the line-edge loops (l.1472-1521 and l.1529-1578) for the ideal line
`ln` with index `idx` and its observation `o = (fid, lid)`. The vanishing-point vertex
is looked up as `vpgid2vid[ln.vpGid]`. -/
def addLineEdge (s : MfgSettings) (views : List View) (frontFrmIdx : Int) (idx : Int)
    (ln : IdealLine3d) (g : Graph) (o : Int × Int) : Except BuildError Graph :=
  match vecAt views o.1 with
  | none => Except.error BuildError.undefinedBehaviour
  | some view =>
    if !view.matchable then Except.ok g
    else if frontFrmIdx ≤ o.1 then
      let r0 := mapIndex g.lngid2vid idx
      match lookupVertex g.vertices r0.1 with
      | Except.error e => Except.error e
      | Except.ok v0 =>
        let r1 := mapIndex g.vpgid2vid ln.vpGid
        match lookupVertex g.vertices r1.1 with
        | Except.error e => Except.error e
        | Except.ok v1 =>
          let r2 := mapIndex g.camfid2vid o.1
          match lookupVertex g.vertices r2.1 with
          | Except.error e => Except.error e
          | Except.ok v2 =>
            match vecAt view.idealLines o.2 with
            | none => Except.error BuildError.undefinedBehaviour
            | some l2 =>
              Except.ok { g with
                lngid2vid := r0.2, vpgid2vid := r1.2, camfid2vid := r2.2,
                vecEdgeLine := g.vecEdgeLine ++
                  [{ kind := EdgeKind.lineVpCam, vertices := [v0.id, v1.id, v2.id],
                     measurement := [0], information := [1 * s.baWeightLine],
                     robustKernel := kernelOf s s.baKernelDeltaLine,
                     segpts := l2.lsEndpoints }] }
    else Except.ok g

/-- The line edges of the ideal lines listed in `idxs` (`lnIdx2Opt`, then
`lnIdx2Rpj_notOpt`). -/
def addLineEdges (s : MfgSettings) (m : Map) (frontFrmIdx : Int) (idxs : List Int)
    (g : Graph) : Except BuildError Graph :=
  idxs.foldlM (fun g idx =>
    match vecAt m.idealLines idx with
    | none => Except.error BuildError.undefinedBehaviour
    | some ln => ln.viewId_lnLid.foldlM (addLineEdge s m.views frontFrmIdx idx ln) g) g

/-- The body of the point-to-plane loop (l.1589-1627) for plane index `plGid` and member
point gid `ptGid`: a member that is no key of `ptgid2vid` is skipped. -/
def addPointPlaneEdge (s : MfgSettings) (plGid : Int) (g : Graph) (ptGid : Int) :
    Except BuildError Graph :=
  if (mapFind g.ptgid2vid ptGid).isNone then Except.ok g
  else
    let r0 := mapIndex g.ptgid2vid ptGid
    match lookupVertex g.vertices r0.1 with
    | Except.error e => Except.error e
    | Except.ok v0 =>
      let r1 := mapIndex g.plgid2vid plGid
      match lookupVertex g.vertices r1.1 with
      | Except.error e => Except.error e
      | Except.ok v1 =>
        Except.ok { g with
          ptgid2vid := r0.2, plgid2vid := r1.2,
          vecEdgePointPlane := g.vecEdgePointPlane ++
            [{ kind := EdgeKind.pointPlane, vertices := [v0.id, v1.id],
               measurement := [0], information := [s.baWeightPlane * 1],
               robustKernel := kernelOf s s.baKernelDeltaPlane, segpts := [] }] }

/-- The body of the line-to-plane loop (l.1630-1682) for plane index `plGid` and member
line gid `lnGid`. After `addEdge` the source calls `e->robustKernel()->robustify(...)`
whether or not a kernel was attached. -/
def addLinePlaneEdge (s : MfgSettings) (h : Helpers) (m : Map) (plGid : Int) (g : Graph)
    (lnGid : Int) : Except BuildError Graph :=
  if (mapFind g.lngid2vid lnGid).isNone then Except.ok g
  else
    let r0 := mapIndex g.lngid2vid lnGid
    match lookupVertex g.vertices r0.1 with
    | Except.error e => Except.error e
    | Except.ok v0 =>
      match vecAt m.idealLines lnGid with
      | none => Except.error BuildError.undefinedBehaviour
      | some ln =>
        let r1 := mapIndex g.vpgid2vid ln.vpGid
        match lookupVertex g.vertices r1.1 with
        | Except.error e => Except.error e
        | Except.ok v1 =>
          let r2 := mapIndex g.plgid2vid plGid
          match lookupVertex g.vertices r2.1 with
          | Except.error e => Except.error e
          | Except.ok v2 =>
            match kernelOf s (s.baKernelDeltaPlane * h.sqrt2) with
            | none => Except.error BuildError.undefinedBehaviour
            | some delta =>
              Except.ok { g with
                lngid2vid := r0.2, vpgid2vid := r1.2, plgid2vid := r2.2,
                vecEdgeLinePlane := g.vecEdgeLinePlane ++
                  [{ kind := EdgeKind.lineVpPlane, vertices := [v0.id, v1.id, v2.id],
                     measurement := [0], information := [1 * s.baWeightPlane],
                     robustKernel := some delta, segpts := [] }] }

/-- The plane edges (l.1584-1683): for each admitted plane its point members, then its
line members. -/
def addPlaneEdges (s : MfgSettings) (h : Helpers) (m : Map) (g : Graph) :
    Except BuildError Graph :=
  g.plIdx2Opt.foldlM (fun g plGid =>
    match vecAt m.primaryPlanes plGid with
    | none => Except.error BuildError.undefinedBehaviour
    | some pl =>
      match pl.kptGids.foldlM (addPointPlaneEdge s plGid) g with
      | Except.error e => Except.error e
      | Except.ok g1 => pl.ilnGids.foldlM (addLinePlaneEdge s h m plGid) g1) g

/-- All residual edges of `adjustBundle_G2O`, in the order of the source. -/
def addEdges (s : MfgSettings) (h : Helpers) (backProject : Mat3 → VanishPnt2d → Vec3)
    (m : Map) (frontFrmIdx frontVptIdx : Int) (g : Graph) : Except BuildError Graph := do
  let g1 ← addKptEdges s m frontFrmIdx g.kptIdx2Opt g
  let g2 ← addKptEdges s m frontFrmIdx g1.kptIdx2Rpj_notOpt g1
  let g3 ← addVnptEdges s h backProject m frontVptIdx g2
  let g4 ← addLineEdges s m frontFrmIdx g3.lnIdx2Opt g3
  let g5 ← addLineEdges s m frontFrmIdx g4.lnIdx2Rpj_notOpt g4
  addPlaneEdges s h m g5

/-- The problem `adjustBundle_G2O(numPos, numFrm)` hands to the solver: the graph at
`optimizer.initializeOptimization()` (l.1689), or how construction ended otherwise. -/
def adjustBundle_G2O_problem (s : MfgSettings) (h : Helpers)
    (backProject : Mat3 → VanishPnt2d → Vec3) (m : Map) (numPos numFrm : Int) :
    Except BuildError Graph :=
  match adjustBundle_G2O_vertices s m numPos numFrm with
  | Except.error e => Except.error e
  | Except.ok g0 =>
    addEdges s h backProject m (frontFrmIdx m.views.length numFrm)
      (frontVptIdx m.views.length numFrm s.baNumFramesVPoint) g0

/-- The problem `bundle_adjust_between(view_from, view_to, cam_from)` hands to the
solver (l.747); its edge construction (l.365-744) is that of `adjustBundle_G2O` with
`frontFrmIdx = frontVptIdx = view_from`. -/
def bundle_adjust_between_problem (s : MfgSettings) (h : Helpers)
    (backProject : Mat3 → VanishPnt2d → Vec3) (m : Map) (view_from view_to cam_from : Int) :
    Except BuildError Graph :=
  match bundle_adjust_between_vertices m view_from view_to cam_from with
  | Except.error e => Except.error e
  | Except.ok g0 => addEdges s h backProject m view_from view_from g0

/-! ## The solver collaborator and the staged solve (source l.1686-1704) -/

/-- The g2o engine as seen by the source. `estimate g maxIters id` is the estimate of
vertex `id` after `optimizer.optimize(maxIters)` on problem `g`; `ret` is the integer
`optimize` returns (the number of iterations, not positive on failure), which the source
discards; `rho g e` is `rho[0]` after `e->computeError()` and `robustify(e->chi2(), rho)`;
`activeRobustChi2` is the total robust cost. -/
structure G2oSolver where
  estimate : Graph → Int → Int → Estimate
  ret : Graph → Int → Int
  rho : Graph → Edge → Rat
  activeRobustChi2 : Graph → Rat

/-- A solver cannot change the class of a vertex: a new estimate replaces the old one
when it is of the same form. -/
def retype (old new : Estimate) : Estimate :=
  match old, new with
  | Estimate.pose _ _, Estimate.pose R t => Estimate.pose R t
  | Estimate.vec _, Estimate.vec v => Estimate.vec v
  | _, _ => old

/-- One call `optimizer.optimize(maxIters)`: the estimates of the vertices that are not
fixed are replaced, and the call is logged with the information of the camera-distance
edges it ran with. -/
def optimize (S : G2oSolver) (g : Graph) : Graph :=
  { g with
    vertices := g.vertices.map (fun v =>
      if v.fixed then v
      else { v with estimate := retype v.estimate (S.estimate g g.maxIters v.id) }),
    solveLog := g.solveLog ++ [g.edges_camdist.map (fun e => e.information)] }

/-- The statement `e->information() = e->information() * 100`. -/
def scaleInformation (e : Edge) : Edge :=
  { e with information := e.information.map (fun x => x * 100) }

/-- One pass of the staged loop: solve, then re-weight every camera-distance edge. -/
def solveStage (S : G2oSolver) (g : Graph) : Graph :=
  let g1 := optimize S g
  { g1 with edges_camdist := g1.edges_camdist.map scaleInformation }

/-- The block l.1693-1704: five staged passes when a camera-distance edge exists, one
solve otherwise. -/
def runOptimizer (S : G2oSolver) (g : Graph) : Graph :=
  if 0 < g.edges_camdist.length then
    (List.range 5).foldl (fun g _ => solveStage S g) g
  else optimize S g

/-! ## The Result Writer and the diagnostics of `adjustBundle_G2O` (source l.1709-1959) -/

/-- The update `xs[i] = f(xs[i])` of a vector element indexed by a C++ `int`. Where the
source would write past the vector the model leaves the vector as it is. -/
def vecModify {α : Type} (xs : List α) (i : Int) (f : α → α) : List α :=
  if i < 0 then xs
  else
    match xs[i.toNat]? with
    | none => xs
    | some x => xs.set i.toNat (f x)

/-- The read `vid2gid[id]` guarded by `find` as in l.1739-1744: `-1` when absent. -/
def gidOf (vid2gid : IntMap) (id : Int) : Int :=
  match mapFind vid2gid id with
  | none => -1
  | some gid => gid

/-- The camera write-back for one entry of `camvertVec` (l.1716-1725). -/
def writeCam (g : Graph) (views : List View) (vid : Int) : List View :=
  match findVertex g.vertices vid with
  | none => views
  | some v =>
    if v.fixed then views
    else
      match v.estimate with
      | Estimate.pose R t =>
        vecModify views (mapIndex g.camvid2fid vid).1 (fun w => { w with R := R, t := t })
      | Estimate.vec _ => views

/-- The key-point write-back for one entry of `ptvertVec` (l.1737-1749); the key point
is addressed as `keyPoints[ptGid]`. -/
def writePoint (g : Graph) (kps : List KeyPoint3d) (vid : Int) : List KeyPoint3d :=
  match findVertex g.vertices vid with
  | none => kps
  | some v =>
    if v.fixed then kps
    else
      match v.estimate with
      | Estimate.vec e =>
        vecModify kps (gidOf g.ptvid2gid vid) (fun k => { k with x := e.x, y := e.y, z := e.z })
      | Estimate.pose _ _ => kps

/-- The vanishing-point write-back for one entry of `vpvertVec` (l.1754-1765). -/
def writeVnpt (g : Graph) (vps : List VanishPnt3d) (vid : Int) : List VanishPnt3d :=
  match findVertex g.vertices vid with
  | none => vps
  | some v =>
    if v.fixed then vps
    else
      match v.estimate with
      | Estimate.vec e =>
        vecModify vps (gidOf g.vpvid2gid vid) (fun p => { p with x := e.x, y := e.y, z := e.z })
      | Estimate.pose _ _ => vps

/-- The statements l.1779-1785 on one ideal line: the midpoint is overwritten with the
estimate, the direction becomes the normalised vanishing point, `oldMidPt` is read from
the midpoint just written, and the midpoint becomes its projection onto the line. -/
def updateLine (h : Helpers) (vps : List VanishPnt3d) (e : Vec3) (ln : IdealLine3d) :
    IdealLine3d :=
  let ln1 := { ln with midpt := e }
  match vecAt vps ln1.vpGid with
  | none => ln1
  | some vp =>
    let n := h.norm ⟨vp.x, vp.y, vp.z⟩
    let ln2 := { ln1 with direct := ⟨vp.x / n, vp.y / n, vp.z / n⟩ }
    let oldMidPt := ln2.midpt
    { ln2 with midpt := h.projectPt3d2Ln3d ln2 oldMidPt }

/-- The line write-back for one entry of `lnvertVec` (l.1770-1785). -/
def writeLine (h : Helpers) (g : Graph) (vps : List VanishPnt3d) (lns : List IdealLine3d)
    (vid : Int) : List IdealLine3d :=
  match findVertex g.vertices vid with
  | none => lns
  | some v =>
    if v.fixed then lns
    else
      match v.estimate with
      | Estimate.vec e => vecModify lns (gidOf g.lnvid2gid vid) (updateLine h vps e)
      | Estimate.pose _ _ => lns

/-- The plane write-back for one entry of `plvertVec` (l.1790-1802). -/
def writePlane (h : Helpers) (g : Graph) (pls : List PrimaryPlane3d) (vid : Int) :
    List PrimaryPlane3d :=
  match findVertex g.vertices vid with
  | none => pls
  | some v =>
    if v.fixed then pls
    else
      match v.estimate with
      | Estimate.vec e =>
        vecModify pls (gidOf g.plvid2gid vid) (fun pl =>
          { pl with d := 1 / h.norm e,
                    n := ⟨e.x / h.norm e, e.y / h.norm e, e.z / h.norm e⟩ })
      | Estimate.pose _ _ => pls

/-- The Result Writer of `adjustBundle_G2O` (l.1709-1803). -/
def writeBack (h : Helpers) (g : Graph) (m : Map) : Map :=
  let views := g.camvertVec.foldl (writeCam g) m.views
  let kps := g.ptvertVec.foldl (writePoint g) m.keyPoints
  let vps := g.vpvertVec.foldl (writeVnpt g) m.vanishingPoints
  let lns := g.lnvertVec.foldl (writeLine h g vps) m.idealLines
  let pls := g.plvertVec.foldl (writePlane h g) m.primaryPlanes
  { m with views := views, keyPoints := kps, vanishingPoints := vps, idealLines := lns,
           primaryPlanes := pls }

/-- The test `e->allVerticesFixed()`. -/
def allVerticesFixed (g : Graph) (e : Edge) : Bool :=
  e.vertices.all (fun id =>
    match findVertex g.vertices id with
    | some v => v.fixed
    | none => true)

/-- The body of a cost-aggregation loop (l.1811-1816 and its four siblings): an edge
with a vertex that is not fixed is robustified through `e->robustKernel()`, which is
null when no kernel was attached. -/
def edgeCost (S : G2oSolver) (g : Graph) (e : Edge) : Except BuildError Rat :=
  if allVerticesFixed g e then Except.ok 0
  else
    match e.robustKernel with
    | none => Except.error BuildError.undefinedBehaviour
    | some _ => Except.ok (S.rho g e)

/-- A cost-aggregation loop started at `acc`. -/
def sumCosts (S : G2oSolver) (g : Graph) (es : List Edge) (acc : Rat) :
    Except BuildError Rat :=
  es.foldlM (fun a e =>
    match edgeCost S g e with
    | Except.error err => Except.error err
    | Except.ok c => Except.ok (a + c)) acc

/-- The diagnostics (l.1806-1959): the per-type sums, then the four fields written on
`views.back()`. -/
def diagnostics (S : G2oSolver) (g : Graph) (m : Map) : Except BuildError Map := do
  let errKpt ← sumCosts S g g.vecEdgeKpt 0
  let _errVnpt ← sumCosts S g g.vecEdgeVnpt 0
  let errLine ← sumCosts S g g.vecEdgeLine 0
  let errPlane0 ← sumCosts S g g.vecEdgePointPlane 0
  let errPlane ← sumCosts S g g.vecEdgeLinePlane errPlane0
  pure { m with views := vecModify m.views ((m.views.length : Int) - 1) (fun v =>
    { v with errAll := S.activeRobustChi2 g, errPt := errKpt, errLn := errLine,
             errPl := errPlane }) }

/-- The function `Mfg::adjustBundle_G2O(numPos, numFrm)`: the map state it leaves, or
how the call ends otherwise. -/
def adjustBundle_G2O (s : MfgSettings) (h : Helpers)
    (backProject : Mat3 → VanishPnt2d → Vec3) (S : G2oSolver) (m : Map)
    (numPos numFrm : Int) : Except BuildError Map := do
  let g1 ← adjustBundle_G2O_problem s h backProject m numPos numFrm
  let g2 := runOptimizer S g1
  diagnostics S g2 (writeBack h g2 m)

/-! ## The solve and the Result Writer of `adjustBundle_PtLnVp` (source l.378-443) -/

/-- The termination reasons of the least-squares engine. -/
inductive TermReason where
  | gradientBelowThreshold
  | stepBelowThreshold
  | costBelowThreshold
  | maxIterationsReached
  | numericalFailure
deriving DecidableEq, Repr

/-- What `dlevmar_dif` leaves behind: the array `para`, its return value `ret`, the
termination reason in `info[6]`, and the five error fields its last cost evaluation
stored in `data`. -/
structure LmOutcome where
  para : List Rat
  ret : Int
  reason : TermReason
  err_all : Rat
  err_pt : Rat
  err_ln : Rat
  err_pt_mean : Rat
  err_ln_mean : Rat
deriving DecidableEq, Repr

/-- The read `para[k]`. -/
def rd (para : List Rat) (k : Nat) : Rat :=
  para.getD k 0

/-- The camera write-back of view `i` at offset `st.1` (l.392-404). -/
def ptLnVp_writeCam (h : Helpers) (para : List Rat) (st : Nat × List View) (i : Int) :
    Nat × List View :=
  let p := st.1
  let R := h.quatMatrix (rd para p) (rd para (p + 1)) (rd para (p + 2)) (rd para (p + 3))
  if i = 1 then
    (p + 6, vecModify st.2 i (fun v =>
      { v with R := R, t := h.angle2unitVec (rd para (p + 4)) (rd para (p + 5)) }))
  else
    (p + 7, vecModify st.2 i (fun v =>
      { v with R := R, t := ⟨rd para (p + 4), rd para (p + 5), rd para (p + 6)⟩ }))

/-- The key-point write-back of `keyPoints[idx]` at offset `st.1` (l.408-412). -/
def ptLnVp_writePoint (para : List Rat) (st : Nat × List KeyPoint3d) (idx : Int) :
    Nat × List KeyPoint3d :=
  let p := st.1
  (p + 3, vecModify st.2 idx (fun k =>
    { k with x := rd para p, y := rd para (p + 1), z := rd para (p + 2) }))

/-- The vanishing-point write-back of `vanishingPoints[i]` at offset `st.1` (l.415-418). -/
def ptLnVp_writeVnpt (para : List Rat) (st : Nat × List VanishPnt3d) (i : Int) :
    Nat × List VanishPnt3d :=
  let p := st.1
  (p + 3, vecModify st.2 i (fun v =>
    { v with x := rd para p, y := rd para (p + 1), z := rd para (p + 2) }))

/-- The statements l.423-433 on one ideal line at offset `p`: `oldMidPt` is read before
the midpoint is overwritten. -/
def ptLnVp_updateLine (h : Helpers) (vps : List VanishPnt3d) (para : List Rat) (p : Nat)
    (ln : IdealLine3d) : IdealLine3d :=
  let oldMidPt := ln.midpt
  let ln1 := { ln with midpt := ⟨rd para p, rd para (p + 1), rd para (p + 2)⟩ }
  match vecAt vps ln1.vpGid with
  | none => ln1
  | some vp =>
    let ln2 := { ln1 with direct := ⟨vp.x, vp.y, vp.z⟩ }
    { ln2 with midpt := h.projectPt3d2Ln3d ln2 oldMidPt }

/-- The line write-back of `idealLines[idx]` at offset `st.1` (l.421-434). -/
def ptLnVp_writeLine (h : Helpers) (vps : List VanishPnt3d) (para : List Rat)
    (st : Nat × List IdealLine3d) (idx : Int) : Nat × List IdealLine3d :=
  (st.1 + 3, vecModify st.2 idx (ptLnVp_updateLine h vps para st.1))

/-- The Result Writer of `adjustBundle_PtLnVp` (l.389-441). The source runs it after
every return of the solver; neither `ret` nor `info[6]` is tested. -/
def ptLnVp_writeBack (h : Helpers) (d : PtLnVp) (out : LmOutcome) (m : Map) : Map :=
  let c := (intRange d.frontPosIdx (m.views.length : Int)).foldl
    (ptLnVp_writeCam h out.para) (0, m.views)
  let k := d.kptIdx2Opt.foldl (ptLnVp_writePoint out.para) (c.1, m.keyPoints)
  let v := (intRange 0 (m.vanishingPoints.length : Int)).foldl
    (ptLnVp_writeVnpt out.para) (k.1, m.vanishingPoints)
  let l := d.idlIdx2Opt.foldl (ptLnVp_writeLine h v.2 out.para) (v.1, m.idealLines)
  let views := vecModify c.2 ((m.views.length : Int) - 1) (fun w =>
    { w with errAll := out.err_all, errPt := out.err_pt, errLn := out.err_ln,
             errPtMean := out.err_pt_mean, errLnMean := out.err_ln_mean })
  { m with views := views, keyPoints := k.2, vanishingPoints := v.2, idealLines := l.2 }

/-- The function `Mfg::adjustBundle_PtLnVp()`: vectorize, call the solver `lm`, write
back. -/
def adjustBundle_PtLnVp (h : Helpers) (lm : Map → PtLnVp → LmOutcome) (m : Map) : Map :=
  let d := ptLnVp_vectorize h m
  ptLnVp_writeBack h d (lm m d) m

/-! ## Components of the state used in the statements -/

/-- The parts of the state only the camera part writes. -/
def camFields (g : Graph) : List Int × IntMap × IntMap × List Edge × Int :=
  (g.camvertVec, g.camvid2fid, g.camfid2vid, g.edges_camdist, g.maxIters)

/-- What factor construction leaves alone: the vertices, the camera-distance edges and
the camera vertex vector are the same in `g'` as in `g`, and every view that `camfid2vid`
maps in `g` is mapped to the same vertex id in `g'` (a read `camfid2vid[fid]` can only
add a key). -/
def KeepsCameras (g g' : Graph) : Prop :=
  g'.vertices = g.vertices
  ∧ g'.edges_camdist = g.edges_camdist
  ∧ g'.camvertVec = g.camvertVec
  ∧ g'.camvid2fid = g.camvid2fid
  ∧ ∀ k v, mapFind g.camfid2vid k = some v → mapFind g'.camfid2vid k = some v

/-- Vertex `v` is the camera vertex of view `i`: a `VertexCam` of the optimizer whose id
`camvid2fid` maps to `i` (the map the Result Writer uses to find the view of a camera
vertex, l.1724). -/
def CamVertexOf (g : Graph) (i : Int) (v : Vertex) : Prop :=
  v ∈ g.vertices ∧ v.kind = VertexKind.cam ∧ mapFind g.camvid2fid v.id = some i

/-- The number of vertices of class `k` in the optimizer. -/
def countKind (k : VertexKind) (vs : List Vertex) : Nat :=
  vs.countP (fun w => decide (w.kind = k))

/-- Every landmark index on an index list stands for one vertex: the optimizer holds as
many point vertices as `kptIdx2Opt` and `kptIdx2Rpj_notOpt` have entries, as many
vanishing-point vertices as `vpIdx2Opt` has, and as many line vertices as `lnIdx2Opt`
and `lnIdx2Rpj_notOpt` have. -/
def VertexPerIndex (g : Graph) : Prop :=
  countKind VertexKind.point g.vertices = g.kptIdx2Opt.length + g.kptIdx2Rpj_notOpt.length
  ∧ countKind VertexKind.vnpt g.vertices = g.vpIdx2Opt.length
  ∧ countKind VertexKind.lnpt g.vertices = g.lnIdx2Opt.length + g.lnIdx2Rpj_notOpt.length

/-! ## A concrete window: six views and two key points -/

/-- A view with identity pose, matchable, with two feature points. -/
def scenarioView (id : Int) : View :=
  { id := id, R := ⟨⟨1, 0, 0⟩, ⟨0, 1, 0⟩, ⟨0, 0, 1⟩⟩, t := ⟨0, 0, 0⟩, matchable := true,
    featurePoints := [⟨10, 20⟩, ⟨30, 40⟩], idealLines := [], vanishPoints := [],
    errAll := 0, errPt := 0, errLn := 0, errPl := 0, errPtMean := 0, errLnMean := 0 }

/-- A key point observed in views 1, 2, 3, 4, 5 (as feature 0 of each). -/
def scenarioPointA : KeyPoint3d :=
  { x := 1, y := 2, z := 3, gid := 0, is3D := true,
    viewId_ptLid := [(1, 0), (2, 0), (3, 0), (4, 0), (5, 0)], estViewId := 1 }

/-- A key point observed in views 0, 1, 5 (as feature 1 of each). -/
def scenarioPointB : KeyPoint3d :=
  { x := 4, y := 5, z := 6, gid := 1, is3D := true,
    viewId_ptLid := [(0, 1), (1, 1), (5, 1)], estViewId := 1 }

/-- Six views with ids 0..5, the two key points, no camera-distance constraint. -/
def scenarioMap : Map :=
  { K := ⟨⟨1, 0, 0⟩, ⟨0, 1, 0⟩, ⟨0, 0, 1⟩⟩,
    views := [scenarioView 0, scenarioView 1, scenarioView 2, scenarioView 3,
              scenarioView 4, scenarioView 5],
    keyPoints := [scenarioPointA, scenarioPointB], idealLines := [],
    vanishingPoints := [], primaryPlanes := [], camdist_constraints := [] }

/-- Settings with the robust kernel switched on and unit weights. -/
def scenarioSettings : MfgSettings :=
  { baNumFramesVPoint := 10, baUseKernel := true, baKernelDeltaPoint := 1,
    baKernelDeltaVPoint := 1, baKernelDeltaLine := 1, baKernelDeltaPlane := 1,
    baWeightVPoint := 1, baWeightLine := 1, baWeightPlane := 1 }

/-- A key point that was never established in 3D (`is3D = false`), observed in the two
newest views. -/
def unestablishedPoint : KeyPoint3d :=
  { x := 0, y := 0, z := 0, gid := 0, is3D := false,
    viewId_ptLid := [(4, 0), (5, 0)], estViewId := 0 }

/-- The six views with `unestablishedPoint` as the only landmark. -/
def unestablishedMap : Map :=
  { scenarioMap with keyPoints := [unestablishedPoint] }

/-- A view with identity pose and no features. -/
def bareView (id : Int) : View :=
  { id := id, R := ⟨⟨1, 0, 0⟩, ⟨0, 1, 0⟩, ⟨0, 0, 1⟩⟩, t := ⟨0, 0, 0⟩, matchable := true,
    featurePoints := [], idealLines := [], vanishPoints := [],
    errAll := 0, errPt := 0, errLn := 0, errPl := 0, errPtMean := 0, errLnMean := 0 }

/-- Ten views (ids 0..9), no landmark, and one camera-distance constraint between the
views 6 and 7 (measured distance 1, weight 50). -/
def tenViewMap : Map :=
  { K := ⟨⟨1, 0, 0⟩, ⟨0, 1, 0⟩, ⟨0, 0, 1⟩⟩,
    views := [bareView 0, bareView 1, bareView 2, bareView 3, bareView 4, bareView 5,
              bareView 6, bareView 7, bareView 8, bareView 9],
    keyPoints := [], idealLines := [], vanishingPoints := [], primaryPlanes := [],
    camdist_constraints := [{ a := 6, b := 7, dist := 1, weight := 50 }] }

/-- Settings with a vanishing-point window of five frames. -/
def shortVpSettings : MfgSettings :=
  { scenarioSettings with baNumFramesVPoint := 5 }

/-- The second scenario point, re-estimated at the newest view (`estViewId = 5`). -/
def reestimatedPoint : KeyPoint3d :=
  { scenarioPointB with estViewId := 5 }

/-- The six views with `reestimatedPoint` as the only landmark. -/
def reestimatedMap : Map :=
  { scenarioMap with keyPoints := [reestimatedPoint] }

/-- A stand-in for the external helper functions, for evaluating the dense backend on
concrete data in statements whose truth does not depend on what the helpers return. -/
def sampleHelpers : Helpers :=
  { r2q := fun _ => (1, 0, 0, 0),
    quatMatrix := fun _ _ _ _ => ⟨⟨1, 0, 0⟩, ⟨0, 1, 0⟩, ⟨0, 0, 1⟩⟩,
    unitVec2angle := fun _ => (0, 0),
    angle2unitVec := fun _ _ => ⟨0, 0, 1⟩,
    norm := fun _ => 1,
    sqrt2 := 1,
    projectPt3d2Ln3d := fun _ p => p }

/-- A solver that leaves every estimate at the identity pose, for evaluating the staged
solve on concrete data in statements that do not depend on the estimates. -/
def sampleSolver : G2oSolver :=
  { estimate := fun _ _ _ => Estimate.pose ⟨⟨1, 0, 0⟩, ⟨0, 1, 0⟩, ⟨0, 0, 1⟩⟩ ⟨0, 0, 0⟩,
    ret := fun _ _ => 0,
    rho := fun _ _ => 0,
    activeRobustChi2 := fun _ => 0 }

/-- The problem `adjustBundle_G2O(3, 5)` hands to the solver on the ten-view map. -/
def tenViewProblem : Graph :=
  match adjustBundle_G2O_problem shortVpSettings sampleHelpers (fun _ _ => ⟨0, 0, 1⟩)
      tenViewMap 3 5 with
  | Except.ok g => g
  | Except.error _ => Graph.init

/-- A solver outcome reporting numerical failure, with every parameter set to 7. -/
def failedOutcome : LmOutcome :=
  { para := List.replicate 40 7, ret := -1, reason := TermReason.numericalFailure,
    err_all := 0, err_pt := 0, err_ln := 0, err_pt_mean := 0, err_ln_mean := 0 }

/-- A view with identity pose and one observed 2D line. -/
def lineView (id : Int) : View :=
  { bareView id with idealLines := [⟨[⟨0, 0⟩, ⟨1, 1⟩]⟩] }

/-- A vanishing point (gid 0) observed in view 0 only. -/
def oldVanishingPoint : VanishPnt3d :=
  { x := 0, y := 0, z := 1, gid := 0, viewId_vpLid := [(0, 0)] }

/-- An ideal line (gid 0) of the vanishing point 0, observed in views 4 and 5. -/
def orphanLine : IdealLine3d :=
  { midpt := ⟨1, 1, 1⟩, direct := ⟨0, 0, 1⟩, vpGid := 0, gid := 0, is3D := true,
    viewId_lnLid := [(4, 0), (5, 0)], estViewId := 4 }

/-- Six views; the ideal line is observed inside the window (views 4 and 5) while its
vanishing point is observed in view 0 only, before `frontPosIdx = 3`. -/
def orphanLineMap : Map :=
  { K := ⟨⟨1, 0, 0⟩, ⟨0, 1, 0⟩, ⟨0, 0, 1⟩⟩,
    views := [lineView 0, lineView 1, lineView 2, lineView 3, lineView 4, lineView 5],
    keyPoints := [], idealLines := [orphanLine], vanishingPoints := [oldVanishingPoint],
    primaryPlanes := [], camdist_constraints := [] }

/-! ## Closed forms used in the statements about the dense backend -/

/-- The pairs `(i, xs[i - i0])` visited by a loop `for (i = i0; ...; ++i)` over a
vector. -/
def indexed {α : Type} : Int → List α → List (Int × α)
  | _, [] => []
  | i, x :: rest => (i, x) :: indexed (i + 1) rest

/-- The test under which the dense vectorizer lists `keyPoints[i]` on `kptIdx2Opt`
(l.261-273): 3D, observed from `frontPosIdx` on, first seen at or after `frontFrmIdx`. -/
def ptLnVp_kptFree (fp ff : Int) (kp : KeyPoint3d) : Bool :=
  kp.is3D && observedFrom kp.viewId_ptLid fp && !decide (firstViewId kp.viewId_ptLid < ff)

/-- The test under which the dense vectorizer lists `keyPoints[i]` on
`kptIdx2Rpj_notOpt` (l.261-267). -/
def ptLnVp_kptFixed (fp ff : Int) (kp : KeyPoint3d) : Bool :=
  kp.is3D && observedFrom kp.viewId_ptLid fp && decide (firstViewId kp.viewId_ptLid < ff)

/-- The test under which the dense vectorizer lists `idealLines[i]` on `idlIdx2Opt`
(l.288-298). -/
def ptLnVp_idlFree (fp ff : Int) (ln : IdealLine3d) : Bool :=
  ln.is3D && observedFrom ln.viewId_lnLid fp && !decide (firstViewId ln.viewId_lnLid < ff)

/-- The test under which the dense vectorizer lists `idealLines[i]` on
`idlIdx2Rpj_notOpt` (l.288-292). -/
def ptLnVp_idlFixed (fp ff : Int) (ln : IdealLine3d) : Bool :=
  ln.is3D && observedFrom ln.viewId_lnLid fp && decide (firstViewId ln.viewId_lnLid < ff)

/-! ## The projection of a point onto a 3D line -/

/-- Modelled from the spec: the function `projectPt3d2Ln3d(ln, P)` of `mfg_utils`, called
by the line write-back of both units; its code is not part of them. The spec describes
the step as a re-projection onto the line which is idempotent ("projecting an
already-on-line point yields the same point"): the orthogonal projection of `P` onto the
line through `ln.midpt` along `ln.direct`. -/
def projectPt3d2Ln3d (ln : IdealLine3d) (p : Vec3) : Vec3 :=
  let d := ln.direct
  let c := ((p.x - ln.midpt.x) * d.x + (p.y - ln.midpt.y) * d.y + (p.z - ln.midpt.z) * d.z)
    / (d.x * d.x + d.y * d.y + d.z * d.z)
  ⟨ln.midpt.x + c * d.x, ln.midpt.y + c * d.y, ln.midpt.z + c * d.z⟩

/-- The point `p` lies on the line through `a` with direction `d`. -/
def OnLine (a d p : Vec3) : Prop :=
  ∃ t : Rat, p = ⟨a.x + t * d.x, a.y + t * d.y, a.z + t * d.z⟩

/-- The scalar product of two 3-vectors. -/
def Vec3.dot (a b : Vec3) : Rat :=
  a.x * b.x + a.y * b.y + a.z * b.z

/-- The difference of two 3-vectors. -/
def Vec3.sub (a b : Vec3) : Vec3 :=
  ⟨a.x - b.x, a.y - b.y, a.z - b.z⟩

/-- The helper functions with `projectPt3d2Ln3d` as modelled. -/
def projHelpers : Helpers :=
  { sampleHelpers with projectPt3d2Ln3d := projectPt3d2Ln3d }

/-- An ideal line (gid 0) of the vanishing point 0 with midpoint at the origin, observed
in views 4 and 5. -/
def originLine : IdealLine3d :=
  { midpt := ⟨0, 0, 0⟩, direct := ⟨0, 0, 1⟩, vpGid := 0, gid := 0, is3D := true,
    viewId_lnLid := [(4, 0), (5, 0)], estViewId := 4 }

/-- Six views, the vanishing point `(0, 0, 1)` observed in views 4 and 5, and the ideal
line through the origin along it. -/
def originLineMap : Map :=
  { K := ⟨⟨1, 0, 0⟩, ⟨0, 1, 0⟩, ⟨0, 0, 1⟩⟩,
    views := [lineView 0, lineView 1, lineView 2, lineView 3, lineView 4, lineView 5],
    keyPoints := [], idealLines := [originLine],
    vanishingPoints := [{ x := 0, y := 0, z := 1, gid := 0, viewId_vpLid := [(4, 0), (5, 0)] }],
    primaryPlanes := [], camdist_constraints := [] }

/-- A solver outcome for `originLineMap` (three camera blocks of 7, one vanishing point,
one line): the vanishing point stays `(0, 0, 1)` and the midpoint of the line moves to
`(1, 0, 0)`. -/
def shiftedLineOutcome : LmOutcome :=
  { para := [1, 0, 0, 0, 0, 0, 0, 1, 0, 0, 0, 0, 0, 0, 1, 0, 0, 0, 0, 0, 0,
             0, 0, 1, 1, 0, 0],
    ret := 10, reason := TermReason.stepBelowThreshold,
    err_all := 0, err_pt := 0, err_ln := 0, err_pt_mean := 0, err_ln_mean := 0 }

/-! ## Components of the state read by the Result Writer of `adjustBundle_G2O` -/

/-- The vertex vectors and the maps from vertex id to landmark the Result Writer
reads. -/
def writerFields (g : Graph) :
    (List Int × IntMap) × (List Int × IntMap) × (List Int × IntMap) × (List Int × IntMap) :=
  ((g.ptvertVec, g.ptvid2gid), (g.vpvertVec, g.vpvid2gid), (g.lnvertVec, g.lnvid2gid),
    (g.plvertVec, g.plvid2gid))

/-- The index lists the edge loops run over. -/
def listFields (g : Graph) :
    List Int × List Int × List Int × List Int × List Int × List Int :=
  (g.kptIdx2Opt, g.kptIdx2Rpj_notOpt, g.vpIdx2Opt, g.lnIdx2Opt, g.lnIdx2Rpj_notOpt,
    g.plIdx2Opt)

/-- Every key point, ideal line and vanishing point of the map carries its index in the
vector as its gid (the source addresses `keyPoints[gid]`, `idealLines[gid]` and
`vanishingPoints[gid]`). -/
def GidIsIndex (m : Map) : Prop :=
  (∀ i kp, vecAt m.keyPoints i = some kp → kp.gid = i)
  ∧ (∀ i ln, vecAt m.idealLines i = some ln → ln.gid = i)
  ∧ (∀ i vp, vecAt m.vanishingPoints i = some vp → vp.gid = i)

/-- The bookkeeping the structure loops establish on a map with `GidIsIndex`: vertex ids
are below `vertex_id`; the vertex vectors of the Result Writer, read through the maps
from vertex id to landmark, are the index lists of the free landmarks (of all admitted
planes); and every listed vertex id is the id of a vertex holding a 3-vector, not fixed
for points, vanishing points and lines. -/
def WriterInv (g : Graph) : Prop :=
  (∀ v ∈ g.vertices, v.id < g.vertex_id)
  ∧ g.ptvertVec.map (gidOf g.ptvid2gid) = g.kptIdx2Opt
  ∧ g.vpvertVec.map (gidOf g.vpvid2gid) = g.vpIdx2Opt
  ∧ g.lnvertVec.map (gidOf g.lnvid2gid) = g.lnIdx2Opt
  ∧ g.plvertVec.map (gidOf g.plvid2gid) = g.plIdx2Opt
  ∧ (∀ vid ∈ g.ptvertVec ++ g.vpvertVec ++ g.lnvertVec, ∃ v e,
      findVertex g.vertices vid = some v ∧ v.fixed = false ∧ v.estimate = Estimate.vec e)
  ∧ (∀ vid ∈ g.plvertVec, ∃ v e,
      findVertex g.vertices vid = some v ∧ v.estimate = Estimate.vec e)

/-- The solve may have replaced the estimate of `v` by one of the same form: `w` has the
id, class and fixed flag of `v`, is `v` itself when `v` is fixed, and holds a 3-vector
when `v` does. -/
def SolvedFrom (v w : Vertex) : Prop :=
  w.id = v.id ∧ w.kind = v.kind ∧ w.fixed = v.fixed ∧ (v.fixed = true → w = v)
  ∧ ((∃ e, v.estimate = Estimate.vec e) → ∃ e, w.estimate = Estimate.vec e)

/-- The bookkeeping of the plane loop: vertex ids are below `vertex_id`; every plane
vertex is bound by `plvid2gid` to a listed plane index and carries that plane's fixing
flag `estViewId < frontPosIdx`; every listed plane index has such a vertex. -/
def PlaneInv (fp : Int) (pls : List PrimaryPlane3d) (g : Graph) : Prop :=
  (∀ v ∈ g.vertices, v.id < g.vertex_id)
  ∧ (∀ v ∈ g.vertices, v.kind = VertexKind.plane → ∃ i pl, i ∈ g.plIdx2Opt
      ∧ vecAt pls i = some pl ∧ mapFind g.plvid2gid v.id = some i
      ∧ v.fixed = decide (pl.estViewId < fp))
  ∧ (∀ i ∈ g.plIdx2Opt, ∃ v ∈ g.vertices, v.kind = VertexKind.plane
      ∧ mapFind g.plvid2gid v.id = some i)

/-! ## The plane parameterization -/

/-- The 3-vector `n / d` that the plane loop gives a plane vertex as its estimate
(l.1281-1284). -/
def planeEncode (pl : PrimaryPlane3d) : Vec3 :=
  ⟨pl.n.x / pl.d, pl.n.y / pl.d, pl.n.z / pl.d⟩

/-- The statements l.1799-1801 of the Result Writer on one plane: `d = 1 / |e|`,
`n = e / |e|`, with `e` the estimate of the plane vertex. -/
def planeDecode (h : Helpers) (e : Vec3) (pl : PrimaryPlane3d) : PrimaryPlane3d :=
  { pl with d := 1 / h.norm e, n := ⟨e.x / h.norm e, e.y / h.norm e, e.z / h.norm e⟩ }

/-- The value `h.norm v` is the Euclidean norm of `v`. -/
def IsNormOf (h : Helpers) (v : Vec3) : Prop :=
  0 ≤ h.norm v ∧ h.norm v * h.norm v = v.dot v

/-- Helper functions whose `norm` is the Euclidean norm on the vectors along the
z-axis. -/
def zAxisHelpers : Helpers :=
  { sampleHelpers with norm := fun v => |v.z| }

/-- The plane `z = 2`. -/
def planeAbove : PrimaryPlane3d :=
  { n := ⟨0, 0, 1⟩, d := 2, kptGids := [], ilnGids := [], estViewId := 0 }

/-- The plane `z = -1`, written with normal `(0, 0, 1)` and offset `-1`. -/
def planeBelow : PrimaryPlane3d :=
  { n := ⟨0, 0, 1⟩, d := -1, kptGids := [], ilnGids := [], estViewId := 0 }

/-- Two views (ids 0 and 1), no landmark, no camera-distance constraint. -/
def twoViewMap : Map :=
  { K := ⟨⟨1, 0, 0⟩, ⟨0, 1, 0⟩, ⟨0, 0, 1⟩⟩, views := [bareView 0, bareView 1],
    keyPoints := [], idealLines := [], vanishingPoints := [], primaryPlanes := [],
    camdist_constraints := [] }

/-- A solver that leaves every camera at the identity rotation with translation
`(2, 0, 0)`. -/
def stretchSolver : G2oSolver :=
  { sampleSolver with
    estimate := fun _ _ _ => Estimate.pose ⟨⟨1, 0, 0⟩, ⟨0, 1, 0⟩, ⟨0, 0, 1⟩⟩ ⟨2, 0, 0⟩ }

/-! ## The cost function `costFun_BA_PtLnVp` (source l.31-215) -/

/-- The functions of OpenCV and `mfg_utils` the cost function calls and whose code is not
part of the unit. A camera is passed as the pair `(R, t)` of `Ps[vid] = K [R | t]`, or
`none` where `Ps[vid]` is an empty matrix.
`reproject K P X` is `mat2cvpt(Ps[vid] * (X, 1))`; `robust e k` is
`sqrt(pesudoHuber(e, k))`; `lineThrough K P E1 E2` is `(Ps[vid] * E1).cross(Ps[vid] * E2)`
with `E2` a direction; `projectLine K P ln` is `projectLine(il[idx], Ps[vid])`;
`segError lneq ep1 ep2` is `ls2lnArea(lneq, ep1, ep2) / cv::norm(ep1 - ep2) / 2`. -/
structure CostHelpers where
  reproject : Mat3 → Option (Mat3 × Vec3) → Vec3 → Pt2
  robust : Rat → Rat → Rat
  lineThrough : Mat3 → Option (Mat3 × Vec3) → Vec3 → Vec3 → Vec3
  projectLine : Mat3 → Option (Mat3 × Vec3) → IdealLine3d → Vec3
  segError : Vec3 → Pt2 → Pt2 → Rat

/-- The blocks of the parameter array. -/
inductive Block where
  | cam (view : Int)
  | point (idx : Int)
  | vnpt (i : Int)
  | line (idx : Int)
deriving DecidableEq, Repr

/-- The local variables of `costFun_BA_PtLnVp`. `error` is `error[0 .. eidx)`, written
front to back, so `eidx` is its length. `reads` is a ghost component: the value of `pidx`
at which each block of `p` was read. -/
structure CostState where
  pidx : Nat
  cams : List (Int × Mat3 × Vec3)
  VPs : List Vec3
  error : List Rat
  err_pt_vec : List Rat
  err_ln_vec : List Rat
  reads : List (Block × Nat)
deriving DecidableEq, Repr

/-- The body of the pose loop (l.48-66) for view `i`. -/
def costCam (h : Helpers) (p : List Rat) (st : CostState) (i : Int) : CostState :=
  let R := h.quatMatrix (rd p st.pidx) (rd p (st.pidx + 1)) (rd p (st.pidx + 2))
    (rd p (st.pidx + 3))
  if i = 1 then
    { st with
      pidx := st.pidx + 6,
      cams := st.cams ++
        [(i, R, h.angle2unitVec (rd p (st.pidx + 4)) (rd p (st.pidx + 5)))],
      reads := st.reads ++ [(Block.cam i, st.pidx)] }
  else
    { st with
      pidx := st.pidx + 7,
      cams := st.cams ++
        [(i, R, ⟨rd p (st.pidx + 4), rd p (st.pidx + 5), rd p (st.pidx + 6)⟩)],
      reads := st.reads ++ [(Block.cam i, st.pidx)] }

/-- The entry `Ps[vid]` after l.41-66: the pose decoded from `p` for a free view, the
identity pose for view 0, the pose stored in the map for a view of
`frontFrmIdx .. frontPosIdx - 1`, and an empty matrix otherwise. -/
def costPs (m : Map) (d : PtLnVp) (cams : List (Int × Mat3 × Vec3)) (vid : Int) :
    Option (Mat3 × Vec3) :=
  match cams.find? (fun c => c.1 == vid) with
  | some c => some c.2
  | none =>
    if vid = 0 then some (⟨⟨1, 0, 0⟩, ⟨0, 1, 0⟩, ⟨0, 0, 1⟩⟩, ⟨0, 0, 0⟩)
    else if d.frontFrmIdx ≤ vid ∧ vid < d.frontPosIdx then
      (vecAt m.views vid).map (fun v => (v.R, v.t))
    else none

/-- The feature point `views[vid].featurePoints[lid]` (the origin where the source would
read past a vector). -/
def featureAt (m : Map) (vid lid : Int) : Pt2 :=
  match vecAt m.views vid with
  | none => ⟨0, 0⟩
  | some v => (vecAt v.featurePoints lid).getD ⟨0, 0⟩

/-- The body of the inner loops l.76-89 and l.95-108: one observation `o = (vid, lid)` of
a key point at position `X`. -/
def costPtObs (c : CostHelpers) (m : Map) (d : PtLnVp) (X : Vec3) (st : CostState)
    (o : Int × Int) : CostState :=
  if d.frontFrmIdx ≤ o.1 then
    let impt := c.reproject m.K (costPs m d st.cams o.1) X
    let e0 := c.robust (impt.x - (featureAt m o.1 o.2).x) 2
    let e1 := c.robust (impt.y - (featureAt m o.1 o.2).y) 2
    { st with
      error := st.error ++ [e0, e1],
      err_pt_vec := st.err_pt_vec ++ [e0 * e0 + e1 * e1] }
  else st

/-- The body of the loop l.74-91 over `kptIdx2Opt`: the position is read from `p`. -/
def costPoint (c : CostHelpers) (m : Map) (d : PtLnVp) (p : List Rat) (st : CostState)
    (idx : Int) : CostState :=
  let X : Vec3 := ⟨rd p st.pidx, rd p (st.pidx + 1), rd p (st.pidx + 2)⟩
  let obs := match vecAt m.keyPoints idx with
    | none => []
    | some kp => kp.viewId_ptLid
  let st1 := obs.foldl (costPtObs c m d X) st
  { st1 with pidx := st1.pidx + 3, reads := st1.reads ++ [(Block.point idx, st.pidx)] }

/-- The body of the loop l.92-110 over `kptIdx2Rpj_notOpt`: the position is the one
stored in the map, `kp[idx].mat()`. -/
def costFixedPoint (c : CostHelpers) (m : Map) (d : PtLnVp) (st : CostState) (idx : Int) :
    CostState :=
  match vecAt m.keyPoints idx with
  | none => st
  | some kp => kp.viewId_ptLid.foldl (costPtObs c m d ⟨kp.x, kp.y, kp.z⟩) st

/-- The body of the loop l.113-117 for vanishing point `i`. -/
def costVnpt (p : List Rat) (st : CostState) (i : Int) : CostState :=
  { st with
    pidx := st.pidx + 3,
    VPs := st.VPs ++ [⟨rd p st.pidx, rd p (st.pidx + 1), rd p (st.pidx + 2)⟩],
    reads := st.reads ++ [(Block.vnpt i, st.pidx)] }

/-- The steps `k = 0, 2, 4, ...` below `size` of the loop
`for (k = 0; k < lsEndpoints.size(); k = k + 2)`. -/
def pairSteps (size : Nat) : List Nat :=
  (List.range ((size + 1) / 2)).map (fun j => 2 * j)

/-- The loop l.129-139 (and l.165-175) over the sampled end points of one observed
segment, with `LNERR_SAMPLE` defined: two residual entries per pair of end points. -/
def costSegment (c : CostHelpers) (lneq : Vec3) (ls : List Pt2) (st : CostState) :
    CostState :=
  (pairSteps ls.length).foldl (fun st k =>
    let e := c.robust (c.segError lneq (ls.getD k ⟨0, 0⟩) (ls.getD (k + 1) ⟨0, 0⟩)) 5
    { st with
      error := st.error ++ [e, e],
      err_ln_vec := st.err_ln_vec ++ [e * e, e * e] }) st

/-- The sampled end points `views[vid].idealLines[lid].lsEndpoints` (empty where the
source would read past a vector). -/
def segmentAt (m : Map) (vid lid : Int) : List Pt2 :=
  match vecAt m.views vid with
  | none => []
  | some v =>
    match vecAt v.idealLines lid with
    | none => []
    | some l2 => l2.lsEndpoints

/-- The body of the loop l.119-156 over `idlIdx2Opt`: the midpoint is read from `p`, the
direction is `VPs[il[idx].vpGid]`. -/
def costLine (c : CostHelpers) (m : Map) (d : PtLnVp) (p : List Rat) (st : CostState)
    (idx : Int) : CostState :=
  let E1 : Vec3 := ⟨rd p st.pidx, rd p (st.pidx + 1), rd p (st.pidx + 2)⟩
  match vecAt m.idealLines idx with
  | none => { st with pidx := st.pidx + 3, reads := st.reads ++ [(Block.line idx, st.pidx)] }
  | some ln =>
    let E2 : Vec3 := (vecAt st.VPs ln.vpGid).getD ⟨0, 0, 0⟩
    let st0 := { st with pidx := st.pidx + 3,
                         reads := st.reads ++ [(Block.line idx, st.pidx)] }
    ln.viewId_lnLid.foldl (fun st o =>
      if d.frontFrmIdx ≤ o.1 then
        costSegment c (c.lineThrough m.K (costPs m d st.cams o.1) E1 E2)
          (segmentAt m o.1 o.2) st
      else st) st0

/-- The body of the loop l.157-192 over `idlIdx2Rpj_notOpt`: the line is the one stored
in the map. -/
def costFixedLine (c : CostHelpers) (m : Map) (d : PtLnVp) (st : CostState) (idx : Int) :
    CostState :=
  match vecAt m.idealLines idx with
  | none => st
  | some ln =>
    ln.viewId_lnLid.foldl (fun st o =>
      if d.frontFrmIdx ≤ o.1 then
        costSegment c (c.projectLine m.K (costPs m d st.cams o.1) ln)
          (segmentAt m o.1 o.2) st
      else st) st

/-- The function `costFun_BA_PtLnVp(p, error, numPara, numMeas, adata)` up to the sums of
l.195-211, with `adata` the data block `adjustBundle_PtLnVp` builds from the map and the
index lists `d`: poses, free points, fixed points, vanishing points, free lines, fixed
lines. -/
def costFun_BA_PtLnVp (h : Helpers) (c : CostHelpers) (m : Map) (d : PtLnVp)
    (p : List Rat) : CostState :=
  let s0 : CostState :=
    { pidx := 0, cams := [], VPs := [], error := [], err_pt_vec := [], err_ln_vec := [],
      reads := [] }
  let s1 := (intRange d.frontPosIdx (m.views.length : Int)).foldl (costCam h p) s0
  let s2 := d.kptIdx2Opt.foldl (costPoint c m d p) s1
  let s3 := d.kptIdx2Rpj_notOpt.foldl (costFixedPoint c m d) s2
  let s4 := (intRange 0 (m.vanishingPoints.length : Int)).foldl (costVnpt p) s3
  let s5 := d.idlIdx2Opt.foldl (costLine c m d p) s4
  d.idlIdx2Rpj_notOpt.foldl (costFixedLine c m d) s5

/-! ## The layout of the parameter array of `adjustBundle_PtLnVp` -/

/-- The number of values of a block: 4 + 2 for the pose of view 1, 4 + 3 for any other
pose, 3 for a point, a vanishing point or a line. -/
def blockLen : Block → Nat
  | Block.cam i => if i = 1 then 6 else 7
  | _ => 3

/-- The start offsets of consecutive blocks of the given lengths, the first one at
`start`. -/
def offsets (start : Nat) : List Nat → List Nat
  | [] => []
  | n :: rest => start :: offsets (start + n) rest

/-- The blocks of the parameter array in the order of the vectorizer: the poses of the
views `frontPosIdx .. views.size() - 1`, the points of `kptIdx2Opt`, all vanishing
points, the lines of `idlIdx2Opt`. -/
def ptLnVp_blocks (m : Map) (d : PtLnVp) : List Block :=
  (intRange d.frontPosIdx (m.views.length : Int)).map Block.cam
    ++ d.kptIdx2Opt.map Block.point
    ++ (intRange 0 (m.vanishingPoints.length : Int)).map Block.vnpt
    ++ d.idlIdx2Opt.map Block.line

/-- The layout: every block with its start offset, blocks following each other without
gap from offset 0. -/
def ptLnVp_layout (m : Map) (d : PtLnVp) : List (Block × Nat) :=
  (ptLnVp_blocks m d).zip (offsets 0 ((ptLnVp_blocks m d).map blockLen))

/-- The values the vectorizer packs for a block (l.238-301). -/
def blockValues (h : Helpers) (m : Map) : Block → List Rat
  | Block.cam i => camParams h m.views i
  | Block.point idx =>
    match vecAt m.keyPoints idx with
    | none => []
    | some kp => [kp.x, kp.y, kp.z]
  | Block.vnpt i =>
    match vecAt m.vanishingPoints i with
    | none => []
    | some vp => [vp.x, vp.y, vp.z]
  | Block.line idx =>
    match vecAt m.idealLines idx with
    | none => []
    | some ln => [ln.midpt.x, ln.midpt.y, ln.midpt.z]

/-- What the Result Writer does with one block read at offset `b.2` of `para`
(l.391-434). -/
def ptLnVp_writeBlock (h : Helpers) (para : List Rat) (m : Map) (b : Block × Nat) : Map :=
  match b.1 with
  | Block.cam i => { m with views := (ptLnVp_writeCam h para (b.2, m.views) i).2 }
  | Block.point idx => { m with keyPoints := (ptLnVp_writePoint para (b.2, m.keyPoints) idx).2 }
  | Block.vnpt i =>
    { m with vanishingPoints := (ptLnVp_writeVnpt para (b.2, m.vanishingPoints) i).2 }
  | Block.line idx =>
    { m with idealLines :=
        (ptLnVp_writeLine h m.vanishingPoints para (b.2, m.idealLines) idx).2 }

/-- The statements l.437-441: the five error fields of the newest view. -/
def ptLnVp_writeErr (out : LmOutcome) (m : Map) : Map :=
  { m with views := vecModify m.views ((m.views.length : Int) - 1) (fun w =>
      { w with errAll := out.err_all, errPt := out.err_pt, errLn := out.err_ln,
               errPtMean := out.err_pt_mean, errLnMean := out.err_ln_mean }) }

/-! ## The two-angle parameterization of a unit translation, over the reals -/

/-- Modelled from the spec: the function `unitVec2angle` of `mfg_utils`, whose code is
not part of the unit: the two angles (inclination from the z-axis, azimuth in the
xy-plane) of a unit direction. -/
noncomputable def unitVec2angleReal (t : ℝ × ℝ × ℝ) : ℝ × ℝ :=
  (Real.arccos t.2.2, Complex.arg ⟨t.1, t.2.1⟩)

/-- Modelled from the spec: the function `angle2unitVec` of `mfg_utils`, whose code is
not part of the unit: the unit direction with inclination `a` and azimuth `b`. -/
noncomputable def angle2unitVecReal (a b : ℝ) : ℝ × ℝ × ℝ :=
  (Real.sin a * Real.cos b, Real.sin a * Real.sin b, Real.cos a)

/-! ## The residual edges of `adjustBundle_G2O` in closed form -/

/-- The value of the read `m[k]`. -/
def mapRead (m : IntMap) (k : Int) : Int :=
  (mapIndex m k).1

/-- The reprojection edge the body l.1313-1352 adds for the observation `o = (fid, lid)`
of `keyPoints[idx]`, with the vertex ids read from the maps of state `g`: one edge when
the view is matchable, `fid >= frontFrmIdx` and the feature exists, none otherwise. -/
def kptEdgeOf (s : MfgSettings) (views : List View) (ff : Int) (g : Graph) (idx : Int)
    (o : Int × Int) : List Edge :=
  match vecAt views o.1 with
  | none => []
  | some view =>
    if view.matchable && decide (ff ≤ o.1) then
      match vecAt view.featurePoints o.2 with
      | none => []
      | some fp =>
        [{ kind := EdgeKind.projectP2MC,
           vertices := [mapRead g.ptgid2vid idx, mapRead g.camfid2vid o.1],
           measurement := [fp.x, fp.y], information := [1, 0, 0, 1],
           robustKernel := kernelOf s s.baKernelDeltaPoint, segpts := [] }]
    else []

/-- The vanishing-point edge the body l.1410-1463 adds for the observation `o` of
`vanishingPoints[vpGid]`. -/
def vnptEdgeOf (s : MfgSettings) (h : Helpers) (bp : Mat3 → VanishPnt2d → Vec3) (m : Map)
    (fv : Int) (g : Graph) (vpGid : Int) (o : Int × Int) : List Edge :=
  match vecAt m.views o.1 with
  | none => []
  | some view =>
    if view.matchable && decide (fv ≤ o.1) then
      match vecAt view.vanishPoints o.2 with
      | none => []
      | some vp =>
        [{ kind := EdgeKind.vnptCam,
           vertices := [mapRead g.vpgid2vid vpGid, mapRead g.camfid2vid o.1],
           measurement := vnptMeasurement h bp m.K vp,
           information := vnptInformation s vp.cov_ab,
           robustKernel := kernelOf s s.baKernelDeltaVPoint, segpts := [] }]
    else []

/-- The line edge the body l.1472-1521 adds for the observation `o` of the ideal line
`ln = idealLines[idx]`. -/
def lineEdgeOf (s : MfgSettings) (views : List View) (ff : Int) (g : Graph) (idx : Int)
    (ln : IdealLine3d) (o : Int × Int) : List Edge :=
  match vecAt views o.1 with
  | none => []
  | some view =>
    if view.matchable && decide (ff ≤ o.1) then
      match vecAt view.idealLines o.2 with
      | none => []
      | some l2 =>
        [{ kind := EdgeKind.lineVpCam,
           vertices := [mapRead g.lngid2vid idx, mapRead g.vpgid2vid ln.vpGid,
             mapRead g.camfid2vid o.1],
           measurement := [0], information := [1 * s.baWeightLine],
           robustKernel := kernelOf s s.baKernelDeltaLine, segpts := l2.lsEndpoints }]
    else []

/-- The observations of `keyPoints[idx]`. -/
def kptObs (m : Map) (idx : Int) : List (Int × Int) :=
  match vecAt m.keyPoints idx with
  | none => []
  | some kp => kp.viewId_ptLid

/-- The observations of `vanishingPoints[idx]`. -/
def vnptObs (m : Map) (idx : Int) : List (Int × Int) :=
  match vecAt m.vanishingPoints idx with
  | none => []
  | some vp => vp.viewId_vpLid

/-- The edges of all observations of `idealLines[idx]`. -/
def lineEdgesOf (s : MfgSettings) (m : Map) (ff : Int) (g : Graph) (idx : Int) : List Edge :=
  match vecAt m.idealLines idx with
  | none => []
  | some ln => ln.viewId_lnLid.flatMap (lineEdgeOf s m.views ff g idx ln)

/-- Factor construction reads the maps without changing what they return: every read of
the five maps, the vertices and the index lists are the same in `g'` as in `g`. -/
def SameReads (g g' : Graph) : Prop :=
  g'.vertices = g.vertices ∧ listFields g' = listFields g
  ∧ (∀ k, mapRead g'.ptgid2vid k = mapRead g.ptgid2vid k)
  ∧ (∀ k, mapRead g'.camfid2vid k = mapRead g.camfid2vid k)
  ∧ (∀ k, mapRead g'.vpgid2vid k = mapRead g.vpgid2vid k)
  ∧ (∀ k, mapRead g'.lngid2vid k = mapRead g.lngid2vid k)
  ∧ (∀ k, mapRead g'.plgid2vid k = mapRead g.plgid2vid k)

/-! ## The information of a vanishing-point edge -/

/-- The five edge vectors of the residual factors. -/
def edgeFields (g : Graph) :
    List Edge × List Edge × List Edge × List Edge × List Edge :=
  (g.vecEdgeKpt, g.vecEdgeVnpt, g.vecEdgeLine, g.vecEdgePointPlane, g.vecEdgeLinePlane)

/-- The information the specification describes for a vanishing-point observation with
angular covariance `cov_ab`: the configured weight times the inverse of the covariance
whose variances (diagonal entries) are floored at `1e-3`. -/
def vnptInformation_spec (s : MfgSettings) (cov_ab : Mat2) : List Rat :=
  let cov : Mat2 :=
    ⟨max cov_ab.m00 (1 / 1000), cov_ab.m01, cov_ab.m10, max cov_ab.m11 (1 / 1000)⟩
  let i := cov.inverse
  [s.baWeightVPoint * i.m00, s.baWeightVPoint * i.m01,
   s.baWeightVPoint * i.m10, s.baWeightVPoint * i.m11]

/-- An angular covariance with correlated angles. -/
def correlatedCov : Mat2 :=
  ⟨2, 1, 1, 2⟩

/-- A view with identity pose and one detected vanishing point of covariance
`correlatedCov`. -/
def vnptView (id : Int) : View :=
  { bareView id with vanishPoints := [⟨0, 0, 1, correlatedCov⟩] }

/-- Six views and one vanishing point observed in views 4 and 5. -/
def vnptMap : Map :=
  { K := ⟨⟨1, 0, 0⟩, ⟨0, 1, 0⟩, ⟨0, 0, 1⟩⟩,
    views := [vnptView 0, vnptView 1, vnptView 2, vnptView 3, vnptView 4, vnptView 5],
    keyPoints := [], idealLines := [],
    vanishingPoints := [{ x := 0, y := 0, z := 1, gid := 0, viewId_vpLid := [(4, 0), (5, 0)] }],
    primaryPlanes := [], camdist_constraints := [] }

/-- The problem `adjustBundle_G2O(3, 5)` hands to the solver on `vnptMap`. -/
def vnptProblem : Graph :=
  match adjustBundle_G2O_problem scenarioSettings sampleHelpers (fun _ _ => ⟨0, 0, 1⟩)
      vnptMap 3 5 with
  | Except.ok g => g
  | Except.error _ => Graph.init

/-! ## Concrete inputs: the robust kernel switched off, and gids that are not indices -/

/-- The scenario settings with the robust kernel switched off. -/
def kernelOffSettings : MfgSettings :=
  { scenarioSettings with baUseKernel := false }

/-- A view with identity pose, one observed 2D line and one detected vanishing point. -/
def lineVnptView (id : Int) : View :=
  { vnptView id with idealLines := [⟨[⟨0, 0⟩, ⟨1, 1⟩]⟩] }

/-- The map `originLineMap`, its views carrying a detected vanishing point each, with one
primary plane that has the ideal line (gid 0) as its only member and was estimated at
view 0. -/
def planeLineMap : Map :=
  { originLineMap with
    views := [lineVnptView 0, lineVnptView 1, lineVnptView 2, lineVnptView 3,
              lineVnptView 4, lineVnptView 5],
    primaryPlanes := [{ n := ⟨0, 0, 1⟩, d := 1, kptGids := [], ilnGids := [0],
                        estViewId := 0 }] }

/-- The map `scenarioMap` with the gids of its two key points exchanged: `keyPoints[0]`
carries gid 1 and `keyPoints[1]` carries gid 0. The gids are distinct and not negative. -/
def swappedGidMap : Map :=
  { scenarioMap with
    keyPoints := [{ scenarioPointA with gid := 1 }, { scenarioPointB with gid := 0 }] }

/-- A solver that returns the position `(9, 9, 9)` for every vertex; a camera vertex keeps
its pose, since an estimate of the wrong form is not taken over. -/
def liftSolver : G2oSolver :=
  { sampleSolver with estimate := fun _ _ _ => Estimate.vec ⟨9, 9, 9⟩ }

/-! ## The diagnostics in closed form -/

/-- The sum a cost-aggregation loop forms over the edge vector `es`: the robustified cost
`rho[0]` of every edge that has a vertex which is not fixed. -/
def activeCost (S : G2oSolver) (g : Graph) (es : List Edge) : Rat :=
  ((es.filter (fun e => !allVerticesFixed g e)).map (S.rho g)).sum

/-- The sum of the robustified costs of all edges of `es`. -/
def totalCost (S : G2oSolver) (g : Graph) (es : List Edge) : Rat :=
  (es.map (S.rho g)).sum

/-- A solver for which every edge has robustified cost 1. -/
def unitCostSolver : G2oSolver :=
  { sampleSolver with rho := fun _ _ => 1 }

/-- The map state `adjustBundle_G2O(3, 5)` leaves on the six-view scenario with the solver
`unitCostSolver`. -/
def scenarioResult : Map :=
  match adjustBundle_G2O scenarioSettings sampleHelpers (fun _ _ => ⟨0, 0, 1⟩) unitCostSolver
      scenarioMap 3 5 with
  | Except.ok m => m
  | Except.error _ => scenarioMap

/-! ## Plane vertices that are all fixed -/

/-- Vertex ids are below `vertex_id`, every plane vertex of the optimizer is fixed, and
every vertex listed in `plvertVec` is found in the optimizer and is fixed. -/
def PlanesFixed (g : Graph) : Prop :=
  (∀ v ∈ g.vertices, v.id < g.vertex_id)
  ∧ (∀ v ∈ g.vertices, v.kind = VertexKind.plane → v.fixed = true)
  ∧ ∀ vid ∈ g.plvertVec, ∃ v, findVertex g.vertices vid = some v
      ∧ v.kind = VertexKind.plane ∧ v.fixed = true

/-- The map state `adjustBundle_G2O(3, 5)` leaves on `planeLineMap`. -/
def planeLineResult : Map :=
  match adjustBundle_G2O scenarioSettings sampleHelpers (fun _ _ => ⟨0, 0, 1⟩) liftSolver
      planeLineMap 3 5 with
  | Except.ok m => m
  | Except.error _ => planeLineMap

/-! ## The function `bundle_adjust_between` and concrete inputs for the line write-back -/

/-- The function `Mfg::bundle_adjust_between(view_from, view_to, cam_from)` (l.43-1019):
its solve (l.756-766) and its Result Writer (l.772-865) are those of `adjustBundle_G2O`,
statement by statement; the five cost sums (l.868-1016) are formed and printed, not
stored. -/
def bundle_adjust_between (s : MfgSettings) (h : Helpers)
    (backProject : Mat3 → VanishPnt2d → Vec3) (S : G2oSolver) (m : Map)
    (view_from view_to cam_from : Int) : Except BuildError Map := do
  let g1 ← bundle_adjust_between_problem s h backProject m view_from view_to cam_from
  let g2 := runOptimizer S g1
  let m' := writeBack h g2 m
  let _errKpt ← sumCosts S g2 g2.vecEdgeKpt 0
  let _errVnpt ← sumCosts S g2 g2.vecEdgeVnpt 0
  let _errLine ← sumCosts S g2 g2.vecEdgeLine 0
  let errPlane0 ← sumCosts S g2 g2.vecEdgePointPlane 0
  let _errPlane ← sumCosts S g2 g2.vecEdgeLinePlane errPlane0
  pure m'

/-- The problem `adjustBundle_G2O(3, 5)` hands to the solver on `planeLineMap`. -/
def planeLineProblem : Graph :=
  match adjustBundle_G2O_problem scenarioSettings sampleHelpers (fun _ _ => ⟨0, 0, 1⟩)
      planeLineMap 3 5 with
  | Except.ok g => g
  | Except.error _ => Graph.init

/-- An ideal line (gid 0) of the vanishing point 0, first observed in view 0 and
estimated there, observed again in view 4: admitted and fixed under
`adjustBundle_G2O(3, 5)` on six views. -/
def staleLine : IdealLine3d :=
  { midpt := ⟨0, 0, 0⟩, direct := ⟨0, 0, 1⟩, vpGid := 0, gid := 0, is3D := true,
    viewId_lnLid := [(0, 0), (4, 0)], estViewId := 0 }

/-- Six views, the vanishing point `(0, 0, 1)` observed in views 4 and 5 (free), and the
fixed ideal line `staleLine` along it. -/
def staleLineMap : Map :=
  { planeLineMap with idealLines := [staleLine], primaryPlanes := [] }

/-- The map `planeLineMap` without its plane and with two ideal lines of the vanishing
point 0 whose gids are exchanged against their indices: `idealLines[0]` (gid 1, midpoint
`(1, 1, 1)`, observed in views 4 and 5: free) and `idealLines[1]` (gid 0, midpoint
`(0, 0, 0)`, first observed in view 0: fixed). The gids are distinct and not negative. -/
def swappedLineMap : Map :=
  { planeLineMap with
    idealLines := [{ orphanLine with gid := 1 }, staleLine], primaryPlanes := [] }

/-! ## The residuals of `costFun_BA_PtLnVp` in closed form -/

/-- The two entries of `error` the cost function writes for the observation
`o = (vid, lid)` of a key point at position `X` (l.79-88): none when `vid` is before
`frontFrmIdx`. `cams` are the poses decoded from `p`. -/
def ptResidual (c : CostHelpers) (m : Map) (d : PtLnVp) (cams : List (Int × Mat3 × Vec3))
    (X : Vec3) (o : Int × Int) : List Rat :=
  if d.frontFrmIdx ≤ o.1 then
    [c.robust ((c.reproject m.K (costPs m d cams o.1) X).x - (featureAt m o.1 o.2).x) 2,
     c.robust ((c.reproject m.K (costPs m d cams o.1) X).y - (featureAt m o.1 o.2).y) 2]
  else []

/-- The entries of `error` written for one observed segment `ls` against the projected
line `lneq` (l.129-139): two equal entries per pair of sampled end points. -/
def segResidual (c : CostHelpers) (lneq : Vec3) (ls : List Pt2) : List Rat :=
  (pairSteps ls.length).flatMap (fun k =>
    [c.robust (c.segError lneq (ls.getD k ⟨0, 0⟩) (ls.getD (k + 1) ⟨0, 0⟩)) 5,
     c.robust (c.segError lneq (ls.getD k ⟨0, 0⟩) (ls.getD (k + 1) ⟨0, 0⟩)) 5])

/-- The entries of `error` written for the key point `keyPoints[idx]` of
`kptIdx2Rpj_notOpt`, at its stored position. -/
def fixedPtResiduals (c : CostHelpers) (m : Map) (d : PtLnVp)
    (cams : List (Int × Mat3 × Vec3)) (idx : Int) : List Rat :=
  match vecAt m.keyPoints idx with
  | none => []
  | some kp => kp.viewId_ptLid.flatMap (ptResidual c m d cams ⟨kp.x, kp.y, kp.z⟩)

/-- The entries of `error` written for the key point `keyPoints[idx]` of `kptIdx2Opt`,
whose position is read from `p` at offset `off`. -/
def freePtResiduals (c : CostHelpers) (m : Map) (d : PtLnVp) (p : List Rat)
    (cams : List (Int × Mat3 × Vec3)) (idx : Int) (off : Nat) : List Rat :=
  (kptObs m idx).flatMap
    (ptResidual c m d cams ⟨rd p off, rd p (off + 1), rd p (off + 2)⟩)

/-- The entries of `error` written for the ideal line `idealLines[idx]` of
`idlIdx2Rpj_notOpt`, as stored. -/
def fixedLineResiduals (c : CostHelpers) (m : Map) (d : PtLnVp)
    (cams : List (Int × Mat3 × Vec3)) (idx : Int) : List Rat :=
  match vecAt m.idealLines idx with
  | none => []
  | some ln =>
    ln.viewId_lnLid.flatMap (fun o =>
      if d.frontFrmIdx ≤ o.1 then
        segResidual c (c.projectLine m.K (costPs m d cams o.1) ln) (segmentAt m o.1 o.2)
      else [])

/-- The entries of `error` written for the ideal line `idealLines[idx]` of `idlIdx2Opt`,
whose midpoint is read from `p` at offset `off` and whose direction is the decoded
vanishing point. -/
def freeLineResiduals (c : CostHelpers) (m : Map) (d : PtLnVp) (p : List Rat)
    (cams : List (Int × Mat3 × Vec3)) (VPs : List Vec3) (idx : Int) (off : Nat) : List Rat :=
  match vecAt m.idealLines idx with
  | none => []
  | some ln =>
    ln.viewId_lnLid.flatMap (fun o =>
      if d.frontFrmIdx ≤ o.1 then
        segResidual c
          (c.lineThrough m.K (costPs m d cams o.1) ⟨rd p off, rd p (off + 1), rd p (off + 2)⟩
            ((vecAt VPs ln.vpGid).getD ⟨0, 0, 0⟩))
          (segmentAt m o.1 o.2)
      else [])

/-- A stand-in for the external functions of the cost function: every residual is 1. -/
def sampleCostHelpers : CostHelpers :=
  { reproject := fun _ _ _ => ⟨0, 0⟩,
    robust := fun _ _ => 1,
    lineThrough := fun _ _ _ _ => ⟨0, 0, 1⟩,
    projectLine := fun _ _ _ => ⟨0, 0, 1⟩,
    segError := fun _ _ _ => 1 }

/-! ## Maps with unmatchable views -/

/-- The six-view scenario with the `matchable` flag of view 1 cleared. -/
def unmatchableMap : Map :=
  { scenarioMap with
    views := [scenarioView 0, { scenarioView 1 with matchable := false }, scenarioView 2,
              scenarioView 3, scenarioView 4, scenarioView 5] }

/-- The problem `adjustBundle_G2O(3, 5)` hands to the solver on `unmatchableMap`. -/
def unmatchableProblem : Graph :=
  match adjustBundle_G2O_problem scenarioSettings sampleHelpers (fun _ _ => ⟨0, 0, 1⟩)
      unmatchableMap 3 5 with
  | Except.ok g => g
  | Except.error _ => Graph.init

/-! ## The fixed landmarks of a problem -/

/-- Every index of `kptIdx2Rpj_notOpt` is bound by `ptgid2vid` to a fixed vertex whose
estimate is the stored position of the key point. -/
def FixedPts (m : Map) (g : Graph) : Prop :=
  ∀ idx ∈ g.kptIdx2Rpj_notOpt, ∃ kp v, vecAt m.keyPoints idx = some kp
    ∧ mapFind g.ptgid2vid idx = some v.id ∧ findVertex g.vertices v.id = some v
    ∧ v.fixed = true ∧ v.estimate = Estimate.vec ⟨kp.x, kp.y, kp.z⟩

/-- Every index of `lnIdx2Rpj_notOpt` is bound by `lngid2vid` to a fixed vertex whose
estimate is the stored midpoint of the ideal line. -/
def FixedLns (m : Map) (g : Graph) : Prop :=
  ∀ idx ∈ g.lnIdx2Rpj_notOpt, ∃ ln v, vecAt m.idealLines idx = some ln
    ∧ mapFind g.lngid2vid idx = some v.id ∧ findVertex g.vertices v.id = some v
    ∧ v.fixed = true ∧ v.estimate = Estimate.vec ln.midpt

/-- The bookkeeping of the fixed landmarks while the vertex part runs. -/
def FixedInv (m : Map) (g : Graph) : Prop :=
  (∀ v ∈ g.vertices, v.id < g.vertex_id) ∧ FixedPts m g ∧ FixedLns m g

/-- The six-view scenario with its second key point re-estimated at the newest view
(`estViewId = 5`); both key points carry their index as gid. -/
def reestimatedScenarioMap : Map :=
  { scenarioMap with keyPoints := [scenarioPointA, reestimatedPoint] }

/-- The six-view scenario with its first key point carrying the gid -1. -/
def negativeGidScenarioMap : Map :=
  { scenarioMap with keyPoints := [{ scenarioPointA with gid := -1 }, scenarioPointB] }

/-- The six-view scenario with the `matchable` flag of view 5 cleared. -/
def lastUnmatchableMap : Map :=
  { scenarioMap with
    views := [scenarioView 0, scenarioView 1, scenarioView 2, scenarioView 3,
              scenarioView 4, { scenarioView 5 with matchable := false }] }

/-- The problem `adjustBundle_G2O(3, 5)` hands to the solver on `scenarioMap`. -/
def scenarioProblem : Graph :=
  match adjustBundle_G2O_problem scenarioSettings sampleHelpers (fun _ _ => ⟨0, 0, 1⟩)
      scenarioMap 3 5 with
  | Except.ok g => g
  | Except.error _ => Graph.init

/-- Every index of `kptIdx2Opt` is bound by `ptgid2vid` to a vertex that is not fixed and
whose estimate is the stored position of the key point. -/
def FreePts (m : Map) (g : Graph) : Prop :=
  ∀ idx ∈ g.kptIdx2Opt, ∃ kp v, vecAt m.keyPoints idx = some kp
    ∧ mapFind g.ptgid2vid idx = some v.id ∧ findVertex g.vertices v.id = some v
    ∧ v.fixed = false ∧ v.estimate = Estimate.vec ⟨kp.x, kp.y, kp.z⟩

/-- The bookkeeping of the free key points while the vertex part runs. -/
def FreeInv (m : Map) (g : Graph) : Prop :=
  (∀ v ∈ g.vertices, v.id < g.vertex_id) ∧ FreePts m g

/-! ## Plane edges in closed form -/

/-- The reads of the index maps give the same vertex ids and the maps `ptgid2vid` and
`lngid2vid`, whose keys the plane loops test, are the same. -/
def SameKeys (g g' : Graph) : Prop :=
  SameReads g g' ∧ g'.ptgid2vid = g.ptgid2vid ∧ g'.lngid2vid = g.lngid2vid

/-- The point-to-plane edge the body l.1589-1627 adds for the member gid `ptGid` of the
plane `plGid`: none when `ptGid` is no key of `ptgid2vid`. -/
def pointPlaneEdgeOf (s : MfgSettings) (g : Graph) (plGid ptGid : Int) : List Edge :=
  if (mapFind g.ptgid2vid ptGid).isNone then []
  else
    [{ kind := EdgeKind.pointPlane,
       vertices := [mapRead g.ptgid2vid ptGid, mapRead g.plgid2vid plGid],
       measurement := [0], information := [s.baWeightPlane * 1],
       robustKernel := kernelOf s s.baKernelDeltaPlane, segpts := [] }]

/-- The line-to-plane edge the body l.1630-1682 adds for the member gid `lnGid` of the
plane `plGid`: none when `lnGid` is no key of `lngid2vid`. -/
def linePlaneEdgeOf (s : MfgSettings) (h : Helpers) (m : Map) (g : Graph)
    (plGid lnGid : Int) : List Edge :=
  if (mapFind g.lngid2vid lnGid).isNone then []
  else
    match vecAt m.idealLines lnGid with
    | none => []
    | some ln =>
      match kernelOf s (s.baKernelDeltaPlane * h.sqrt2) with
      | none => []
      | some delta =>
        [{ kind := EdgeKind.lineVpPlane,
           vertices := [mapRead g.lngid2vid lnGid, mapRead g.vpgid2vid ln.vpGid,
             mapRead g.plgid2vid plGid],
           measurement := [0], information := [1 * s.baWeightPlane],
           robustKernel := some delta, segpts := [] }]

/-- The member key-point gids `primaryPlanes[plGid].kptGids`. -/
def planeKptGids (m : Map) (plGid : Int) : List Int :=
  match vecAt m.primaryPlanes plGid with
  | none => []
  | some pl => pl.kptGids

/-- The member line gids `primaryPlanes[plGid].ilnGids`. -/
def planeLnGids (m : Map) (plGid : Int) : List Int :=
  match vecAt m.primaryPlanes plGid with
  | none => []
  | some pl => pl.ilnGids

/-- A key point (gid 0) observed in views 0 and 1 only, before `frontPosIdx = 3`. -/
def oldKeyPoint : KeyPoint3d :=
  { x := 7, y := 8, z := 9, gid := 0, is3D := true,
    viewId_ptLid := [(0, 1), (1, 1)], estViewId := 0 }

/-- The six-view scenario with the key point A carrying gid 1 at index 0, the key point
`oldKeyPoint` carrying gid 0 at index 1, and one primary plane with the member point
gids 1 and 0. -/
def oldPointPlaneMap : Map :=
  { scenarioMap with
    keyPoints := [{ scenarioPointA with gid := 1 }, oldKeyPoint],
    primaryPlanes := [{ n := ⟨0, 0, 1⟩, d := 1, kptGids := [1, 0], ilnGids := [],
                        estViewId := 0 }] }

/-- The map `oldPointPlaneMap` with every key point carrying its index as gid. -/
def indexedPlaneMap : Map :=
  { scenarioMap with
    keyPoints := [scenarioPointA, { oldKeyPoint with gid := 1 }],
    primaryPlanes := [{ n := ⟨0, 0, 1⟩, d := 1, kptGids := [0, 1], ilnGids := [],
                        estViewId := 0 }] }

/-! # Properties -/

/-! ## Loops over a vector -/

/-- A component of the state that no loop body changes is unchanged by the loop. -/
theorem indexedLoop_frame {σ α β : Type} (body : σ → Int → α → σ) (fld : σ → β)
    (hbody : ∀ st i x, fld (body st i x) = fld st) (xs : List α) (st : σ) (i : Int) :
    fld (indexedLoop body st i xs) = fld st := by
  induction xs generalizing st i with
  | nil => rfl
  | cons x rest ih =>
    simp only [indexedLoop]
    rw [ih, hbody]

/-- An index list to which the body appends `i` exactly when `P st xs[i]` holds, where
the truth of `P` is not changed by the body, collects exactly the indices of the
elements satisfying `P`. -/
theorem indexedLoop_mem {σ α : Type} (body : σ → Int → α → σ) (sel : σ → List Int)
    (P : σ → α → Prop)
    (hP : ∀ st i x y, P (body st i x) y ↔ P st y)
    (hyes : ∀ st i x, P st x → sel (body st i x) = sel st ++ [i])
    (hno : ∀ st i x, ¬ P st x → sel (body st i x) = sel st)
    (xs : List α) (st : σ) (i0 : Int) (j : Int) :
    j ∈ sel (indexedLoop body st i0 xs)
      ↔ j ∈ sel st ∨ ∃ (k : Nat) (x : α), xs[k]? = some x ∧ j = i0 + k ∧ P st x := by
  induction xs generalizing st i0 with
  | nil => simp [indexedLoop]
  | cons x rest ih =>
    simp only [indexedLoop]
    rw [ih]
    constructor
    · rintro (hj | ⟨k, y, hk, hjk, hy⟩)
      · by_cases hx : P st x
        · rw [hyes st i0 x hx] at hj
          rcases List.mem_append.mp hj with hj | hj
          · exact Or.inl hj
          · refine Or.inr ⟨0, x, by simp, ?_, hx⟩
            simpa using hj
        · rw [hno st i0 x hx] at hj
          exact Or.inl hj
      · refine Or.inr ⟨k + 1, y, by simpa using hk, ?_, (hP st i0 x y).mp hy⟩
        rw [hjk]; push_cast; ring
    · rintro (hj | ⟨k, y, hk, hjk, hy⟩)
      · left
        by_cases hx : P st x
        · rw [hyes st i0 x hx]; exact List.mem_append.mpr (Or.inl hj)
        · rw [hno st i0 x hx]; exact hj
      · cases k with
        | zero =>
          simp only [List.getElem?_cons_zero, Option.some.injEq] at hk
          subst hk
          left
          rw [hyes st i0 x hy]
          simp [hjk]
        | succ k =>
          right
          refine ⟨k, y, by simpa using hk, ?_, (hP st i0 x y).mpr hy⟩
          rw [hjk]; push_cast; ring

/-! ## The boundaries carried by the dense vectorizer -/

theorem ptLnVp_addKeyPoint_front (d : PtLnVp) (i : Int) (kp : KeyPoint3d) :
    (ptLnVp_addKeyPoint d i kp).frontPosIdx = d.frontPosIdx
    ∧ (ptLnVp_addKeyPoint d i kp).frontFrmIdx = d.frontFrmIdx := by
  unfold ptLnVp_addKeyPoint
  split_ifs <;> simp

theorem ptLnVp_addKeyPoints_front (kps : List KeyPoint3d) (d : PtLnVp) (i : Int) :
    (ptLnVp_addKeyPoints d i kps).frontPosIdx = d.frontPosIdx
    ∧ (ptLnVp_addKeyPoints d i kps).frontFrmIdx = d.frontFrmIdx :=
  ⟨indexedLoop_frame _ (fun d => d.frontPosIdx)
      (fun d i kp => (ptLnVp_addKeyPoint_front d i kp).1) kps d i,
   indexedLoop_frame _ (fun d => d.frontFrmIdx)
      (fun d i kp => (ptLnVp_addKeyPoint_front d i kp).2) kps d i⟩

theorem ptLnVp_addIdealLine_front (d : PtLnVp) (i : Int) (ln : IdealLine3d) :
    (ptLnVp_addIdealLine d i ln).frontPosIdx = d.frontPosIdx
    ∧ (ptLnVp_addIdealLine d i ln).frontFrmIdx = d.frontFrmIdx := by
  unfold ptLnVp_addIdealLine
  split_ifs <;> simp

theorem ptLnVp_addIdealLines_front (lns : List IdealLine3d) (d : PtLnVp) (i : Int) :
    (ptLnVp_addIdealLines d i lns).frontPosIdx = d.frontPosIdx
    ∧ (ptLnVp_addIdealLines d i lns).frontFrmIdx = d.frontFrmIdx :=
  ⟨indexedLoop_frame _ (fun d => d.frontPosIdx)
      (fun d i ln => (ptLnVp_addIdealLine_front d i ln).1) lns d i,
   indexedLoop_frame _ (fun d => d.frontFrmIdx)
      (fun d i ln => (ptLnVp_addIdealLine_front d i ln).2) lns d i⟩

theorem ptLnVp_vectorize_front (h : Helpers) (m : Map) :
    (ptLnVp_vectorize h m).frontPosIdx = frontPosIdx m.views.length ptLnVp_numPos
    ∧ (ptLnVp_vectorize h m).frontFrmIdx = frontFrmIdx m.views.length ptLnVp_numFrm := by
  simp only [ptLnVp_vectorize]
  constructor
  · rw [(ptLnVp_addIdealLines_front _ _ _).1]
    simp only []
    rw [(ptLnVp_addKeyPoints_front _ _ _).1]
  · rw [(ptLnVp_addIdealLines_front _ _ _).2]
    simp only []
    rw [(ptLnVp_addKeyPoints_front _ _ _).2]

/-- C1 (as the code computes it): writing `lastViewIdx = n - 1` for the index of the
newest of `n` views, both window selectors compute
`frontFrmIdx = max(0, lastViewIdx + 1 - numFrm)` and
`frontPosIdx = max(1, lastViewIdx + 1 - numPos)`; `adjustBundle_PtLnVp` does so with its
hard-wired `numPos = 3`, `numFrm = 5`. -/
theorem C1_window_boundaries (h : Helpers) (m : Map) (numPos numFrm : Int) :
    frontFrmIdx m.views.length numFrm
        = max 0 (((m.views.length : Int) - 1) + 1 - numFrm)
    ∧ frontPosIdx m.views.length numPos
        = max 1 (((m.views.length : Int) - 1) + 1 - numPos)
    ∧ (ptLnVp_vectorize h m).frontFrmIdx = max 0 (((m.views.length : Int) - 1) + 1 - 5)
    ∧ (ptLnVp_vectorize h m).frontPosIdx = max 1 (((m.views.length : Int) - 1) + 1 - 3) := by
  refine ⟨?_, ?_, ?_, ?_⟩
  · simp [frontFrmIdx]
  · simp [frontPosIdx]
  · rw [(ptLnVp_vectorize_front h m).2]; simp [frontFrmIdx, ptLnVp_numFrm]
  · rw [(ptLnVp_vectorize_front h m).1]; simp [frontPosIdx, ptLnVp_numPos]

/-- C1 fails as stated: with 6 views, `numPos = 3` and `numFrm = 5` the code yields
`frontFrmIdx = 1` and `frontPosIdx = 3`, not `max(0, 5 - 5) = 0` and `max(1, 5 - 3) = 2`. -/
theorem C1_counterexample :
    ¬ (frontFrmIdx 6 5 = max 0 (((6 : Int) - 1) - 5)
        ∧ frontPosIdx 6 3 = max 1 (((6 : Int) - 1) - 3)) := by
  decide

/-! ## Admission of one landmark -/

theorem observedFrom_eq (obs : List (Int × Int)) (fp : Int) :
    observedFrom obs fp = (obs.map Prod.fst).any (fun v => decide (fp ≤ v)) := by
  unfold observedFrom
  induction obs with
  | nil => rfl
  | cons o rest ih => simp [List.any_cons, ih]

theorem firstViewId_eq (obs : List (Int × Int)) :
    firstViewId obs = (obs.map Prod.fst).headD 0 := by
  cases obs <;> rfl

/-! ## The camera loop -/

/-- The camera loop after `n` rounds, started from `g`. -/
theorem addCamVertices_eq (views : List View) (front stop fp : Int) (g : Graph) :
    addCamVertices views front stop fp g
      = (List.range (stop - front).toNat).foldl
          (fun g (k : Nat) => addCamVertex views fp g (front + (k : Int))) g := rfl

/-- A closed form of the camera loop run for `n` rounds from the initial state. -/
theorem camLoop_closed (views : List View) (front fp : Int) (n : Nat) :
    (List.range n).foldl (fun g (k : Nat) => addCamVertex views fp g (front + (k : Int))) Graph.init
      = { Graph.init with
          vertex_id := (n : Int),
          vertices := (List.range n).map (fun (k : Nat) => camVertex views fp (k : Int) (front + k)),
          camvertVec := (List.range n).map (fun (k : Nat) => (k : Int)),
          camvid2fid := ((List.range n).map (fun (k : Nat) => ((k : Int), front + (k : Int)))).reverse,
          camfid2vid := ((List.range n).map (fun (k : Nat) => (front + (k : Int), (k : Int)))).reverse } := by
  induction n with
  | zero => rfl
  | succ n ih =>
    rw [List.range_succ, List.foldl_append, ih]
    simp [addCamVertex, mapSet, Graph.init, List.map_append]

theorem lookup_camfid2vid (front : Int) (n : Nat) (i : Int) :
    List.lookup i ((List.range n).map (fun (k : Nat) => (front + (k : Int), (k : Int)))).reverse
      = if front ≤ i ∧ i < front + n then some (i - front) else none := by
  induction n with
  | zero =>
    have : ¬ (front ≤ i ∧ i < front) := by omega
    simp [this]
  | succ n ih =>
    rw [List.range_succ, List.map_append, List.reverse_append]
    simp only [List.map_cons, List.map_nil, List.reverse_cons, List.reverse_nil,
      List.nil_append, List.singleton_append]
    by_cases h : i = front + (n : Int)
    · subst h
      simp
    · rw [List.lookup_cons]
      have hb : (i == front + (n : Int)) = false := by simpa using h
      rw [hb, ih]
      by_cases h1 : front ≤ i ∧ i < front + (n : Int)
      · have h2 : front ≤ i ∧ i < front + ((n + 1 : Nat) : Int) := by
          push_cast; omega
        rw [if_pos h1, if_pos h2]
      · have h2 : ¬ (front ≤ i ∧ i < front + ((n + 1 : Nat) : Int)) := by
          push_cast; omega
        rw [if_neg h1, if_neg h2]

theorem findVertex_camVertices (views : List View) (front fp : Int) (n : Nat) (id : Int) :
    findVertex ((List.range n).map (fun (k : Nat) => camVertex views fp (k : Int) (front + k))) id
      = if 0 ≤ id ∧ id < n then some (camVertex views fp id (front + id)) else none := by
  induction n with
  | zero =>
    have : ¬ (0 ≤ id ∧ id < (0 : Int)) := by omega
    simp [findVertex, this]
  | succ n ih =>
    unfold findVertex at ih ⊢
    rw [List.range_succ, List.map_append, List.find?_append, ih]
    by_cases h1 : 0 ≤ id ∧ id < (n : Int)
    · have h2 : 0 ≤ id ∧ id < ((n + 1 : Nat) : Int) := by push_cast; omega
      rw [if_pos h1, if_pos h2]; rfl
    · rw [if_neg h1]
      by_cases h : id = (n : Int)
      · subst h
        have h2 : 0 ≤ (n : Int) ∧ (n : Int) < ((n + 1 : Nat) : Int) := by push_cast; omega
        rw [if_pos h2]
        simp [camVertex]
      · have h2 : ¬ (0 ≤ id ∧ id < ((n + 1 : Nat) : Int)) := by push_cast; omega
        rw [if_neg h2]
        have : ((n : Int) == id) = false := by simpa using (Ne.symm h)
        simp [camVertex, this]


theorem mapIndex_of_find (m : IntMap) (k v : Int) (h : mapFind m k = some v) :
    mapIndex m k = (v, m) := by
  unfold mapFind at h
  simp [mapIndex, h]

/-- Un-changed-record form of a camera-distance step: only `maxIters` and
`edges_camdist` move, and the step cannot fail when every camera id recorded in
`camfid2vid` is a vertex of the optimizer. -/
theorem addCamDistEdge_ok (mi : Int) (g : Graph) (c : CamDist)
    (hok : ∀ k v, mapFind g.camfid2vid k = some v → (findVertex g.vertices v).isSome) :
    ∃ mi' es, addCamDistEdge mi g c
      = Except.ok { g with maxIters := mi', edges_camdist := g.edges_camdist ++ es } := by
  unfold addCamDistEdge
  by_cases hc : ((mapFind g.camfid2vid c.a).isSome && (mapFind g.camfid2vid c.b).isSome) = true
  · rw [if_pos hc]
    simp only [Bool.and_eq_true, Option.isSome_iff_exists] at hc
    obtain ⟨⟨va, hva⟩, ⟨vb, hvb⟩⟩ := hc
    obtain ⟨xa, hxa⟩ := Option.isSome_iff_exists.mp (hok _ _ hva)
    obtain ⟨xb, hxb⟩ := Option.isSome_iff_exists.mp (hok _ _ hvb)
    simp only [mapIndex_of_find _ _ _ hva, hxa, mapIndex_of_find _ _ _ hvb, hxb]
    exact ⟨mi, _, rfl⟩
  · rw [if_neg hc]
    refine ⟨g.maxIters, [], ?_⟩
    simp

theorem addCamDistEdges_ok (mi : Int) (rows : List CamDist) (g : Graph)
    (hok : ∀ k v, mapFind g.camfid2vid k = some v → (findVertex g.vertices v).isSome) :
    ∃ mi' es, addCamDistEdges mi rows g
      = Except.ok { g with maxIters := mi', edges_camdist := g.edges_camdist ++ es } := by
  unfold addCamDistEdges
  induction rows generalizing g with
  | nil => exact ⟨g.maxIters, [], by simp [List.foldlM, pure, Except.pure]⟩
  | cons c rest ih =>
    obtain ⟨mi1, es1, h1⟩ := addCamDistEdge_ok mi g c hok
    obtain ⟨mi2, es2, h2⟩ := ih { g with maxIters := mi1, edges_camdist := g.edges_camdist ++ es1 } hok
    refine ⟨mi2, es1 ++ es2, ?_⟩
    simp only [List.foldlM, bind, Except.bind, h1]
    rw [h2]
    simp [List.append_assoc]

/-! ## Un-fixing -/

theorem findVertex_some_id (vs : List Vertex) (id : Int) (v : Vertex)
    (h : findVertex vs id = some v) : v.id = id := by
  unfold findVertex at h
  have := List.find?_some h
  simpa using this

theorem findVertex_setFixed (vs : List Vertex) (vid id : Int) (b : Bool) :
    findVertex (setFixed vs vid b) id
      = (findVertex vs id).map (fun v => if id = vid then { v with fixed := b } else v) := by
  unfold findVertex setFixed
  induction vs with
  | nil => rfl
  | cons v rest ih =>
    simp only [List.map_cons, List.find?_cons]
    by_cases hv : v.id = id
    · by_cases hvid : v.id = vid
      · have : id = vid := hv ▸ hvid
        simp [hv, hvid, this]
      · have : ¬ id = vid := fun h => hvid (hv.trans h)
        simp [hv, hvid, this]
    · have h1 : (v.id == id) = false := by simpa using hv
      have h2 : ((if (v.id == vid) = true then { v with fixed := b } else v).id == id) = false := by
        split_ifs <;> simpa using hv
      rw [h1, h2]
      exact ih

theorem findVertex_unfixAll (ids : List Int) (vs : List Vertex) (id : Int) :
    findVertex (ids.foldl (fun vs vid => setFixed vs vid false) vs) id
      = (findVertex vs id).map (fun v => if id ∈ ids then { v with fixed := false } else v) := by
  induction ids generalizing vs with
  | nil => simp
  | cons vid rest ih =>
    rw [List.foldl_cons, ih, findVertex_setFixed]
    cases findVertex vs id with
    | none => rfl
    | some v =>
      simp only [Option.map_some', List.mem_cons]
      by_cases h1 : id = vid <;> by_cases h2 : id ∈ rest <;> simp [h1, h2]

theorem unfixLoop_pos (ids : List Int) (vs : List Vertex) (i : Nat) (hi : 0 < i) :
    unfixLoop vs i ids = ids.foldl (fun vs vid => setFixed vs vid false) vs := by
  induction ids generalizing vs i with
  | nil => rfl
  | cons vid rest ih =>
    simp only [unfixLoop, List.foldl_cons, if_pos hi]
    exact ih _ _ (Nat.succ_pos i)

theorem unfixLoop_zero (ids : List Int) (vs : List Vertex) :
    unfixLoop vs 0 ids = ids.tail.foldl (fun vs vid => setFixed vs vid false) vs := by
  cases ids with
  | nil => rfl
  | cons vid rest =>
    simp only [unfixLoop, lt_irrefl, if_false, List.tail_cons]
    exact unfixLoop_pos rest vs 1 Nat.one_pos

theorem length_unfixLoop (ids : List Int) (vs : List Vertex) (i : Nat) :
    (unfixLoop vs i ids).length = vs.length := by
  induction ids generalizing vs i with
  | nil => rfl
  | cons vid rest ih =>
    simp only [unfixLoop]
    rw [ih]
    split_ifs <;> simp [setFixed]


theorem kinds_setFixed (vs : List Vertex) (vid : Int) (b : Bool) :
    (setFixed vs vid b).map (fun v => v.kind) = vs.map (fun v => v.kind) := by
  unfold setFixed
  rw [List.map_map]
  apply List.map_congr_left
  intro v _
  simp only [Function.comp]
  split_ifs <;> rfl

theorem kinds_unfixLoop (ids : List Int) (vs : List Vertex) (i : Nat) :
    (unfixLoop vs i ids).map (fun v => v.kind) = vs.map (fun v => v.kind) := by
  induction ids generalizing vs i with
  | nil => rfl
  | cons vid rest ih =>
    simp only [unfixLoop]
    rw [ih]
    split_ifs
    · exact kinds_setFixed vs vid false
    · rfl

theorem mem_tail_range (n : Nat) (id : Int) :
    id ∈ ((List.range n).map (fun (k : Nat) => (k : Int))).tail ↔ 0 < id ∧ id < n := by
  cases n with
  | zero => simp; omega
  | succ m =>
    rw [List.range_succ_eq_map]
    simp only [List.map_cons, List.tail_cons, List.map_map, List.mem_map, List.mem_range,
      Function.comp]
    constructor
    · rintro ⟨k, hk, rfl⟩
      push_cast; omega
    · rintro ⟨h0, h1⟩
      refine ⟨(id - 1).toNat, ?_, ?_⟩
      · push_cast at h1; omega
      · push_cast; omega

/-- The camera part never fails, and leaves an optimizer that holds exactly one camera
vertex per view of `front..stop-1`, with ids `0..n-1` in view order. The vertex of view
`front + id` carries the fixing flag of the camera loop unless a camera-distance edge
was added and `id > 0`, in which case it is not fixed. -/
theorem cameraPart_spec (views : List View) (front stop fp mi : Int) (rows : List CamDist) :
    ∃ (mi' : Int) (es : List Edge) (vs : List Vertex),
      cameraPart views front stop fp mi rows
        = Except.ok { Graph.init with
            vertex_id := ((stop - front).toNat : Int),
            maxIters := mi',
            vertices := vs,
            camvertVec := (List.range (stop - front).toNat).map (fun (k : Nat) => (k : Int)),
            camvid2fid := ((List.range (stop - front).toNat).map
              (fun (k : Nat) => ((k : Int), front + (k : Int)))).reverse,
            camfid2vid := ((List.range (stop - front).toNat).map
              (fun (k : Nat) => (front + (k : Int), (k : Int)))).reverse,
            edges_camdist := es }
      ∧ vs.length = (stop - front).toNat
      ∧ (∀ v ∈ vs, v.kind = VertexKind.cam)
      ∧ ∀ id : Int, findVertex vs id
          = if 0 ≤ id ∧ id < ((stop - front).toNat : Int) then
              some { camVertex views fp id (front + id) with
                     fixed := if es ≠ [] ∧ 0 < id then false
                              else (camVertex views fp id (front + id)).fixed }
            else none := by
  unfold cameraPart
  rw [addCamVertices_eq]
  generalize (stop - front).toNat = n
  have hcl := camLoop_closed views front fp n
  have hok : ∀ k v,
      mapFind ((List.range n).foldl
        (fun g (k : Nat) => addCamVertex views fp g (front + (k : Int))) Graph.init).camfid2vid k
        = some v →
      (findVertex ((List.range n).foldl
        (fun g (k : Nat) => addCamVertex views fp g (front + (k : Int))) Graph.init).vertices
        v).isSome := by
    intro k v hkv
    rw [hcl] at hkv ⊢
    simp only [mapFind, lookup_camfid2vid] at hkv
    simp only [findVertex_camVertices]
    split_ifs at hkv with h1
    have hv : v = k - front := by simpa using hkv.symm
    have h2 : 0 ≤ v ∧ v < (n : Int) := by omega
    rw [if_pos h2]; rfl
  obtain ⟨mi', es, hes⟩ := addCamDistEdges_ok mi rows _ hok
  rw [hes, hcl]
  by_cases hne : es = []
  · subst hne
    refine ⟨mi', [], (List.range n).map
        (fun (k : Nat) => camVertex views fp (k : Int) (front + k)), ?_, ?_, ?_, ?_⟩
    · simp [unfixCams, Graph.init]
    · simp
    · intro v hv
      obtain ⟨k, _, rfl⟩ := List.mem_map.mp hv
      rfl
    · intro id
      rw [findVertex_camVertices]
      simp
  · have hpos : 0 < es.length := List.length_pos.mpr hne
    refine ⟨mi', es, unfixLoop ((List.range n).map
        (fun (k : Nat) => camVertex views fp (k : Int) (front + k))) 0
        ((List.range n).map (fun (k : Nat) => (k : Int))), ?_, ?_, ?_, ?_⟩
    · simp [unfixCams, Graph.init, hpos]
    · rw [length_unfixLoop]; simp
    · intro v hv
      have hk : v.kind ∈ (unfixLoop ((List.range n).map
          (fun (k : Nat) => camVertex views fp (k : Int) (front + k))) 0
          ((List.range n).map (fun (k : Nat) => (k : Int)))).map (fun v => v.kind) :=
        List.mem_map.mpr ⟨v, hv, rfl⟩
      rw [kinds_unfixLoop, List.map_map] at hk
      obtain ⟨k, _, hk⟩ := List.mem_map.mp hk
      rw [← hk]; rfl
    · intro id
      rw [unfixLoop_zero, findVertex_unfixAll, findVertex_camVertices]
      by_cases h1 : 0 ≤ id ∧ id < (n : Int)
      · simp only [if_pos h1, Option.map_some', mem_tail_range]
        by_cases h2 : 0 < id
        · have : 0 < id ∧ id < (n : Int) := ⟨h2, h1.2⟩
          simp [this, h2, hne]
        · have : ¬ (0 < id ∧ id < (n : Int)) := fun h => h2 h.1
          simp [this, h2]
      · simp [h1]

/-! ## Structure vertices -/

/-- A property of the state that every loop body preserves holds after the loop. -/
theorem indexedLoop_inv {σ α : Type} (body : σ → Int → α → σ) (I : σ → Prop)
    (hbody : ∀ st i x, I st → I (body st i x)) (xs : List α) (st : σ) (i : Int)
    (h : I st) : I (indexedLoop body st i xs) := by
  induction xs generalizing st i with
  | nil => exact h
  | cons x rest ih => exact ih _ _ (hbody st i x h)

theorem observedFrom_iff (obs : List (Int × Int)) (fp : Int) :
    observedFrom obs fp = true ↔ ∃ o ∈ obs, fp ≤ o.1 := by
  simp [observedFrom, List.any_eq_true]

theorem countKind_append (k : VertexKind) (vs : List Vertex) (v : Vertex) :
    countKind k (vs ++ [v]) = countKind k vs + if v.kind = k then 1 else 0 := by
  unfold countKind
  rw [List.countP_append]
  by_cases h : v.kind = k <;> simp [List.countP_cons, h]

/-- What the key-point body does, case by case. -/
theorem addKeyPoint_cases (fp ff nw : Int) (g : Graph) (i : Int) (kp : KeyPoint3d) :
    let adm := kp.is3D = true ∧ 0 ≤ kp.gid ∧ ∃ o ∈ kp.viewId_ptLid, fp ≤ o.1
    let fix := firstViewId kp.viewId_ptLid < ff ∧ kp.estViewId < nw ∧ g.edges_camdist = []
    (¬ adm → addKeyPoint fp ff nw g i kp = g)
    ∧ (adm → fix → addKeyPoint fp ff nw g i kp =
        { g with
          vertices := g.vertices ++
            [{ id := g.vertex_id, kind := VertexKind.point, fixed := true,
               marginalized := true, estimate := Estimate.vec ⟨kp.x, kp.y, kp.z⟩ }],
          kptIdx2Rpj_notOpt := g.kptIdx2Rpj_notOpt ++ [i],
          ptgid2vid := mapSet g.ptgid2vid kp.gid g.vertex_id,
          ptvid2gid := mapSet g.ptvid2gid g.vertex_id kp.gid,
          vertex_id := g.vertex_id + 1 })
    ∧ (adm → ¬ fix → addKeyPoint fp ff nw g i kp =
        { g with
          vertices := g.vertices ++
            [{ id := g.vertex_id, kind := VertexKind.point, fixed := false,
               marginalized := true, estimate := Estimate.vec ⟨kp.x, kp.y, kp.z⟩ }],
          kptIdx2Opt := g.kptIdx2Opt ++ [i],
          ptvertVec := g.ptvertVec ++ [g.vertex_id],
          ptgid2vid := mapSet g.ptgid2vid kp.gid g.vertex_id,
          ptvid2gid := mapSet g.ptvid2gid g.vertex_id kp.gid,
          vertex_id := g.vertex_id + 1 }) := by
  intro adm fix
  refine ⟨?_, ?_, ?_⟩
  · intro h
    simp only [adm, ← observedFrom_iff] at h
    unfold addKeyPoint
    by_cases h3 : kp.is3D = true <;> by_cases hg : kp.gid < 0 <;>
      by_cases ho : observedFrom kp.viewId_ptLid fp = true <;> simp_all
  · intro ha hf
    simp only [adm, ← observedFrom_iff] at ha
    obtain ⟨h3, hg, ho⟩ := ha
    obtain ⟨h1, h2, h4⟩ := hf
    have hg' : ¬ kp.gid < 0 := not_lt.mpr hg
    simp [addKeyPoint, h3, hg', ho, h1, h2, h4]
  · intro ha hf
    simp only [adm, ← observedFrom_iff] at ha
    obtain ⟨h3, hg, ho⟩ := ha
    have hg' : ¬ kp.gid < 0 := not_lt.mpr hg
    simp [addKeyPoint, h3, hg', ho]
    intro a b c
    exact hf ⟨a, b, c⟩


/-- What the vanishing-point body does, case by case. -/
theorem addVanishingPoint_cases (fp : Int) (g : Graph) (i : Int) (vp : VanishPnt3d) :
    (¬ (∃ o ∈ vp.viewId_vpLid, fp ≤ o.1) → addVanishingPoint fp g i vp = g)
    ∧ ((∃ o ∈ vp.viewId_vpLid, fp ≤ o.1) → addVanishingPoint fp g i vp =
        { g with
          vpIdx2Opt := g.vpIdx2Opt ++ [i],
          vertices := g.vertices ++
            [{ id := g.vertex_id, kind := VertexKind.vnpt, fixed := false,
               marginalized := false, estimate := Estimate.vec ⟨vp.x, vp.y, vp.z⟩ }],
          vpvertVec := g.vpvertVec ++ [g.vertex_id],
          vpvid2gid := mapSet g.vpvid2gid g.vertex_id vp.gid,
          vpgid2vid := mapSet g.vpgid2vid vp.gid g.vertex_id,
          vertex_id := g.vertex_id + 1 }) := by
  constructor
  · intro h
    rw [← observedFrom_iff] at h
    simp [addVanishingPoint, h]
  · intro h
    rw [← observedFrom_iff] at h
    simp [addVanishingPoint, h]

/-- What the ideal-line body does, case by case. -/
theorem addIdealLine_cases (cdt : Bool) (fp ff nw : Int) (g : Graph) (i : Int)
    (ln : IdealLine3d) :
    let adm := ln.is3D = true ∧ 0 ≤ ln.gid ∧ ∃ o ∈ ln.viewId_lnLid, fp ≤ o.1
    let fix := firstViewId ln.viewId_lnLid < ff ∧ ln.estViewId < nw
      ∧ (cdt = true → g.edges_camdist = [])
    (¬ adm → addIdealLine cdt fp ff nw g i ln = g)
    ∧ (adm → fix → addIdealLine cdt fp ff nw g i ln =
        { g with
          vertices := g.vertices ++
            [{ id := g.vertex_id, kind := VertexKind.lnpt, fixed := true,
               marginalized := false, estimate := Estimate.vec ln.midpt }],
          lngid2vid := mapSet g.lngid2vid ln.gid g.vertex_id,
          lnvid2gid := mapSet g.lnvid2gid g.vertex_id ln.gid,
          lnIdx2Rpj_notOpt := g.lnIdx2Rpj_notOpt ++ [i],
          vertex_id := g.vertex_id + 1 })
    ∧ (adm → ¬ fix → addIdealLine cdt fp ff nw g i ln =
        { g with
          vertices := g.vertices ++
            [{ id := g.vertex_id, kind := VertexKind.lnpt, fixed := false,
               marginalized := false, estimate := Estimate.vec ln.midpt }],
          lngid2vid := mapSet g.lngid2vid ln.gid g.vertex_id,
          lnvid2gid := mapSet g.lnvid2gid g.vertex_id ln.gid,
          lnIdx2Opt := g.lnIdx2Opt ++ [i],
          lnvertVec := g.lnvertVec ++ [g.vertex_id],
          vertex_id := g.vertex_id + 1 }) := by
  intro adm fix
  refine ⟨?_, ?_, ?_⟩
  · intro h
    simp only [adm, ← observedFrom_iff] at h
    unfold addIdealLine
    by_cases h3 : ln.is3D = true <;> by_cases hg : ln.gid < 0 <;>
      by_cases ho : observedFrom ln.viewId_lnLid fp = true <;> simp_all
  · intro ha hf
    simp only [adm, ← observedFrom_iff] at ha
    obtain ⟨h3, hg, ho⟩ := ha
    obtain ⟨h1, h2, h4⟩ := hf
    have hg' : ¬ ln.gid < 0 := not_lt.mpr hg
    cases cdt with
    | false => simp [addIdealLine, h3, hg', ho, h1, h2]
    | true => simp [addIdealLine, h3, hg', ho, h1, h2, h4 rfl]
  · intro ha hf
    simp only [adm, ← observedFrom_iff] at ha
    obtain ⟨h3, hg, ho⟩ := ha
    have hg' : ¬ ln.gid < 0 := not_lt.mpr hg
    cases cdt with
    | false =>
      simp [addIdealLine, h3, hg', ho]
      intro a
      by_contra b
      exact hf ⟨a, not_le.mp b, fun hc => by cases hc⟩
    | true =>
      simp [addIdealLine, h3, hg', ho]
      intro a b c
      exact hf ⟨a, b, fun _ => c⟩

/-- What the primary-plane body does. -/
theorem addPrimaryPlane_cases (fp nw : Int) (g : Graph) (i : Int) (pl : PrimaryPlane3d) :
    addPrimaryPlane fp nw g i pl = g
    ∨ addPrimaryPlane fp nw g i pl =
        { g with
          vertices := g.vertices ++
            [{ id := g.vertex_id, kind := VertexKind.plane,
               fixed := decide (pl.estViewId < fp), marginalized := false,
               estimate := Estimate.vec ⟨pl.n.x / pl.d, pl.n.y / pl.d, pl.n.z / pl.d⟩ }],
          plgid2vid := mapSet g.plgid2vid i g.vertex_id,
          plvid2gid := mapSet g.plvid2gid g.vertex_id i,
          plIdx2Opt := g.plIdx2Opt ++ [i],
          plvertVec := g.plvertVec ++ [g.vertex_id],
          vertex_id := g.vertex_id + 1 } := by
  unfold addPrimaryPlane
  split_ifs
  · exact Or.inl rfl
  · exact Or.inl rfl
  · exact Or.inr rfl


theorem addKeyPoint_camFields (fp ff nw : Int) (g : Graph) (i : Int) (kp : KeyPoint3d) :
    camFields (addKeyPoint fp ff nw g i kp) = camFields g := by
  unfold addKeyPoint camFields
  split_ifs <;> rfl

theorem addVanishingPoint_camFields (fp : Int) (g : Graph) (i : Int) (vp : VanishPnt3d) :
    camFields (addVanishingPoint fp g i vp) = camFields g := by
  unfold addVanishingPoint camFields
  split_ifs <;> rfl

theorem addIdealLine_camFields (cdt : Bool) (fp ff nw : Int) (g : Graph) (i : Int)
    (ln : IdealLine3d) :
    camFields (addIdealLine cdt fp ff nw g i ln) = camFields g := by
  unfold addIdealLine camFields
  split_ifs <;> rfl

theorem addPrimaryPlane_camFields (fp nw : Int) (g : Graph) (i : Int) (pl : PrimaryPlane3d) :
    camFields (addPrimaryPlane fp nw g i pl) = camFields g := by
  unfold addPrimaryPlane camFields
  split_ifs <;> rfl

/-- The structure loops leave the camera bookkeeping and the camera-distance edges as
the camera part built them. -/
theorem addStructure_camFields (cdt : Bool) (fp ff nw : Int) (m : Map) (g : Graph) :
    camFields (addStructure cdt fp ff nw m g) = camFields g := by
  unfold addStructure addPrimaryPlanes addIdealLines addVanishingPoints addKeyPoints
  simp only []
  rw [indexedLoop_frame _ camFields (addPrimaryPlane_camFields fp nw),
    indexedLoop_frame _ camFields (addIdealLine_camFields cdt fp ff nw),
    indexedLoop_frame _ camFields (addVanishingPoint_camFields fp),
    indexedLoop_frame _ camFields (addKeyPoint_camFields fp ff nw)]

theorem vecAt_exists_iff {α : Type} (xs : List α) (i : Int) (x : α) (P : α → Prop)
    (h : vecAt xs i = some x) :
    (∃ (k : Nat) (y : α), xs[k]? = some y ∧ i = 0 + (k : Int) ∧ P y) ↔ P x := by
  unfold vecAt at h
  split_ifs at h with hneg
  constructor
  · rintro ⟨k, y, hk, hik, hy⟩
    have : i.toNat = k := by omega
    rw [this, hk] at h
    cases h
    exact hy
  · intro hx
    exact ⟨i.toNat, x, h, by omega, hx⟩

/-- The key-point loop: which indices end on which list. -/
theorem addKeyPoints_mem (fp ff nw : Int) (kps : List KeyPoint3d) (g : Graph) (j : Int) :
    (j ∈ (addKeyPoints fp ff nw g 0 kps).kptIdx2Rpj_notOpt
      ↔ j ∈ g.kptIdx2Rpj_notOpt ∨ ∃ (k : Nat) (kp : KeyPoint3d), kps[k]? = some kp
          ∧ j = 0 + (k : Int)
          ∧ ((kp.is3D = true ∧ 0 ≤ kp.gid ∧ ∃ o ∈ kp.viewId_ptLid, fp ≤ o.1)
            ∧ (firstViewId kp.viewId_ptLid < ff ∧ kp.estViewId < nw
                ∧ g.edges_camdist = [])))
    ∧ (j ∈ (addKeyPoints fp ff nw g 0 kps).kptIdx2Opt
      ↔ j ∈ g.kptIdx2Opt ∨ ∃ (k : Nat) (kp : KeyPoint3d), kps[k]? = some kp
          ∧ j = 0 + (k : Int)
          ∧ ((kp.is3D = true ∧ 0 ≤ kp.gid ∧ ∃ o ∈ kp.viewId_ptLid, fp ≤ o.1)
            ∧ ¬ (firstViewId kp.viewId_ptLid < ff ∧ kp.estViewId < nw
                ∧ g.edges_camdist = []))) := by
  have hcd : ∀ (st : Graph) (i : Int) (x : KeyPoint3d),
      (addKeyPoint fp ff nw st i x).edges_camdist = st.edges_camdist := fun st i x =>
    congrArg (fun t => t.2.2.2.1) (addKeyPoint_camFields fp ff nw st i x)
  constructor
  · refine indexedLoop_mem (addKeyPoint fp ff nw) (fun g => g.kptIdx2Rpj_notOpt)
      (fun st kp => (kp.is3D = true ∧ 0 ≤ kp.gid ∧ ∃ o ∈ kp.viewId_ptLid, fp ≤ o.1)
        ∧ (firstViewId kp.viewId_ptLid < ff ∧ kp.estViewId < nw ∧ st.edges_camdist = []))
      ?_ ?_ ?_ kps g 0 j
    · intro st i x y; simp only [hcd]
    · intro st i x hx
      rw [(addKeyPoint_cases fp ff nw st i x).2.1 hx.1 hx.2]
    · intro st i x hx
      by_cases ha : (x.is3D = true ∧ 0 ≤ x.gid ∧ ∃ o ∈ x.viewId_ptLid, fp ≤ o.1)
      · rw [(addKeyPoint_cases fp ff nw st i x).2.2 ha (fun hf => hx ⟨ha, hf⟩)]
      · rw [(addKeyPoint_cases fp ff nw st i x).1 ha]
  · refine indexedLoop_mem (addKeyPoint fp ff nw) (fun g => g.kptIdx2Opt)
      (fun st kp => (kp.is3D = true ∧ 0 ≤ kp.gid ∧ ∃ o ∈ kp.viewId_ptLid, fp ≤ o.1)
        ∧ ¬ (firstViewId kp.viewId_ptLid < ff ∧ kp.estViewId < nw ∧ st.edges_camdist = []))
      ?_ ?_ ?_ kps g 0 j
    · intro st i x y; simp only [hcd]
    · intro st i x hx
      rw [(addKeyPoint_cases fp ff nw st i x).2.2 hx.1 hx.2]
    · intro st i x hx
      by_cases ha : (x.is3D = true ∧ 0 ≤ x.gid ∧ ∃ o ∈ x.viewId_ptLid, fp ≤ o.1)
      · have hf : firstViewId x.viewId_ptLid < ff ∧ x.estViewId < nw
            ∧ st.edges_camdist = [] := by
          by_contra hc
          exact hx ⟨ha, hc⟩
        rw [(addKeyPoint_cases fp ff nw st i x).2.1 ha hf]
      · rw [(addKeyPoint_cases fp ff nw st i x).1 ha]

/-- The vanishing-point loop: which indices end on `vpIdx2Opt`. -/
theorem addVanishingPoints_mem (fp : Int) (vps : List VanishPnt3d) (g : Graph) (j : Int) :
    j ∈ (addVanishingPoints fp g 0 vps).vpIdx2Opt
      ↔ j ∈ g.vpIdx2Opt ∨ ∃ (k : Nat) (vp : VanishPnt3d), vps[k]? = some vp
          ∧ j = 0 + (k : Int) ∧ ∃ o ∈ vp.viewId_vpLid, fp ≤ o.1 := by
  refine indexedLoop_mem (addVanishingPoint fp) (fun g => g.vpIdx2Opt)
    (fun _ vp => ∃ o ∈ vp.viewId_vpLid, fp ≤ o.1) ?_ ?_ ?_ vps g 0 j
  · intro st i x y; rfl
  · intro st i x hx
    rw [(addVanishingPoint_cases fp st i x).2 hx]
  · intro st i x hx
    rw [(addVanishingPoint_cases fp st i x).1 hx]

/-- The ideal-line loop: which indices end on which list. -/
theorem addIdealLines_mem (cdt : Bool) (fp ff nw : Int) (lns : List IdealLine3d) (g : Graph)
    (j : Int) :
    (j ∈ (addIdealLines cdt fp ff nw g 0 lns).lnIdx2Rpj_notOpt
      ↔ j ∈ g.lnIdx2Rpj_notOpt ∨ ∃ (k : Nat) (ln : IdealLine3d), lns[k]? = some ln
          ∧ j = 0 + (k : Int)
          ∧ ((ln.is3D = true ∧ 0 ≤ ln.gid ∧ ∃ o ∈ ln.viewId_lnLid, fp ≤ o.1)
            ∧ (firstViewId ln.viewId_lnLid < ff ∧ ln.estViewId < nw
                ∧ (cdt = true → g.edges_camdist = []))))
    ∧ (j ∈ (addIdealLines cdt fp ff nw g 0 lns).lnIdx2Opt
      ↔ j ∈ g.lnIdx2Opt ∨ ∃ (k : Nat) (ln : IdealLine3d), lns[k]? = some ln
          ∧ j = 0 + (k : Int)
          ∧ ((ln.is3D = true ∧ 0 ≤ ln.gid ∧ ∃ o ∈ ln.viewId_lnLid, fp ≤ o.1)
            ∧ ¬ (firstViewId ln.viewId_lnLid < ff ∧ ln.estViewId < nw
                ∧ (cdt = true → g.edges_camdist = [])))) := by
  have hcd : ∀ (st : Graph) (i : Int) (x : IdealLine3d),
      (addIdealLine cdt fp ff nw st i x).edges_camdist = st.edges_camdist := fun st i x =>
    congrArg (fun t => t.2.2.2.1) (addIdealLine_camFields cdt fp ff nw st i x)
  constructor
  · refine indexedLoop_mem (addIdealLine cdt fp ff nw) (fun g => g.lnIdx2Rpj_notOpt)
      (fun st ln => (ln.is3D = true ∧ 0 ≤ ln.gid ∧ ∃ o ∈ ln.viewId_lnLid, fp ≤ o.1)
        ∧ (firstViewId ln.viewId_lnLid < ff ∧ ln.estViewId < nw
            ∧ (cdt = true → st.edges_camdist = [])))
      ?_ ?_ ?_ lns g 0 j
    · intro st i x y; simp only [hcd]
    · intro st i x hx
      rw [(addIdealLine_cases cdt fp ff nw st i x).2.1 hx.1 hx.2]
    · intro st i x hx
      by_cases ha : (x.is3D = true ∧ 0 ≤ x.gid ∧ ∃ o ∈ x.viewId_lnLid, fp ≤ o.1)
      · rw [(addIdealLine_cases cdt fp ff nw st i x).2.2 ha (fun hf => hx ⟨ha, hf⟩)]
      · rw [(addIdealLine_cases cdt fp ff nw st i x).1 ha]
  · refine indexedLoop_mem (addIdealLine cdt fp ff nw) (fun g => g.lnIdx2Opt)
      (fun st ln => (ln.is3D = true ∧ 0 ≤ ln.gid ∧ ∃ o ∈ ln.viewId_lnLid, fp ≤ o.1)
        ∧ ¬ (firstViewId ln.viewId_lnLid < ff ∧ ln.estViewId < nw
            ∧ (cdt = true → st.edges_camdist = [])))
      ?_ ?_ ?_ lns g 0 j
    · intro st i x y; simp only [hcd]
    · intro st i x hx
      rw [(addIdealLine_cases cdt fp ff nw st i x).2.2 hx.1 hx.2]
    · intro st i x hx
      by_cases ha : (x.is3D = true ∧ 0 ≤ x.gid ∧ ∃ o ∈ x.viewId_lnLid, fp ≤ o.1)
      · have hf : firstViewId x.viewId_lnLid < ff ∧ x.estViewId < nw
            ∧ (cdt = true → st.edges_camdist = []) := by
          by_contra hc
          exact hx ⟨ha, hc⟩
        rw [(addIdealLine_cases cdt fp ff nw st i x).2.1 ha hf]
      · rw [(addIdealLine_cases cdt fp ff nw st i x).1 ha]

/-! ### Index lists a loop does not write -/

theorem addVanishingPoint_kpt (fp : Int) (g : Graph) (i : Int) (vp : VanishPnt3d) :
    ((addVanishingPoint fp g i vp).kptIdx2Opt, (addVanishingPoint fp g i vp).kptIdx2Rpj_notOpt)
      = (g.kptIdx2Opt, g.kptIdx2Rpj_notOpt) := by
  unfold addVanishingPoint
  split_ifs <;> rfl

theorem addIdealLine_kpt_vp (cdt : Bool) (fp ff nw : Int) (g : Graph) (i : Int)
    (ln : IdealLine3d) :
    ((addIdealLine cdt fp ff nw g i ln).kptIdx2Opt,
      (addIdealLine cdt fp ff nw g i ln).kptIdx2Rpj_notOpt,
      (addIdealLine cdt fp ff nw g i ln).vpIdx2Opt)
      = (g.kptIdx2Opt, g.kptIdx2Rpj_notOpt, g.vpIdx2Opt) := by
  unfold addIdealLine
  split_ifs <;> rfl

theorem addPrimaryPlane_kpt_vp_ln (fp nw : Int) (g : Graph) (i : Int) (pl : PrimaryPlane3d) :
    ((addPrimaryPlane fp nw g i pl).kptIdx2Opt, (addPrimaryPlane fp nw g i pl).kptIdx2Rpj_notOpt,
      (addPrimaryPlane fp nw g i pl).vpIdx2Opt, (addPrimaryPlane fp nw g i pl).lnIdx2Opt,
      (addPrimaryPlane fp nw g i pl).lnIdx2Rpj_notOpt)
      = (g.kptIdx2Opt, g.kptIdx2Rpj_notOpt, g.vpIdx2Opt, g.lnIdx2Opt, g.lnIdx2Rpj_notOpt) := by
  unfold addPrimaryPlane
  split_ifs <;> rfl

theorem addKeyPoint_vp_ln (fp ff nw : Int) (g : Graph) (i : Int) (kp : KeyPoint3d) :
    ((addKeyPoint fp ff nw g i kp).vpIdx2Opt, (addKeyPoint fp ff nw g i kp).lnIdx2Opt,
      (addKeyPoint fp ff nw g i kp).lnIdx2Rpj_notOpt)
      = (g.vpIdx2Opt, g.lnIdx2Opt, g.lnIdx2Rpj_notOpt) := by
  unfold addKeyPoint
  split_ifs <;> rfl

theorem addVanishingPoint_ln (fp : Int) (g : Graph) (i : Int) (vp : VanishPnt3d) :
    ((addVanishingPoint fp g i vp).lnIdx2Opt, (addVanishingPoint fp g i vp).lnIdx2Rpj_notOpt)
      = (g.lnIdx2Opt, g.lnIdx2Rpj_notOpt) := by
  unfold addVanishingPoint
  split_ifs <;> rfl

/-- The index lists of the structure part, for a start state `g` whose index lists are
empty: index `i` of a key point or ideal line is listed as fixed (`..Rpj_notOpt`) or free
(`..Opt`) according to the admission test and the fixing test of the loop body, and a
vanishing point is listed when it is observed from `frontPosIdx` on. -/
theorem addStructure_mem (cdt : Bool) (fp ff nw : Int) (m : Map) (g : Graph)
    (hk1 : g.kptIdx2Opt = []) (hk2 : g.kptIdx2Rpj_notOpt = []) (hv : g.vpIdx2Opt = [])
    (hl1 : g.lnIdx2Opt = []) (hl2 : g.lnIdx2Rpj_notOpt = []) :
    (∀ i kp, vecAt m.keyPoints i = some kp →
      (i ∈ (addStructure cdt fp ff nw m g).kptIdx2Rpj_notOpt
        ↔ (kp.is3D = true ∧ 0 ≤ kp.gid ∧ ∃ o ∈ kp.viewId_ptLid, fp ≤ o.1)
          ∧ (firstViewId kp.viewId_ptLid < ff ∧ kp.estViewId < nw ∧ g.edges_camdist = []))
      ∧ (i ∈ (addStructure cdt fp ff nw m g).kptIdx2Opt
        ↔ (kp.is3D = true ∧ 0 ≤ kp.gid ∧ ∃ o ∈ kp.viewId_ptLid, fp ≤ o.1)
          ∧ ¬ (firstViewId kp.viewId_ptLid < ff ∧ kp.estViewId < nw
                ∧ g.edges_camdist = [])))
    ∧ (∀ i vp, vecAt m.vanishingPoints i = some vp →
      (i ∈ (addStructure cdt fp ff nw m g).vpIdx2Opt ↔ ∃ o ∈ vp.viewId_vpLid, fp ≤ o.1))
    ∧ (∀ i ln, vecAt m.idealLines i = some ln →
      (i ∈ (addStructure cdt fp ff nw m g).lnIdx2Rpj_notOpt
        ↔ (ln.is3D = true ∧ 0 ≤ ln.gid ∧ ∃ o ∈ ln.viewId_lnLid, fp ≤ o.1)
          ∧ (firstViewId ln.viewId_lnLid < ff ∧ ln.estViewId < nw
              ∧ (cdt = true → g.edges_camdist = [])))
      ∧ (i ∈ (addStructure cdt fp ff nw m g).lnIdx2Opt
        ↔ (ln.is3D = true ∧ 0 ≤ ln.gid ∧ ∃ o ∈ ln.viewId_lnLid, fp ≤ o.1)
          ∧ ¬ (firstViewId ln.viewId_lnLid < ff ∧ ln.estViewId < nw
                ∧ (cdt = true → g.edges_camdist = [])))) := by
  -- the four intermediate states
  let g1 := addKeyPoints fp ff nw g 0 m.keyPoints
  let g2 := addVanishingPoints fp g1 0 m.vanishingPoints
  let g3 := addIdealLines cdt fp ff nw g2 0 m.idealLines
  have hfin : addStructure cdt fp ff nw m g = addPrimaryPlanes fp nw g3 0 m.primaryPlanes := rfl
  have e4 := indexedLoop_frame (addPrimaryPlane fp nw)
    (fun g => (g.kptIdx2Opt, g.kptIdx2Rpj_notOpt, g.vpIdx2Opt, g.lnIdx2Opt, g.lnIdx2Rpj_notOpt))
    (addPrimaryPlane_kpt_vp_ln fp nw) m.primaryPlanes g3 0
  have e3 := indexedLoop_frame (addIdealLine cdt fp ff nw)
    (fun g => (g.kptIdx2Opt, g.kptIdx2Rpj_notOpt, g.vpIdx2Opt))
    (addIdealLine_kpt_vp cdt fp ff nw) m.idealLines g2 0
  have e2 := indexedLoop_frame (addVanishingPoint fp)
    (fun g => (g.kptIdx2Opt, g.kptIdx2Rpj_notOpt))
    (addVanishingPoint_kpt fp) m.vanishingPoints g1 0
  have e2l := indexedLoop_frame (addVanishingPoint fp)
    (fun g => (g.lnIdx2Opt, g.lnIdx2Rpj_notOpt))
    (addVanishingPoint_ln fp) m.vanishingPoints g1 0
  have e1 := indexedLoop_frame (addKeyPoint fp ff nw)
    (fun g => (g.vpIdx2Opt, g.lnIdx2Opt, g.lnIdx2Rpj_notOpt))
    (addKeyPoint_vp_ln fp ff nw) m.keyPoints g 0
  have c1 : camFields g1 = camFields g :=
    indexedLoop_frame _ camFields (addKeyPoint_camFields fp ff nw) m.keyPoints g 0
  have c2 : camFields g2 = camFields g1 :=
    indexedLoop_frame _ camFields (addVanishingPoint_camFields fp) m.vanishingPoints g1 0
  have hcd2 : g2.edges_camdist = g.edges_camdist := by
    have := congrArg (fun t => t.2.2.2.1) (c2.trans c1)
    exact this
  simp only [Prod.mk.injEq] at e1 e2 e2l e3 e4
  have k1 : (addStructure cdt fp ff nw m g).kptIdx2Opt
      = (addKeyPoints fp ff nw g 0 m.keyPoints).kptIdx2Opt :=
    e4.1.trans (e3.1.trans e2.1)
  have k2 : (addStructure cdt fp ff nw m g).kptIdx2Rpj_notOpt
      = (addKeyPoints fp ff nw g 0 m.keyPoints).kptIdx2Rpj_notOpt :=
    e4.2.1.trans (e3.2.1.trans e2.2)
  have v1 : (addStructure cdt fp ff nw m g).vpIdx2Opt
      = (addVanishingPoints fp g1 0 m.vanishingPoints).vpIdx2Opt :=
    e4.2.2.1.trans e3.2.2
  have l1 : (addStructure cdt fp ff nw m g).lnIdx2Opt
      = (addIdealLines cdt fp ff nw g2 0 m.idealLines).lnIdx2Opt := e4.2.2.2.1
  have l2 : (addStructure cdt fp ff nw m g).lnIdx2Rpj_notOpt
      = (addIdealLines cdt fp ff nw g2 0 m.idealLines).lnIdx2Rpj_notOpt := e4.2.2.2.2
  have hv1 : g1.vpIdx2Opt = [] := e1.1.trans hv
  have hl1' : g2.lnIdx2Opt = [] := e2l.1.trans (e1.2.1.trans hl1)
  have hl2' : g2.lnIdx2Rpj_notOpt = [] := e2l.2.trans (e1.2.2.trans hl2)
  refine ⟨?_, ?_, ?_⟩
  · intro i kp hi
    have hm := addKeyPoints_mem fp ff nw m.keyPoints g i
    rw [k1, k2, hm.1, hm.2, hk1, hk2]
    simp only [List.not_mem_nil, false_or]
    exact ⟨vecAt_exists_iff m.keyPoints i kp _ hi, vecAt_exists_iff m.keyPoints i kp _ hi⟩
  · intro i vp hi
    have hm := addVanishingPoints_mem fp m.vanishingPoints g1 i
    rw [v1, hm, hv1]
    simp only [List.not_mem_nil, false_or]
    exact vecAt_exists_iff m.vanishingPoints i vp _ hi
  · intro i ln hi
    have hm := addIdealLines_mem cdt fp ff nw m.idealLines g2 i
    rw [l1, l2, hm.1, hm.2, hl1', hl2', hcd2]
    simp only [List.not_mem_nil, false_or]
    exact ⟨vecAt_exists_iff m.idealLines i ln _ hi, vecAt_exists_iff m.idealLines i ln _ hi⟩

theorem addKeyPoint_vertexPerIndex (fp ff nw : Int) (g : Graph) (i : Int) (kp : KeyPoint3d)
    (h : VertexPerIndex g) : VertexPerIndex (addKeyPoint fp ff nw g i kp) := by
  obtain ⟨h0, h1, h2⟩ := addKeyPoint_cases fp ff nw g i kp
  unfold VertexPerIndex at h ⊢
  by_cases ha : (kp.is3D = true ∧ 0 ≤ kp.gid ∧ ∃ o ∈ kp.viewId_ptLid, fp ≤ o.1)
  · by_cases hf : (firstViewId kp.viewId_ptLid < ff ∧ kp.estViewId < nw ∧ g.edges_camdist = [])
    · rw [h1 ha hf]
      simp only [countKind_append, List.length_append, List.length_singleton]
      simp
      omega
    · rw [h2 ha hf]
      simp only [countKind_append, List.length_append, List.length_singleton]
      simp
      omega
  · rw [h0 ha]; exact h

theorem addVanishingPoint_vertexPerIndex (fp : Int) (g : Graph) (i : Int) (vp : VanishPnt3d)
    (h : VertexPerIndex g) : VertexPerIndex (addVanishingPoint fp g i vp) := by
  obtain ⟨h0, h1⟩ := addVanishingPoint_cases fp g i vp
  unfold VertexPerIndex at h ⊢
  by_cases ha : ∃ o ∈ vp.viewId_vpLid, fp ≤ o.1
  · rw [h1 ha]
    simp only [countKind_append, List.length_append, List.length_singleton]
    simp
    omega
  · rw [h0 ha]; exact h

theorem addIdealLine_vertexPerIndex (cdt : Bool) (fp ff nw : Int) (g : Graph) (i : Int)
    (ln : IdealLine3d) (h : VertexPerIndex g) :
    VertexPerIndex (addIdealLine cdt fp ff nw g i ln) := by
  obtain ⟨h0, h1, h2⟩ := addIdealLine_cases cdt fp ff nw g i ln
  unfold VertexPerIndex at h ⊢
  by_cases ha : (ln.is3D = true ∧ 0 ≤ ln.gid ∧ ∃ o ∈ ln.viewId_lnLid, fp ≤ o.1)
  · by_cases hf : (firstViewId ln.viewId_lnLid < ff ∧ ln.estViewId < nw
        ∧ (cdt = true → g.edges_camdist = []))
    · rw [h1 ha hf]
      simp only [countKind_append, List.length_append, List.length_singleton]
      simp
      omega
    · rw [h2 ha hf]
      simp only [countKind_append, List.length_append, List.length_singleton]
      simp
      omega
  · rw [h0 ha]; exact h

theorem addPrimaryPlane_vertexPerIndex (fp nw : Int) (g : Graph) (i : Int)
    (pl : PrimaryPlane3d) (h : VertexPerIndex g) :
    VertexPerIndex (addPrimaryPlane fp nw g i pl) := by
  unfold VertexPerIndex at h ⊢
  rcases addPrimaryPlane_cases fp nw g i pl with h0 | h1
  · rw [h0]; exact h
  · rw [h1]
    simp only [countKind_append]
    simp
    omega

theorem addStructure_vertexPerIndex (cdt : Bool) (fp ff nw : Int) (m : Map) (g : Graph)
    (h : VertexPerIndex g) : VertexPerIndex (addStructure cdt fp ff nw m g) := by
  unfold addStructure addPrimaryPlanes addIdealLines addVanishingPoints addKeyPoints
  simp only []
  apply indexedLoop_inv _ _ (addPrimaryPlane_vertexPerIndex fp nw)
  apply indexedLoop_inv _ _ (addIdealLine_vertexPerIndex cdt fp ff nw)
  apply indexedLoop_inv _ _ (addVanishingPoint_vertexPerIndex fp)
  apply indexedLoop_inv _ _ (addKeyPoint_vertexPerIndex fp ff nw)
  exact h

theorem countKind_cams (k : VertexKind) (hk : k ≠ VertexKind.cam) (vs : List Vertex)
    (h : ∀ v ∈ vs, v.kind = VertexKind.cam) : countKind k vs = 0 := by
  unfold countKind
  rw [List.countP_eq_zero]
  intro v hv
  have := h v hv
  simp [this, hk.symm]

/-- The structure part run on the result of the camera part: the outcome of either
G2O function's vertex construction. -/
theorem vertices_spec (cdt : Bool) (views : List View) (front stop fp ff nw mi : Int)
    (rows : List CamDist) (m : Map) :
    ∃ g0 : Graph, cameraPart views front stop fp mi rows = Except.ok g0
      ∧ g0.kptIdx2Opt = [] ∧ g0.kptIdx2Rpj_notOpt = [] ∧ g0.vpIdx2Opt = []
      ∧ g0.lnIdx2Opt = [] ∧ g0.lnIdx2Rpj_notOpt = []
      ∧ camFields (addStructure cdt fp ff nw m g0) = camFields g0
      ∧ VertexPerIndex (addStructure cdt fp ff nw m g0) := by
  obtain ⟨mi', es, vs, hg, _, hkind, _⟩ := cameraPart_spec views front stop fp mi rows
  refine ⟨_, hg, rfl, rfl, rfl, rfl, rfl, addStructure_camFields _ _ _ _ _ _, ?_⟩
  apply addStructure_vertexPerIndex
  refine ⟨?_, ?_, ?_⟩
  · simp only [Graph.init, List.length_nil, add_zero]
    exact countKind_cams _ (by decide) vs hkind
  · simp only [Graph.init, List.length_nil]
    exact countKind_cams _ (by decide) vs hkind
  · simp only [Graph.init, List.length_nil, add_zero]
    exact countKind_cams _ (by decide) vs hkind

/-! ## The index lists of the dense vectorizer -/

/-- What the key-point body of the dense vectorizer does, case by case. -/
theorem ptLnVp_addKeyPoint_cases (d : PtLnVp) (i : Int) (kp : KeyPoint3d) :
    let adm := kp.is3D = true ∧ ∃ o ∈ kp.viewId_ptLid, d.frontPosIdx ≤ o.1
    (¬ adm → ptLnVp_addKeyPoint d i kp = d)
    ∧ (adm → firstViewId kp.viewId_ptLid < d.frontFrmIdx →
        ptLnVp_addKeyPoint d i kp
          = { d with kptIdx2Rpj_notOpt := d.kptIdx2Rpj_notOpt ++ [i] })
    ∧ (adm → ¬ firstViewId kp.viewId_ptLid < d.frontFrmIdx →
        ptLnVp_addKeyPoint d i kp
          = { d with paraVec := d.paraVec ++ [kp.x, kp.y, kp.z],
                     kptIdx2Opt := d.kptIdx2Opt ++ [i] }) := by
  intro adm
  refine ⟨?_, ?_, ?_⟩
  · intro h
    simp only [adm, ← observedFrom_iff] at h
    unfold ptLnVp_addKeyPoint
    by_cases h3 : kp.is3D = true <;>
      by_cases ho : observedFrom kp.viewId_ptLid d.frontPosIdx = true <;> simp_all
  · intro ha hf
    simp only [adm, ← observedFrom_iff] at ha
    simp [ptLnVp_addKeyPoint, ha.1, ha.2, hf]
  · intro ha hf
    simp only [adm, ← observedFrom_iff] at ha
    simp [ptLnVp_addKeyPoint, ha.1, ha.2, hf]

/-- What the ideal-line body of the dense vectorizer does, case by case. -/
theorem ptLnVp_addIdealLine_cases (d : PtLnVp) (i : Int) (ln : IdealLine3d) :
    let adm := ln.is3D = true ∧ ∃ o ∈ ln.viewId_lnLid, d.frontPosIdx ≤ o.1
    (¬ adm → ptLnVp_addIdealLine d i ln = d)
    ∧ (adm → firstViewId ln.viewId_lnLid < d.frontFrmIdx →
        ptLnVp_addIdealLine d i ln
          = { d with idlIdx2Rpj_notOpt := d.idlIdx2Rpj_notOpt ++ [i] })
    ∧ (adm → ¬ firstViewId ln.viewId_lnLid < d.frontFrmIdx →
        ptLnVp_addIdealLine d i ln
          = { d with paraVec := d.paraVec ++ [ln.midpt.x, ln.midpt.y, ln.midpt.z],
                     idlIdx2Opt := d.idlIdx2Opt ++ [i] }) := by
  intro adm
  refine ⟨?_, ?_, ?_⟩
  · intro h
    simp only [adm, ← observedFrom_iff] at h
    unfold ptLnVp_addIdealLine
    by_cases h3 : ln.is3D = true <;>
      by_cases ho : observedFrom ln.viewId_lnLid d.frontPosIdx = true <;> simp_all
  · intro ha hf
    simp only [adm, ← observedFrom_iff] at ha
    simp [ptLnVp_addIdealLine, ha.1, ha.2, hf]
  · intro ha hf
    simp only [adm, ← observedFrom_iff] at ha
    simp [ptLnVp_addIdealLine, ha.1, ha.2, hf]

/-- The key-point loop of the dense vectorizer: which indices end on which list. -/
theorem ptLnVp_addKeyPoints_mem (kps : List KeyPoint3d) (d : PtLnVp) (j : Int) :
    (j ∈ (ptLnVp_addKeyPoints d 0 kps).kptIdx2Rpj_notOpt
      ↔ j ∈ d.kptIdx2Rpj_notOpt ∨ ∃ (k : Nat) (kp : KeyPoint3d), kps[k]? = some kp
          ∧ j = 0 + (k : Int)
          ∧ ((kp.is3D = true ∧ ∃ o ∈ kp.viewId_ptLid, d.frontPosIdx ≤ o.1)
            ∧ firstViewId kp.viewId_ptLid < d.frontFrmIdx))
    ∧ (j ∈ (ptLnVp_addKeyPoints d 0 kps).kptIdx2Opt
      ↔ j ∈ d.kptIdx2Opt ∨ ∃ (k : Nat) (kp : KeyPoint3d), kps[k]? = some kp
          ∧ j = 0 + (k : Int)
          ∧ ((kp.is3D = true ∧ ∃ o ∈ kp.viewId_ptLid, d.frontPosIdx ≤ o.1)
            ∧ ¬ firstViewId kp.viewId_ptLid < d.frontFrmIdx)) := by
  have hfr := ptLnVp_addKeyPoint_front
  constructor
  · refine indexedLoop_mem ptLnVp_addKeyPoint (fun d => d.kptIdx2Rpj_notOpt)
      (fun st kp => (kp.is3D = true ∧ ∃ o ∈ kp.viewId_ptLid, st.frontPosIdx ≤ o.1)
        ∧ firstViewId kp.viewId_ptLid < st.frontFrmIdx) ?_ ?_ ?_ kps d 0 j
    · intro st i x y; simp only [(hfr st i x).1, (hfr st i x).2]
    · intro st i x hx
      rw [(ptLnVp_addKeyPoint_cases st i x).2.1 hx.1 hx.2]
    · intro st i x hx
      by_cases ha : (x.is3D = true ∧ ∃ o ∈ x.viewId_ptLid, st.frontPosIdx ≤ o.1)
      · rw [(ptLnVp_addKeyPoint_cases st i x).2.2 ha (fun hf => hx ⟨ha, hf⟩)]
      · rw [(ptLnVp_addKeyPoint_cases st i x).1 ha]
  · refine indexedLoop_mem ptLnVp_addKeyPoint (fun d => d.kptIdx2Opt)
      (fun st kp => (kp.is3D = true ∧ ∃ o ∈ kp.viewId_ptLid, st.frontPosIdx ≤ o.1)
        ∧ ¬ firstViewId kp.viewId_ptLid < st.frontFrmIdx) ?_ ?_ ?_ kps d 0 j
    · intro st i x y; simp only [(hfr st i x).1, (hfr st i x).2]
    · intro st i x hx
      rw [(ptLnVp_addKeyPoint_cases st i x).2.2 hx.1 hx.2]
    · intro st i x hx
      by_cases ha : (x.is3D = true ∧ ∃ o ∈ x.viewId_ptLid, st.frontPosIdx ≤ o.1)
      · have hf : firstViewId x.viewId_ptLid < st.frontFrmIdx := by
          by_contra hc
          exact hx ⟨ha, hc⟩
        rw [(ptLnVp_addKeyPoint_cases st i x).2.1 ha hf]
      · rw [(ptLnVp_addKeyPoint_cases st i x).1 ha]

/-- The ideal-line loop of the dense vectorizer: which indices end on which list. -/
theorem ptLnVp_addIdealLines_mem (lns : List IdealLine3d) (d : PtLnVp) (j : Int) :
    (j ∈ (ptLnVp_addIdealLines d 0 lns).idlIdx2Rpj_notOpt
      ↔ j ∈ d.idlIdx2Rpj_notOpt ∨ ∃ (k : Nat) (ln : IdealLine3d), lns[k]? = some ln
          ∧ j = 0 + (k : Int)
          ∧ ((ln.is3D = true ∧ ∃ o ∈ ln.viewId_lnLid, d.frontPosIdx ≤ o.1)
            ∧ firstViewId ln.viewId_lnLid < d.frontFrmIdx))
    ∧ (j ∈ (ptLnVp_addIdealLines d 0 lns).idlIdx2Opt
      ↔ j ∈ d.idlIdx2Opt ∨ ∃ (k : Nat) (ln : IdealLine3d), lns[k]? = some ln
          ∧ j = 0 + (k : Int)
          ∧ ((ln.is3D = true ∧ ∃ o ∈ ln.viewId_lnLid, d.frontPosIdx ≤ o.1)
            ∧ ¬ firstViewId ln.viewId_lnLid < d.frontFrmIdx)) := by
  have hfr := ptLnVp_addIdealLine_front
  constructor
  · refine indexedLoop_mem ptLnVp_addIdealLine (fun d => d.idlIdx2Rpj_notOpt)
      (fun st ln => (ln.is3D = true ∧ ∃ o ∈ ln.viewId_lnLid, st.frontPosIdx ≤ o.1)
        ∧ firstViewId ln.viewId_lnLid < st.frontFrmIdx) ?_ ?_ ?_ lns d 0 j
    · intro st i x y; simp only [(hfr st i x).1, (hfr st i x).2]
    · intro st i x hx
      rw [(ptLnVp_addIdealLine_cases st i x).2.1 hx.1 hx.2]
    · intro st i x hx
      by_cases ha : (x.is3D = true ∧ ∃ o ∈ x.viewId_lnLid, st.frontPosIdx ≤ o.1)
      · rw [(ptLnVp_addIdealLine_cases st i x).2.2 ha (fun hf => hx ⟨ha, hf⟩)]
      · rw [(ptLnVp_addIdealLine_cases st i x).1 ha]
  · refine indexedLoop_mem ptLnVp_addIdealLine (fun d => d.idlIdx2Opt)
      (fun st ln => (ln.is3D = true ∧ ∃ o ∈ ln.viewId_lnLid, st.frontPosIdx ≤ o.1)
        ∧ ¬ firstViewId ln.viewId_lnLid < st.frontFrmIdx) ?_ ?_ ?_ lns d 0 j
    · intro st i x y; simp only [(hfr st i x).1, (hfr st i x).2]
    · intro st i x hx
      rw [(ptLnVp_addIdealLine_cases st i x).2.2 hx.1 hx.2]
    · intro st i x hx
      by_cases ha : (x.is3D = true ∧ ∃ o ∈ x.viewId_lnLid, st.frontPosIdx ≤ o.1)
      · have hf : firstViewId x.viewId_lnLid < st.frontFrmIdx := by
          by_contra hc
          exact hx ⟨ha, hc⟩
        rw [(ptLnVp_addIdealLine_cases st i x).2.1 ha hf]
      · rw [(ptLnVp_addIdealLine_cases st i x).1 ha]

theorem ptLnVp_addIdealLine_kpt (d : PtLnVp) (i : Int) (ln : IdealLine3d) :
    ((ptLnVp_addIdealLine d i ln).kptIdx2Opt, (ptLnVp_addIdealLine d i ln).kptIdx2Rpj_notOpt)
      = (d.kptIdx2Opt, d.kptIdx2Rpj_notOpt) := by
  unfold ptLnVp_addIdealLine
  split_ifs <;> rfl

theorem ptLnVp_addKeyPoint_idl (d : PtLnVp) (i : Int) (kp : KeyPoint3d) :
    ((ptLnVp_addKeyPoint d i kp).idlIdx2Opt, (ptLnVp_addKeyPoint d i kp).idlIdx2Rpj_notOpt)
      = (d.idlIdx2Opt, d.idlIdx2Rpj_notOpt) := by
  unfold ptLnVp_addKeyPoint
  split_ifs <;> rfl

/-- The index lists of the dense vectorizer: a 3D landmark observed from `frontPosIdx`
on is listed as fixed exactly when its first observation predates `frontFrmIdx`, and
as free otherwise. -/
theorem ptLnVp_vectorize_mem (h : Helpers) (m : Map) :
    (∀ i kp, vecAt m.keyPoints i = some kp →
      (i ∈ (ptLnVp_vectorize h m).kptIdx2Rpj_notOpt
        ↔ (kp.is3D = true
            ∧ ∃ o ∈ kp.viewId_ptLid, frontPosIdx m.views.length ptLnVp_numPos ≤ o.1)
          ∧ firstViewId kp.viewId_ptLid < frontFrmIdx m.views.length ptLnVp_numFrm)
      ∧ (i ∈ (ptLnVp_vectorize h m).kptIdx2Opt
        ↔ (kp.is3D = true
            ∧ ∃ o ∈ kp.viewId_ptLid, frontPosIdx m.views.length ptLnVp_numPos ≤ o.1)
          ∧ ¬ firstViewId kp.viewId_ptLid < frontFrmIdx m.views.length ptLnVp_numFrm))
    ∧ (∀ i ln, vecAt m.idealLines i = some ln →
      (i ∈ (ptLnVp_vectorize h m).idlIdx2Rpj_notOpt
        ↔ (ln.is3D = true
            ∧ ∃ o ∈ ln.viewId_lnLid, frontPosIdx m.views.length ptLnVp_numPos ≤ o.1)
          ∧ firstViewId ln.viewId_lnLid < frontFrmIdx m.views.length ptLnVp_numFrm)
      ∧ (i ∈ (ptLnVp_vectorize h m).idlIdx2Opt
        ↔ (ln.is3D = true
            ∧ ∃ o ∈ ln.viewId_lnLid, frontPosIdx m.views.length ptLnVp_numPos ≤ o.1)
          ∧ ¬ firstViewId ln.viewId_lnLid < frontFrmIdx m.views.length ptLnVp_numFrm)) := by
  simp only [ptLnVp_vectorize]
  constructor
  · intro i kp hi
    have e := indexedLoop_frame ptLnVp_addIdealLine
      (fun d => (d.kptIdx2Opt, d.kptIdx2Rpj_notOpt)) ptLnVp_addIdealLine_kpt
    simp only [Prod.mk.injEq] at e
    unfold ptLnVp_addIdealLines
    rw [(e _ _ _).1, (e _ _ _).2]
    simp only []
    have hm := ptLnVp_addKeyPoints_mem m.keyPoints
    rw [(hm _ _).1, (hm _ _).2]
    simp only [List.not_mem_nil, false_or]
    exact ⟨vecAt_exists_iff m.keyPoints i kp _ hi, vecAt_exists_iff m.keyPoints i kp _ hi⟩
  · intro i ln hi
    have hm := ptLnVp_addIdealLines_mem m.idealLines
    rw [(hm _ _).1, (hm _ _).2]
    simp only []
    have e := indexedLoop_frame ptLnVp_addKeyPoint
      (fun d => (d.idlIdx2Opt, d.idlIdx2Rpj_notOpt)) ptLnVp_addKeyPoint_idl
    simp only [Prod.mk.injEq] at e
    have f := ptLnVp_addKeyPoints_front m.keyPoints
    unfold ptLnVp_addKeyPoints at f ⊢
    rw [(e _ _ _).1, (e _ _ _).2, (f _ _).1, (f _ _).2]
    simp only [List.not_mem_nil, false_or]
    exact ⟨vecAt_exists_iff m.idealLines i ln _ hi, vecAt_exists_iff m.idealLines i ln _ hi⟩

/-! ## Admission and fixing of landmarks in the two backends -/

theorem listed_iff_admitted {A F X Y : Prop} (hx : X ↔ A ∧ F) (hy : Y ↔ A ∧ ¬ F) :
    (Y ∨ X) ↔ A := by
  by_cases hF : F <;> by_cases hA : A <;> simp [hx, hy, hF, hA]

theorem fixed_iff_rule {A F X Y : Prop} (hx : X ↔ A ∧ F) (hy : Y ↔ A ∧ ¬ F)
    (hadm : Y ∨ X) : (X ↔ F) ∧ (Y ↔ ¬ F) := by
  have hA : A := (listed_iff_admitted hx hy).mp hadm
  simp [hx, hy, hA]

/-- C3 (as the code does it): in `adjustBundle_G2O`, for every map state, the vertex
construction succeeds, every listed landmark index stands for one vertex, and
* a key point or ideal line is admitted (listed on `..Idx2Opt` or `..Idx2Rpj_notOpt`) if
  and only if it is 3D (`is3D`), has a non-negative `gid`, and has at least one
  observation from a view with index `>= frontPosIdx`;
* a vanishing point is admitted (listed on `vpIdx2Opt`) if and only if it has at least
  one observation from a view with index `>= frontPosIdx`. -/
theorem C3_admission (s : MfgSettings) (m : Map) (numPos numFrm : Int) :
    ∃ g : Graph, adjustBundle_G2O_vertices s m numPos numFrm = Except.ok g
      ∧ VertexPerIndex g
      ∧ (∀ i kp, vecAt m.keyPoints i = some kp →
          ((i ∈ g.kptIdx2Opt ∨ i ∈ g.kptIdx2Rpj_notOpt)
            ↔ (kp.is3D = true ∧ 0 ≤ kp.gid
                ∧ ∃ o ∈ kp.viewId_ptLid, frontPosIdx m.views.length numPos ≤ o.1)))
      ∧ (∀ i ln, vecAt m.idealLines i = some ln →
          ((i ∈ g.lnIdx2Opt ∨ i ∈ g.lnIdx2Rpj_notOpt)
            ↔ (ln.is3D = true ∧ 0 ≤ ln.gid
                ∧ ∃ o ∈ ln.viewId_lnLid, frontPosIdx m.views.length numPos ≤ o.1)))
      ∧ (∀ i vp, vecAt m.vanishingPoints i = some vp →
          (i ∈ g.vpIdx2Opt
            ↔ ∃ o ∈ vp.viewId_vpLid, frontPosIdx m.views.length numPos ≤ o.1)) := by
  obtain ⟨g0, hg0, hk1, hk2, hv, hl1, hl2, _, hcount⟩ :=
    vertices_spec false m.views (frontVptIdx m.views.length numFrm s.baNumFramesVPoint)
      (m.views.length : Int) (frontPosIdx m.views.length numPos)
      (frontFrmIdx m.views.length numFrm) (backId m.views) 20
      (camDistRows m.camdist_constraints numFrm) m
  obtain ⟨hkp, hvp, hln⟩ := addStructure_mem false (frontPosIdx m.views.length numPos)
    (frontFrmIdx m.views.length numFrm) (backId m.views) m g0 hk1 hk2 hv hl1 hl2
  refine ⟨_, ?_, hcount, ?_, ?_, ?_⟩
  · unfold adjustBundle_G2O_vertices adjustBundle_G2O_cameras
    rw [hg0]
  · intro i kp hi
    exact listed_iff_admitted (hkp i kp hi).1 (hkp i kp hi).2
  · intro i ln hi
    exact listed_iff_admitted (hln i ln hi).1 (hln i ln hi).2
  · intro i vp hi
    exact hvp i vp hi

/-- C3 fails as stated: the key point `unestablishedPoint` (index 0, `is3D = false`) has
an observation from view 5 `>= frontPosIdx = 3`, and `adjustBundle_G2O(3, 5)` neither
lists it nor creates a point vertex. -/
theorem C3_counterexample :
    ¬ ((∃ o ∈ unestablishedPoint.viewId_ptLid, frontPosIdx unestablishedMap.views.length 3 ≤ o.1)
        → (adjustBundle_G2O_vertices scenarioSettings unestablishedMap 3 5).toOption.map
            (fun g => decide (0 ∈ g.kptIdx2Opt ∨ 0 ∈ g.kptIdx2Rpj_notOpt)
              || decide (0 < countKind VertexKind.point g.vertices)) = some true) := by
  decide

/-- C4 (as the code does it). For an admitted landmark `i`:
* key points in `adjustBundle_G2O`, and key points and ideal lines in
  `bundle_adjust_between`, are fixed (listed on `..Rpj_notOpt`) if and only if the first
  observation is from a view `< frontFrmIdx`, `estViewId` is below the newest view id
  (`views.back().id`, resp. `view_to`), and no camera-distance edge was added;
* ideal lines in `adjustBundle_G2O`, when no camera-distance edge was added, are fixed
  if and only if the first observation is from a view `< frontFrmIdx` and `estViewId`
  is below the newest view id;
* key points and ideal lines in `adjustBundle_PtLnVp` are fixed if and only if the first
  observation is from a view `< frontFrmIdx`;
and in each case the landmark is free (listed on `..Idx2Opt`) otherwise. -/
theorem C4_fixing_rule (s : MfgSettings) (h : Helpers) (m : Map) (numPos numFrm : Int)
    (view_from view_to cam_from : Int) :
    (∃ g : Graph, adjustBundle_G2O_vertices s m numPos numFrm = Except.ok g
      ∧ (∀ i kp, vecAt m.keyPoints i = some kp →
          (i ∈ g.kptIdx2Opt ∨ i ∈ g.kptIdx2Rpj_notOpt) →
          (i ∈ g.kptIdx2Rpj_notOpt
            ↔ (firstViewId kp.viewId_ptLid < frontFrmIdx m.views.length numFrm
                ∧ kp.estViewId < backId m.views ∧ g.edges_camdist = []))
          ∧ (i ∈ g.kptIdx2Opt
            ↔ ¬ (firstViewId kp.viewId_ptLid < frontFrmIdx m.views.length numFrm
                ∧ kp.estViewId < backId m.views ∧ g.edges_camdist = [])))
      ∧ (∀ i ln, vecAt m.idealLines i = some ln →
          (i ∈ g.lnIdx2Opt ∨ i ∈ g.lnIdx2Rpj_notOpt) → g.edges_camdist = [] →
          (i ∈ g.lnIdx2Rpj_notOpt
            ↔ (firstViewId ln.viewId_lnLid < frontFrmIdx m.views.length numFrm
                ∧ ln.estViewId < backId m.views))
          ∧ (i ∈ g.lnIdx2Opt
            ↔ ¬ (firstViewId ln.viewId_lnLid < frontFrmIdx m.views.length numFrm
                ∧ ln.estViewId < backId m.views))))
    ∧ (∃ g : Graph, bundle_adjust_between_vertices m view_from view_to cam_from = Except.ok g
      ∧ (∀ i kp, vecAt m.keyPoints i = some kp →
          (i ∈ g.kptIdx2Opt ∨ i ∈ g.kptIdx2Rpj_notOpt) →
          (i ∈ g.kptIdx2Rpj_notOpt
            ↔ (firstViewId kp.viewId_ptLid < view_from ∧ kp.estViewId < view_to
                ∧ g.edges_camdist = []))
          ∧ (i ∈ g.kptIdx2Opt
            ↔ ¬ (firstViewId kp.viewId_ptLid < view_from ∧ kp.estViewId < view_to
                ∧ g.edges_camdist = [])))
      ∧ (∀ i ln, vecAt m.idealLines i = some ln →
          (i ∈ g.lnIdx2Opt ∨ i ∈ g.lnIdx2Rpj_notOpt) →
          (i ∈ g.lnIdx2Rpj_notOpt
            ↔ (firstViewId ln.viewId_lnLid < view_from ∧ ln.estViewId < view_to
                ∧ g.edges_camdist = []))
          ∧ (i ∈ g.lnIdx2Opt
            ↔ ¬ (firstViewId ln.viewId_lnLid < view_from ∧ ln.estViewId < view_to
                ∧ g.edges_camdist = []))))
    ∧ ((∀ i kp, vecAt m.keyPoints i = some kp →
          (i ∈ (ptLnVp_vectorize h m).kptIdx2Opt
            ∨ i ∈ (ptLnVp_vectorize h m).kptIdx2Rpj_notOpt) →
          (i ∈ (ptLnVp_vectorize h m).kptIdx2Rpj_notOpt
            ↔ firstViewId kp.viewId_ptLid < (ptLnVp_vectorize h m).frontFrmIdx)
          ∧ (i ∈ (ptLnVp_vectorize h m).kptIdx2Opt
            ↔ ¬ firstViewId kp.viewId_ptLid < (ptLnVp_vectorize h m).frontFrmIdx))
      ∧ (∀ i ln, vecAt m.idealLines i = some ln →
          (i ∈ (ptLnVp_vectorize h m).idlIdx2Opt
            ∨ i ∈ (ptLnVp_vectorize h m).idlIdx2Rpj_notOpt) →
          (i ∈ (ptLnVp_vectorize h m).idlIdx2Rpj_notOpt
            ↔ firstViewId ln.viewId_lnLid < (ptLnVp_vectorize h m).frontFrmIdx)
          ∧ (i ∈ (ptLnVp_vectorize h m).idlIdx2Opt
            ↔ ¬ firstViewId ln.viewId_lnLid < (ptLnVp_vectorize h m).frontFrmIdx))) := by
  refine ⟨?_, ?_, ?_, ?_⟩
  · obtain ⟨g0, hg0, hk1, hk2, hv, hl1, hl2, hcam, _⟩ :=
      vertices_spec false m.views (frontVptIdx m.views.length numFrm s.baNumFramesVPoint)
        (m.views.length : Int) (frontPosIdx m.views.length numPos)
        (frontFrmIdx m.views.length numFrm) (backId m.views) 20
        (camDistRows m.camdist_constraints numFrm) m
    obtain ⟨hkp, _, hln⟩ := addStructure_mem false (frontPosIdx m.views.length numPos)
      (frontFrmIdx m.views.length numFrm) (backId m.views) m g0 hk1 hk2 hv hl1 hl2
    have hcd : (addStructure false (frontPosIdx m.views.length numPos)
        (frontFrmIdx m.views.length numFrm) (backId m.views) m g0).edges_camdist
        = g0.edges_camdist := congrArg (fun t => t.2.2.2.1) hcam
    refine ⟨addStructure false (frontPosIdx m.views.length numPos)
        (frontFrmIdx m.views.length numFrm) (backId m.views) m g0, ?_, ?_, ?_⟩
    · unfold adjustBundle_G2O_vertices adjustBundle_G2O_cameras
      rw [hg0]
    · intro i kp hi hadm
      rw [hcd]
      exact fixed_iff_rule (hkp i kp hi).1 (hkp i kp hi).2 hadm
    · intro i ln hi hadm _
      have h1 := (hln i ln hi).1
      have h2 := (hln i ln hi).2
      simp only [Bool.false_eq_true, false_implies, and_true] at h1 h2
      exact fixed_iff_rule h1 h2 hadm
  · obtain ⟨g0, hg0, hk1, hk2, hv, hl1, hl2, hcam, _⟩ :=
      vertices_spec true m.views view_from (view_to + 1) cam_from view_from view_to
        (max 20 (view_to - view_from))
        (camDistRows m.camdist_constraints (view_to - view_from)) m
    obtain ⟨hkp, _, hln⟩ := addStructure_mem true cam_from view_from view_to m g0
      hk1 hk2 hv hl1 hl2
    have hcd : (addStructure true cam_from view_from view_to m g0).edges_camdist
        = g0.edges_camdist := congrArg (fun t => t.2.2.2.1) hcam
    refine ⟨addStructure true cam_from view_from view_to m g0, ?_, ?_, ?_⟩
    · unfold bundle_adjust_between_vertices bundle_adjust_between_cameras
      rw [hg0]
    · intro i kp hi hadm
      rw [hcd]
      exact fixed_iff_rule (hkp i kp hi).1 (hkp i kp hi).2 hadm
    · intro i ln hi hadm
      have h1 := (hln i ln hi).1
      have h2 := (hln i ln hi).2
      simp only [true_implies] at h1 h2
      rw [hcd]
      exact fixed_iff_rule h1 h2 hadm
  · intro i kp hi hadm
    obtain ⟨hkp, _⟩ := ptLnVp_vectorize_mem h m
    rw [(ptLnVp_vectorize_front h m).2]
    exact fixed_iff_rule (hkp i kp hi).1 (hkp i kp hi).2 hadm
  · intro i ln hi hadm
    obtain ⟨_, hln⟩ := ptLnVp_vectorize_mem h m
    rw [(ptLnVp_vectorize_front h m).2]
    exact fixed_iff_rule (hln i ln hi).1 (hln i ln hi).2 hadm

/-- C4 fails as stated: in `adjustBundle_PtLnVp` the key point `reestimatedPoint`
(index 0) is admitted and placed on the reproject-but-not-optimize list although its
`estViewId = 5` is not below the newest view id 5. -/
theorem C4_counterexample :
    ¬ ((0 ∈ (ptLnVp_vectorize sampleHelpers reestimatedMap).kptIdx2Rpj_notOpt)
        ↔ (firstViewId reestimatedPoint.viewId_ptLid
              < (ptLnVp_vectorize sampleHelpers reestimatedMap).frontFrmIdx
            ∧ reestimatedPoint.estViewId < backId reestimatedMap.views
            ∧ reestimatedMap.camdist_constraints = [])) := by
  decide

/-! ## The camera vertex of a view -/

/-- The camera part, view by view: view `i` has a camera vertex exactly when
`front <= i < stop`; that vertex has id `i - front`, and it is fixed exactly when
`i < 1 || i < frontPosIdx`, unless a camera-distance edge was added and `i` is not the
first view of the window, in which case it is not fixed. -/
theorem cameraPart_view (views : List View) (front stop fp mi : Int) (rows : List CamDist) :
    ∃ g : Graph, cameraPart views front stop fp mi rows = Except.ok g
      ∧ g.vertices.length = (stop - front).toNat
      ∧ (∀ v ∈ g.vertices, v.kind = VertexKind.cam)
      ∧ ∀ i : Int, camVertexOfView g i
          = if front ≤ i ∧ i < stop then
              some { camVertex views fp (i - front) i with
                     fixed := if g.edges_camdist ≠ [] ∧ front < i then false
                              else decide (i < 1) || decide (i < fp) }
            else none := by
  obtain ⟨mi', es, vs, hg, hlen, hkind, hfind⟩ := cameraPart_spec views front stop fp mi rows
  refine ⟨_, hg, hlen, hkind, ?_⟩
  intro i
  simp only [camVertexOfView, mapFind, lookup_camfid2vid]
  by_cases hi : front ≤ i ∧ i < stop
  · have h1 : front ≤ i ∧ i < front + ((stop - front).toNat : Int) := by omega
    have h2 : 0 ≤ i - front ∧ i - front < ((stop - front).toNat : Int) := by omega
    have h3 : front + (i - front) = i := by ring
    have h4 : (0 < i - front) ↔ front < i := by omega
    rw [if_pos h1, if_pos hi, Option.some_bind, hfind, if_pos h2, h3]
    simp only [h4]
    rfl
  · have h1 : ¬ (front ≤ i ∧ i < front + ((stop - front).toNat : Int)) := by omega
    rw [if_neg h1, if_neg hi]
    rfl

/-! ## Factor construction leaves the camera vertices alone -/

theorem KeepsCameras.refl (g : Graph) : KeepsCameras g g :=
  ⟨rfl, rfl, rfl, rfl, fun _ _ h => h⟩

theorem KeepsCameras.trans {g1 g2 g3 : Graph} (h12 : KeepsCameras g1 g2)
    (h23 : KeepsCameras g2 g3) : KeepsCameras g1 g3 :=
  ⟨h23.1.trans h12.1, h23.2.1.trans h12.2.1, h23.2.2.1.trans h12.2.2.1,
   h23.2.2.2.1.trans h12.2.2.2.1, fun k v h => h23.2.2.2.2 k v (h12.2.2.2.2 k v h)⟩

/-- A relation that every step of a fallible loop establishes, and that is reflexive and
transitive, relates the start state to the final state of the loop. -/
theorem foldlM_rel {σ α ε : Type} (f : σ → α → Except ε σ) (R : σ → σ → Prop)
    (hrefl : ∀ s, R s s) (htrans : ∀ a b c, R a b → R b c → R a c)
    (hstep : ∀ s x s', f s x = Except.ok s' → R s s')
    (xs : List α) (s s' : σ) (h : xs.foldlM f s = Except.ok s') : R s s' := by
  induction xs generalizing s with
  | nil =>
    simp only [List.foldlM, pure, Except.pure] at h
    cases h
    exact hrefl _
  | cons x rest ih =>
    simp only [List.foldlM, bind, Except.bind] at h
    cases hx : f s x with
    | error e => rw [hx] at h; cases h
    | ok s1 =>
      rw [hx] at h
      exact htrans _ _ _ (hstep s x s1 hx) (ih s1 h)

theorem mapIndex_keeps (m : IntMap) (k : Int) (k' v : Int) (h : mapFind m k' = some v) :
    mapFind (mapIndex m k).2 k' = some v := by
  unfold mapIndex
  cases hk : List.lookup k m with
  | some w => exact h
  | none =>
    simp only [mapFind, List.lookup_cons]
    have : (k' == k) = false := by
      by_contra hc
      simp only [Bool.not_eq_false, beq_iff_eq] at hc
      rw [hc] at h
      unfold mapFind at h
      rw [hk] at h
      cases h
    rw [this]
    exact h

theorem lookupVertex_ok_or_undefined (vs : List Vertex) (id : Int) :
    lookupVertex vs id = Except.error BuildError.undefinedBehaviour
    ∨ ∃ v, lookupVertex vs id = Except.ok v ∧ findVertex vs id = some v := by
  unfold lookupVertex
  cases findVertex vs id with
  | none => exact Or.inl rfl
  | some v => exact Or.inr ⟨v, rfl, rfl⟩

theorem addKptEdge_keeps (s : MfgSettings) (views : List View) (ff idx : Int) (g g' : Graph)
    (o : Int × Int) (h : addKptEdge s views ff idx g o = Except.ok g') :
    KeepsCameras g g' := by
  unfold addKptEdge at h
  simp only [] at h
  repeat' split at h
  all_goals first
    | (cases h; done)
    | (cases h; exact KeepsCameras.refl _)
    | (cases h; exact ⟨rfl, rfl, rfl, rfl, fun k v hk => mapIndex_keeps _ _ _ _ hk⟩)

theorem addVnptEdge_keeps (s : MfgSettings) (hp : Helpers)
    (bp : Mat3 → VanishPnt2d → Vec3) (m : Map) (fv vpGid : Int) (g g' : Graph)
    (o : Int × Int) (h : addVnptEdge s hp bp m fv vpGid g o = Except.ok g') :
    KeepsCameras g g' := by
  unfold addVnptEdge at h
  simp only [] at h
  repeat' split at h
  all_goals first
    | (cases h; done)
    | (cases h; exact KeepsCameras.refl _)
    | (cases h; exact ⟨rfl, rfl, rfl, rfl, fun k v hk => mapIndex_keeps _ _ _ _ hk⟩)

theorem addLineEdge_keeps (s : MfgSettings) (views : List View) (ff idx : Int)
    (ln : IdealLine3d) (g g' : Graph) (o : Int × Int)
    (h : addLineEdge s views ff idx ln g o = Except.ok g') : KeepsCameras g g' := by
  unfold addLineEdge at h
  simp only [] at h
  repeat' split at h
  all_goals first
    | (cases h; done)
    | (cases h; exact KeepsCameras.refl _)
    | (cases h; exact ⟨rfl, rfl, rfl, rfl, fun k v hk => mapIndex_keeps _ _ _ _ hk⟩)

theorem addPointPlaneEdge_keeps (s : MfgSettings) (plGid : Int) (g g' : Graph) (ptGid : Int)
    (h : addPointPlaneEdge s plGid g ptGid = Except.ok g') : KeepsCameras g g' := by
  unfold addPointPlaneEdge at h
  simp only [] at h
  repeat' split at h
  all_goals first
    | (cases h; done)
    | (cases h; exact KeepsCameras.refl _)

theorem addLinePlaneEdge_keeps (s : MfgSettings) (hp : Helpers) (m : Map) (plGid : Int)
    (g g' : Graph) (lnGid : Int)
    (h : addLinePlaneEdge s hp m plGid g lnGid = Except.ok g') : KeepsCameras g g' := by
  unfold addLinePlaneEdge at h
  simp only [] at h
  repeat' split at h
  all_goals first
    | (cases h; done)
    | (cases h; exact KeepsCameras.refl _)


/-- Factor construction, when it falls through, has not touched the vertices, the
camera-distance edges or the camera bookkeeping. -/
theorem addEdges_keeps (s : MfgSettings) (hp : Helpers) (bp : Mat3 → VanishPnt2d → Vec3)
    (m : Map) (ff fv : Int) (g g' : Graph)
    (h : addEdges s hp bp m ff fv g = Except.ok g') : KeepsCameras g g' := by
  have hk : ∀ (idxs : List Int) (a b : Graph),
      addKptEdges s m ff idxs a = Except.ok b → KeepsCameras a b := by
    intro idxs a b hab
    refine foldlM_rel _ KeepsCameras KeepsCameras.refl
      (fun _ _ _ => KeepsCameras.trans) ?_ idxs a b hab
    intro st idx st' hst
    split at hst
    · cases hst
    · exact foldlM_rel _ KeepsCameras KeepsCameras.refl (fun _ _ _ => KeepsCameras.trans)
        (fun x o y hxy => addKptEdge_keeps s m.views ff idx x y o hxy) _ st st' hst
  have hl : ∀ (idxs : List Int) (a b : Graph),
      addLineEdges s m ff idxs a = Except.ok b → KeepsCameras a b := by
    intro idxs a b hab
    refine foldlM_rel _ KeepsCameras KeepsCameras.refl
      (fun _ _ _ => KeepsCameras.trans) ?_ idxs a b hab
    intro st idx st' hst
    split at hst
    · cases hst
    · rename_i ln _
      exact foldlM_rel _ KeepsCameras KeepsCameras.refl (fun _ _ _ => KeepsCameras.trans)
        (fun x o y hxy => addLineEdge_keeps s m.views ff idx ln x y o hxy) _ st st' hst
  have hv : ∀ (a b : Graph),
      addVnptEdges s hp bp m fv a = Except.ok b → KeepsCameras a b := by
    intro a b hab
    refine foldlM_rel _ KeepsCameras KeepsCameras.refl
      (fun _ _ _ => KeepsCameras.trans) ?_ a.vpIdx2Opt a b hab
    intro st idx st' hst
    split at hst
    · cases hst
    · exact foldlM_rel _ KeepsCameras KeepsCameras.refl (fun _ _ _ => KeepsCameras.trans)
        (fun x o y hxy => addVnptEdge_keeps s hp bp m fv idx x y o hxy) _ st st' hst
  have hpl : ∀ (a b : Graph),
      addPlaneEdges s hp m a = Except.ok b → KeepsCameras a b := by
    intro a b hab
    refine foldlM_rel _ KeepsCameras KeepsCameras.refl
      (fun _ _ _ => KeepsCameras.trans) ?_ a.plIdx2Opt a b hab
    intro st plGid st' hst
    split at hst
    · cases hst
    · split at hst
      · cases hst
      · rename_i g1 hg1
        exact KeepsCameras.trans
          (foldlM_rel _ KeepsCameras KeepsCameras.refl (fun _ _ _ => KeepsCameras.trans)
            (fun x o y hxy => addPointPlaneEdge_keeps s plGid x y o hxy) _ st g1 hg1)
          (foldlM_rel _ KeepsCameras KeepsCameras.refl (fun _ _ _ => KeepsCameras.trans)
            (fun x o y hxy => addLinePlaneEdge_keeps s hp m plGid x y o hxy) _ g1 st' hst)
  unfold addEdges at h
  simp only [bind, Except.bind] at h
  repeat' split at h
  all_goals try cases h
  rename_i _ g1 h1 _ g2 h2 _ g3 h3 _ g4 h4 _ g5 h5
  exact (hk _ _ _ h1).trans ((hk _ _ _ h2).trans ((hv _ _ h3).trans
    ((hl _ _ _ h4).trans ((hl _ _ _ h5).trans (hpl _ _ h)))))

/-! ## From the camera part to the problem handed to the solver -/

/-- A reflexive and transitive relation that every loop body establishes relates the
start state to the final state of the loop. -/
theorem indexedLoop_rel {σ α : Type} (body : σ → Int → α → σ) (R : σ → σ → Prop)
    (hrefl : ∀ s, R s s) (htrans : ∀ a b c, R a b → R b c → R a c)
    (hbody : ∀ st i x, R st (body st i x)) (xs : List α) (st : σ) (i : Int) :
    R st (indexedLoop body st i xs) := by
  induction xs generalizing st i with
  | nil => exact hrefl st
  | cons x rest ih => exact htrans _ _ _ (hbody st i x) (ih _ _)

/-- The structure loops only append vertices. -/
theorem addStructure_vertices (cdt : Bool) (fp ff nw : Int) (m : Map) (g : Graph) :
    ∃ ext, (addStructure cdt fp ff nw m g).vertices = g.vertices ++ ext := by
  have hrefl : ∀ s : Graph, ∃ ext, s.vertices = s.vertices ++ ext := fun s => ⟨[], by simp⟩
  have htrans : ∀ a b c : Graph, (∃ ext, b.vertices = a.vertices ++ ext) →
      (∃ ext, c.vertices = b.vertices ++ ext) → ∃ ext, c.vertices = a.vertices ++ ext := by
    rintro a b c ⟨e1, h1⟩ ⟨e2, h2⟩
    exact ⟨e1 ++ e2, by rw [h2, h1, List.append_assoc]⟩
  have h1 := indexedLoop_rel (addKeyPoint fp ff nw)
    (fun a b => ∃ ext, b.vertices = a.vertices ++ ext) hrefl htrans
    (by
      intro st i x
      unfold addKeyPoint
      split_ifs
      · exact ⟨[], by simp⟩
      · exact ⟨_, rfl⟩
      · exact ⟨[], by simp⟩)
  have h2 := indexedLoop_rel (addVanishingPoint fp)
    (fun a b => ∃ ext, b.vertices = a.vertices ++ ext) hrefl htrans
    (by
      intro st i x
      unfold addVanishingPoint
      split_ifs
      · exact ⟨_, rfl⟩
      · exact ⟨[], by simp⟩)
  have h3 := indexedLoop_rel (addIdealLine cdt fp ff nw)
    (fun a b => ∃ ext, b.vertices = a.vertices ++ ext) hrefl htrans
    (by
      intro st i x
      unfold addIdealLine
      split_ifs
      · exact ⟨[], by simp⟩
      · exact ⟨_, rfl⟩
      · exact ⟨[], by simp⟩)
  have h4 := indexedLoop_rel (addPrimaryPlane fp nw)
    (fun a b => ∃ ext, b.vertices = a.vertices ++ ext) hrefl htrans
    (by
      intro st i x
      unfold addPrimaryPlane
      split_ifs
      · exact ⟨[], by simp⟩
      · exact ⟨[], by simp⟩
      · exact ⟨_, rfl⟩)
  unfold addStructure addPrimaryPlanes addIdealLines addVanishingPoints addKeyPoints
  simp only []
  exact htrans _ _ _ (htrans _ _ _ (htrans _ _ _ (h1 _ _ _) (h2 _ _ _)) (h3 _ _ _)) (h4 _ _ _)

theorem findVertex_append_some (vs ext : List Vertex) (id : Int) (v : Vertex)
    (h : findVertex vs id = some v) : findVertex (vs ++ ext) id = some v := by
  unfold findVertex at h ⊢
  rw [List.find?_append, h]
  rfl

/-- The camera vertex of a view, once created by the camera part, is the camera vertex
of that view in the problem handed to the solver, and the camera-distance edges are
those the camera part added. -/
theorem problem_of_cameras (cdt : Bool) (s : MfgSettings) (hp : Helpers)
    (bp : Mat3 → VanishPnt2d → Vec3) (m : Map) (fp ff fv nw : Int) (g0 g' : Graph)
    (h : addEdges s hp bp m ff fv (addStructure cdt fp ff nw m g0) = Except.ok g') :
    g'.edges_camdist = g0.edges_camdist
    ∧ ∀ i v, camVertexOfView g0 i = some v → camVertexOfView g' i = some v := by
  have hk := addEdges_keeps s hp bp m ff fv _ g' h
  have hc := addStructure_camFields cdt fp ff nw m g0
  obtain ⟨ext, hext⟩ := addStructure_vertices cdt fp ff nw m g0
  have hcd : (addStructure cdt fp ff nw m g0).edges_camdist = g0.edges_camdist :=
    congrArg (fun t => t.2.2.2.1) hc
  have hmap : (addStructure cdt fp ff nw m g0).camfid2vid = g0.camfid2vid :=
    congrArg (fun t => t.2.2.1) hc
  refine ⟨hk.2.1.trans hcd, ?_⟩
  intro i v hv
  unfold camVertexOfView at hv ⊢
  cases hf : mapFind g0.camfid2vid i with
  | none => rw [hf] at hv; cases hv
  | some vid =>
    rw [hf] at hv
    simp only [Option.some_bind] at hv
    have h1 : mapFind g'.camfid2vid i = some vid := hk.2.2.2.2 i vid (by rw [hmap]; exact hf)
    rw [h1, Option.some_bind, hk.1, hext]
    exact findVertex_append_some _ _ _ _ hv

theorem frontVptIdx_nonneg (n : Nat) (numFrm numVpFrm : Int) :
    0 ≤ frontVptIdx n numFrm numVpFrm := by
  unfold frontVptIdx frontFrmIdx
  exact le_min (le_max_left _ _) (le_max_left _ _)

/-- C5: when no camera-distance edge is added, `adjustBundle_G2O` (window
`frontVptIdx..last`, boundary `frontPosIdx`) and `bundle_adjust_between` (window
`view_from..view_to`, boundary `cam_from`) create one camera vertex for each view of the
window and none for any other view; the vertex of view `i` is fixed if and only if `i`
lies before the boundary or `i` is view 0, and it is free otherwise. -/
theorem C5_camera_vertices (s : MfgSettings) (m : Map) (numPos numFrm : Int)
    (view_from view_to cam_from : Int) :
    (∃ g : Graph, adjustBundle_G2O_cameras s m numPos numFrm = Except.ok g
      ∧ (g.edges_camdist = [] →
        g.vertices.length
            = ((m.views.length : Int)
                - frontVptIdx m.views.length numFrm s.baNumFramesVPoint).toNat
        ∧ (∀ v ∈ g.vertices, v.kind = VertexKind.cam)
        ∧ (∀ i : Int, (camVertexOfView g i).isSome = true
            ↔ (frontVptIdx m.views.length numFrm s.baNumFramesVPoint ≤ i
                ∧ i < (m.views.length : Int)))
        ∧ (∀ (i : Int) (v : Vertex), camVertexOfView g i = some v →
            (v.fixed = true ↔ (i < frontPosIdx m.views.length numPos ∨ i = 0)))))
    ∧ (∃ g : Graph, bundle_adjust_between_cameras m view_from view_to cam_from = Except.ok g
      ∧ (g.edges_camdist = [] →
        g.vertices.length = (view_to + 1 - view_from).toNat
        ∧ (∀ v ∈ g.vertices, v.kind = VertexKind.cam)
        ∧ (∀ i : Int, (camVertexOfView g i).isSome = true
            ↔ (view_from ≤ i ∧ i ≤ view_to))
        ∧ (∀ (i : Int) (v : Vertex), camVertexOfView g i = some v → 0 ≤ i →
            (v.fixed = true ↔ (i < cam_from ∨ i = 0))))) := by
  constructor
  · obtain ⟨g, hg, hlen, hkind, hview⟩ := cameraPart_view m.views
      (frontVptIdx m.views.length numFrm s.baNumFramesVPoint) (m.views.length : Int)
      (frontPosIdx m.views.length numPos) 20 (camDistRows m.camdist_constraints numFrm)
    refine ⟨g, hg, fun hno => ⟨hlen, hkind, ?_, ?_⟩⟩
    · intro i
      rw [hview i]
      split_ifs with hi <;> simp [hi]
    · intro i v hv
      rw [hview i] at hv
      have h0 := frontVptIdx_nonneg m.views.length numFrm s.baNumFramesVPoint
      by_cases hi : frontVptIdx m.views.length numFrm s.baNumFramesVPoint ≤ i
          ∧ i < (m.views.length : Int)
      · rw [if_pos hi] at hv
        simp only [Option.some.injEq] at hv
        subst hv
        have h1 : (i < 1) ↔ i = 0 := by omega
        simp [hno, h1, or_comm]
      · rw [if_neg hi] at hv
        cases hv
  · obtain ⟨g, hg, hlen, hkind, hview⟩ := cameraPart_view m.views view_from (view_to + 1)
      cam_from (max 20 (view_to - view_from))
      (camDistRows m.camdist_constraints (view_to - view_from))
    refine ⟨g, hg, fun hno => ⟨hlen, hkind, ?_, ?_⟩⟩
    · intro i
      rw [hview i]
      have : (view_from ≤ i ∧ i < view_to + 1) ↔ (view_from ≤ i ∧ i ≤ view_to) := by omega
      by_cases hi : view_from ≤ i ∧ i < view_to + 1
      · rw [if_pos hi]
        simpa using this.mp hi
      · rw [if_neg hi]
        have hn : ¬ (view_from ≤ i ∧ i ≤ view_to) := fun hc => hi (this.mpr hc)
        simp only [Option.isSome_none, Bool.false_eq_true, false_iff]
        exact hn
    · intro i v hv h0
      rw [hview i] at hv
      by_cases hi : view_from ≤ i ∧ i < view_to + 1
      · rw [if_pos hi] at hv
        simp only [Option.some.injEq] at hv
        subst hv
        have h1 : (i < 1) ↔ i = 0 := by omega
        simp [hno, h1, or_comm]
      · rw [if_neg hi] at hv
        cases hv

/-! ## A closed form of the camera part -/

theorem unfixAll_eq_map (ids : List Int) (vs : List Vertex) :
    ids.foldl (fun vs vid => setFixed vs vid false) vs
      = vs.map (fun v => if v.id ∈ ids then { v with fixed := false } else v) := by
  induction ids generalizing vs with
  | nil => simp
  | cons vid rest ih =>
    rw [List.foldl_cons, ih]
    unfold setFixed
    rw [List.map_map]
    apply List.map_congr_left
    intro v _
    simp only [Function.comp, List.mem_cons]
    by_cases h1 : v.id = vid
    · simp [h1]
    · have : (v.id == vid) = false := by simpa using h1
      simp [h1, this]

theorem lookup_camvid2fid (front : Int) (n : Nat) (id : Int) :
    List.lookup id ((List.range n).map (fun (k : Nat) => ((k : Int), front + (k : Int)))).reverse
      = if 0 ≤ id ∧ id < n then some (front + id) else none := by
  induction n with
  | zero =>
    have : ¬ (0 ≤ id ∧ id < (0 : Int)) := by omega
    simp [this]
  | succ n ih =>
    rw [List.range_succ, List.map_append, List.reverse_append]
    simp only [List.map_cons, List.map_nil, List.reverse_cons, List.reverse_nil,
      List.nil_append, List.singleton_append]
    by_cases h : id = (n : Int)
    · subst h
      simp
    · rw [List.lookup_cons]
      have hb : (id == (n : Int)) = false := by simpa using h
      rw [hb, ih]
      by_cases h1 : 0 ≤ id ∧ id < (n : Int)
      · have h2 : 0 ≤ id ∧ id < ((n + 1 : Nat) : Int) := by push_cast; omega
        rw [if_pos h1, if_pos h2]
      · have h2 : ¬ (0 ≤ id ∧ id < ((n + 1 : Nat) : Int)) := by push_cast; omega
        rw [if_neg h1, if_neg h2]

/-- The camera part in closed form: vertex `k` is the camera of view `front + k`, with
the fixing flag of the camera loop, cleared when a camera-distance edge was added and
`k > 0`. -/
theorem cameraPart_closed (views : List View) (front stop fp mi : Int) (rows : List CamDist) :
    ∃ (mi' : Int) (es : List Edge),
      cameraPart views front stop fp mi rows
        = Except.ok { Graph.init with
            vertex_id := ((stop - front).toNat : Int),
            maxIters := mi',
            vertices := (List.range (stop - front).toNat).map (fun (k : Nat) =>
              { camVertex views fp (k : Int) (front + k) with
                fixed := if es ≠ [] ∧ 0 < k then false
                         else (camVertex views fp (k : Int) (front + k)).fixed }),
            camvertVec := (List.range (stop - front).toNat).map (fun (k : Nat) => (k : Int)),
            camvid2fid := ((List.range (stop - front).toNat).map
              (fun (k : Nat) => ((k : Int), front + (k : Int)))).reverse,
            camfid2vid := ((List.range (stop - front).toNat).map
              (fun (k : Nat) => (front + (k : Int), (k : Int)))).reverse,
            edges_camdist := es } := by
  unfold cameraPart
  rw [addCamVertices_eq]
  generalize (stop - front).toNat = n
  have hcl := camLoop_closed views front fp n
  have hok : ∀ k v,
      mapFind ((List.range n).foldl
        (fun g (k : Nat) => addCamVertex views fp g (front + (k : Int))) Graph.init).camfid2vid k
        = some v →
      (findVertex ((List.range n).foldl
        (fun g (k : Nat) => addCamVertex views fp g (front + (k : Int))) Graph.init).vertices
        v).isSome := by
    intro k v hkv
    rw [hcl] at hkv ⊢
    simp only [mapFind, lookup_camfid2vid] at hkv
    simp only [findVertex_camVertices]
    split_ifs at hkv with h1
    have hv : v = k - front := by simpa using hkv.symm
    have h2 : 0 ≤ v ∧ v < (n : Int) := by omega
    rw [if_pos h2]; rfl
  obtain ⟨mi', es, hes⟩ := addCamDistEdges_ok mi rows _ hok
  refine ⟨mi', es, ?_⟩
  rw [hes, hcl]
  by_cases hne : es = []
  · subst hne
    simp [unfixCams, Graph.init]
  · have hpos : 0 < es.length := List.length_pos.mpr hne
    have hvs : List.map
        ((fun (v : Vertex) =>
            if v.id ∈ (List.map (fun (k : Nat) => (k : Int)) (List.range n)).tail then
              { v with fixed := false }
            else v) ∘ fun (k : Nat) => camVertex views fp (k : Int) (front + k))
        (List.range n)
        = List.map (fun (k : Nat) =>
            { camVertex views fp (k : Int) (front + k) with
              fixed := if es ≠ [] ∧ 0 < k then false
                       else (camVertex views fp (k : Int) (front + k)).fixed })
          (List.range n) := by
      apply List.map_congr_left
      intro k hk
      have hk' : k < n := List.mem_range.mp hk
      simp only [Function.comp, mem_tail_range, camVertex]
      by_cases h0 : 0 < k
      · have : (0 : Int) < (k : Int) ∧ (k : Int) < (n : Int) := by omega
        simp [this, h0, hne]
      · have : ¬ ((0 : Int) < (k : Int) ∧ (k : Int) < (n : Int)) := by omega
        simp [this, h0]
    simp only [unfixCams, Graph.init, List.nil_append, hpos, if_true, unfixLoop_zero,
      unfixAll_eq_map, List.map_map]
    rw [hvs]


theorem addStructure_vertices_kinds (cdt : Bool) (fp ff nw : Int) (m : Map) (g : Graph) :
    ∃ ext, (addStructure cdt fp ff nw m g).vertices = g.vertices ++ ext
      ∧ ∀ v ∈ ext, v.kind ≠ VertexKind.cam := by
  have hrefl : ∀ s : Graph, ∃ ext, s.vertices = s.vertices ++ ext
      ∧ ∀ v ∈ ext, v.kind ≠ VertexKind.cam := fun s => ⟨[], by simp, by simp⟩
  have htrans : ∀ a b c : Graph,
      (∃ ext, b.vertices = a.vertices ++ ext ∧ ∀ v ∈ ext, v.kind ≠ VertexKind.cam) →
      (∃ ext, c.vertices = b.vertices ++ ext ∧ ∀ v ∈ ext, v.kind ≠ VertexKind.cam) →
      ∃ ext, c.vertices = a.vertices ++ ext ∧ ∀ v ∈ ext, v.kind ≠ VertexKind.cam := by
    rintro a b c ⟨e1, h1, k1⟩ ⟨e2, h2, k2⟩
    refine ⟨e1 ++ e2, by rw [h2, h1, List.append_assoc], ?_⟩
    intro v hv
    rcases List.mem_append.mp hv with hv | hv
    · exact k1 v hv
    · exact k2 v hv
  have hone : ∀ (a : Graph) (w : Vertex), w.kind ≠ VertexKind.cam →
      ∃ ext, a.vertices ++ [w] = a.vertices ++ ext ∧ ∀ v ∈ ext, v.kind ≠ VertexKind.cam := by
    intro a w hw
    refine ⟨[w], rfl, ?_⟩
    intro v hv
    rw [List.mem_singleton.mp hv]
    exact hw
  have h1 := indexedLoop_rel (addKeyPoint fp ff nw)
    (fun a b => ∃ ext, b.vertices = a.vertices ++ ext ∧ ∀ v ∈ ext, v.kind ≠ VertexKind.cam)
    hrefl htrans
    (by
      intro st i x
      unfold addKeyPoint
      split_ifs
      · exact hrefl st
      · exact hone st _ (by simp)
      · exact hrefl st)
  have h2 := indexedLoop_rel (addVanishingPoint fp)
    (fun a b => ∃ ext, b.vertices = a.vertices ++ ext ∧ ∀ v ∈ ext, v.kind ≠ VertexKind.cam)
    hrefl htrans
    (by
      intro st i x
      unfold addVanishingPoint
      split_ifs
      · exact hone st _ (by simp)
      · exact hrefl st)
  have h3 := indexedLoop_rel (addIdealLine cdt fp ff nw)
    (fun a b => ∃ ext, b.vertices = a.vertices ++ ext ∧ ∀ v ∈ ext, v.kind ≠ VertexKind.cam)
    hrefl htrans
    (by
      intro st i x
      unfold addIdealLine
      split_ifs
      · exact hrefl st
      · exact hone st _ (by simp)
      · exact hrefl st)
  have h4 := indexedLoop_rel (addPrimaryPlane fp nw)
    (fun a b => ∃ ext, b.vertices = a.vertices ++ ext ∧ ∀ v ∈ ext, v.kind ≠ VertexKind.cam)
    hrefl htrans
    (by
      intro st i x
      unfold addPrimaryPlane
      split_ifs
      · exact hrefl st
      · exact hrefl st
      · exact hone st _ (by simp))
  unfold addStructure addPrimaryPlanes addIdealLines addVanishingPoints addKeyPoints
  simp only []
  exact htrans _ _ _ (htrans _ _ _ (htrans _ _ _ (h1 _ _ _) (h2 _ _ _)) (h3 _ _ _)) (h4 _ _ _)

/-- The camera vertices of the two G2O functions, view by view, in the camera part and
in the problem handed to the solver: view `i` has a camera vertex exactly when
`front <= i < stop`; it is fixed exactly when `i < 1 || i < frontPosIdx`, unless a
camera-distance edge was added and `i` is not the first view of the window, in which
case it is not fixed. -/
theorem cameras_in_problem (views : List View) (front stop fp mi : Int)
    (rows : List CamDist) :
    ∃ g0 : Graph, cameraPart views front stop fp mi rows = Except.ok g0
      ∧ (∀ i v, CamVertexOf g0 i v
          ↔ (front ≤ i ∧ i < stop
              ∧ v = { camVertex views fp (i - front) i with
                      fixed := if g0.edges_camdist ≠ [] ∧ front < i then false
                               else decide (i < 1) || decide (i < fp) }))
      ∧ ∀ (cdt : Bool) (s : MfgSettings) (hp : Helpers) (bp : Mat3 → VanishPnt2d → Vec3)
          (m : Map) (ff fve nw : Int) (g' : Graph),
          addEdges s hp bp m ff fve (addStructure cdt fp ff nw m g0) = Except.ok g' →
          g'.edges_camdist = g0.edges_camdist
          ∧ ∀ i v, CamVertexOf g' i v ↔ CamVertexOf g0 i v := by
  obtain ⟨mi', es, hg⟩ := cameraPart_closed views front stop fp mi rows
  refine ⟨_, hg, ?_, ?_⟩
  · intro i v
    simp only [CamVertexOf, mapFind, Graph.init, List.mem_map, List.mem_range]
    constructor
    · rintro ⟨⟨k, hk, rfl⟩, _, hl⟩
      simp only [camVertex, lookup_camvid2fid] at hl
      have h1 : 0 ≤ (k : Int) ∧ (k : Int) < ((stop - front).toNat : Int) := by omega
      rw [if_pos h1] at hl
      have hi : i = front + k := by simpa using hl.symm
      subst hi
      refine ⟨by omega, by omega, ?_⟩
      have e1 : front + (k : Int) - front = (k : Int) := by ring
      have e2 : (front < front + (k : Int)) ↔ 0 < k := by omega
      simp only [e1, e2, camVertex]
    · rintro ⟨h1, h2, rfl⟩
      refine ⟨⟨(i - front).toNat, by omega, ?_⟩, rfl, ?_⟩
      · have e1 : (((i - front).toNat : Nat) : Int) = i - front := by omega
        have e2 : front + (i - front) = i := by ring
        have e3 : (0 < (i - front).toNat) ↔ front < i := by omega
        simp only [e1, e2, e3, camVertex]
      · simp only [camVertex, lookup_camvid2fid]
        have h3 : 0 ≤ i - front ∧ i - front < ((stop - front).toNat : Int) := by omega
        rw [if_pos h3]
        congr 1
        ring
  · intro cdt s hp bp m ff fve nw g' hg'
    have hk := addEdges_keeps s hp bp m ff fve _ g' hg'
    have hc := addStructure_camFields cdt fp ff nw m
      { Graph.init with
        vertex_id := ((stop - front).toNat : Int),
        maxIters := mi',
        vertices := (List.range (stop - front).toNat).map (fun (k : Nat) =>
          { camVertex views fp (k : Int) (front + k) with
            fixed := if es ≠ [] ∧ 0 < k then false
                     else (camVertex views fp (k : Int) (front + k)).fixed }),
        camvertVec := (List.range (stop - front).toNat).map (fun (k : Nat) => (k : Int)),
        camvid2fid := ((List.range (stop - front).toNat).map
          (fun (k : Nat) => ((k : Int), front + (k : Int)))).reverse,
        camfid2vid := ((List.range (stop - front).toNat).map
          (fun (k : Nat) => (front + (k : Int), (k : Int)))).reverse,
        edges_camdist := es }
    obtain ⟨ext, hext, hkinds⟩ := addStructure_vertices_kinds cdt fp ff nw m
      { Graph.init with
        vertex_id := ((stop - front).toNat : Int),
        maxIters := mi',
        vertices := (List.range (stop - front).toNat).map (fun (k : Nat) =>
          { camVertex views fp (k : Int) (front + k) with
            fixed := if es ≠ [] ∧ 0 < k then false
                     else (camVertex views fp (k : Int) (front + k)).fixed }),
        camvertVec := (List.range (stop - front).toNat).map (fun (k : Nat) => (k : Int)),
        camvid2fid := ((List.range (stop - front).toNat).map
          (fun (k : Nat) => ((k : Int), front + (k : Int)))).reverse,
        camfid2vid := ((List.range (stop - front).toNat).map
          (fun (k : Nat) => (front + (k : Int), (k : Int)))).reverse,
        edges_camdist := es }
    have hcd := congrArg (fun t => t.2.2.2.1) hc
    have hvid := congrArg (fun t => t.2.1) hc
    simp only [camFields] at hcd hvid
    refine ⟨hk.2.1.trans hcd, ?_⟩
    intro i v
    unfold CamVertexOf
    rw [hk.1, hk.2.2.2.1, hext, hvid]
    constructor
    · rintro ⟨hv, hkind, hl⟩
      rcases List.mem_append.mp hv with hv | hv
      · exact ⟨hv, hkind, hl⟩
      · exact absurd hkind (hkinds v hv)
    · rintro ⟨hv, hkind, hl⟩
      exact ⟨List.mem_append.mpr (Or.inl hv), hkind, hl⟩

/-! ## Free and fixed cameras of the problem -/

theorem mem_intRange (a b i : Int) : i ∈ intRange a b ↔ a ≤ i ∧ i < b := by
  unfold intRange
  simp only [List.mem_map, List.mem_range]
  constructor
  · rintro ⟨k, hk, rfl⟩
    omega
  · rintro ⟨h1, h2⟩
    exact ⟨(i - a).toNat, by omega, by omega⟩

theorem vecAt_some {α : Type} (xs : List α) (i : Int) (h0 : 0 ≤ i) (h1 : i < xs.length) :
    ∃ x, vecAt xs i = some x := by
  unfold vecAt
  rw [if_neg (not_lt.mpr h0)]
  have : i.toNat < xs.length := by omega
  exact ⟨xs[i.toNat], List.getElem?_eq_getElem this⟩

/-- C7 (as the code does it): in `adjustBundle_G2O` and `bundle_adjust_between`,
whenever at least one camera-distance edge is active, every camera vertex of the window
other than the first one (the camera of view `frontVptIdx`, resp. `view_from`, which is
view 0 when the window starts there) is not fixed, in the camera part and in every
problem handed to the solver; the first one keeps the flag of the camera loop. -/
theorem C7_unfixing (s : MfgSettings) (h : Helpers) (bp : Mat3 → VanishPnt2d → Vec3)
    (m : Map) (numPos numFrm view_from view_to cam_from : Int) :
    (∃ g : Graph, adjustBundle_G2O_cameras s m numPos numFrm = Except.ok g
      ∧ (g.edges_camdist ≠ [] → ∀ i v, CamVertexOf g i v →
          (frontVptIdx m.views.length numFrm s.baNumFramesVPoint < i → v.fixed = false)
          ∧ (i = frontVptIdx m.views.length numFrm s.baNumFramesVPoint →
              (v.fixed = true ↔ (i < 1 ∨ i < frontPosIdx m.views.length numPos)))))
    ∧ (∀ g' : Graph, adjustBundle_G2O_problem s h bp m numPos numFrm = Except.ok g' →
        g'.edges_camdist ≠ [] → ∀ i v, CamVertexOf g' i v →
          (frontVptIdx m.views.length numFrm s.baNumFramesVPoint < i → v.fixed = false)
          ∧ (i = frontVptIdx m.views.length numFrm s.baNumFramesVPoint →
              (v.fixed = true ↔ (i < 1 ∨ i < frontPosIdx m.views.length numPos))))
    ∧ (∃ g : Graph, bundle_adjust_between_cameras m view_from view_to cam_from = Except.ok g
      ∧ (g.edges_camdist ≠ [] → ∀ i v, CamVertexOf g i v →
          (view_from < i → v.fixed = false)
          ∧ (i = view_from → (v.fixed = true ↔ (i < 1 ∨ i < cam_from)))))
    ∧ (∀ g' : Graph,
        bundle_adjust_between_problem s h bp m view_from view_to cam_from = Except.ok g' →
        g'.edges_camdist ≠ [] → ∀ i v, CamVertexOf g' i v →
          (view_from < i → v.fixed = false)
          ∧ (i = view_from → (v.fixed = true ↔ (i < 1 ∨ i < cam_from)))) := by
  -- the statement for any graph whose camera vertices are those of the camera part
  have key : ∀ (views : List View) (front stop fp : Int) (g0 g : Graph),
      (∀ i v, CamVertexOf g0 i v
          ↔ (front ≤ i ∧ i < stop
              ∧ v = { camVertex views fp (i - front) i with
                      fixed := if g0.edges_camdist ≠ [] ∧ front < i then false
                               else decide (i < 1) || decide (i < fp) })) →
      g.edges_camdist = g0.edges_camdist →
      (∀ i v, CamVertexOf g i v ↔ CamVertexOf g0 i v) →
      g.edges_camdist ≠ [] → ∀ i v, CamVertexOf g i v →
        (front < i → v.fixed = false)
        ∧ (i = front → (v.fixed = true ↔ (i < 1 ∨ i < fp))) := by
    intro views front stop fp g0 g hcam hcd hiff hne i v hv
    rw [hcd] at hne
    obtain ⟨_, _, rfl⟩ := (hcam i v).mp ((hiff i v).mp hv)
    constructor
    · intro hi
      simp [hne, hi]
    · intro hi
      have : ¬ front < i := by omega
      simp [this]
  obtain ⟨g0, hg0, hcam, hprob⟩ := cameras_in_problem m.views
    (frontVptIdx m.views.length numFrm s.baNumFramesVPoint) (m.views.length : Int)
    (frontPosIdx m.views.length numPos) 20 (camDistRows m.camdist_constraints numFrm)
  obtain ⟨b0, hb0, hbcam, hbprob⟩ := cameras_in_problem m.views view_from (view_to + 1)
    cam_from (max 20 (view_to - view_from))
    (camDistRows m.camdist_constraints (view_to - view_from))
  refine ⟨⟨g0, hg0, key _ _ _ _ g0 g0 hcam rfl (fun _ _ => Iff.rfl)⟩, ?_,
    ⟨b0, hb0, key _ _ _ _ b0 b0 hbcam rfl (fun _ _ => Iff.rfl)⟩, ?_⟩
  · intro g' hg'
    unfold adjustBundle_G2O_problem adjustBundle_G2O_vertices adjustBundle_G2O_cameras at hg'
    rw [hg0] at hg'
    obtain ⟨hcd, hiff⟩ := hprob false s h bp m _ _ _ g' hg'
    exact key _ _ _ _ g0 g' hcam hcd hiff
  · intro g' hg'
    unfold bundle_adjust_between_problem bundle_adjust_between_vertices
      bundle_adjust_between_cameras at hg'
    rw [hb0] at hg'
    obtain ⟨hcd, hiff⟩ := hbprob true s h bp m _ _ _ g' hg'
    exact key _ _ _ _ b0 g' hbcam hcd hiff

/-- C7 fails as stated: with ten views, `numPos = 3`, `numFrm = 5`, a vanishing-point
window of 5 frames and a distance constraint between the views 6 and 7, the window
starts at view 5; one camera-distance edge is active and the camera vertex of view 5,
which is not view 0, is fixed. -/
theorem C7_counterexample :
    ¬ ((adjustBundle_G2O_cameras shortVpSettings tenViewMap 3 5).toOption.map
          (fun g => decide (g.edges_camdist ≠ [])) = some true
        → (adjustBundle_G2O_cameras shortVpSettings tenViewMap 3 5).toOption.bind
            (fun g => (camVertexOfView g 5).map (fun v => v.fixed)) = some false) := by
  decide

/-! ## The staged solve -/

/-- A relation that every step of a fallible loop over `xs` establishes for the elements
of `xs`, and that is reflexive and transitive, relates the start state to the final
state. -/
theorem foldlM_rel_mem {σ α ε : Type} (f : σ → α → Except ε σ) (R : σ → σ → Prop)
    (hrefl : ∀ s, R s s) (htrans : ∀ a b c, R a b → R b c → R a c)
    (xs : List α) (hstep : ∀ s x s', x ∈ xs → f s x = Except.ok s' → R s s')
    (s s' : σ) (h : xs.foldlM f s = Except.ok s') : R s s' := by
  induction xs generalizing s with
  | nil =>
    simp only [List.foldlM, pure, Except.pure] at h
    cases h
    exact hrefl _
  | cons x rest ih =>
    simp only [List.foldlM, bind, Except.bind] at h
    cases hx : f s x with
    | error e => rw [hx] at h; cases h
    | ok s1 =>
      rw [hx] at h
      exact htrans _ _ _ (hstep s x s1 (List.mem_cons_self _ _) hx)
        (ih (fun a b c hb => hstep a b c (List.mem_cons_of_mem _ hb)) s1 h)

theorem mem_camDistRows (cs : List CamDist) (span : Int) (c : CamDist)
    (h : c ∈ camDistRows cs span) : c ∈ cs := by
  unfold camDistRows at h
  obtain ⟨i, _, hi⟩ := List.mem_filterMap.mp h
  unfold vecAt at hi
  split_ifs at hi
  exact List.getElem?_mem hi

/-- Every camera-distance edge carries the weight of a row of `camdist_constraints` as
its information and the distance of that row as its measurement. -/
theorem cameraPart_edges (views : List View) (front stop fp mi : Int) (cs : List CamDist)
    (span : Int) (g : Graph)
    (h : cameraPart views front stop fp mi (camDistRows cs span) = Except.ok g) :
    ∀ e ∈ g.edges_camdist, ∃ c ∈ cs, e.information = [c.weight] ∧ e.measurement = [c.dist]
      ∧ e.kind = EdgeKind.camCamDist := by
  unfold cameraPart at h
  split at h
  · cases h
  · rename_i g1 hg1
    cases h
    have hrel := foldlM_rel_mem (addCamDistEdge mi)
      (fun a b => ∀ e ∈ b.edges_camdist, e ∈ a.edges_camdist
        ∨ ∃ c ∈ cs, e.information = [c.weight] ∧ e.measurement = [c.dist]
          ∧ e.kind = EdgeKind.camCamDist)
      (fun a e he => Or.inl he)
      (fun a b c hab hbc e he => by
        rcases hbc e he with h1 | h1
        · exact hab e h1
        · exact Or.inr h1)
      (camDistRows cs span)
      (by
        intro a c b hc hab
        unfold addCamDistEdge at hab
        simp only [] at hab
        repeat' split at hab
        all_goals first
          | (cases hab; done)
          | (cases hab; intro e he; exact Or.inl he)
          | (cases hab
             intro e he
             rcases List.mem_append.mp he with h1 | h1
             · exact Or.inl h1
             · rw [List.mem_singleton.mp h1]
               exact Or.inr ⟨c, mem_camDistRows cs span c hc, by simp, rfl, rfl⟩))
      _ g1 hg1
    intro e he
    have he' : e ∈ g1.edges_camdist := by
      unfold unfixCams at he
      split_ifs at he
      · exact he
      · exact he
    rcases hrel e he' with h1 | h1
    · rw [addCamVertices_eq, camLoop_closed] at h1
      simp [Graph.init] at h1
    · exact h1

theorem solveStage_solveLog (S : G2oSolver) (g : Graph) :
    (solveStage S g).solveLog
      = g.solveLog ++ [g.edges_camdist.map (fun e => e.information)] := rfl

theorem solveStage_edges_camdist (S : G2oSolver) (g : Graph) :
    (solveStage S g).edges_camdist = g.edges_camdist.map scaleInformation := rfl

/-- The staged loop run for `n` passes: the `k`-th solve (counting from 0) runs with
every camera-distance information multiplied by `100 ^ k`, and after the `n` passes the
information stored on the edges has been multiplied `n` times. -/
theorem stagedLoop_closed (S : G2oSolver) (g : Graph) (n : Nat) :
    ((List.range n).foldl (fun g _ => solveStage S g) g).solveLog
        = g.solveLog ++ (List.range n).map (fun k =>
            g.edges_camdist.map (fun e => e.information.map (fun w => w * 100 ^ k)))
    ∧ ((List.range n).foldl (fun g _ => solveStage S g) g).edges_camdist
        = g.edges_camdist.map (fun e =>
            { e with information := e.information.map (fun w => w * 100 ^ n) }) := by
  induction n with
  | zero =>
    constructor
    · simp
    · simp
  | succ n ih =>
    rw [List.range_succ, List.foldl_append]
    simp only [List.foldl_cons, List.foldl_nil]
    rw [solveStage_solveLog, solveStage_edges_camdist, ih.1, ih.2]
    constructor
    · simp only [List.map_append, List.map_cons, List.map_nil, List.map_map,
        List.append_assoc]
      rfl
    · simp only [List.map_map]
      apply List.map_congr_left
      intro e _
      simp only [scaleInformation, Function.comp, List.map_map]
      congr 1
      apply List.map_congr_left
      intro w _
      simp only [Function.comp]
      ring

/-! ### No solve happens while the problem is built -/

theorem addStructure_solveLog (cdt : Bool) (fp ff nw : Int) (m : Map) (g : Graph) :
    (addStructure cdt fp ff nw m g).solveLog = g.solveLog := by
  have hrefl : ∀ s : Graph, s.solveLog = s.solveLog := fun _ => rfl
  have htrans : ∀ a b c : Graph, b.solveLog = a.solveLog → c.solveLog = b.solveLog →
      c.solveLog = a.solveLog := fun _ _ _ h1 h2 => h2.trans h1
  have h1 := indexedLoop_rel (addKeyPoint fp ff nw)
    (fun a b => b.solveLog = a.solveLog) hrefl htrans
    (by
      intro st i x
      unfold addKeyPoint
      split_ifs <;> rfl)
  have h2 := indexedLoop_rel (addVanishingPoint fp)
    (fun a b => b.solveLog = a.solveLog) hrefl htrans
    (by
      intro st i x
      unfold addVanishingPoint
      split_ifs <;> rfl)
  have h3 := indexedLoop_rel (addIdealLine cdt fp ff nw)
    (fun a b => b.solveLog = a.solveLog) hrefl htrans
    (by
      intro st i x
      unfold addIdealLine
      split_ifs <;> rfl)
  have h4 := indexedLoop_rel (addPrimaryPlane fp nw)
    (fun a b => b.solveLog = a.solveLog) hrefl htrans
    (by
      intro st i x
      unfold addPrimaryPlane
      split_ifs <;> rfl)
  unfold addStructure addPrimaryPlanes addIdealLines addVanishingPoints addKeyPoints
  simp only []
  exact htrans _ _ _ (htrans _ _ _ (htrans _ _ _ (h1 _ _ _) (h2 _ _ _)) (h3 _ _ _)) (h4 _ _ _)

theorem cameraPart_solveLog (views : List View) (front stop fp mi : Int)
    (rows : List CamDist) (g : Graph)
    (h : cameraPart views front stop fp mi rows = Except.ok g) : g.solveLog = [] := by
  unfold cameraPart at h
  split at h
  · cases h
  · rename_i g1 hg1
    cases h
    have hrel := foldlM_rel (addCamDistEdge mi) (fun a b => b.solveLog = a.solveLog)
      (fun _ => rfl) (fun _ _ _ h1 h2 => h2.trans h1)
      (by
        intro a c b hab
        unfold addCamDistEdge at hab
        simp only [] at hab
        repeat' split at hab
        all_goals first
          | (cases hab; done)
          | (cases hab; rfl))
      rows _ g1 hg1
    have hu : (unfixCams g1).solveLog = g1.solveLog := by
      unfold unfixCams
      split_ifs <;> rfl
    rw [hu, hrel, addCamVertices_eq, camLoop_closed]
    rfl

/-- Factor construction performs no solve. -/
theorem addEdges_solveLog (s : MfgSettings) (hp : Helpers) (bp : Mat3 → VanishPnt2d → Vec3)
    (m : Map) (ff fv : Int) (g g' : Graph)
    (h : addEdges s hp bp m ff fv g = Except.ok g') : g'.solveLog = g.solveLog := by
  have hrefl : ∀ a : Graph, a.solveLog = a.solveLog := fun _ => rfl
  have htrans : ∀ a b c : Graph, b.solveLog = a.solveLog → c.solveLog = b.solveLog →
      c.solveLog = a.solveLog := fun _ _ _ h1 h2 => h2.trans h1
  have ek : ∀ (idx : Int) (x y : Graph) (o : Int × Int),
      addKptEdge s m.views ff idx x o = Except.ok y → y.solveLog = x.solveLog := by
    intro idx x y o hxy
    unfold addKptEdge at hxy
    simp only [] at hxy
    repeat' split at hxy
    all_goals first
      | (cases hxy; done)
      | (cases hxy; rfl)
  have ev : ∀ (idx : Int) (x y : Graph) (o : Int × Int),
      addVnptEdge s hp bp m fv idx x o = Except.ok y → y.solveLog = x.solveLog := by
    intro idx x y o hxy
    unfold addVnptEdge at hxy
    simp only [] at hxy
    repeat' split at hxy
    all_goals first
      | (cases hxy; done)
      | (cases hxy; rfl)
  have el : ∀ (idx : Int) (ln : IdealLine3d) (x y : Graph) (o : Int × Int),
      addLineEdge s m.views ff idx ln x o = Except.ok y → y.solveLog = x.solveLog := by
    intro idx ln x y o hxy
    unfold addLineEdge at hxy
    simp only [] at hxy
    repeat' split at hxy
    all_goals first
      | (cases hxy; done)
      | (cases hxy; rfl)
  have epp : ∀ (plGid : Int) (x y : Graph) (o : Int),
      addPointPlaneEdge s plGid x o = Except.ok y → y.solveLog = x.solveLog := by
    intro plGid x y o hxy
    unfold addPointPlaneEdge at hxy
    simp only [] at hxy
    repeat' split at hxy
    all_goals first
      | (cases hxy; done)
      | (cases hxy; rfl)
  have elp : ∀ (plGid : Int) (x y : Graph) (o : Int),
      addLinePlaneEdge s hp m plGid x o = Except.ok y → y.solveLog = x.solveLog := by
    intro plGid x y o hxy
    unfold addLinePlaneEdge at hxy
    simp only [] at hxy
    repeat' split at hxy
    all_goals first
      | (cases hxy; done)
      | (cases hxy; rfl)
  have hk : ∀ (idxs : List Int) (a b : Graph),
      addKptEdges s m ff idxs a = Except.ok b → b.solveLog = a.solveLog := by
    intro idxs a b hab
    refine foldlM_rel _ (fun a b => b.solveLog = a.solveLog) hrefl htrans ?_ idxs a b hab
    intro st idx st' hst
    split at hst
    · cases hst
    · exact foldlM_rel _ (fun a b => b.solveLog = a.solveLog) hrefl htrans
        (fun x o y hxy => ek idx x y o hxy) _ st st' hst
  have hl : ∀ (idxs : List Int) (a b : Graph),
      addLineEdges s m ff idxs a = Except.ok b → b.solveLog = a.solveLog := by
    intro idxs a b hab
    refine foldlM_rel _ (fun a b => b.solveLog = a.solveLog) hrefl htrans ?_ idxs a b hab
    intro st idx st' hst
    split at hst
    · cases hst
    · rename_i ln _
      exact foldlM_rel _ (fun a b => b.solveLog = a.solveLog) hrefl htrans
        (fun x o y hxy => el idx ln x y o hxy) _ st st' hst
  have hv : ∀ (a b : Graph),
      addVnptEdges s hp bp m fv a = Except.ok b → b.solveLog = a.solveLog := by
    intro a b hab
    refine foldlM_rel _ (fun a b => b.solveLog = a.solveLog) hrefl htrans ?_
      a.vpIdx2Opt a b hab
    intro st idx st' hst
    split at hst
    · cases hst
    · exact foldlM_rel _ (fun a b => b.solveLog = a.solveLog) hrefl htrans
        (fun x o y hxy => ev idx x y o hxy) _ st st' hst
  have hpl : ∀ (a b : Graph),
      addPlaneEdges s hp m a = Except.ok b → b.solveLog = a.solveLog := by
    intro a b hab
    refine foldlM_rel _ (fun a b => b.solveLog = a.solveLog) hrefl htrans ?_
      a.plIdx2Opt a b hab
    intro st plGid st' hst
    split at hst
    · cases hst
    · split at hst
      · cases hst
      · rename_i g1 hg1
        exact htrans _ _ _
          (foldlM_rel _ (fun a b => b.solveLog = a.solveLog) hrefl htrans
            (fun x o y hxy => epp plGid x y o hxy) _ st g1 hg1)
          (foldlM_rel _ (fun a b => b.solveLog = a.solveLog) hrefl htrans
            (fun x o y hxy => elp plGid x y o hxy) _ g1 st' hst)
  unfold addEdges at h
  simp only [bind, Except.bind] at h
  repeat' split at h
  all_goals try cases h
  rename_i _ g1 h1 _ g2 h2 _ g3 h3 _ g4 h4 _ g5 h5
  rw [hpl _ _ h, hl _ _ _ h5, hl _ _ _ h4, hv _ _ h3, hk _ _ _ h2, hk _ _ _ h1]

/-- The problem handed to the solver by `adjustBundle_G2O`: no solve has run, and every
camera-distance edge carries the weight and distance of a logged constraint. -/
theorem problem_camdist (s : MfgSettings) (hp : Helpers) (bp : Mat3 → VanishPnt2d → Vec3)
    (m : Map) (numPos numFrm : Int) (g1 : Graph)
    (h : adjustBundle_G2O_problem s hp bp m numPos numFrm = Except.ok g1) :
    g1.solveLog = []
    ∧ ∀ e ∈ g1.edges_camdist, ∃ c ∈ m.camdist_constraints,
        e.information = [c.weight] ∧ e.measurement = [c.dist]
        ∧ e.kind = EdgeKind.camCamDist := by
  unfold adjustBundle_G2O_problem adjustBundle_G2O_vertices at h
  cases hc : adjustBundle_G2O_cameras s m numPos numFrm with
  | error e => rw [hc] at h; cases h
  | ok g0 =>
    rw [hc] at h
    simp only [] at h
    have hp1 := problem_of_cameras false s hp bp m _ _ _ _ g0 g1 h
    have hs := addEdges_solveLog s hp bp m _ _ _ g1 h
    unfold adjustBundle_G2O_cameras at hc
    constructor
    · rw [hs, addStructure_solveLog]
      exact cameraPart_solveLog _ _ _ _ _ _ g0 hc
    · rw [hp1.1]
      exact cameraPart_edges _ _ _ _ _ _ _ g0 hc

/-- C8: when the problem `adjustBundle_G2O` hands to the solver has at least one
camera-distance edge, each such edge starts with the weight `w` of a logged constraint
as its information; the solver is then run exactly 5 times, the `k`-th run (counting from
1) with the information `w * 100 ^ (k - 1)` in force on every camera-distance edge, so
the last run works with `w * 100 ^ 4`. The value left on the edge after the fifth
multiplication, `w * 100 ^ 5`, is used by no solve. -/
theorem C8_staged_solve (s : MfgSettings) (hp : Helpers) (bp : Mat3 → VanishPnt2d → Vec3)
    (S : G2oSolver) (m : Map) (numPos numFrm : Int) (g1 : Graph)
    (hg1 : adjustBundle_G2O_problem s hp bp m numPos numFrm = Except.ok g1)
    (hne : g1.edges_camdist ≠ []) :
    (∀ e ∈ g1.edges_camdist, ∃ c ∈ m.camdist_constraints, e.information = [c.weight])
    ∧ (runOptimizer S g1).solveLog
        = (List.range 5).map (fun k =>
            g1.edges_camdist.map (fun e => e.information.map (fun w => w * 100 ^ k)))
    ∧ (runOptimizer S g1).solveLog.length = 5
    ∧ (runOptimizer S g1).solveLog.getLast?
        = some (g1.edges_camdist.map (fun e => e.information.map (fun w => w * 100 ^ 4)))
    ∧ (runOptimizer S g1).edges_camdist
        = g1.edges_camdist.map (fun e =>
            { e with information := e.information.map (fun w => w * 100 ^ 5) }) := by
  obtain ⟨hlog, hedges⟩ := problem_camdist s hp bp m numPos numFrm g1 hg1
  have hpos : 0 < g1.edges_camdist.length := List.length_pos.mpr hne
  have hrun : runOptimizer S g1 = (List.range 5).foldl (fun g _ => solveStage S g) g1 := by
    unfold runOptimizer
    rw [if_pos hpos]
  have hcl := stagedLoop_closed S g1 5
  rw [← hrun, hlog, List.nil_append] at hcl
  refine ⟨?_, hcl.1, ?_, ?_, hcl.2⟩
  · intro e he
    obtain ⟨c, hc, hi, _⟩ := hedges e he
    exact ⟨c, hc, hi⟩
  · rw [hcl.1]
    simp
  · rw [hcl.1]
    rfl

/-- C8 at the ten-view map with one logged constraint of weight 50 between views 6 and
7: five solves, with informations 50, 5000, 500000, 50000000 and 5000000000. -/
theorem C8_staged_solve_witness :
    (adjustBundle_G2O_problem shortVpSettings sampleHelpers (fun _ _ => ⟨0, 0, 1⟩)
        tenViewMap 3 5 = Except.ok tenViewProblem
      ∧ tenViewProblem.edges_camdist ≠ [])
    ∧ (runOptimizer sampleSolver tenViewProblem).solveLog
        = [[[50]], [[5000]], [[500000]], [[50000000]], [[5000000000]]] := by
  have h1 : adjustBundle_G2O_problem shortVpSettings sampleHelpers (fun _ _ => ⟨0, 0, 1⟩)
      tenViewMap 3 5 = Except.ok tenViewProblem := rfl
  have h2 : tenViewProblem.edges_camdist ≠ [] := by decide
  have h := C8_staged_solve shortVpSettings sampleHelpers (fun _ _ => ⟨0, 0, 1⟩)
    sampleSolver tenViewMap 3 5 tenViewProblem h1 h2
  refine ⟨⟨h1, h2⟩, ?_⟩
  rw [h.2.1]
  have hinfo : tenViewProblem.edges_camdist.map (fun e => e.information) = [[1 * 50]] := rfl
  have hmap : ∀ k : Nat, tenViewProblem.edges_camdist.map
      (fun e => e.information.map (fun w => w * 100 ^ k)) = [[1 * 50 * 100 ^ k]] := by
    intro k
    have := congrArg (List.map (List.map (fun w : Rat => w * 100 ^ k))) hinfo
    simpa [List.map_map, Function.comp] using this
  simp only [List.range, List.range.loop, List.map_cons, List.map_nil, hmap]
  norm_num

/-! ## The Result Writer and the termination status -/

theorem vecAt_vecModify {α : Type} (xs : List α) (i : Int) (f : α → α) :
    vecAt (vecModify xs i f) i = (vecAt xs i).map f := by
  unfold vecAt vecModify
  by_cases hi : i < 0
  · simp [hi]
  · simp only [hi, if_false]
    cases hx : xs[i.toNat]? with
    | none => simp [hx]
    | some x =>
      simp only [Option.map_some']
      rw [List.getElem?_set_self]
      exact (List.getElem?_eq_some_iff.mp hx).1

theorem length_vecModify {α : Type} (xs : List α) (i : Int) (f : α → α) :
    (vecModify xs i f).length = xs.length := by
  unfold vecModify
  split_ifs
  · rfl
  · split
    · rfl
    · simp

theorem vecAt_none_iff_length {α : Type} (xs ys : List α) (i : Int)
    (h : xs.length = ys.length) : vecAt xs i = none ↔ vecAt ys i = none := by
  unfold vecAt
  split_ifs
  · simp
  · simp [List.getElem?_eq_none_iff, h]

theorem ptLnVp_writeCams_length (h : Helpers) (para : List Rat) (is : List Int)
    (st : Nat × List View) :
    (is.foldl (ptLnVp_writeCam h para) st).2.length = st.2.length := by
  induction is generalizing st with
  | nil => rfl
  | cons i rest ih =>
    rw [List.foldl_cons, ih]
    unfold ptLnVp_writeCam
    simp only []
    split_ifs <;> exact length_vecModify _ _ _

/-- C9 (as the code does it): the Result Writers of both backends run after every
return of the solver. Neither the return value nor the termination reason is consulted:
replacing them by any other value changes nothing in the map state left by
`adjustBundle_PtLnVp` or `adjustBundle_G2O`; and whatever the outcome,
`adjustBundle_PtLnVp` stores the error total of the outcome on the newest view. -/
theorem C9_writer_ignores_status (s : MfgSettings) (h : Helpers)
    (bp : Mat3 → VanishPnt2d → Vec3) (lm : Map → PtLnVp → LmOutcome) (S : G2oSolver)
    (m : Map) (numPos numFrm : Int) (r : Int) (q : TermReason) (ret : Graph → Int → Int) :
    adjustBundle_PtLnVp h (fun a d => { lm a d with ret := r, reason := q }) m
        = adjustBundle_PtLnVp h lm m
    ∧ adjustBundle_G2O s h bp { S with ret := ret } m numPos numFrm
        = adjustBundle_G2O s h bp S m numPos numFrm
    ∧ (vecAt (adjustBundle_PtLnVp h lm m).views ((m.views.length : Int) - 1)).map
          (fun v => v.errAll)
        = (vecAt m.views ((m.views.length : Int) - 1)).map
          (fun _ => (lm m (ptLnVp_vectorize h m)).err_all) := by
  refine ⟨rfl, rfl, ?_⟩
  unfold adjustBundle_PtLnVp ptLnVp_writeBack
  simp only []
  rw [vecAt_vecModify, Option.map_map]
  have hlen := ptLnVp_writeCams_length h (lm m (ptLnVp_vectorize h m)).para
    (intRange (ptLnVp_vectorize h m).frontPosIdx (m.views.length : Int)) (0, m.views)
  simp only [] at hlen
  have hiff := vecAt_none_iff_length _ m.views ((m.views.length : Int) - 1) hlen
  cases h1 : vecAt m.views ((m.views.length : Int) - 1) with
  | none =>
    rw [hiff.mpr h1]
    rfl
  | some v =>
    cases h2 : vecAt (List.foldl (ptLnVp_writeCam h (lm m (ptLnVp_vectorize h m)).para)
        (0, m.views) (intRange (ptLnVp_vectorize h m).frontPosIdx
          (m.views.length : Int))).2 ((m.views.length : Int) - 1) with
    | none =>
      rw [hiff.mp h2] at h1
      cases h1
    | some w => rfl

/-- C9 fails as stated: on the six-view scenario map, a solver outcome that reports
numerical failure is written back by `adjustBundle_PtLnVp` like any other, so the map
state after the call differs from the map state before it. -/
theorem C9_counterexample :
    ¬ (failedOutcome.reason = TermReason.numericalFailure →
        adjustBundle_PtLnVp sampleHelpers (fun _ _ => failedOutcome) scenarioMap
          = scenarioMap) := by
  decide

/-! ## The abort of factor construction -/

theorem lookupVertex_ne_exit (vs : List Vertex) (id : Int) :
    lookupVertex vs id ≠ Except.error BuildError.exitCalled := by
  rcases lookupVertex_ok_or_undefined vs id with h | ⟨v, h, _⟩
  · rw [h]; intro hc; cases hc
  · rw [h]; intro hc; cases hc

theorem lookupVertex_error (vs : List Vertex) (id : Int) (e : BuildError)
    (h : lookupVertex vs id = Except.error e) : e = BuildError.undefinedBehaviour := by
  rcases lookupVertex_ok_or_undefined vs id with h1 | ⟨v, h1, _⟩
  · rw [h1] at h; cases h; rfl
  · rw [h1] at h; cases h

/-- A fallible loop none of whose steps ends with error `e` does not end with `e`. -/
theorem foldlM_ne_error {σ α ε : Type} (f : σ → α → Except ε σ) (e : ε)
    (hstep : ∀ s x, f s x ≠ Except.error e) (xs : List α) (s : σ) :
    xs.foldlM f s ≠ Except.error e := by
  induction xs generalizing s with
  | nil =>
    simp only [List.foldlM, pure, Except.pure]
    intro h; cases h
  | cons x rest ih =>
    simp only [List.foldlM, bind, Except.bind]
    cases hx : f s x with
    | error e1 =>
      simp only []
      intro h
      cases h
      exact hstep s x hx
    | ok s1 => exact ih s1

theorem addKptEdge_ne_exit (s : MfgSettings) (views : List View) (ff idx : Int) (g : Graph)
    (o : Int × Int) : addKptEdge s views ff idx g o ≠ Except.error BuildError.exitCalled := by
  intro h
  unfold addKptEdge at h
  simp only [] at h
  repeat' split at h
  all_goals first
    | (cases h; done)
    | (rename_i e he; cases h; exact lookupVertex_ne_exit _ _ he)

theorem addVnptEdge_ne_exit (s : MfgSettings) (hp : Helpers)
    (bp : Mat3 → VanishPnt2d → Vec3) (m : Map) (fv vpGid : Int) (g : Graph) (o : Int × Int) :
    addVnptEdge s hp bp m fv vpGid g o ≠ Except.error BuildError.exitCalled := by
  intro h
  unfold addVnptEdge at h
  simp only [] at h
  repeat' split at h
  all_goals first
    | (cases h; done)
    | (rename_i e he; cases h; exact lookupVertex_ne_exit _ _ he)

theorem addLineEdge_ne_exit (s : MfgSettings) (views : List View) (ff idx : Int)
    (ln : IdealLine3d) (g : Graph) (o : Int × Int) :
    addLineEdge s views ff idx ln g o ≠ Except.error BuildError.exitCalled := by
  intro h
  unfold addLineEdge at h
  simp only [] at h
  repeat' split at h
  all_goals first
    | (cases h; done)
    | (rename_i e he; cases h; exact lookupVertex_ne_exit _ _ he)

theorem addPointPlaneEdge_ne_exit (s : MfgSettings) (plGid : Int) (g : Graph) (ptGid : Int) :
    addPointPlaneEdge s plGid g ptGid ≠ Except.error BuildError.exitCalled := by
  intro h
  unfold addPointPlaneEdge at h
  simp only [] at h
  repeat' split at h
  all_goals first
    | (cases h; done)
    | (rename_i e he; cases h; exact lookupVertex_ne_exit _ _ he)

theorem addLinePlaneEdge_ne_exit (s : MfgSettings) (hp : Helpers) (m : Map) (plGid : Int)
    (g : Graph) (lnGid : Int) :
    addLinePlaneEdge s hp m plGid g lnGid ≠ Except.error BuildError.exitCalled := by
  intro h
  unfold addLinePlaneEdge at h
  simp only [] at h
  repeat' split at h
  all_goals first
    | (cases h; done)
    | (rename_i e he; cases h; exact lookupVertex_ne_exit _ _ he)

/-- Factor construction never reaches one of its `exit(0)` statements. -/
theorem addEdges_ne_exit (s : MfgSettings) (hp : Helpers) (bp : Mat3 → VanishPnt2d → Vec3)
    (m : Map) (ff fv : Int) (g : Graph) :
    addEdges s hp bp m ff fv g ≠ Except.error BuildError.exitCalled := by
  have hk : ∀ (idxs : List Int) (a : Graph),
      addKptEdges s m ff idxs a ≠ Except.error BuildError.exitCalled := by
    intro idxs a
    refine foldlM_ne_error _ _ ?_ idxs a
    intro st idx
    split
    · intro hc; cases hc
    · exact foldlM_ne_error _ _ (fun x o => addKptEdge_ne_exit s m.views ff idx x o) _ st
  have hl : ∀ (idxs : List Int) (a : Graph),
      addLineEdges s m ff idxs a ≠ Except.error BuildError.exitCalled := by
    intro idxs a
    refine foldlM_ne_error _ _ ?_ idxs a
    intro st idx
    split
    · intro hc; cases hc
    · rename_i ln _
      exact foldlM_ne_error _ _ (fun x o => addLineEdge_ne_exit s m.views ff idx ln x o) _ st
  have hv : ∀ (a : Graph),
      addVnptEdges s hp bp m fv a ≠ Except.error BuildError.exitCalled := by
    intro a
    refine foldlM_ne_error _ _ ?_ a.vpIdx2Opt a
    intro st idx
    split
    · intro hc; cases hc
    · exact foldlM_ne_error _ _ (fun x o => addVnptEdge_ne_exit s hp bp m fv idx x o) _ st
  have hpl : ∀ (a : Graph),
      addPlaneEdges s hp m a ≠ Except.error BuildError.exitCalled := by
    intro a
    refine foldlM_ne_error _ _ ?_ a.plIdx2Opt a
    intro st plGid
    split
    · intro hc; cases hc
    · split
      · rename_i e he
        intro hc
        cases hc
        exact foldlM_ne_error _ _ (fun x o => addPointPlaneEdge_ne_exit s plGid x o) _ st he
      · exact foldlM_ne_error _ _ (fun x o => addLinePlaneEdge_ne_exit s hp m plGid x o) _ _
  intro h
  unfold addEdges at h
  simp only [bind, Except.bind] at h
  repeat' split at h
  all_goals first
    | exact hpl _ h
    | (rename_i he; cases h; first
        | exact hk _ _ he
        | exact hv _ he
        | exact hl _ _ he)

theorem cameraPart_ne_exit (views : List View) (front stop fp mi : Int)
    (rows : List CamDist) :
    cameraPart views front stop fp mi rows ≠ Except.error BuildError.exitCalled := by
  intro h
  unfold cameraPart at h
  split at h
  · rename_i e he
    cases h
    refine foldlM_ne_error (addCamDistEdge mi) _ ?_ rows _ he
    intro a c hc
    unfold addCamDistEdge at hc
    simp only [] at hc
    repeat' split at hc
    all_goals cases hc
  · cases h

/-- C10: factor construction of `adjustBundle_G2O` never aborts. For every map state the
construction ends in a problem or in a dereference of `end()`, never in `exit(0)`; and on
the six-view map whose ideal line is admitted while its vanishing point is not, it ends
in a problem whose two line edges carry vertex 0, the camera vertex of view 0, in the
slot of the vanishing point. -/
theorem C10_no_abort (s : MfgSettings) (hp : Helpers) (bp : Mat3 → VanishPnt2d → Vec3)
    (m : Map) (numPos numFrm : Int) :
    adjustBundle_G2O_problem s hp bp m numPos numFrm ≠ Except.error BuildError.exitCalled
    ∧ (adjustBundle_G2O_problem scenarioSettings sampleHelpers (fun _ _ => ⟨0, 0, 1⟩)
          orphanLineMap 3 5).toOption.map
        (fun g => (g.vpIdx2Opt, g.lnIdx2Opt, g.vecEdgeLine.map (fun e => e.vertices),
          (findVertex g.vertices 0).map (fun v => v.kind),
          (findVertex g.vertices 6).map (fun v => v.kind), mapFind g.camvid2fid 0))
      = some ([], [0], [[6, 0, 4], [6, 0, 5]], some VertexKind.cam, some VertexKind.lnpt,
          some 0) := by
  constructor
  · intro h
    unfold adjustBundle_G2O_problem adjustBundle_G2O_vertices adjustBundle_G2O_cameras at h
    split at h
    · rename_i e he
      cases h
      split at he
      · rename_i e1 he1
        cases he
        exact cameraPart_ne_exit _ _ _ _ _ _ he1
      · cases he
    · exact addEdges_ne_exit _ _ _ _ _ _ _ h
  · rfl

/-! ## Closed forms of the dense vectorizer -/

theorem indexed_fst_lt {α : Type} (xs : List α) (i : Int) :
    ∀ p ∈ indexed i xs, i ≤ p.1 := by
  induction xs generalizing i with
  | nil => intro p hp; cases hp
  | cons x rest ih =>
    intro p hp
    simp only [indexed, List.mem_cons] at hp
    rcases hp with rfl | hp
    · exact le_refl _
    · have := ih (i + 1) p hp
      omega

theorem indexed_pairwise {α : Type} (xs : List α) (i : Int) :
    (indexed i xs).Pairwise (fun p q => p.1 < q.1) := by
  induction xs generalizing i with
  | nil => exact List.Pairwise.nil
  | cons x rest ih =>
    simp only [indexed, List.pairwise_cons]
    refine ⟨?_, ih (i + 1)⟩
    intro p hp
    have := indexed_fst_lt rest (i + 1) p hp
    show i < p.1
    omega

theorem indexed_mem {α : Type} (xs : List α) (i : Int) (p : Int × α) :
    p ∈ indexed i xs ↔ i ≤ p.1 ∧ xs[(p.1 - i).toNat]? = some p.2 := by
  induction xs generalizing i with
  | nil => simp [indexed]
  | cons x rest ih =>
    simp only [indexed, List.mem_cons, ih]
    constructor
    · rintro (rfl | ⟨h1, h2⟩)
      · simp
      · refine ⟨by omega, ?_⟩
        have : (p.1 - i).toNat = (p.1 - (i + 1)).toNat + 1 := by omega
        rw [this, List.getElem?_cons_succ]
        exact h2
    · rintro ⟨h1, h2⟩
      by_cases he : p.1 = i
      · left
        rw [he] at h2
        simp at h2
        exact Prod.ext he h2.symm
      · right
        refine ⟨by omega, ?_⟩
        have : (p.1 - i).toNat = (p.1 - (i + 1)).toNat + 1 := by omega
        rw [this, List.getElem?_cons_succ] at h2
        exact h2

/-- The indices a filter of the visited pairs keeps are pairwise distinct. -/
theorem indexed_filter_nodup {α : Type} (xs : List α) (i : Int) (P : Int × α → Bool) :
    (((indexed i xs).filter P).map Prod.fst).Nodup := by
  have h1 := (indexed_pairwise xs i).filter P
  have h2 : (((indexed i xs).filter P).map Prod.fst).Pairwise (fun a b => a < b) := by
    rw [List.pairwise_map]
    exact h1
  exact h2.imp (fun h => ne_of_lt h)

/-- The key-point loop of the dense vectorizer in closed form. -/
theorem ptLnVp_addKeyPoints_closed (xs : List KeyPoint3d) (d : PtLnVp) (i : Int) :
    ptLnVp_addKeyPoints d i xs
      = { d with
          paraVec := d.paraVec ++
            ((indexed i xs).filter
              (fun p => ptLnVp_kptFree d.frontPosIdx d.frontFrmIdx p.2)).flatMap
              (fun p => [p.2.x, p.2.y, p.2.z]),
          kptIdx2Opt := d.kptIdx2Opt ++
            ((indexed i xs).filter
              (fun p => ptLnVp_kptFree d.frontPosIdx d.frontFrmIdx p.2)).map Prod.fst,
          kptIdx2Rpj_notOpt := d.kptIdx2Rpj_notOpt ++
            ((indexed i xs).filter
              (fun p => ptLnVp_kptFixed d.frontPosIdx d.frontFrmIdx p.2)).map Prod.fst } := by
  induction xs generalizing d i with
  | nil => simp [ptLnVp_addKeyPoints, indexedLoop, indexed]
  | cons x rest ih =>
    unfold ptLnVp_addKeyPoints at ih ⊢
    simp only [indexedLoop, indexed]
    rw [ih]
    unfold ptLnVp_addKeyPoint
    by_cases h3 : x.is3D = true
    · by_cases ho : observedFrom x.viewId_ptLid d.frontPosIdx = true
      · by_cases hf : firstViewId x.viewId_ptLid < d.frontFrmIdx
        · simp [h3, ho, hf, ptLnVp_kptFree, ptLnVp_kptFixed, List.filter_cons]
        · simp [h3, ho, hf, ptLnVp_kptFree, ptLnVp_kptFixed, List.filter_cons]
      · simp [h3, ho, ptLnVp_kptFree, ptLnVp_kptFixed, List.filter_cons]
    · simp [h3, ptLnVp_kptFree, ptLnVp_kptFixed, List.filter_cons]

/-- The ideal-line loop of the dense vectorizer in closed form. -/
theorem ptLnVp_addIdealLines_closed (xs : List IdealLine3d) (d : PtLnVp) (i : Int) :
    ptLnVp_addIdealLines d i xs
      = { d with
          paraVec := d.paraVec ++
            ((indexed i xs).filter
              (fun p => ptLnVp_idlFree d.frontPosIdx d.frontFrmIdx p.2)).flatMap
              (fun p => [p.2.midpt.x, p.2.midpt.y, p.2.midpt.z]),
          idlIdx2Opt := d.idlIdx2Opt ++
            ((indexed i xs).filter
              (fun p => ptLnVp_idlFree d.frontPosIdx d.frontFrmIdx p.2)).map Prod.fst,
          idlIdx2Rpj_notOpt := d.idlIdx2Rpj_notOpt ++
            ((indexed i xs).filter
              (fun p => ptLnVp_idlFixed d.frontPosIdx d.frontFrmIdx p.2)).map Prod.fst } := by
  induction xs generalizing d i with
  | nil => simp [ptLnVp_addIdealLines, indexedLoop, indexed]
  | cons x rest ih =>
    unfold ptLnVp_addIdealLines at ih ⊢
    simp only [indexedLoop, indexed]
    rw [ih]
    unfold ptLnVp_addIdealLine
    by_cases h3 : x.is3D = true
    · by_cases ho : observedFrom x.viewId_lnLid d.frontPosIdx = true
      · by_cases hf : firstViewId x.viewId_lnLid < d.frontFrmIdx
        · simp [h3, ho, hf, ptLnVp_idlFree, ptLnVp_idlFixed, List.filter_cons]
        · simp [h3, ho, hf, ptLnVp_idlFree, ptLnVp_idlFixed, List.filter_cons]
      · simp [h3, ho, ptLnVp_idlFree, ptLnVp_idlFixed, List.filter_cons]
    · simp [h3, ptLnVp_idlFree, ptLnVp_idlFixed, List.filter_cons]

/-! ## The line write-back -/

theorem projectPt3d2Ln3d_onLine (ln : IdealLine3d) (p : Vec3) :
    OnLine ln.midpt ln.direct (projectPt3d2Ln3d ln p) :=
  ⟨_, rfl⟩

theorem projectPt3d2Ln3d_orthogonal (ln : IdealLine3d) (p : Vec3)
    (hd : ln.direct.dot ln.direct ≠ 0) :
    (p.sub (projectPt3d2Ln3d ln p)).dot ln.direct = 0 := by
  unfold Vec3.dot at hd
  simp only [projectPt3d2Ln3d, Vec3.dot, Vec3.sub]
  field_simp
  ring

theorem projectPt3d2Ln3d_self (ln : IdealLine3d) :
    projectPt3d2Ln3d ln ln.midpt = ln.midpt := by
  simp [projectPt3d2Ln3d]

theorem vecAt_vecModify_ne {α : Type} (xs : List α) (i j : Int) (f : α → α) (h : i ≠ j) :
    vecAt (vecModify xs i f) j = vecAt xs j := by
  unfold vecAt vecModify
  by_cases hj : j < 0
  · simp [hj]
  · simp only [hj, if_false]
    by_cases hi : i < 0
    · simp [hi]
    · simp only [hi, if_false]
      cases hx : xs[i.toNat]? with
      | none => rfl
      | some x =>
        simp only []
        rw [List.getElem?_set_ne]
        omega

/-- The line loop of the dense Result Writer over pairwise distinct indices: the `k`-th
listed line is rewritten once, from the block at offset `st.1 + 3 * k`, every other line
is left alone, and the offset advances by 3 per listed line. -/
theorem ptLnVp_writeLines_at (h : Helpers) (vps : List VanishPnt3d) (para : List Rat)
    (idxs : List Int) (hn : idxs.Nodup) (st : Nat × List IdealLine3d) :
    (∀ (k : Nat) (idx : Int), idxs[k]? = some idx →
        vecAt (idxs.foldl (ptLnVp_writeLine h vps para) st).2 idx
          = (vecAt st.2 idx).map (ptLnVp_updateLine h vps para (st.1 + 3 * k)))
    ∧ (∀ j, j ∉ idxs →
        vecAt (idxs.foldl (ptLnVp_writeLine h vps para) st).2 j = vecAt st.2 j)
    ∧ (idxs.foldl (ptLnVp_writeLine h vps para) st).1 = st.1 + 3 * idxs.length := by
  induction idxs generalizing st with
  | nil =>
    refine ⟨?_, ?_, ?_⟩
    · intro k idx hk; simp at hk
    · intro j _; rfl
    · rfl
  | cons i rest ih =>
    obtain ⟨hi, hrest⟩ := List.nodup_cons.mp hn
    obtain ⟨ih1, ih2, ih3⟩ := ih hrest (ptLnVp_writeLine h vps para st i)
    simp only [List.foldl_cons]
    refine ⟨?_, ?_, ?_⟩
    · intro k idx hk
      cases k with
      | zero =>
        simp only [List.getElem?_cons_zero, Option.some.injEq] at hk
        subst hk
        rw [ih2 i hi]
        simp only [ptLnVp_writeLine, Nat.mul_zero, Nat.add_zero]
        exact vecAt_vecModify _ _ _
      | succ k =>
        simp only [List.getElem?_cons_succ] at hk
        rw [ih1 k idx hk]
        have hne : i ≠ idx := by
          intro he
          subst he
          exact hi (List.getElem?_mem hk)
        simp only [ptLnVp_writeLine]
        rw [vecAt_vecModify_ne _ _ _ _ hne]
        have hoff : st.1 + 3 + 3 * k = st.1 + 3 * (k + 1) := by omega
        rw [hoff]
    · intro j hj
      simp only [List.mem_cons, not_or] at hj
      rw [ih2 j hj.2]
      simp only [ptLnVp_writeLine]
      exact vecAt_vecModify_ne _ _ _ _ (Ne.symm hj.1)
    · rw [ih3]
      simp only [ptLnVp_writeLine, List.length_cons]
      omega

/-- What the statements l.423-433 leave on one line, with the projection as modelled:
the midpoint is on the line through the solver's midpoint `para[p..p+2]` along the stored
direction, and the step from the pre-solve midpoint to the stored midpoint is orthogonal
to that direction. -/
theorem ptLnVp_updateLine_onLine (h : Helpers) (hproj : h.projectPt3d2Ln3d = projectPt3d2Ln3d)
    (vps : List VanishPnt3d) (para : List Rat) (p : Nat) (ln : IdealLine3d) :
    OnLine ⟨rd para p, rd para (p + 1), rd para (p + 2)⟩
        (ptLnVp_updateLine h vps para p ln).direct (ptLnVp_updateLine h vps para p ln).midpt
    ∧ ∀ vp, vecAt vps ln.vpGid = some vp →
        (ptLnVp_updateLine h vps para p ln).direct = ⟨vp.x, vp.y, vp.z⟩
        ∧ ((ptLnVp_updateLine h vps para p ln).direct.dot
              (ptLnVp_updateLine h vps para p ln).direct ≠ 0 →
            (ln.midpt.sub (ptLnVp_updateLine h vps para p ln).midpt).dot
              (ptLnVp_updateLine h vps para p ln).direct = 0) := by
  unfold ptLnVp_updateLine
  simp only [hproj]
  cases hv : vecAt vps ln.vpGid with
  | none =>
    refine ⟨⟨0, by simp⟩, ?_⟩
    intro vp hvp
    cases hvp
  | some vp =>
    simp only []
    refine ⟨projectPt3d2Ln3d_onLine _ _, ?_⟩
    intro vp' hvp'
    cases hvp'
    refine ⟨rfl, ?_⟩
    intro hd
    exact projectPt3d2Ln3d_orthogonal _ _ hd

/-- The free lines of the dense backend after the call. -/
theorem ptLnVp_lines_written (h : Helpers) (lm : Map → PtLnVp → LmOutcome) (m : Map)
    (idx : Int) (hidx : idx ∈ (ptLnVp_vectorize h m).idlIdx2Opt) :
    ∃ p : Nat,
      vecAt (adjustBundle_PtLnVp h lm m).idealLines idx
        = (vecAt m.idealLines idx).map
            (ptLnVp_updateLine h (adjustBundle_PtLnVp h lm m).vanishingPoints
              (lm m (ptLnVp_vectorize h m)).para p) := by
  have hn : (ptLnVp_vectorize h m).idlIdx2Opt.Nodup := by
    simp only [ptLnVp_vectorize, ptLnVp_addIdealLines_closed, ptLnVp_addKeyPoints_closed,
      List.nil_append]
    exact indexed_filter_nodup _ _ _
  obtain ⟨k, hk⟩ := List.getElem?_of_mem hidx
  unfold adjustBundle_PtLnVp ptLnVp_writeBack
  simp only []
  exact ⟨_, (ptLnVp_writeLines_at h _ _ _ hn _).1 k idx hk⟩

theorem shifted_eval : (adjustBundle_PtLnVp projHelpers (fun _ _ => shiftedLineOutcome)
    originLineMap).idealLines.map (fun l => (l.midpt, l.direct))
      = [(⟨1, 0, 0⟩, ⟨0, 0, 1⟩)] := by
  have h : (adjustBundle_PtLnVp projHelpers (fun _ _ => shiftedLineOutcome)
      originLineMap).idealLines.map (fun l => (l.midpt, l.direct))
      = [(projectPt3d2Ln3d { originLine with midpt := ⟨1, 0, 0⟩, direct := ⟨0, 0, 1⟩ }
          ⟨0, 0, 0⟩, ⟨0, 0, 1⟩)] := rfl
  rw [h]
  simp [projectPt3d2Ln3d]

/-! ## A relation kept by every edge body is kept by factor construction -/

/-- Factor construction relates its start state to its result by any reflexive and
transitive relation that each of its five loop bodies establishes. -/
theorem addEdges_rel (R : Graph → Graph → Prop) (hrefl : ∀ g, R g g)
    (htrans : ∀ a b c, R a b → R b c → R a c)
    (s : MfgSettings) (hp : Helpers) (bp : Mat3 → VanishPnt2d → Vec3) (m : Map) (ff fv : Int)
    (ek : ∀ (idx : Int) (x y : Graph) (o : Int × Int),
      addKptEdge s m.views ff idx x o = Except.ok y → R x y)
    (ev : ∀ (idx : Int) (x y : Graph) (o : Int × Int),
      addVnptEdge s hp bp m fv idx x o = Except.ok y → R x y)
    (el : ∀ (idx : Int) (ln : IdealLine3d) (x y : Graph) (o : Int × Int),
      addLineEdge s m.views ff idx ln x o = Except.ok y → R x y)
    (epp : ∀ (plGid : Int) (x y : Graph) (o : Int),
      addPointPlaneEdge s plGid x o = Except.ok y → R x y)
    (elp : ∀ (plGid : Int) (x y : Graph) (o : Int),
      addLinePlaneEdge s hp m plGid x o = Except.ok y → R x y)
    (g g' : Graph) (h : addEdges s hp bp m ff fv g = Except.ok g') : R g g' := by
  have hk : ∀ (idxs : List Int) (a b : Graph),
      addKptEdges s m ff idxs a = Except.ok b → R a b := by
    intro idxs a b hab
    refine foldlM_rel _ R hrefl htrans ?_ idxs a b hab
    intro st idx st' hst
    split at hst
    · cases hst
    · exact foldlM_rel _ R hrefl htrans (fun x o y hxy => ek idx x y o hxy) _ st st' hst
  have hl : ∀ (idxs : List Int) (a b : Graph),
      addLineEdges s m ff idxs a = Except.ok b → R a b := by
    intro idxs a b hab
    refine foldlM_rel _ R hrefl htrans ?_ idxs a b hab
    intro st idx st' hst
    split at hst
    · cases hst
    · rename_i ln _
      exact foldlM_rel _ R hrefl htrans (fun x o y hxy => el idx ln x y o hxy) _ st st' hst
  have hv : ∀ (a b : Graph), addVnptEdges s hp bp m fv a = Except.ok b → R a b := by
    intro a b hab
    refine foldlM_rel _ R hrefl htrans ?_ a.vpIdx2Opt a b hab
    intro st idx st' hst
    split at hst
    · cases hst
    · exact foldlM_rel _ R hrefl htrans (fun x o y hxy => ev idx x y o hxy) _ st st' hst
  have hpl : ∀ (a b : Graph), addPlaneEdges s hp m a = Except.ok b → R a b := by
    intro a b hab
    refine foldlM_rel _ R hrefl htrans ?_ a.plIdx2Opt a b hab
    intro st plGid st' hst
    split at hst
    · cases hst
    · split at hst
      · cases hst
      · rename_i g1 hg1
        exact htrans _ _ _
          (foldlM_rel _ R hrefl htrans (fun x o y hxy => epp plGid x y o hxy) _ st g1 hg1)
          (foldlM_rel _ R hrefl htrans (fun x o y hxy => elp plGid x y o hxy) _ g1 st' hst)
  unfold addEdges at h
  simp only [bind, Except.bind] at h
  repeat' split at h
  all_goals try cases h
  rename_i _ g1 h1 _ g2 h2 _ g3 h3 _ g4 h4 _ g5 h5
  exact htrans _ _ _ (hk _ _ _ h1) (htrans _ _ _ (hk _ _ _ h2) (htrans _ _ _ (hv _ _ h3)
    (htrans _ _ _ (hl _ _ _ h4) (htrans _ _ _ (hl _ _ _ h5) (hpl _ _ h)))))

/-- Factor construction leaves the vertices, the bookkeeping of the Result Writer and
the index lists as they are. -/
theorem addEdges_writerFields (s : MfgSettings) (hp : Helpers)
    (bp : Mat3 → VanishPnt2d → Vec3) (m : Map) (ff fv : Int) (g g' : Graph)
    (h : addEdges s hp bp m ff fv g = Except.ok g') :
    g'.vertices = g.vertices ∧ writerFields g' = writerFields g
    ∧ listFields g' = listFields g ∧ g'.camvertVec = g.camvertVec
    ∧ g'.camvid2fid = g.camvid2fid := by
  refine addEdges_rel
    (fun a b => b.vertices = a.vertices ∧ writerFields b = writerFields a
      ∧ listFields b = listFields a ∧ b.camvertVec = a.camvertVec
      ∧ b.camvid2fid = a.camvid2fid)
    (fun _ => ⟨rfl, rfl, rfl, rfl, rfl⟩)
    (fun a b c h1 h2 => ⟨h2.1.trans h1.1, h2.2.1.trans h1.2.1, h2.2.2.1.trans h1.2.2.1,
      h2.2.2.2.1.trans h1.2.2.2.1, h2.2.2.2.2.trans h1.2.2.2.2⟩)
    s hp bp m ff fv ?_ ?_ ?_ ?_ ?_ g g' h
  · intro idx x y o hxy
    unfold addKptEdge at hxy
    simp only [] at hxy
    repeat' split at hxy
    all_goals first
      | (cases hxy; done)
      | (cases hxy; exact ⟨rfl, rfl, rfl, rfl, rfl⟩)
  · intro idx x y o hxy
    unfold addVnptEdge at hxy
    simp only [] at hxy
    repeat' split at hxy
    all_goals first
      | (cases hxy; done)
      | (cases hxy; exact ⟨rfl, rfl, rfl, rfl, rfl⟩)
  · intro idx ln x y o hxy
    unfold addLineEdge at hxy
    simp only [] at hxy
    repeat' split at hxy
    all_goals first
      | (cases hxy; done)
      | (cases hxy; exact ⟨rfl, rfl, rfl, rfl, rfl⟩)
  · intro plGid x y o hxy
    unfold addPointPlaneEdge at hxy
    simp only [] at hxy
    repeat' split at hxy
    all_goals first
      | (cases hxy; done)
      | (cases hxy; exact ⟨rfl, rfl, rfl, rfl, rfl⟩)
  · intro plGid x y o hxy
    unfold addLinePlaneEdge at hxy
    simp only [] at hxy
    repeat' split at hxy
    all_goals first
      | (cases hxy; done)
      | (cases hxy; exact ⟨rfl, rfl, rfl, rfl, rfl⟩)

/-- The solve changes estimates only: ids, classes and fixed flags of the vertices and
all bookkeeping stay. -/
theorem runOptimizer_fields (S : G2oSolver) (g : Graph) :
    writerFields (runOptimizer S g) = writerFields g
    ∧ listFields (runOptimizer S g) = listFields g
    ∧ (runOptimizer S g).camvertVec = g.camvertVec
    ∧ (runOptimizer S g).camvid2fid = g.camvid2fid
    ∧ (runOptimizer S g).vertices.map (fun v => (v.id, v.kind, v.fixed))
        = g.vertices.map (fun v => (v.id, v.kind, v.fixed))
    ∧ ∀ v ∈ g.vertices, v.fixed = true → v ∈ (runOptimizer S g).vertices := by
  have hopt : ∀ a : Graph, writerFields (optimize S a) = writerFields a
      ∧ listFields (optimize S a) = listFields a
      ∧ (optimize S a).camvertVec = a.camvertVec
      ∧ (optimize S a).camvid2fid = a.camvid2fid
      ∧ (optimize S a).vertices.map (fun v => (v.id, v.kind, v.fixed))
          = a.vertices.map (fun v => (v.id, v.kind, v.fixed))
      ∧ ∀ v ∈ a.vertices, v.fixed = true → v ∈ (optimize S a).vertices := by
    intro a
    refine ⟨rfl, rfl, rfl, rfl, ?_, ?_⟩
    · simp only [optimize, List.map_map]
      apply List.map_congr_left
      intro v _
      simp only [Function.comp]
      split_ifs <;> rfl
    · intro v hv hf
      simp only [optimize, List.mem_map]
      exact ⟨v, hv, by simp [hf]⟩
  have hst : ∀ a : Graph, writerFields (solveStage S a) = writerFields a
      ∧ listFields (solveStage S a) = listFields a
      ∧ (solveStage S a).camvertVec = a.camvertVec
      ∧ (solveStage S a).camvid2fid = a.camvid2fid
      ∧ (solveStage S a).vertices.map (fun v => (v.id, v.kind, v.fixed))
          = a.vertices.map (fun v => (v.id, v.kind, v.fixed))
      ∧ ∀ v ∈ a.vertices, v.fixed = true → v ∈ (solveStage S a).vertices := hopt
  unfold runOptimizer
  split_ifs
  · have hn : ∀ (n : Nat) (a : Graph),
        writerFields ((List.range n).foldl (fun g _ => solveStage S g) a) = writerFields a
        ∧ listFields ((List.range n).foldl (fun g _ => solveStage S g) a) = listFields a
        ∧ ((List.range n).foldl (fun g _ => solveStage S g) a).camvertVec = a.camvertVec
        ∧ ((List.range n).foldl (fun g _ => solveStage S g) a).camvid2fid = a.camvid2fid
        ∧ ((List.range n).foldl (fun g _ => solveStage S g) a).vertices.map
              (fun v => (v.id, v.kind, v.fixed))
            = a.vertices.map (fun v => (v.id, v.kind, v.fixed))
        ∧ ∀ v ∈ a.vertices, v.fixed = true →
            v ∈ ((List.range n).foldl (fun g _ => solveStage S g) a).vertices := by
      intro n
      induction n with
      | zero => intro a; exact ⟨rfl, rfl, rfl, rfl, rfl, fun v hv _ => hv⟩
      | succ n ih =>
        intro a
        rw [List.range_succ, List.foldl_append]
        simp only [List.foldl_cons, List.foldl_nil]
        obtain ⟨a1, a2, a3, a4, a5, a6⟩ := ih a
        obtain ⟨b1, b2, b3, b4, b5, b6⟩ :=
          hst ((List.range n).foldl (fun g _ => solveStage S g) a)
        exact ⟨b1.trans a1, b2.trans a2, b3.trans a3, b4.trans a4, b5.trans a5,
          fun v hv hf => b6 v (a6 v hv hf) hf⟩
    exact hn 5 g
  · exact hopt g

/-! ## The bookkeeping of the structure loops -/

theorem gidOf_mapSet_ne (m : IntMap) (k v vid : Int) (h : vid ≠ k) :
    gidOf (mapSet m k v) vid = gidOf m vid := by
  unfold gidOf mapFind mapSet
  have hb : (vid == k) = false := by simpa using h
  simp [List.lookup, hb]

theorem gidOf_mapSet_self (m : IntMap) (k v : Int) : gidOf (mapSet m k v) k = v := by
  unfold gidOf mapFind mapSet
  simp [List.lookup]

theorem map_gidOf_mapSet (m : IntMap) (k v : Int) (vs : List Int) (h : ∀ vid ∈ vs, vid ≠ k) :
    vs.map (gidOf (mapSet m k v)) = vs.map (gidOf m) :=
  List.map_congr_left (fun vid hv => gidOf_mapSet_ne m k v vid (h vid hv))

theorem findVertex_append_new (vs : List Vertex) (nv : Vertex)
    (h : ∀ v ∈ vs, v.id ≠ nv.id) : findVertex (vs ++ [nv]) nv.id = some nv := by
  unfold findVertex
  rw [List.find?_append]
  have : vs.find? (fun v => v.id == nv.id) = none := by
    rw [List.find?_eq_none]
    intro v hv
    simpa using h v hv
  rw [this]
  simp

theorem findVertex_mem (vs : List Vertex) (id : Int) (v : Vertex)
    (h : findVertex vs id = some v) : v ∈ vs :=
  List.mem_of_find?_eq_some h

/-- Appending a vertex with the fresh id `vertex_id`, and binding that id in one of the
maps from vertex id to landmark, keeps what `WriterInv` says about the vertex ids already
listed. -/
theorem writerInv_old (g : Graph) (nv : Vertex) (hid : nv.id = g.vertex_id)
    (hv : ∀ v ∈ g.vertices, v.id < g.vertex_id) :
    (∀ v ∈ g.vertices ++ [nv], v.id < g.vertex_id + 1)
    ∧ (∀ vid v, findVertex g.vertices vid = some v →
        findVertex (g.vertices ++ [nv]) vid = some v ∧ vid ≠ g.vertex_id)
    ∧ findVertex (g.vertices ++ [nv]) g.vertex_id = some nv := by
  refine ⟨?_, ?_, ?_⟩
  · intro v hmem
    rcases List.mem_append.mp hmem with h1 | h1
    · have := hv v h1
      omega
    · rw [List.mem_singleton.mp h1, hid]
      omega
  · intro vid v hf
    refine ⟨findVertex_append_some _ _ _ _ hf, ?_⟩
    have h1 := hv v (findVertex_mem _ _ _ hf)
    rw [findVertex_some_id _ _ _ hf] at h1
    omega
  · rw [← hid]
    apply findVertex_append_new
    intro v hmem
    have := hv v hmem
    omega

theorem addKeyPoint_writerInv (fp ff nw : Int) (g : Graph) (i : Int) (kp : KeyPoint3d)
    (hg : kp.gid = i) (h : WriterInv g) : WriterInv (addKeyPoint fp ff nw g i kp) := by
  obtain ⟨c1, c2, c3⟩ := addKeyPoint_cases fp ff nw g i kp
  obtain ⟨h1, h2, h3, h4, h5, h6, h7⟩ := h
  by_cases ha : kp.is3D = true ∧ 0 ≤ kp.gid ∧ ∃ o ∈ kp.viewId_ptLid, fp ≤ o.1
  · have hfresh : ∀ vid ∈ g.ptvertVec, vid ≠ g.vertex_id := by
      intro vid hvid
      obtain ⟨v, e, hf, _, _⟩ := h6 vid (by simp [hvid])
      have := h1 v (findVertex_mem _ _ _ hf)
      rw [findVertex_some_id _ _ _ hf] at this
      omega
    by_cases hf : firstViewId kp.viewId_ptLid < ff ∧ kp.estViewId < nw ∧ g.edges_camdist = []
    · rw [c2 ha hf]
      obtain ⟨o1, o2, _⟩ := writerInv_old g
        { id := g.vertex_id, kind := VertexKind.point, fixed := true,
          marginalized := true, estimate := Estimate.vec ⟨kp.x, kp.y, kp.z⟩ } rfl h1
      refine ⟨o1, ?_, h3, h4, h5, ?_, ?_⟩
      · simp only []
        rw [map_gidOf_mapSet _ _ _ _ hfresh]
        exact h2
      · intro vid hvid
        obtain ⟨v, e, hfv, hx, he⟩ := h6 vid hvid
        exact ⟨v, e, (o2 vid v hfv).1, hx, he⟩
      · intro vid hvid
        obtain ⟨v, e, hfv, he⟩ := h7 vid hvid
        exact ⟨v, e, (o2 vid v hfv).1, he⟩
    · rw [c3 ha hf]
      obtain ⟨o1, o2, o3⟩ := writerInv_old g
        { id := g.vertex_id, kind := VertexKind.point, fixed := false,
          marginalized := true, estimate := Estimate.vec ⟨kp.x, kp.y, kp.z⟩ } rfl h1
      refine ⟨o1, ?_, h3, h4, h5, ?_, ?_⟩
      · simp only [List.map_append, List.map_cons, List.map_nil]
        rw [map_gidOf_mapSet _ _ _ _ hfresh, gidOf_mapSet_self, h2, hg]
      · intro vid hvid
        simp only [List.mem_append, List.mem_singleton] at hvid
        rcases hvid with ((hvid | rfl) | hvid) | hvid
        · obtain ⟨v, e, hfv, hx, he⟩ := h6 vid (by simp [hvid])
          exact ⟨v, e, (o2 vid v hfv).1, hx, he⟩
        · exact ⟨_, _, o3, rfl, rfl⟩
        · obtain ⟨v, e, hfv, hx, he⟩ := h6 vid (by simp [hvid])
          exact ⟨v, e, (o2 vid v hfv).1, hx, he⟩
        · obtain ⟨v, e, hfv, hx, he⟩ := h6 vid (by simp [hvid])
          exact ⟨v, e, (o2 vid v hfv).1, hx, he⟩
      · intro vid hvid
        obtain ⟨v, e, hfv, he⟩ := h7 vid hvid
        exact ⟨v, e, (o2 vid v hfv).1, he⟩
  · rw [c1 ha]
    exact ⟨h1, h2, h3, h4, h5, h6, h7⟩

theorem addVanishingPoint_writerInv (fp : Int) (g : Graph) (i : Int) (vp : VanishPnt3d)
    (hg : vp.gid = i) (h : WriterInv g) : WriterInv (addVanishingPoint fp g i vp) := by
  obtain ⟨c1, c2⟩ := addVanishingPoint_cases fp g i vp
  obtain ⟨h1, h2, h3, h4, h5, h6, h7⟩ := h
  by_cases ha : ∃ o ∈ vp.viewId_vpLid, fp ≤ o.1
  · have hfresh : ∀ vid ∈ g.vpvertVec, vid ≠ g.vertex_id := by
      intro vid hvid
      obtain ⟨v, e, hf, _, _⟩ := h6 vid (by simp [hvid])
      have := h1 v (findVertex_mem _ _ _ hf)
      rw [findVertex_some_id _ _ _ hf] at this
      omega
    rw [c2 ha]
    obtain ⟨o1, o2, o3⟩ := writerInv_old g
      { id := g.vertex_id, kind := VertexKind.vnpt, fixed := false,
        marginalized := false, estimate := Estimate.vec ⟨vp.x, vp.y, vp.z⟩ } rfl h1
    refine ⟨o1, h2, ?_, h4, h5, ?_, ?_⟩
    · simp only [List.map_append, List.map_cons, List.map_nil]
      rw [map_gidOf_mapSet _ _ _ _ hfresh, gidOf_mapSet_self, h3, hg]
    · intro vid hvid
      simp only [List.mem_append, List.mem_singleton] at hvid
      rcases hvid with (hvid | (hvid | rfl)) | hvid
      · obtain ⟨v, e, hfv, hx, he⟩ := h6 vid (by simp [hvid])
        exact ⟨v, e, (o2 vid v hfv).1, hx, he⟩
      · obtain ⟨v, e, hfv, hx, he⟩ := h6 vid (by simp [hvid])
        exact ⟨v, e, (o2 vid v hfv).1, hx, he⟩
      · exact ⟨_, _, o3, rfl, rfl⟩
      · obtain ⟨v, e, hfv, hx, he⟩ := h6 vid (by simp [hvid])
        exact ⟨v, e, (o2 vid v hfv).1, hx, he⟩
    · intro vid hvid
      obtain ⟨v, e, hfv, he⟩ := h7 vid hvid
      exact ⟨v, e, (o2 vid v hfv).1, he⟩
  · rw [c1 ha]
    exact ⟨h1, h2, h3, h4, h5, h6, h7⟩

theorem addIdealLine_writerInv (cdt : Bool) (fp ff nw : Int) (g : Graph) (i : Int)
    (ln : IdealLine3d) (hg : ln.gid = i) (h : WriterInv g) :
    WriterInv (addIdealLine cdt fp ff nw g i ln) := by
  obtain ⟨c1, c2, c3⟩ := addIdealLine_cases cdt fp ff nw g i ln
  obtain ⟨h1, h2, h3, h4, h5, h6, h7⟩ := h
  by_cases ha : ln.is3D = true ∧ 0 ≤ ln.gid ∧ ∃ o ∈ ln.viewId_lnLid, fp ≤ o.1
  · have hfresh : ∀ vid ∈ g.lnvertVec, vid ≠ g.vertex_id := by
      intro vid hvid
      obtain ⟨v, e, hf, _, _⟩ := h6 vid (by simp [hvid])
      have := h1 v (findVertex_mem _ _ _ hf)
      rw [findVertex_some_id _ _ _ hf] at this
      omega
    by_cases hf : firstViewId ln.viewId_lnLid < ff ∧ ln.estViewId < nw
        ∧ (cdt = true → g.edges_camdist = [])
    · rw [c2 ha hf]
      obtain ⟨o1, o2, _⟩ := writerInv_old g
        { id := g.vertex_id, kind := VertexKind.lnpt, fixed := true,
          marginalized := false, estimate := Estimate.vec ln.midpt } rfl h1
      refine ⟨o1, h2, h3, ?_, h5, ?_, ?_⟩
      · simp only []
        rw [map_gidOf_mapSet _ _ _ _ hfresh]
        exact h4
      · intro vid hvid
        obtain ⟨v, e, hfv, hx, he⟩ := h6 vid hvid
        exact ⟨v, e, (o2 vid v hfv).1, hx, he⟩
      · intro vid hvid
        obtain ⟨v, e, hfv, he⟩ := h7 vid hvid
        exact ⟨v, e, (o2 vid v hfv).1, he⟩
    · rw [c3 ha hf]
      obtain ⟨o1, o2, o3⟩ := writerInv_old g
        { id := g.vertex_id, kind := VertexKind.lnpt, fixed := false,
          marginalized := false, estimate := Estimate.vec ln.midpt } rfl h1
      refine ⟨o1, h2, h3, ?_, h5, ?_, ?_⟩
      · simp only [List.map_append, List.map_cons, List.map_nil]
        rw [map_gidOf_mapSet _ _ _ _ hfresh, gidOf_mapSet_self, h4, hg]
      · intro vid hvid
        simp only [List.mem_append, List.mem_singleton] at hvid
        rcases hvid with (hvid | hvid) | (hvid | rfl)
        · obtain ⟨v, e, hfv, hx, he⟩ := h6 vid (by simp [hvid])
          exact ⟨v, e, (o2 vid v hfv).1, hx, he⟩
        · obtain ⟨v, e, hfv, hx, he⟩ := h6 vid (by simp [hvid])
          exact ⟨v, e, (o2 vid v hfv).1, hx, he⟩
        · obtain ⟨v, e, hfv, hx, he⟩ := h6 vid (by simp [hvid])
          exact ⟨v, e, (o2 vid v hfv).1, hx, he⟩
        · exact ⟨_, _, o3, rfl, rfl⟩
      · intro vid hvid
        obtain ⟨v, e, hfv, he⟩ := h7 vid hvid
        exact ⟨v, e, (o2 vid v hfv).1, he⟩
  · rw [c1 ha]
    exact ⟨h1, h2, h3, h4, h5, h6, h7⟩

theorem addPrimaryPlane_writerInv (fp nw : Int) (g : Graph) (i : Int) (pl : PrimaryPlane3d)
    (h : WriterInv g) : WriterInv (addPrimaryPlane fp nw g i pl) := by
  obtain ⟨h1, h2, h3, h4, h5, h6, h7⟩ := h
  rcases addPrimaryPlane_cases fp nw g i pl with c | c
  · rw [c]
    exact ⟨h1, h2, h3, h4, h5, h6, h7⟩
  · have hfresh : ∀ vid ∈ g.plvertVec, vid ≠ g.vertex_id := by
      intro vid hvid
      obtain ⟨v, e, hf, _⟩ := h7 vid hvid
      have := h1 v (findVertex_mem _ _ _ hf)
      rw [findVertex_some_id _ _ _ hf] at this
      omega
    rw [c]
    obtain ⟨o1, o2, o3⟩ := writerInv_old g
      { id := g.vertex_id, kind := VertexKind.plane,
        fixed := decide (pl.estViewId < fp), marginalized := false,
        estimate := Estimate.vec ⟨pl.n.x / pl.d, pl.n.y / pl.d, pl.n.z / pl.d⟩ } rfl h1
    refine ⟨o1, h2, h3, h4, ?_, ?_, ?_⟩
    · simp only [List.map_append, List.map_cons, List.map_nil]
      rw [map_gidOf_mapSet _ _ _ _ hfresh, gidOf_mapSet_self, h5]
    · intro vid hvid
      obtain ⟨v, e, hfv, hx, he⟩ := h6 vid hvid
      exact ⟨v, e, (o2 vid v hfv).1, hx, he⟩
    · intro vid hvid
      simp only [List.mem_append, List.mem_singleton] at hvid
      rcases hvid with hvid | rfl
      · obtain ⟨v, e, hfv, he⟩ := h7 vid hvid
        exact ⟨v, e, (o2 vid v hfv).1, he⟩
      · exact ⟨_, _, o3, rfl⟩

/-- An invariant that the body keeps at every visited pair `(i, xs[i - i0])` holds after
the loop. -/
theorem indexedLoop_inv_at {σ α : Type} (body : σ → Int → α → σ) (I : σ → Prop)
    (xs : List α) (i0 : Int)
    (hbody : ∀ st p, p ∈ indexed i0 xs → I st → I (body st p.1 p.2))
    (st : σ) (h : I st) : I (indexedLoop body st i0 xs) := by
  induction xs generalizing st i0 with
  | nil => exact h
  | cons x rest ih =>
    simp only [indexedLoop]
    apply ih
    · intro st' p hp hst'
      exact hbody st' p (by simp [indexed, hp]) hst'
    · exact hbody st (i0, x) (by simp [indexed]) h

theorem indexed_vecAt {α : Type} (xs : List α) (p : Int × α) (h : p ∈ indexed 0 xs) :
    vecAt xs p.1 = some p.2 := by
  obtain ⟨h1, h2⟩ := (indexed_mem xs 0 p).mp h
  unfold vecAt
  rw [if_neg (by omega)]
  simpa using h2

/-- The structure loops establish `WriterInv` on a map with `GidIsIndex`. -/
theorem addStructure_writerInv (cdt : Bool) (fp ff nw : Int) (m : Map) (g : Graph)
    (hm : GidIsIndex m) (h : WriterInv g) : WriterInv (addStructure cdt fp ff nw m g) := by
  unfold addStructure addPrimaryPlanes addIdealLines addVanishingPoints addKeyPoints
  simp only []
  apply indexedLoop_inv _ _ (fun st i x => addPrimaryPlane_writerInv fp nw st i x)
  apply indexedLoop_inv_at _ _ _ _
    (fun st p hp => addIdealLine_writerInv cdt fp ff nw st p.1 p.2
      (hm.2.1 _ _ (indexed_vecAt _ _ hp)))
  apply indexedLoop_inv_at _ _ _ _
    (fun st p hp => addVanishingPoint_writerInv fp st p.1 p.2
      (hm.2.2 _ _ (indexed_vecAt _ _ hp)))
  apply indexedLoop_inv_at _ _ _ _
    (fun st p hp => addKeyPoint_writerInv fp ff nw st p.1 p.2
      (hm.1 _ _ (indexed_vecAt _ _ hp)))
  exact h

/-- The camera part establishes `WriterInv`. -/
theorem cameraPart_writerInv (views : List View) (front stop fp mi : Int)
    (rows : List CamDist) (g : Graph)
    (h : cameraPart views front stop fp mi rows = Except.ok g) : WriterInv g := by
  obtain ⟨mi', es, hg⟩ := cameraPart_closed views front stop fp mi rows
  rw [hg] at h
  cases h
  refine ⟨?_, rfl, rfl, rfl, rfl, ?_, ?_⟩
  · intro v hv
    simp only [Graph.init, List.mem_map, List.mem_range] at hv
    obtain ⟨k, hk, rfl⟩ := hv
    simp only [camVertex]
    omega
  · intro vid hvid
    simp [Graph.init] at hvid
  · intro vid hvid
    simp [Graph.init] at hvid

/-! ## The Result Writer of `adjustBundle_G2O`, vector by vector -/

/-- An index list to which the loop body appends at most the current index stays
strictly increasing. -/
theorem indexedLoop_sorted {σ α : Type} (body : σ → Int → α → σ) (sel : σ → List Int)
    (hstep : ∀ st i x, sel (body st i x) = sel st ∨ sel (body st i x) = sel st ++ [i])
    (xs : List α) (st : σ) (i0 : Int)
    (hs : (sel st).Pairwise (fun a b => a < b)) (hlt : ∀ j ∈ sel st, j < i0) :
    (sel (indexedLoop body st i0 xs)).Pairwise (fun a b => a < b)
    ∧ ∀ j ∈ sel (indexedLoop body st i0 xs), j < i0 + xs.length := by
  induction xs generalizing st i0 with
  | nil =>
    refine ⟨hs, ?_⟩
    intro j hj
    have := hlt j hj
    simp only [List.length_nil, Nat.cast_zero, add_zero]
    exact this
  | cons x rest ih =>
    simp only [indexedLoop]
    have h1 : (sel (body st i0 x)).Pairwise (fun a b => a < b)
        ∧ ∀ j ∈ sel (body st i0 x), j < i0 + 1 := by
      rcases hstep st i0 x with e | e
      · rw [e]
        exact ⟨hs, fun j hj => by have := hlt j hj; omega⟩
      · rw [e]
        refine ⟨?_, ?_⟩
        · rw [List.pairwise_append]
          refine ⟨hs, List.pairwise_singleton _ _, ?_⟩
          intro a ha b hb
          rw [List.mem_singleton.mp hb]
          exact hlt a ha
        · intro j hj
          rcases List.mem_append.mp hj with h | h
          · have := hlt j h; omega
          · rw [List.mem_singleton.mp h]; omega
    obtain ⟨r1, r2⟩ := ih (body st i0 x) (i0 + 1) h1.1 h1.2
    refine ⟨r1, ?_⟩
    intro j hj
    have := r2 j hj
    simp only [List.length_cons, Nat.cast_add, Nat.cast_one]
    omega

/-- The list of free ideal lines built by the structure loops has no repetition. -/
theorem addStructure_lnIdx2Opt_nodup (cdt : Bool) (fp ff nw : Int) (m : Map) (g : Graph)
    (hl : g.lnIdx2Opt = []) : (addStructure cdt fp ff nw m g).lnIdx2Opt.Nodup := by
  unfold addStructure addPrimaryPlanes addIdealLines addVanishingPoints addKeyPoints
  simp only []
  have e4 := indexedLoop_frame (addPrimaryPlane fp nw) (fun g => g.lnIdx2Opt)
    (fun st i x => congrArg (fun t => t.2.2.2.1) (addPrimaryPlane_kpt_vp_ln fp nw st i x))
  have e2 := indexedLoop_frame (addVanishingPoint fp) (fun g => g.lnIdx2Opt)
    (fun st i x => congrArg (fun t => t.1) (addVanishingPoint_ln fp st i x))
  have e1 := indexedLoop_frame (addKeyPoint fp ff nw) (fun g => g.lnIdx2Opt)
    (fun st i x => congrArg (fun t => t.2.1) (addKeyPoint_vp_ln fp ff nw st i x))
  simp only [] at e4 e2 e1
  rw [e4]
  have hs := indexedLoop_sorted (addIdealLine cdt fp ff nw) (fun g => g.lnIdx2Opt)
    (by
      intro st i x
      unfold addIdealLine
      split_ifs
      · exact Or.inl rfl
      · simp only []
        split_ifs
        · exact Or.inl rfl
        · exact Or.inr rfl
      · exact Or.inl rfl)
    m.idealLines
    (indexedLoop (addVanishingPoint fp)
      (indexedLoop (addKeyPoint fp ff nw) g 0 m.keyPoints) 0 m.vanishingPoints) 0
    (by simp only []; rw [e2, e1, hl]; exact List.Pairwise.nil)
    (by simp only []; rw [e2, e1, hl]; intro j hj; cases hj)
  exact hs.1.imp (fun h => ne_of_lt h)

theorem writePoint_frame (g : Graph) (vids : List Int) (kps : List KeyPoint3d) (j : Int)
    (h : ∀ vid ∈ vids, gidOf g.ptvid2gid vid ≠ j) :
    vecAt (vids.foldl (writePoint g) kps) j = vecAt kps j := by
  induction vids generalizing kps with
  | nil => rfl
  | cons vid rest ih =>
    simp only [List.foldl_cons]
    rw [ih _ (fun v hv => h v (List.mem_cons_of_mem _ hv))]
    have hne := h vid (List.mem_cons_self _ _)
    unfold writePoint
    split
    · rfl
    · split_ifs
      · rfl
      · split
        · exact vecAt_vecModify_ne _ _ _ _ hne
        · rfl

theorem writeVnpt_frame (g : Graph) (vids : List Int) (vps : List VanishPnt3d) (j : Int)
    (h : ∀ vid ∈ vids, gidOf g.vpvid2gid vid ≠ j) :
    vecAt (vids.foldl (writeVnpt g) vps) j = vecAt vps j := by
  induction vids generalizing vps with
  | nil => rfl
  | cons vid rest ih =>
    simp only [List.foldl_cons]
    rw [ih _ (fun v hv => h v (List.mem_cons_of_mem _ hv))]
    have hne := h vid (List.mem_cons_self _ _)
    unfold writeVnpt
    split
    · rfl
    · split_ifs
      · rfl
      · split
        · exact vecAt_vecModify_ne _ _ _ _ hne
        · rfl

theorem writeLine_frame (hp : Helpers) (g : Graph) (vps : List VanishPnt3d)
    (vids : List Int) (lns : List IdealLine3d) (j : Int)
    (h : ∀ vid ∈ vids, gidOf g.lnvid2gid vid ≠ j) :
    vecAt (vids.foldl (writeLine hp g vps) lns) j = vecAt lns j := by
  induction vids generalizing lns with
  | nil => rfl
  | cons vid rest ih =>
    simp only [List.foldl_cons]
    rw [ih _ (fun v hv => h v (List.mem_cons_of_mem _ hv))]
    have hne := h vid (List.mem_cons_self _ _)
    unfold writeLine
    split
    · rfl
    · split_ifs
      · rfl
      · split
        · exact vecAt_vecModify_ne _ _ _ _ hne
        · rfl

/-- The plane loop of the Result Writer leaves `primaryPlanes[j]` alone when every
listed vertex bound to `j` is fixed. -/
theorem writePlane_frame (hp : Helpers) (g : Graph) (vids : List Int)
    (pls : List PrimaryPlane3d) (j : Int)
    (h : ∀ vid ∈ vids, gidOf g.plvid2gid vid ≠ j
      ∨ ∀ v, findVertex g.vertices vid = some v → v.fixed = true) :
    vecAt (vids.foldl (writePlane hp g) pls) j = vecAt pls j := by
  induction vids generalizing pls with
  | nil => rfl
  | cons vid rest ih =>
    simp only [List.foldl_cons]
    rw [ih _ (fun v hv => h v (List.mem_cons_of_mem _ hv))]
    have hne := h vid (List.mem_cons_self _ _)
    unfold writePlane
    split
    · rfl
    · rename_i v hv
      split_ifs with hfx
      · rfl
      · rcases hne with hne | hne
        · split
          · exact vecAt_vecModify_ne _ _ _ _ hne
          · rfl
        · exact absurd (hne v hv) hfx

/-- The line loop of the Result Writer over vertices bound to pairwise distinct lines:
the line of a listed vertex that is found, not fixed and holds the 3-vector `e` is
rewritten once, by the statements l.1779-1785 run with `e`. -/
theorem writeLine_at (hp : Helpers) (g : Graph) (vps : List VanishPnt3d) (vids : List Int)
    (hn : (vids.map (gidOf g.lnvid2gid)).Nodup) (lns : List IdealLine3d)
    (vid : Int) (hvid : vid ∈ vids) (v : Vertex) (e : Vec3)
    (hv : findVertex g.vertices vid = some v) (hfx : v.fixed = false)
    (he : v.estimate = Estimate.vec e) :
    vecAt (vids.foldl (writeLine hp g vps) lns) (gidOf g.lnvid2gid vid)
      = (vecAt lns (gidOf g.lnvid2gid vid)).map (updateLine hp vps e) := by
  induction vids generalizing lns with
  | nil => cases hvid
  | cons w rest ih =>
    simp only [List.map_cons, List.nodup_cons] at hn
    simp only [List.foldl_cons]
    rcases List.mem_cons.mp hvid with rfl | hmem
    · rw [writeLine_frame]
      · unfold writeLine
        rw [hv]
        simp only [hfx, he]
        exact vecAt_vecModify _ _ _
      · intro u hu hc
        exact hn.1 (hc ▸ List.mem_map_of_mem _ hu)
    · rw [ih hn.2 _ hmem]
      have hne : gidOf g.lnvid2gid w ≠ gidOf g.lnvid2gid vid := by
        intro hc
        exact hn.1 (hc ▸ List.mem_map_of_mem _ hmem)
      unfold writeLine
      split
      · rfl
      · split_ifs
        · rfl
        · split
          · rw [vecAt_vecModify_ne _ _ _ _ hne]
          · rfl

/-! ## The vertices after the solve -/

theorem findVertex_map (vs : List Vertex) (f : Vertex → Vertex) (hf : ∀ v, (f v).id = v.id)
    (id : Int) : findVertex (vs.map f) id = (findVertex vs id).map f := by
  unfold findVertex
  induction vs with
  | nil => rfl
  | cons v rest ih =>
    simp only [List.map_cons, List.find?_cons, hf]
    cases hv : (v.id == id)
    · simpa using ih
    · rfl

theorem solvedFrom_refl (v : Vertex) : SolvedFrom v v :=
  ⟨rfl, rfl, rfl, fun _ => rfl, fun h => h⟩

theorem solvedFrom_trans (a b c : Vertex) (h1 : SolvedFrom a b) (h2 : SolvedFrom b c) :
    SolvedFrom a c := by
  obtain ⟨a1, a2, a3, a4, a5⟩ := h1
  obtain ⟨b1, b2, b3, b4, b5⟩ := h2
  refine ⟨b1.trans a1, b2.trans a2, b3.trans a3, ?_, fun h => b5 (a5 h)⟩
  intro hf
  have hb : b = a := a4 hf
  subst hb
  exact b4 hf

theorem optimize_findVertex (S : G2oSolver) (g : Graph) (vid : Int) (v : Vertex)
    (h : findVertex g.vertices vid = some v) :
    ∃ w, findVertex (optimize S g).vertices vid = some w ∧ SolvedFrom v w := by
  simp only [optimize]
  rw [findVertex_map _ _ (by intro v; split_ifs <;> rfl), h]
  refine ⟨_, rfl, ?_⟩
  by_cases hf : v.fixed = true
  · simp only [hf, if_true]
    exact solvedFrom_refl v
  · simp only [hf, Bool.false_eq_true, if_false]
    refine ⟨rfl, rfl, ((Bool.not_eq_true _).mp hf).symm, fun hc => absurd hc hf, ?_⟩
    rintro ⟨e, he⟩
    simp only [he, retype]
    cases S.estimate g g.maxIters v.id with
    | pose R t => exact ⟨e, rfl⟩
    | vec u => exact ⟨u, rfl⟩

theorem optimize_findVertex_none (S : G2oSolver) (g : Graph) (vid : Int)
    (h : findVertex g.vertices vid = none) :
    findVertex (optimize S g).vertices vid = none := by
  simp only [optimize]
  rw [findVertex_map _ _ (by intro v; split_ifs <;> rfl), h]
  rfl

/-- Every vertex of the problem is a vertex of the solved problem, with the estimate the
solver left. -/
theorem runOptimizer_findVertex (S : G2oSolver) (g : Graph) (vid : Int) (v : Vertex)
    (h : findVertex g.vertices vid = some v) :
    ∃ w, findVertex (runOptimizer S g).vertices vid = some w ∧ SolvedFrom v w := by
  have hst : ∀ (a : Graph) (u : Vertex), findVertex a.vertices vid = some u →
      ∃ w, findVertex (solveStage S a).vertices vid = some w ∧ SolvedFrom u w :=
    fun a u hu => optimize_findVertex S a vid u hu
  unfold runOptimizer
  split_ifs
  · have hn : ∀ (n : Nat), ∃ w,
        findVertex ((List.range n).foldl (fun g _ => solveStage S g) g).vertices vid = some w
        ∧ SolvedFrom v w := by
      intro n
      induction n with
      | zero => exact ⟨v, h, solvedFrom_refl v⟩
      | succ n ih =>
        obtain ⟨u, hu, hs⟩ := ih
        rw [List.range_succ, List.foldl_append]
        simp only [List.foldl_cons, List.foldl_nil]
        obtain ⟨w, hw, hs2⟩ := hst _ u hu
        exact ⟨w, hw, solvedFrom_trans _ _ _ hs hs2⟩
    exact hn 5
  · exact optimize_findVertex S g vid v h

/-- The map state `adjustBundle_G2O` returns: the Result Writer run on the solved
problem, then the four error fields of the newest view. -/
theorem adjustBundle_G2O_ok (s : MfgSettings) (hp : Helpers) (bp : Mat3 → VanishPnt2d → Vec3)
    (S : G2oSolver) (m : Map) (numPos numFrm : Int) (m' : Map)
    (h : adjustBundle_G2O s hp bp S m numPos numFrm = Except.ok m') :
    ∃ g1, adjustBundle_G2O_problem s hp bp m numPos numFrm = Except.ok g1
      ∧ m'.keyPoints = (writeBack hp (runOptimizer S g1) m).keyPoints
      ∧ m'.idealLines = (writeBack hp (runOptimizer S g1) m).idealLines
      ∧ m'.vanishingPoints = (writeBack hp (runOptimizer S g1) m).vanishingPoints
      ∧ m'.primaryPlanes = (writeBack hp (runOptimizer S g1) m).primaryPlanes
      ∧ m'.camdist_constraints = m.camdist_constraints
      ∧ m'.K = m.K
      ∧ ∃ f : View → View, (∀ w, (f w).R = w.R ∧ (f w).t = w.t ∧ (f w).id = w.id
            ∧ (f w).matchable = w.matchable ∧ (f w).featurePoints = w.featurePoints
            ∧ (f w).idealLines = w.idealLines ∧ (f w).vanishPoints = w.vanishPoints)
          ∧ m'.views = vecModify (writeBack hp (runOptimizer S g1) m).views
              (((writeBack hp (runOptimizer S g1) m).views.length : Int) - 1) f := by
  unfold adjustBundle_G2O at h
  simp only [bind, Except.bind] at h
  split at h
  · cases h
  · rename_i g1 hg1
    refine ⟨g1, hg1, ?_⟩
    unfold diagnostics at h
    simp only [bind, Except.bind, pure, Except.pure] at h
    repeat' split at h
    all_goals try cases h
    refine ⟨rfl, rfl, rfl, rfl, rfl, rfl, _, ?_, rfl⟩
    intro w
    exact ⟨rfl, rfl, rfl, rfl, rfl, rfl, rfl⟩

/-- The bookkeeping of the Result Writer at the solved problem of `adjustBundle_G2O`, on
a map with `GidIsIndex`: read through the maps from vertex id to landmark, the vertex
vectors are the index lists; every listed point, vanishing-point and line vertex is
found, not fixed, and holds a 3-vector; the list of free lines has no repetition. -/
theorem problem_writer (s : MfgSettings) (hp : Helpers) (bp : Mat3 → VanishPnt2d → Vec3)
    (S : G2oSolver) (m : Map) (numPos numFrm : Int) (g1 : Graph) (hm : GidIsIndex m)
    (h : adjustBundle_G2O_problem s hp bp m numPos numFrm = Except.ok g1) :
    (runOptimizer S g1).ptvertVec.map (gidOf (runOptimizer S g1).ptvid2gid) = g1.kptIdx2Opt
    ∧ (runOptimizer S g1).vpvertVec.map (gidOf (runOptimizer S g1).vpvid2gid) = g1.vpIdx2Opt
    ∧ (runOptimizer S g1).lnvertVec.map (gidOf (runOptimizer S g1).lnvid2gid) = g1.lnIdx2Opt
    ∧ (runOptimizer S g1).plvertVec.map (gidOf (runOptimizer S g1).plvid2gid) = g1.plIdx2Opt
    ∧ (∀ vid ∈ (runOptimizer S g1).ptvertVec ++ (runOptimizer S g1).vpvertVec
          ++ (runOptimizer S g1).lnvertVec, ∃ v e,
        findVertex (runOptimizer S g1).vertices vid = some v ∧ v.fixed = false
        ∧ v.estimate = Estimate.vec e)
    ∧ g1.lnIdx2Opt.Nodup := by
  unfold adjustBundle_G2O_problem adjustBundle_G2O_vertices at h
  cases hc : adjustBundle_G2O_cameras s m numPos numFrm with
  | error e => rw [hc] at h; cases h
  | ok g0 =>
    rw [hc] at h
    simp only [] at h
    unfold adjustBundle_G2O_cameras at hc
    have hinv := addStructure_writerInv false (frontPosIdx m.views.length numPos)
      (frontFrmIdx m.views.length numFrm) (backId m.views) m g0 hm
      (cameraPart_writerInv _ _ _ _ _ _ g0 hc)
    obtain ⟨hv, hw, hl, _, _⟩ := addEdges_writerFields s hp bp m _ _ _ g1 h
    obtain ⟨rw1, rl, _, _, _, _⟩ := runOptimizer_fields S g1
    obtain ⟨i1, i2, i3, i4, i5, i6, i7⟩ := hinv
    have hw' := rw1.trans hw
    simp only [writerFields, Prod.mk.injEq] at hw'
    obtain ⟨⟨a1, a2⟩, ⟨b1, b2⟩, ⟨c1, c2⟩, ⟨d1, d2⟩⟩ := hw'
    simp only [listFields, Prod.mk.injEq] at hl
    obtain ⟨l1, l2, l3, l4, l5, l6⟩ := hl
    rw [a1, a2, b1, b2, c1, c2, d1, d2, l1, l3, l4, l6]
    refine ⟨i2, i3, i4, i5, ?_, ?_⟩
    · intro vid hvid
      obtain ⟨v, e, hf, hx, he⟩ := i6 vid hvid
      rw [← hv] at hf
      obtain ⟨w, hw1, hs⟩ := runOptimizer_findVertex S g1 vid v hf
      obtain ⟨e', he'⟩ := hs.2.2.2.2 ⟨e, he⟩
      exact ⟨w, e', hw1, hs.2.2.1.trans hx, he'⟩
    · obtain ⟨mi', es, hg⟩ := cameraPart_closed m.views
        (frontVptIdx m.views.length numFrm s.baNumFramesVPoint) (m.views.length : Int)
        (frontPosIdx m.views.length numPos) 20 (camDistRows m.camdist_constraints numFrm)
      rw [hg] at hc
      cases hc
      exact addStructure_lnIdx2Opt_nodup _ _ _ _ _ _ rfl

/-- What the statements l.1779-1785 leave on one line, with the projection as
modelled: the midpoint is on the line through the solver's midpoint `e` along the stored
direction. -/
theorem updateLine_onLine (h : Helpers) (hproj : h.projectPt3d2Ln3d = projectPt3d2Ln3d)
    (vps : List VanishPnt3d) (e : Vec3) (ln : IdealLine3d) :
    OnLine e (updateLine h vps e ln).direct (updateLine h vps e ln).midpt := by
  unfold updateLine
  simp only [hproj]
  cases hv : vecAt vps ln.vpGid with
  | none => exact ⟨0, by simp⟩
  | some vp =>
    simp only []
    exact projectPt3d2Ln3d_onLine _ _

/-- C11 fails as stated: on the six-view map whose line has the pre-solve midpoint
`(0, 0, 0)`, a solve that moves the midpoint to `(1, 0, 0)` and keeps the direction
`(0, 0, 1)` leaves the stored midpoint at `(1, 0, 0)`, which is not on the line through
`(0, 0, 0)` along `(0, 0, 1)`. -/
theorem C11_counterexample :
    ¬ (∀ l ∈ (adjustBundle_PtLnVp projHelpers (fun _ _ => shiftedLineOutcome)
          originLineMap).idealLines, OnLine originLine.midpt l.direct l.midpt) := by
  intro hall
  have hev := shifted_eval
  cases hl : (adjustBundle_PtLnVp projHelpers (fun _ _ => shiftedLineOutcome)
      originLineMap).idealLines with
  | nil => rw [hl] at hev; simp at hev
  | cons l rest =>
    rw [hl] at hev hall
    simp only [List.map_cons, List.cons.injEq, Prod.mk.injEq] at hev
    obtain ⟨t, ht⟩ := hall l (List.mem_cons_self _ _)
    rw [hev.1.1, hev.1.2] at ht
    simp [originLine] at ht

/-! ## Primary planes -/

theorem mapFind_mapSet (m : IntMap) (k v k' : Int) :
    mapFind (mapSet m k v) k' = if k' = k then some v else mapFind m k' := by
  unfold mapFind mapSet
  by_cases h : k' = k
  · simp [List.lookup, h]
  · have hb : (k' == k) = false := by simpa using h
    simp [List.lookup, hb, h]

/-- The keys of `ptgid2vid` after the key-point loop are the keys before it and the gids
of the key points the loop admits. -/
theorem addKeyPoints_keys (fp ff nw : Int) (xs : List KeyPoint3d) (g : Graph) (i0 : Int)
    (gid : Int) :
    (mapFind (addKeyPoints fp ff nw g i0 xs).ptgid2vid gid).isSome
      ↔ (mapFind g.ptgid2vid gid).isSome
        ∨ ∃ kp ∈ xs, (kp.is3D = true ∧ 0 ≤ kp.gid ∧ ∃ o ∈ kp.viewId_ptLid, fp ≤ o.1)
            ∧ kp.gid = gid := by
  unfold addKeyPoints
  induction xs generalizing g i0 with
  | nil => simp [indexedLoop]
  | cons x rest ih =>
    simp only [indexedLoop]
    rw [ih]
    obtain ⟨c1, c2, c3⟩ := addKeyPoint_cases fp ff nw g i0 x
    by_cases ha : x.is3D = true ∧ 0 ≤ x.gid ∧ ∃ o ∈ x.viewId_ptLid, fp ≤ o.1
    · have hkey : (mapFind (addKeyPoint fp ff nw g i0 x).ptgid2vid gid).isSome
          ↔ (mapFind g.ptgid2vid gid).isSome ∨ x.gid = gid := by
        by_cases hf : firstViewId x.viewId_ptLid < ff ∧ x.estViewId < nw
            ∧ g.edges_camdist = []
        · rw [c2 ha hf]
          simp only [mapFind_mapSet]
          by_cases hg : gid = x.gid
          · simp [hg]
          · simp [hg, Ne.symm hg]
        · rw [c3 ha hf]
          simp only [mapFind_mapSet]
          by_cases hg : gid = x.gid
          · simp [hg]
          · simp [hg, Ne.symm hg]
      rw [hkey]
      simp only [List.mem_cons, exists_eq_or_imp]
      constructor
      · rintro ((h | h) | h)
        · exact Or.inl h
        · exact Or.inr (Or.inl ⟨ha, h⟩)
        · exact Or.inr (Or.inr h)
      · rintro (h | ⟨_, h⟩ | h)
        · exact Or.inl (Or.inl h)
        · exact Or.inl (Or.inr h)
        · exact Or.inr h
    · rw [c1 ha]
      simp only [List.mem_cons, exists_eq_or_imp]
      constructor
      · rintro (h | h)
        · exact Or.inl h
        · exact Or.inr (Or.inr h)
      · rintro (h | ⟨h, _⟩ | h)
        · exact Or.inl h
        · exact absurd h ha
        · exact Or.inr h

/-- The keys of `lngid2vid` after the ideal-line loop are the keys before it and the
gids of the ideal lines the loop admits. -/
theorem addIdealLines_keys (cdt : Bool) (fp ff nw : Int) (xs : List IdealLine3d) (g : Graph)
    (i0 : Int) (gid : Int) :
    (mapFind (addIdealLines cdt fp ff nw g i0 xs).lngid2vid gid).isSome
      ↔ (mapFind g.lngid2vid gid).isSome
        ∨ ∃ ln ∈ xs, (ln.is3D = true ∧ 0 ≤ ln.gid ∧ ∃ o ∈ ln.viewId_lnLid, fp ≤ o.1)
            ∧ ln.gid = gid := by
  unfold addIdealLines
  induction xs generalizing g i0 with
  | nil => simp [indexedLoop]
  | cons x rest ih =>
    simp only [indexedLoop]
    rw [ih]
    obtain ⟨c1, c2, c3⟩ := addIdealLine_cases cdt fp ff nw g i0 x
    by_cases ha : x.is3D = true ∧ 0 ≤ x.gid ∧ ∃ o ∈ x.viewId_lnLid, fp ≤ o.1
    · have hkey : (mapFind (addIdealLine cdt fp ff nw g i0 x).lngid2vid gid).isSome
          ↔ (mapFind g.lngid2vid gid).isSome ∨ x.gid = gid := by
        by_cases hf : firstViewId x.viewId_lnLid < ff ∧ x.estViewId < nw
            ∧ (cdt = true → g.edges_camdist = [])
        · rw [c2 ha hf]
          simp only [mapFind_mapSet]
          by_cases hg : gid = x.gid
          · simp [hg]
          · simp [hg, Ne.symm hg]
        · rw [c3 ha hf]
          simp only [mapFind_mapSet]
          by_cases hg : gid = x.gid
          · simp [hg]
          · simp [hg, Ne.symm hg]
      rw [hkey]
      simp only [List.mem_cons, exists_eq_or_imp]
      constructor
      · rintro ((h | h) | h)
        · exact Or.inl h
        · exact Or.inr (Or.inl ⟨ha, h⟩)
        · exact Or.inr (Or.inr h)
      · rintro (h | ⟨_, h⟩ | h)
        · exact Or.inl (Or.inl h)
        · exact Or.inl (Or.inr h)
        · exact Or.inr h
    · rw [c1 ha]
      simp only [List.mem_cons, exists_eq_or_imp]
      constructor
      · rintro (h | h)
        · exact Or.inl h
        · exact Or.inr (Or.inr h)
      · rintro (h | ⟨h, _⟩ | h)
        · exact Or.inl h
        · exact absurd h ha
        · exact Or.inr h

theorem planeInv_step (fp : Int) (pls : List PrimaryPlane3d) (g g' : Graph) (nv : Vertex)
    (hv : g'.vertices = g.vertices ++ [nv]) (hid : nv.id = g.vertex_id)
    (hk : nv.kind ≠ VertexKind.plane) (hvid : g'.vertex_id = g.vertex_id + 1)
    (h1 : g'.plIdx2Opt = g.plIdx2Opt) (h2 : g'.plvid2gid = g.plvid2gid)
    (h : PlaneInv fp pls g) : PlaneInv fp pls g' := by
  obtain ⟨a, b, c⟩ := h
  refine ⟨?_, ?_, ?_⟩
  · intro v hmem
    rw [hv] at hmem
    rw [hvid]
    rcases List.mem_append.mp hmem with h | h
    · have := a v h; omega
    · rw [List.mem_singleton.mp h, hid]; omega
  · intro v hmem hkind
    rw [hv] at hmem
    rw [h1, h2]
    rcases List.mem_append.mp hmem with h | h
    · exact b v h hkind
    · rw [List.mem_singleton.mp h] at hkind
      exact absurd hkind hk
  · intro i hi
    rw [h1] at hi
    obtain ⟨v, hmem, hkind, hf⟩ := c i hi
    exact ⟨v, by rw [hv]; exact List.mem_append_left _ hmem, hkind, by rw [h2]; exact hf⟩

theorem addKeyPoint_planeInv (fp ff nw : Int) (pls : List PrimaryPlane3d) (g : Graph)
    (i : Int) (kp : KeyPoint3d) (h : PlaneInv fp pls g) :
    PlaneInv fp pls (addKeyPoint fp ff nw g i kp) := by
  obtain ⟨c1, c2, c3⟩ := addKeyPoint_cases fp ff nw g i kp
  by_cases ha : kp.is3D = true ∧ 0 ≤ kp.gid ∧ ∃ o ∈ kp.viewId_ptLid, fp ≤ o.1
  · by_cases hf : firstViewId kp.viewId_ptLid < ff ∧ kp.estViewId < nw ∧ g.edges_camdist = []
    · rw [c2 ha hf]
      exact planeInv_step fp pls g _ _ rfl rfl (by simp) rfl rfl rfl h
    · rw [c3 ha hf]
      exact planeInv_step fp pls g _ _ rfl rfl (by simp) rfl rfl rfl h
  · rw [c1 ha]
    exact h

theorem addVanishingPoint_planeInv (fp : Int) (pls : List PrimaryPlane3d) (g : Graph)
    (i : Int) (vp : VanishPnt3d) (h : PlaneInv fp pls g) :
    PlaneInv fp pls (addVanishingPoint fp g i vp) := by
  obtain ⟨c1, c2⟩ := addVanishingPoint_cases fp g i vp
  by_cases ha : ∃ o ∈ vp.viewId_vpLid, fp ≤ o.1
  · rw [c2 ha]
    exact planeInv_step fp pls g _ _ rfl rfl (by simp) rfl rfl rfl h
  · rw [c1 ha]
    exact h

theorem addIdealLine_planeInv (cdt : Bool) (fp ff nw : Int) (pls : List PrimaryPlane3d)
    (g : Graph) (i : Int) (ln : IdealLine3d) (h : PlaneInv fp pls g) :
    PlaneInv fp pls (addIdealLine cdt fp ff nw g i ln) := by
  obtain ⟨c1, c2, c3⟩ := addIdealLine_cases cdt fp ff nw g i ln
  by_cases ha : ln.is3D = true ∧ 0 ≤ ln.gid ∧ ∃ o ∈ ln.viewId_lnLid, fp ≤ o.1
  · by_cases hf : firstViewId ln.viewId_lnLid < ff ∧ ln.estViewId < nw
        ∧ (cdt = true → g.edges_camdist = [])
    · rw [c2 ha hf]
      exact planeInv_step fp pls g _ _ rfl rfl (by simp) rfl rfl rfl h
    · rw [c3 ha hf]
      exact planeInv_step fp pls g _ _ rfl rfl (by simp) rfl rfl rfl h
  · rw [c1 ha]
    exact h

theorem addPrimaryPlane_planeInv (fp nw : Int) (pls : List PrimaryPlane3d) (g : Graph)
    (i : Int) (pl : PrimaryPlane3d) (hpl : vecAt pls i = some pl) (h : PlaneInv fp pls g) :
    PlaneInv fp pls (addPrimaryPlane fp nw g i pl) := by
  rcases addPrimaryPlane_cases fp nw g i pl with c | c
  · rw [c]; exact h
  · rw [c]
    obtain ⟨a, b, d⟩ := h
    have hfresh : ∀ v ∈ g.vertices, v.id ≠ g.vertex_id := by
      intro v hv
      have := a v hv
      omega
    refine ⟨?_, ?_, ?_⟩
    · intro v hmem
      rcases List.mem_append.mp hmem with h | h
      · have := a v h
        show v.id < g.vertex_id + 1
        omega
      · rw [List.mem_singleton.mp h]
        show g.vertex_id < g.vertex_id + 1
        omega
    · intro v hmem hkind
      rcases List.mem_append.mp hmem with h | h
      · obtain ⟨j, pj, hj, hpj, hfj, hfx⟩ := b v h hkind
        refine ⟨j, pj, List.mem_append_left _ hj, hpj, ?_, hfx⟩
        show mapFind (mapSet g.plvid2gid g.vertex_id i) v.id = some j
        rw [mapFind_mapSet, if_neg (hfresh v h)]
        exact hfj
      · rw [List.mem_singleton.mp h]
        refine ⟨i, pl, List.mem_append_right _ (List.mem_singleton.mpr rfl), hpl, ?_, rfl⟩
        show mapFind (mapSet g.plvid2gid g.vertex_id i) g.vertex_id = some i
        rw [mapFind_mapSet, if_pos rfl]
    · intro j hj
      rcases List.mem_append.mp hj with h | h
      · obtain ⟨v, hmem, hkind, hf⟩ := d j h
        refine ⟨v, List.mem_append_left _ hmem, hkind, ?_⟩
        show mapFind (mapSet g.plvid2gid g.vertex_id i) v.id = some j
        rw [mapFind_mapSet, if_neg (hfresh v hmem)]
        exact hf
      · rw [List.mem_singleton.mp h]
        refine ⟨_, List.mem_append_right _ (List.mem_singleton.mpr rfl), rfl, ?_⟩
        show mapFind (mapSet g.plvid2gid g.vertex_id i) g.vertex_id = some i
        rw [mapFind_mapSet, if_pos rfl]

/-- The structure loops establish `PlaneInv`. -/
theorem addStructure_planeInv (cdt : Bool) (fp ff nw : Int) (m : Map) (g : Graph)
    (h : PlaneInv fp m.primaryPlanes g) :
    PlaneInv fp m.primaryPlanes (addStructure cdt fp ff nw m g) := by
  unfold addStructure addPrimaryPlanes addIdealLines addVanishingPoints addKeyPoints
  simp only []
  apply indexedLoop_inv_at _ _ _ _
    (fun st p hp => addPrimaryPlane_planeInv fp nw m.primaryPlanes st p.1 p.2
      (indexed_vecAt _ _ hp))
  apply indexedLoop_inv _ _ (fun st i x => addIdealLine_planeInv cdt fp ff nw _ st i x)
  apply indexedLoop_inv _ _ (fun st i x => addVanishingPoint_planeInv fp _ st i x)
  apply indexedLoop_inv _ _ (fun st i x => addKeyPoint_planeInv fp ff nw _ st i x)
  exact h

theorem usePlane_congr (g g' : Graph) (pl : PrimaryPlane3d)
    (h1 : g'.ptgid2vid = g.ptgid2vid) (h2 : g'.lngid2vid = g.lngid2vid) :
    usePlane g' pl = usePlane g pl := by
  unfold usePlane
  rw [h1, h2]

theorem addPrimaryPlane_gidMaps (fp nw : Int) (g : Graph) (i : Int) (pl : PrimaryPlane3d) :
    (addPrimaryPlane fp nw g i pl).ptgid2vid = g.ptgid2vid
    ∧ (addPrimaryPlane fp nw g i pl).lngid2vid = g.lngid2vid := by
  unfold addPrimaryPlane
  split_ifs <;> exact ⟨rfl, rfl⟩

/-- The plane indices listed by the structure loops, for a start state without gid maps
and plane list: plane `i` is listed exactly when it was estimated at least 3 views before
`newest` and one of its member gids is the gid of an admitted key point or ideal
line. -/
theorem addStructure_planes (cdt : Bool) (fp ff nw : Int) (m : Map) (g : Graph)
    (hpt : g.ptgid2vid = []) (hln : g.lngid2vid = []) (hpl : g.plIdx2Opt = [])
    (i : Int) (pl : PrimaryPlane3d) (hi : vecAt m.primaryPlanes i = some pl) :
    i ∈ (addStructure cdt fp ff nw m g).plIdx2Opt
      ↔ 3 ≤ nw - pl.estViewId
        ∧ ((∃ gid ∈ pl.kptGids, ∃ kp ∈ m.keyPoints,
              (kp.is3D = true ∧ 0 ≤ kp.gid ∧ ∃ o ∈ kp.viewId_ptLid, fp ≤ o.1) ∧ kp.gid = gid)
          ∨ (∃ gid ∈ pl.ilnGids, ∃ ln ∈ m.idealLines,
              (ln.is3D = true ∧ 0 ≤ ln.gid ∧ ∃ o ∈ ln.viewId_lnLid, fp ≤ o.1)
                ∧ ln.gid = gid)) := by
  -- the intermediate states
  let g1 := addKeyPoints fp ff nw g 0 m.keyPoints
  let g2 := addVanishingPoints fp g1 0 m.vanishingPoints
  let g3 := addIdealLines cdt fp ff nw g2 0 m.idealLines
  have hfin : addStructure cdt fp ff nw m g = addPrimaryPlanes fp nw g3 0 m.primaryPlanes := rfl
  have f1 : (g1.lngid2vid, g1.plIdx2Opt) = (g.lngid2vid, g.plIdx2Opt) :=
    indexedLoop_frame (addKeyPoint fp ff nw) (fun g => (g.lngid2vid, g.plIdx2Opt))
      (by intro st j x; unfold addKeyPoint; split_ifs <;> rfl) m.keyPoints g 0
  have f2 : (g2.ptgid2vid, g2.lngid2vid, g2.plIdx2Opt)
      = (g1.ptgid2vid, g1.lngid2vid, g1.plIdx2Opt) :=
    indexedLoop_frame (addVanishingPoint fp)
      (fun g => (g.ptgid2vid, g.lngid2vid, g.plIdx2Opt))
      (by intro st j x; unfold addVanishingPoint; split_ifs <;> rfl) m.vanishingPoints g1 0
  have f3 : (g3.ptgid2vid, g3.plIdx2Opt) = (g2.ptgid2vid, g2.plIdx2Opt) :=
    indexedLoop_frame (addIdealLine cdt fp ff nw) (fun g => (g.ptgid2vid, g.plIdx2Opt))
      (by intro st j x; unfold addIdealLine; split_ifs <;> rfl) m.idealLines g2 0
  simp only [Prod.mk.injEq] at f1 f2 f3
  have hmem := indexedLoop_mem (addPrimaryPlane fp nw) (fun g => g.plIdx2Opt)
    (fun st pl => ¬ (nw - pl.estViewId < 3) ∧ usePlane st pl = true)
    (by
      intro st j x y
      simp only [usePlane_congr _ _ y (addPrimaryPlane_gidMaps fp nw st j x).1
        (addPrimaryPlane_gidMaps fp nw st j x).2])
    (by
      intro st j x hx
      unfold addPrimaryPlane
      simp [hx.1, hx.2])
    (by
      intro st j x hx
      unfold addPrimaryPlane
      by_cases h1 : nw - x.estViewId < 3
      · simp [h1]
      · have h2 : usePlane st x = false := by
          cases hu : usePlane st x
          · rfl
          · exact absurd ⟨h1, hu⟩ hx
        simp [h1, h2])
    m.primaryPlanes g3 0 i
  rw [hfin]
  unfold addPrimaryPlanes
  rw [hmem, f3.2, f2.2.2, f1.2, hpl]
  simp only [List.not_mem_nil, false_or]
  rw [vecAt_exists_iff m.primaryPlanes i pl
    (fun x => ¬ (nw - x.estViewId < 3) ∧ usePlane g3 x = true) hi]
  have hk : ∀ gid, (mapFind g3.ptgid2vid gid).isSome
      ↔ ∃ kp ∈ m.keyPoints,
          (kp.is3D = true ∧ 0 ≤ kp.gid ∧ ∃ o ∈ kp.viewId_ptLid, fp ≤ o.1) ∧ kp.gid = gid := by
    intro gid
    rw [f3.1, f2.1, addKeyPoints_keys, hpt]
    simp [mapFind]
  have hl : ∀ gid, (mapFind g3.lngid2vid gid).isSome
      ↔ ∃ ln ∈ m.idealLines,
          (ln.is3D = true ∧ 0 ≤ ln.gid ∧ ∃ o ∈ ln.viewId_lnLid, fp ≤ o.1) ∧ ln.gid = gid := by
    intro gid
    rw [addIdealLines_keys, f2.2.1, f1.1, hln]
    simp [mapFind]
  have hu : usePlane g3 pl = true
      ↔ (∃ gid ∈ pl.kptGids, (mapFind g3.ptgid2vid gid).isSome)
        ∨ (∃ gid ∈ pl.ilnGids, (mapFind g3.lngid2vid gid).isSome) := by
    simp [usePlane, List.any_eq_true]
  rw [hu]
  simp only [hk, hl, not_lt]

theorem cameraPart_planeInv (fp' : Int) (pls : List PrimaryPlane3d) (views : List View)
    (front stop fp mi : Int) (rows : List CamDist) (g : Graph)
    (h : cameraPart views front stop fp mi rows = Except.ok g) :
    PlaneInv fp' pls g ∧ g.ptgid2vid = [] ∧ g.lngid2vid = [] ∧ g.plIdx2Opt = [] := by
  have hw := cameraPart_writerInv views front stop fp mi rows g h
  obtain ⟨mi', es, vs, hg, _, hkind, _⟩ := cameraPart_spec views front stop fp mi rows
  rw [hg] at h
  cases h
  refine ⟨⟨hw.1, ?_, ?_⟩, rfl, rfl, rfl⟩
  · intro v hv hk
    rw [hkind v hv] at hk
    cases hk
  · intro i hi
    simp [Graph.init] at hi

/-- C12: in `adjustBundle_G2O`, after the vertex part and in every problem handed to the
solver, the primary plane `primaryPlanes[i]` has a plane vertex (a vertex of class
`VertexPlane3d` bound to `i` by `plvid2gid`) if and only if
`views.back().id - estViewId >= 3` and one of its member point gids or member line gids
is the gid of an admitted key point or ideal line (3D, non-negative gid, observed from
`frontPosIdx` on); such a vertex is fixed if and only if `estViewId < frontPosIdx`. -/
theorem C12_plane_admission (s : MfgSettings) (hp : Helpers) (bp : Mat3 → VanishPnt2d → Vec3)
    (m : Map) (numPos numFrm : Int) :
    ∃ g : Graph, adjustBundle_G2O_vertices s m numPos numFrm = Except.ok g
      ∧ ∀ g' : Graph, (g' = g ∨ adjustBundle_G2O_problem s hp bp m numPos numFrm = Except.ok g') →
        ∀ i pl, vecAt m.primaryPlanes i = some pl →
          ((∃ v ∈ g'.vertices, v.kind = VertexKind.plane ∧ mapFind g'.plvid2gid v.id = some i)
            ↔ 3 ≤ backId m.views - pl.estViewId
              ∧ ((∃ gid ∈ pl.kptGids, ∃ kp ∈ m.keyPoints,
                    (kp.is3D = true ∧ 0 ≤ kp.gid
                      ∧ ∃ o ∈ kp.viewId_ptLid, frontPosIdx m.views.length numPos ≤ o.1)
                    ∧ kp.gid = gid)
                ∨ (∃ gid ∈ pl.ilnGids, ∃ ln ∈ m.idealLines,
                    (ln.is3D = true ∧ 0 ≤ ln.gid
                      ∧ ∃ o ∈ ln.viewId_lnLid, frontPosIdx m.views.length numPos ≤ o.1)
                    ∧ ln.gid = gid)))
          ∧ (∀ v ∈ g'.vertices, v.kind = VertexKind.plane →
              mapFind g'.plvid2gid v.id = some i →
              (v.fixed = true ↔ pl.estViewId < frontPosIdx m.views.length numPos)) := by
  obtain ⟨g0, hg0, _⟩ := vertices_spec false m.views
    (frontVptIdx m.views.length numFrm s.baNumFramesVPoint) (m.views.length : Int)
    (frontPosIdx m.views.length numPos) (frontFrmIdx m.views.length numFrm)
    (backId m.views) 20 (camDistRows m.camdist_constraints numFrm) m
  obtain ⟨hinv0, hpt, hln, hpl⟩ := cameraPart_planeInv (frontPosIdx m.views.length numPos)
    m.primaryPlanes _ _ _ _ _ _ g0 hg0
  have hv : adjustBundle_G2O_vertices s m numPos numFrm
      = Except.ok (addStructure false (frontPosIdx m.views.length numPos)
          (frontFrmIdx m.views.length numFrm) (backId m.views) m g0) := by
    unfold adjustBundle_G2O_vertices adjustBundle_G2O_cameras
    rw [hg0]
  refine ⟨_, hv, ?_⟩
  have hinv := addStructure_planeInv false (frontPosIdx m.views.length numPos)
    (frontFrmIdx m.views.length numFrm) (backId m.views) m g0 hinv0
  -- the statement for any state with the vertices, plane map and plane list of the
  -- vertex part
  have key : ∀ g' : Graph,
      g'.vertices = (addStructure false (frontPosIdx m.views.length numPos)
          (frontFrmIdx m.views.length numFrm) (backId m.views) m g0).vertices →
      g'.plvid2gid = (addStructure false (frontPosIdx m.views.length numPos)
          (frontFrmIdx m.views.length numFrm) (backId m.views) m g0).plvid2gid →
      ∀ i pl, vecAt m.primaryPlanes i = some pl →
        ((∃ v ∈ g'.vertices, v.kind = VertexKind.plane ∧ mapFind g'.plvid2gid v.id = some i)
          ↔ 3 ≤ backId m.views - pl.estViewId
            ∧ ((∃ gid ∈ pl.kptGids, ∃ kp ∈ m.keyPoints,
                  (kp.is3D = true ∧ 0 ≤ kp.gid
                    ∧ ∃ o ∈ kp.viewId_ptLid, frontPosIdx m.views.length numPos ≤ o.1)
                  ∧ kp.gid = gid)
              ∨ (∃ gid ∈ pl.ilnGids, ∃ ln ∈ m.idealLines,
                  (ln.is3D = true ∧ 0 ≤ ln.gid
                    ∧ ∃ o ∈ ln.viewId_lnLid, frontPosIdx m.views.length numPos ≤ o.1)
                  ∧ ln.gid = gid)))
        ∧ (∀ v ∈ g'.vertices, v.kind = VertexKind.plane →
            mapFind g'.plvid2gid v.id = some i →
            (v.fixed = true ↔ pl.estViewId < frontPosIdx m.views.length numPos)) := by
    intro g' e1 e2 i pl hi
    rw [e1, e2]
    have hmem := addStructure_planes false (frontPosIdx m.views.length numPos)
      (frontFrmIdx m.views.length numFrm) (backId m.views) m g0 hpt hln hpl i pl hi
    obtain ⟨_, b, c⟩ := hinv
    refine ⟨?_, ?_⟩
    · rw [← hmem]
      constructor
      · rintro ⟨v, hv1, hk, hf⟩
        obtain ⟨j, pj, hj, _, hfj, _⟩ := b v hv1 hk
        rw [hf] at hfj
        cases hfj
        exact hj
      · intro hi'
        exact c i hi'
    · intro v hv1 hk hf
      obtain ⟨j, pj, hj, hpj, hfj, hfx⟩ := b v hv1 hk
      rw [hf] at hfj
      cases hfj
      rw [hi] at hpj
      cases hpj
      rw [hfx]
      simp
  intro g' hg'
  rcases hg' with rfl | hg'
  · exact key _ rfl rfl
  · unfold adjustBundle_G2O_problem at hg'
    rw [hv] at hg'
    simp only [] at hg'
    obtain ⟨e1, e2, _⟩ := addEdges_writerFields s hp bp m _ _ _ g' hg'
    simp only [writerFields, Prod.mk.injEq] at e2
    exact key g' e1 e2.2.2.2.2

/-! ## The plane round trip -/

/-- The estimate of the vertex the plane loop creates is `planeEncode`. -/
theorem addPrimaryPlane_estimate (fp nw : Int) (g : Graph) (i : Int) (pl : PrimaryPlane3d) :
    addPrimaryPlane fp nw g i pl = g
    ∨ ∃ v, (addPrimaryPlane fp nw g i pl).vertices = g.vertices ++ [v]
        ∧ v.kind = VertexKind.plane ∧ v.estimate = Estimate.vec (planeEncode pl) := by
  rcases addPrimaryPlane_cases fp nw g i pl with c | c
  · exact Or.inl c
  · rw [c]
    exact Or.inr ⟨_, rfl, rfl, rfl⟩

/-- The plane write-back of a found, free plane vertex with estimate `e` is
`planeDecode`. -/
theorem writePlane_decode (h : Helpers) (g : Graph) (pls : List PrimaryPlane3d) (vid : Int)
    (v : Vertex) (e : Vec3) (hv : findVertex g.vertices vid = some v)
    (hfx : v.fixed = false) (he : v.estimate = Estimate.vec e) :
    writePlane h g pls vid = vecModify pls (gidOf g.plvid2gid vid) (planeDecode h e) := by
  unfold writePlane
  rw [hv]
  simp only [hfx, he]
  rfl

theorem norm_planeEncode (h : Helpers) (pl : PrimaryPlane3d) (hn : pl.n.dot pl.n = 1)
    (hd : pl.d ≠ 0) (hnorm : IsNormOf h (planeEncode pl)) :
    h.norm (planeEncode pl) = 1 / |pl.d| := by
  obtain ⟨h0, h1⟩ := hnorm
  have hdot : (planeEncode pl).dot (planeEncode pl) = 1 / (pl.d * pl.d) := by
    simp only [planeEncode, Vec3.dot] at hn ⊢
    field_simp
    linarith
  rw [hdot] at h1
  have hpos : 0 < |pl.d| := abs_pos.mpr hd
  have h2 : (1 / |pl.d|) * (1 / |pl.d|) = 1 / (pl.d * pl.d) := by
    rw [div_mul_div_comm, one_mul, abs_mul_abs_self]
  have h3 : 0 ≤ 1 / |pl.d| := by positivity
  nlinarith [mul_self_nonneg (h.norm (planeEncode pl) - 1 / |pl.d|),
    mul_self_nonneg (h.norm (planeEncode pl) + 1 / |pl.d|)]

/-- C15 (as the code does it), over exact arithmetic with `norm` the Euclidean norm: for
a plane with unit normal `n` and offset `d`, decoding the encoded 3-vector `n / d` by
`d' = 1 / |p|`, `n' = p / |p|` gives back `n` and `d` when `d > 0`, and gives `-n` and
`-d` (the same plane, written with a positive offset) when `d < 0`. -/
theorem C15_plane_round_trip (h : Helpers) (pl : PrimaryPlane3d)
    (hn : pl.n.dot pl.n = 1) (hd : pl.d ≠ 0) (hnorm : IsNormOf h (planeEncode pl)) :
    (0 < pl.d → planeDecode h (planeEncode pl) pl = pl)
    ∧ (pl.d < 0 → (planeDecode h (planeEncode pl) pl).d = -pl.d
        ∧ (planeDecode h (planeEncode pl) pl).n = ⟨-pl.n.x, -pl.n.y, -pl.n.z⟩) := by
  have hN := norm_planeEncode h pl hn hd hnorm
  constructor
  · intro hpos
    have habs : |pl.d| = pl.d := abs_of_pos hpos
    unfold planeDecode
    rw [hN, habs]
    have e1 : 1 / (1 / pl.d) = pl.d := by field_simp
    have e2 : ∀ a : Rat, a / pl.d / (1 / pl.d) = a := by intro a; field_simp
    simp only [planeEncode, e1, e2]
  · intro hneg
    have habs : |pl.d| = -pl.d := abs_of_neg hneg
    unfold planeDecode
    rw [hN, habs]
    have hd' : -pl.d ≠ 0 := neg_ne_zero.mpr hd
    have e1 : 1 / (1 / -pl.d) = -pl.d := by field_simp
    have e2 : ∀ a : Rat, a / pl.d / (1 / -pl.d) = -a := by intro a; field_simp
    simp only [planeEncode, e1, e2]
    exact ⟨trivial, trivial⟩

/-- C15 at the plane `z = 2`. -/
theorem C15_plane_round_trip_witness :
    (planeAbove.n.dot planeAbove.n = 1 ∧ planeAbove.d ≠ 0
      ∧ IsNormOf zAxisHelpers (planeEncode planeAbove))
    ∧ planeDecode zAxisHelpers (planeEncode planeAbove) planeAbove = planeAbove :=
  have h1 : planeAbove.n.dot planeAbove.n = 1 := by norm_num [planeAbove, Vec3.dot]
  have h2 : planeAbove.d ≠ 0 := by norm_num [planeAbove]
  have h3 : IsNormOf zAxisHelpers (planeEncode planeAbove) := by
    norm_num [IsNormOf, zAxisHelpers, sampleHelpers, planeEncode, planeAbove, Vec3.dot]
  ⟨⟨h1, h2, h3⟩,
    (C15_plane_round_trip zAxisHelpers planeAbove h1 h2 h3).1 (by norm_num [planeAbove])⟩

/-- C15 fails as stated: the plane with unit normal `(0, 0, 1)` and offset `-1` is
encoded as `(0, 0, -1)` and decoded, with the Euclidean norm, as normal `(0, 0, -1)` and
offset `1`. -/
theorem C15_counterexample :
    ¬ ((planeBelow.n.dot planeBelow.n = 1 ∧ planeBelow.d ≠ 0
        ∧ IsNormOf zAxisHelpers (planeEncode planeBelow))
      → planeDecode zAxisHelpers (planeEncode planeBelow) planeBelow = planeBelow) := by
  intro hc
  have h1 : planeBelow.n.dot planeBelow.n = 1 := by norm_num [planeBelow, Vec3.dot]
  have h2 : planeBelow.d ≠ 0 := by norm_num [planeBelow]
  have h3 : IsNormOf zAxisHelpers (planeEncode planeBelow) := by
    norm_num [IsNormOf, zAxisHelpers, sampleHelpers, planeEncode, planeBelow, Vec3.dot]
  have hd := congrArg PrimaryPlane3d.d (hc ⟨h1, h2, h3⟩)
  norm_num [planeDecode, zAxisHelpers, sampleHelpers, planeEncode, planeBelow] at hd

/-! ## The translation of view 1 -/

/-- C16: on the two-view map, where view 1 is free and no camera-distance constraint
exists, `adjustBundle_G2O` stores for view 1 the translation the solver returned,
`(2, 0, 0)`, whose squared norm is 4: the factor `scale = 1 / t.norm()` the Result Writer
computes for view 1 (l.1727-1731) is applied to nothing. The dense backend stores
`angle2unitVec` of the two angles of the parameter array for view 1. -/
theorem C16_view1_translation (h : Helpers) (lm : Map → PtLnVp → LmOutcome) :
    (adjustBundle_G2O scenarioSettings h (fun _ _ => ⟨0, 0, 1⟩) stretchSolver
        twoViewMap 3 5).toOption.map (fun m => m.views.map (fun v => (v.t, v.t.dot v.t)))
      = some [(⟨0, 0, 0⟩, 0), (⟨2, 0, 0⟩, 4)]
    ∧ (adjustBundle_PtLnVp h lm twoViewMap).views.map (fun v => v.t)
      = [⟨0, 0, 0⟩,
         h.angle2unitVec (rd (lm twoViewMap (ptLnVp_vectorize h twoViewMap)).para 4)
           (rd (lm twoViewMap (ptLnVp_vectorize h twoViewMap)).para 5)] := by
  constructor
  · have e : (adjustBundle_G2O scenarioSettings h (fun _ _ => ⟨0, 0, 1⟩) stretchSolver
        twoViewMap 3 5).toOption.map (fun m => m.views.map (fun v => v.t))
        = some [⟨0, 0, 0⟩, ⟨2, 0, 0⟩] := rfl
    cases hm : (adjustBundle_G2O scenarioSettings h (fun _ _ => ⟨0, 0, 1⟩) stretchSolver
        twoViewMap 3 5).toOption with
    | none => rw [hm] at e; cases e
    | some m' =>
      rw [hm] at e
      simp only [Option.map_some', Option.some.injEq] at e ⊢
      have e2 : m'.views.map (fun v => (v.t, v.t.dot v.t))
          = (m'.views.map (fun v => v.t)).map (fun t => (t, t.dot t)) := by
        rw [List.map_map]; rfl
      rw [e2, e]
      norm_num [Vec3.dot]
  · rfl

/-! ## Offsets -/

theorem offsets_length (start : Nat) (ns : List Nat) : (offsets start ns).length = ns.length := by
  induction ns generalizing start with
  | nil => rfl
  | cons n rest ih => simp [offsets, ih]

theorem offsets_append (start : Nat) (as bs : List Nat) :
    offsets start (as ++ bs) = offsets start as ++ offsets (start + as.sum) bs := by
  induction as generalizing start with
  | nil => simp [offsets]
  | cons n rest ih =>
    show start :: offsets (start + n) (rest ++ bs)
      = start :: (offsets (start + n) rest ++ offsets (start + (n :: rest).sum) bs)
    rw [ih, List.sum_cons, Nat.add_assoc]

theorem zip_offsets_append {α : Type} (len : α → Nat) (start : Nat) (as bs : List α) :
    (as ++ bs).zip (offsets start ((as ++ bs).map len))
      = as.zip (offsets start (as.map len))
        ++ bs.zip (offsets (start + (as.map len).sum) (bs.map len)) := by
  rw [List.map_append, offsets_append]
  exact List.zip_append (by rw [offsets_length, List.length_map])

/-- A loop whose body advances an offset by the length of the element and logs the
element with the offset it found: after the loop the log holds the elements zipped with
their start offsets, and the offset has advanced by the sum of the lengths. -/
theorem foldl_offsets {σ α β : Type} (f : σ → α → σ) (off : σ → Nat) (log : σ → List (β × Nat))
    (tag : α → β) (len : α → Nat)
    (hoff : ∀ st x, off (f st x) = off st + len x)
    (hlog : ∀ st x, log (f st x) = log st ++ [(tag x, off st)])
    (xs : List α) (st : σ) :
    off (xs.foldl f st) = off st + (xs.map len).sum
    ∧ log (xs.foldl f st)
        = log st ++ (xs.map tag).zip (offsets (off st) (xs.map (fun x => len x))) := by
  induction xs generalizing st with
  | nil => simp [offsets]
  | cons x rest ih =>
    simp only [List.foldl_cons, List.map_cons, List.sum_cons, offsets, List.zip_cons_cons]
    obtain ⟨h1, h2⟩ := ih (f st x)
    rw [h1, h2, hoff, hlog]
    constructor
    · omega
    · simp

theorem foldl_keeps {σ α β : Type} (f : σ → α → σ) (fld : σ → β)
    (h : ∀ st x, fld (f st x) = fld st) (xs : List α) (st : σ) :
    fld (xs.foldl f st) = fld st := by
  induction xs generalizing st with
  | nil => rfl
  | cons x rest ih => rw [List.foldl_cons, ih, h]

/-! ## The cost function reads the blocks at the offsets of the layout -/

theorem costPtObs_keeps (c : CostHelpers) (m : Map) (d : PtLnVp) (X : Vec3) (st : CostState)
    (o : Int × Int) :
    ((costPtObs c m d X st o).pidx, (costPtObs c m d X st o).reads,
      (costPtObs c m d X st o).cams, (costPtObs c m d X st o).VPs)
      = (st.pidx, st.reads, st.cams, st.VPs) := by
  unfold costPtObs
  split_ifs <;> rfl

theorem costSegment_keeps (c : CostHelpers) (lneq : Vec3) (ls : List Pt2) (st : CostState) :
    ((costSegment c lneq ls st).pidx, (costSegment c lneq ls st).reads,
      (costSegment c lneq ls st).cams, (costSegment c lneq ls st).VPs)
      = (st.pidx, st.reads, st.cams, st.VPs) := by
  unfold costSegment
  generalize pairSteps ls.length = ks
  induction ks generalizing st with
  | nil => rfl
  | cons k rest ih => rw [List.foldl_cons, ih]

theorem costCam_step (h : Helpers) (p : List Rat) (st : CostState) (i : Int) :
    (costCam h p st i).pidx = st.pidx + blockLen (Block.cam i)
    ∧ (costCam h p st i).reads = st.reads ++ [(Block.cam i, st.pidx)] := by
  by_cases hi : i = 1 <;> simp [costCam, blockLen, hi]

theorem costPoint_step (c : CostHelpers) (m : Map) (d : PtLnVp) (p : List Rat)
    (st : CostState) (idx : Int) :
    (costPoint c m d p st idx).pidx = st.pidx + blockLen (Block.point idx)
    ∧ (costPoint c m d p st idx).reads = st.reads ++ [(Block.point idx, st.pidx)] := by
  unfold costPoint
  simp only [blockLen]
  have hk := foldl_keeps (costPtObs c m d ⟨rd p st.pidx, rd p (st.pidx + 1), rd p (st.pidx + 2)⟩)
    (fun s => (s.pidx, s.reads, s.cams, s.VPs)) (fun s o => costPtObs_keeps c m d _ s o)
  simp only [Prod.mk.injEq] at hk
  rw [(hk _ _).1, (hk _ _).2.1]
  exact ⟨rfl, rfl⟩

theorem costFixedPoint_keeps (c : CostHelpers) (m : Map) (d : PtLnVp) (st : CostState)
    (idx : Int) :
    ((costFixedPoint c m d st idx).pidx, (costFixedPoint c m d st idx).reads)
      = (st.pidx, st.reads) := by
  unfold costFixedPoint
  split
  · rfl
  · rename_i kp _
    have hk := foldl_keeps (costPtObs c m d ⟨kp.x, kp.y, kp.z⟩)
      (fun s => (s.pidx, s.reads, s.cams, s.VPs)) (fun s o => costPtObs_keeps c m d _ s o)
      kp.viewId_ptLid st
    simp only [Prod.mk.injEq] at hk ⊢
    exact ⟨hk.1, hk.2.1⟩

theorem costVnpt_step (p : List Rat) (st : CostState) (i : Int) :
    (costVnpt p st i).pidx = st.pidx + blockLen (Block.vnpt i)
    ∧ (costVnpt p st i).reads = st.reads ++ [(Block.vnpt i, st.pidx)] :=
  ⟨rfl, rfl⟩

theorem costLine_step (c : CostHelpers) (m : Map) (d : PtLnVp) (p : List Rat)
    (st : CostState) (idx : Int) :
    (costLine c m d p st idx).pidx = st.pidx + blockLen (Block.line idx)
    ∧ (costLine c m d p st idx).reads = st.reads ++ [(Block.line idx, st.pidx)] := by
  unfold costLine
  simp only [blockLen]
  split
  · exact ⟨rfl, rfl⟩
  · rename_i ln _
    have hk := foldl_keeps (fun (s : CostState) (o : Int × Int) =>
        if d.frontFrmIdx ≤ o.1 then
          costSegment c (c.lineThrough m.K (costPs m d s.cams o.1)
            ⟨rd p st.pidx, rd p (st.pidx + 1), rd p (st.pidx + 2)⟩
            ((vecAt st.VPs ln.vpGid).getD ⟨0, 0, 0⟩)) (segmentAt m o.1 o.2) s
        else s)
      (fun s => (s.pidx, s.reads))
      (by
        intro s o
        simp only []
        split_ifs
        · have := costSegment_keeps c (c.lineThrough m.K (costPs m d s.cams o.1)
            ⟨rd p st.pidx, rd p (st.pidx + 1), rd p (st.pidx + 2)⟩
            ((vecAt st.VPs ln.vpGid).getD ⟨0, 0, 0⟩)) (segmentAt m o.1 o.2) s
          simp only [Prod.mk.injEq] at this ⊢
          exact ⟨this.1, this.2.1⟩
        · rfl)
      ln.viewId_lnLid
    simp only [Prod.mk.injEq] at hk
    rw [(hk _).1, (hk _).2]
    exact ⟨rfl, rfl⟩

theorem costFixedLine_keeps (c : CostHelpers) (m : Map) (d : PtLnVp) (st : CostState)
    (idx : Int) :
    ((costFixedLine c m d st idx).pidx, (costFixedLine c m d st idx).reads)
      = (st.pidx, st.reads) := by
  unfold costFixedLine
  split
  · rfl
  · rename_i ln _
    refine foldl_keeps _ (fun s => (s.pidx, s.reads)) ?_ ln.viewId_lnLid st
    intro s o
    simp only []
    split_ifs
    · have := costSegment_keeps c (c.projectLine m.K (costPs m d s.cams o.1) ln)
        (segmentAt m o.1 o.2) s
      simp only [Prod.mk.injEq] at this ⊢
      exact ⟨this.1, this.2.1⟩
    · rfl

/-- The layout, group by group. -/
theorem ptLnVp_layout_eq (m : Map) (d : PtLnVp) :
    ptLnVp_layout m d
      = ((intRange d.frontPosIdx (m.views.length : Int)).map Block.cam).zip
          (offsets 0 ((intRange d.frontPosIdx (m.views.length : Int)).map
            (fun i => blockLen (Block.cam i))))
        ++ (d.kptIdx2Opt.map Block.point).zip
          (offsets (((intRange d.frontPosIdx (m.views.length : Int)).map
              (fun i => blockLen (Block.cam i))).sum)
            (d.kptIdx2Opt.map (fun i => blockLen (Block.point i))))
        ++ ((intRange 0 (m.vanishingPoints.length : Int)).map Block.vnpt).zip
          (offsets (((intRange d.frontPosIdx (m.views.length : Int)).map
              (fun i => blockLen (Block.cam i))).sum
              + (d.kptIdx2Opt.map (fun i => blockLen (Block.point i))).sum)
            ((intRange 0 (m.vanishingPoints.length : Int)).map
              (fun i => blockLen (Block.vnpt i))))
        ++ (d.idlIdx2Opt.map Block.line).zip
          (offsets (((intRange d.frontPosIdx (m.views.length : Int)).map
              (fun i => blockLen (Block.cam i))).sum
              + (d.kptIdx2Opt.map (fun i => blockLen (Block.point i))).sum
              + ((intRange 0 (m.vanishingPoints.length : Int)).map
                  (fun i => blockLen (Block.vnpt i))).sum)
            (d.idlIdx2Opt.map (fun i => blockLen (Block.line i)))) := by
  unfold ptLnVp_layout ptLnVp_blocks
  rw [zip_offsets_append, zip_offsets_append, zip_offsets_append]
  simp only [List.map_append, List.map_map, List.sum_append, Nat.zero_add,
    Function.comp_def]

/-- The cost function reads the blocks of `p` at the offsets of the layout, and its
final `pidx` is the sum of the block lengths. -/
theorem costFun_reads (h : Helpers) (c : CostHelpers) (m : Map) (d : PtLnVp) (p : List Rat) :
    (costFun_BA_PtLnVp h c m d p).reads = ptLnVp_layout m d
    ∧ (costFun_BA_PtLnVp h c m d p).pidx = ((ptLnVp_blocks m d).map blockLen).sum := by
  unfold costFun_BA_PtLnVp
  simp only []
  have k6 := foldl_keeps (costFixedLine c m d) (fun s => (s.pidx, s.reads))
    (fun s i => costFixedLine_keeps c m d s i) d.idlIdx2Rpj_notOpt
  have k3 := foldl_keeps (costFixedPoint c m d) (fun s => (s.pidx, s.reads))
    (fun s i => costFixedPoint_keeps c m d s i) d.kptIdx2Rpj_notOpt
  have s1 := foldl_offsets (costCam h p) (fun s => s.pidx) (fun s => s.reads) Block.cam
    (fun i => blockLen (Block.cam i)) (fun s i => (costCam_step h p s i).1)
    (fun s i => (costCam_step h p s i).2) (intRange d.frontPosIdx (m.views.length : Int))
  have s2 := foldl_offsets (costPoint c m d p) (fun s => s.pidx) (fun s => s.reads)
    Block.point (fun i => blockLen (Block.point i)) (fun s i => (costPoint_step c m d p s i).1)
    (fun s i => (costPoint_step c m d p s i).2) d.kptIdx2Opt
  have s4 := foldl_offsets (costVnpt p) (fun s => s.pidx) (fun s => s.reads)
    Block.vnpt (fun i => blockLen (Block.vnpt i)) (fun s i => (costVnpt_step p s i).1)
    (fun s i => (costVnpt_step p s i).2) (intRange 0 (m.vanishingPoints.length : Int))
  have s5 := foldl_offsets (costLine c m d p) (fun s => s.pidx) (fun s => s.reads)
    Block.line (fun i => blockLen (Block.line i)) (fun s i => (costLine_step c m d p s i).1)
    (fun s i => (costLine_step c m d p s i).2) d.idlIdx2Opt
  simp only [Prod.mk.injEq] at k6 k3
  simp only [] at s1 s2 s4 s5
  rw [(k6 _).1, (k6 _).2, (s5 _).1, (s5 _).2, (s4 _).1, (s4 _).2, (k3 _).1, (k3 _).2,
    (s2 _).1, (s2 _).2, (s1 _).1, (s1 _).2]
  rw [ptLnVp_layout_eq]
  unfold ptLnVp_blocks
  simp only [List.map_append, List.map_map, List.sum_append, List.nil_append, Nat.zero_add,
    Function.comp_def, List.append_assoc, Nat.add_assoc]
  exact ⟨trivial, trivial⟩

/-! ## The Result Writer reads the blocks at the offsets of the layout -/

theorem writeBlock_cams (h : Helpers) (para : List Rat) (is : List Int) (p0 : Nat) (m : Map) :
    ((is.map Block.cam).zip (offsets p0 (is.map (fun i => blockLen (Block.cam i))))).foldl
        (ptLnVp_writeBlock h para) m
      = { m with views := (is.foldl (ptLnVp_writeCam h para) (p0, m.views)).2 }
    ∧ (is.foldl (ptLnVp_writeCam h para) (p0, m.views)).1
      = p0 + (is.map (fun i => blockLen (Block.cam i))).sum := by
  induction is generalizing p0 m with
  | nil => exact ⟨rfl, rfl⟩
  | cons i rest ih =>
    simp only [List.map_cons, offsets, List.zip_cons_cons, List.foldl_cons, List.sum_cons]
    have hstep : ptLnVp_writeCam h para (p0, m.views) i
        = (p0 + blockLen (Block.cam i), (ptLnVp_writeCam h para (p0, m.views) i).2) := by
      by_cases hi : i = 1 <;> simp [ptLnVp_writeCam, blockLen, hi]
    have hblk : ptLnVp_writeBlock h para m (Block.cam i, p0)
        = { m with views := (ptLnVp_writeCam h para (p0, m.views) i).2 } := rfl
    rw [hblk, hstep]
    obtain ⟨e1, e2⟩ := ih (p0 + blockLen (Block.cam i))
      { m with views := (ptLnVp_writeCam h para (p0, m.views) i).2 }
    rw [e1]
    refine ⟨rfl, ?_⟩
    rw [e2, Nat.add_assoc]

theorem writeBlock_points (h : Helpers) (para : List Rat) (is : List Int) (p0 : Nat)
    (m : Map) :
    ((is.map Block.point).zip (offsets p0 (is.map (fun i => blockLen (Block.point i))))).foldl
        (ptLnVp_writeBlock h para) m
      = { m with keyPoints := (is.foldl (ptLnVp_writePoint para) (p0, m.keyPoints)).2 }
    ∧ (is.foldl (ptLnVp_writePoint para) (p0, m.keyPoints)).1
      = p0 + (is.map (fun i => blockLen (Block.point i))).sum := by
  induction is generalizing p0 m with
  | nil => exact ⟨rfl, rfl⟩
  | cons i rest ih =>
    simp only [List.map_cons, offsets, List.zip_cons_cons, List.foldl_cons, List.sum_cons]
    have hblk : ptLnVp_writeBlock h para m (Block.point i, p0)
        = { m with keyPoints := (ptLnVp_writePoint para (p0, m.keyPoints) i).2 } := rfl
    have hstep : ptLnVp_writePoint para (p0, m.keyPoints) i
        = (p0 + blockLen (Block.point i), (ptLnVp_writePoint para (p0, m.keyPoints) i).2) :=
      rfl
    rw [hblk, hstep]
    obtain ⟨e1, e2⟩ := ih (p0 + blockLen (Block.point i))
      { m with keyPoints := (ptLnVp_writePoint para (p0, m.keyPoints) i).2 }
    rw [e1]
    refine ⟨rfl, ?_⟩
    rw [e2, Nat.add_assoc]

theorem writeBlock_vnpts (h : Helpers) (para : List Rat) (is : List Int) (p0 : Nat)
    (m : Map) :
    ((is.map Block.vnpt).zip (offsets p0 (is.map (fun i => blockLen (Block.vnpt i))))).foldl
        (ptLnVp_writeBlock h para) m
      = { m with
          vanishingPoints := (is.foldl (ptLnVp_writeVnpt para) (p0, m.vanishingPoints)).2 }
    ∧ (is.foldl (ptLnVp_writeVnpt para) (p0, m.vanishingPoints)).1
      = p0 + (is.map (fun i => blockLen (Block.vnpt i))).sum := by
  induction is generalizing p0 m with
  | nil => exact ⟨rfl, rfl⟩
  | cons i rest ih =>
    simp only [List.map_cons, offsets, List.zip_cons_cons, List.foldl_cons, List.sum_cons]
    have hblk : ptLnVp_writeBlock h para m (Block.vnpt i, p0)
        = { m with
            vanishingPoints := (ptLnVp_writeVnpt para (p0, m.vanishingPoints) i).2 } := rfl
    have hstep : ptLnVp_writeVnpt para (p0, m.vanishingPoints) i
        = (p0 + blockLen (Block.vnpt i),
            (ptLnVp_writeVnpt para (p0, m.vanishingPoints) i).2) := rfl
    rw [hblk, hstep]
    obtain ⟨e1, e2⟩ := ih (p0 + blockLen (Block.vnpt i))
      { m with vanishingPoints := (ptLnVp_writeVnpt para (p0, m.vanishingPoints) i).2 }
    rw [e1]
    refine ⟨rfl, ?_⟩
    rw [e2, Nat.add_assoc]

theorem writeBlock_lines (h : Helpers) (para : List Rat) (is : List Int) (p0 : Nat)
    (m : Map) :
    ((is.map Block.line).zip (offsets p0 (is.map (fun i => blockLen (Block.line i))))).foldl
        (ptLnVp_writeBlock h para) m
      = { m with
          idealLines :=
            (is.foldl (ptLnVp_writeLine h m.vanishingPoints para) (p0, m.idealLines)).2 }
    ∧ (is.foldl (ptLnVp_writeLine h m.vanishingPoints para) (p0, m.idealLines)).1
      = p0 + (is.map (fun i => blockLen (Block.line i))).sum := by
  induction is generalizing p0 m with
  | nil => exact ⟨rfl, rfl⟩
  | cons i rest ih =>
    simp only [List.map_cons, offsets, List.zip_cons_cons, List.foldl_cons, List.sum_cons]
    have hblk : ptLnVp_writeBlock h para m (Block.line i, p0)
        = { m with
            idealLines :=
              (ptLnVp_writeLine h m.vanishingPoints para (p0, m.idealLines) i).2 } := rfl
    have hstep : ptLnVp_writeLine h m.vanishingPoints para (p0, m.idealLines) i
        = (p0 + blockLen (Block.line i),
            (ptLnVp_writeLine h m.vanishingPoints para (p0, m.idealLines) i).2) := rfl
    rw [hblk, hstep]
    obtain ⟨e1, e2⟩ := ih (p0 + blockLen (Block.line i))
      { m with
        idealLines := (ptLnVp_writeLine h m.vanishingPoints para (p0, m.idealLines) i).2 }
    rw [e1]
    refine ⟨rfl, ?_⟩
    rw [e2, Nat.add_assoc]

/-- The Result Writer of the dense backend is the block-by-block write-back along the
layout, followed by the error fields. -/
theorem ptLnVp_writeBack_layout (h : Helpers) (d : PtLnVp) (out : LmOutcome) (m : Map) :
    ptLnVp_writeBack h d out m
      = ptLnVp_writeErr out ((ptLnVp_layout m d).foldl (ptLnVp_writeBlock h out.para) m) := by
  rw [ptLnVp_layout_eq, List.foldl_append, List.foldl_append, List.foldl_append]
  obtain ⟨c1, c2⟩ := writeBlock_cams h out.para (intRange d.frontPosIdx (m.views.length : Int))
    0 m
  rw [c1]
  obtain ⟨k1, k2⟩ := writeBlock_points h out.para d.kptIdx2Opt
    (((intRange d.frontPosIdx (m.views.length : Int)).map
      (fun i => blockLen (Block.cam i))).sum)
    { m with views := ((intRange d.frontPosIdx (m.views.length : Int)).foldl
        (ptLnVp_writeCam h out.para) (0, m.views)).2 }
  rw [k1]
  obtain ⟨v1, v2⟩ := writeBlock_vnpts h out.para (intRange 0 (m.vanishingPoints.length : Int))
    (((intRange d.frontPosIdx (m.views.length : Int)).map
        (fun i => blockLen (Block.cam i))).sum
      + (d.kptIdx2Opt.map (fun i => blockLen (Block.point i))).sum)
    { m with
      views := ((intRange d.frontPosIdx (m.views.length : Int)).foldl
        (ptLnVp_writeCam h out.para) (0, m.views)).2,
      keyPoints := (d.kptIdx2Opt.foldl (ptLnVp_writePoint out.para)
        (((intRange d.frontPosIdx (m.views.length : Int)).map
          (fun i => blockLen (Block.cam i))).sum, m.keyPoints)).2 }
  rw [v1]
  obtain ⟨l1, _⟩ := writeBlock_lines h out.para d.idlIdx2Opt
    (((intRange d.frontPosIdx (m.views.length : Int)).map
        (fun i => blockLen (Block.cam i))).sum
      + (d.kptIdx2Opt.map (fun i => blockLen (Block.point i))).sum
      + ((intRange 0 (m.vanishingPoints.length : Int)).map
          (fun i => blockLen (Block.vnpt i))).sum)
    { m with
      views := ((intRange d.frontPosIdx (m.views.length : Int)).foldl
        (ptLnVp_writeCam h out.para) (0, m.views)).2,
      keyPoints := (d.kptIdx2Opt.foldl (ptLnVp_writePoint out.para)
        (((intRange d.frontPosIdx (m.views.length : Int)).map
          (fun i => blockLen (Block.cam i))).sum, m.keyPoints)).2,
      vanishingPoints := ((intRange 0 (m.vanishingPoints.length : Int)).foldl
        (ptLnVp_writeVnpt out.para)
        (((intRange d.frontPosIdx (m.views.length : Int)).map
            (fun i => blockLen (Block.cam i))).sum
          + (d.kptIdx2Opt.map (fun i => blockLen (Block.point i))).sum,
          m.vanishingPoints)).2 }
  rw [l1]
  simp only [Nat.zero_add] at c2
  simp only [] at k2 v2
  unfold ptLnVp_writeBack ptLnVp_writeErr
  simp only []
  rw [c2, k2, v2, ptLnVp_writeCams_length]

/-! ## The vectorizer writes the blocks at the offsets of the layout -/

theorem indexed_map_fst {α : Type} (xs : List α) (i : Int) :
    (indexed i xs).map Prod.fst = intRange i (i + xs.length) := by
  induction xs generalizing i with
  | nil => simp [indexed, intRange]
  | cons x rest ih =>
    simp only [indexed, List.map_cons, ih, List.length_cons]
    unfold intRange
    have e1 : (i + ((rest.length + 1 : Nat) : Int) - i).toNat = rest.length + 1 := by omega
    have e2 : (i + 1 + (rest.length : Int) - (i + 1)).toNat = rest.length := by omega
    rw [e1, e2, List.range_succ_eq_map]
    simp only [List.map_cons, List.map_map, Nat.cast_zero, add_zero, List.cons.injEq,
      true_and]
    apply List.map_congr_left
    intro k _
    simp only [Function.comp]
    push_cast
    ring

theorem indexed_map_snd {α : Type} (xs : List α) (i : Int) :
    (indexed i xs).map Prod.snd = xs := by
  induction xs generalizing i with
  | nil => rfl
  | cons x rest ih => simp [indexed, ih]

/-- In a concatenation of blocks, the block listed at an offset of the layout starts at
that offset. -/
theorem flatMap_at_offset {β : Type} (vals : β → List Rat) (len : β → Nat) (bs : List β)
    (hlen : ∀ b ∈ bs, (vals b).length = len b) (s : Nat) (k : Nat) (b : β) (off : Nat)
    (hk : (bs.zip (offsets s (bs.map len)))[k]? = some (b, off)) :
    s ≤ off ∧ ((bs.flatMap vals).drop (off - s)).take (len b) = vals b := by
  induction bs generalizing s k with
  | nil => simp at hk
  | cons a rest ih =>
    simp only [List.map_cons, offsets, List.zip_cons_cons] at hk
    have ha := hlen a (List.mem_cons_self _ _)
    cases k with
    | zero =>
      simp only [List.getElem?_cons_zero, Option.some.injEq, Prod.mk.injEq] at hk
      obtain ⟨rfl, rfl⟩ := hk
      refine ⟨le_refl _, ?_⟩
      simp only [Nat.sub_self, List.drop_zero, List.flatMap_cons]
      rw [← ha, List.take_left']
      rfl
    | succ k =>
      simp only [List.getElem?_cons_succ] at hk
      obtain ⟨h1, h2⟩ := ih (fun b hb => hlen b (List.mem_cons_of_mem _ hb)) (s + len a) k hk
      refine ⟨by omega, ?_⟩
      simp only [List.flatMap_cons]
      have e : off - s = (vals a).length + (off - (s + len a)) := by omega
      rw [e, List.drop_append]
      exact h2

/-- The parameter vector of the dense vectorizer is the concatenation of the values of
the blocks in layout order, and every block has its stated length. -/
theorem ptLnVp_paraVec_blocks (h : Helpers) (m : Map) :
    (ptLnVp_vectorize h m).paraVec
      = (ptLnVp_blocks m (ptLnVp_vectorize h m)).flatMap (blockValues h m)
    ∧ ∀ b ∈ ptLnVp_blocks m (ptLnVp_vectorize h m), (blockValues h m b).length = blockLen b := by
  have hkp : ∀ (P : Int × KeyPoint3d → Bool),
      ((indexed 0 m.keyPoints).filter P).flatMap (fun p => [p.2.x, p.2.y, p.2.z])
        = (((indexed 0 m.keyPoints).filter P).map Prod.fst).flatMap
            (fun idx => blockValues h m (Block.point idx)) := by
    intro P
    rw [List.flatMap_map]
    apply List.flatMap_congr
    intro p hp
    have := indexed_vecAt m.keyPoints p (List.mem_of_mem_filter hp)
    simp only [blockValues, this]
  have hln : ∀ (P : Int × IdealLine3d → Bool),
      ((indexed 0 m.idealLines).filter P).flatMap
          (fun p => [p.2.midpt.x, p.2.midpt.y, p.2.midpt.z])
        = (((indexed 0 m.idealLines).filter P).map Prod.fst).flatMap
            (fun idx => blockValues h m (Block.line idx)) := by
    intro P
    rw [List.flatMap_map]
    apply List.flatMap_congr
    intro p hp
    have := indexed_vecAt m.idealLines p (List.mem_of_mem_filter hp)
    simp only [blockValues, this]
  have hvp : m.vanishingPoints.flatMap (fun vp => [vp.x, vp.y, vp.z])
      = (intRange 0 (m.vanishingPoints.length : Int)).flatMap
          (fun i => blockValues h m (Block.vnpt i)) := by
    have e1 := indexed_map_fst m.vanishingPoints 0
    rw [zero_add] at e1
    rw [← e1, List.flatMap_map]
    conv_lhs => rw [← indexed_map_snd m.vanishingPoints 0, List.flatMap_map]
    apply List.flatMap_congr
    intro p hp
    have := indexed_vecAt m.vanishingPoints p hp
    simp only [blockValues, this]
  constructor
  · simp only [ptLnVp_vectorize, ptLnVp_addIdealLines_closed, ptLnVp_addKeyPoints_closed,
      ptLnVp_blocks, ptLnVp_freeViews, List.nil_append, List.flatMap_append, List.flatMap_map,
      hkp, hln, hvp]
    rfl
  · intro b hb
    simp only [ptLnVp_vectorize, ptLnVp_addIdealLines_closed, ptLnVp_addKeyPoints_closed,
      ptLnVp_blocks, List.nil_append, List.mem_append, List.mem_map] at hb
    rcases hb with ((⟨i, hi, rfl⟩ | ⟨i, hi, rfl⟩) | ⟨i, hi, rfl⟩) | ⟨i, hi, rfl⟩
    · obtain ⟨h1, h2⟩ := (mem_intRange _ _ _).mp hi
      have h0 : 0 ≤ i := by
        have : (1 : Int) ≤ frontPosIdx m.views.length ptLnVp_numPos := le_max_left _ _
        omega
      obtain ⟨v, hv⟩ := vecAt_some m.views i h0 h2
      simp only [blockValues, camParams, hv, blockLen]
      split_ifs <;> rfl
    · obtain ⟨p, hp, rfl⟩ := hi
      have := indexed_vecAt m.keyPoints p (List.mem_of_mem_filter hp)
      simp only [blockValues, this, blockLen, List.length_cons, List.length_nil]
    · obtain ⟨h1, h2⟩ := (mem_intRange _ _ _).mp hi
      obtain ⟨v, hv⟩ := vecAt_some m.vanishingPoints i h1 h2
      simp only [blockValues, hv, blockLen, List.length_cons, List.length_nil]
    · obtain ⟨p, hp, rfl⟩ := hi
      have := indexed_vecAt m.idealLines p (List.mem_of_mem_filter hp)
      simp only [blockValues, this, blockLen, List.length_cons, List.length_nil]

/-! ## The two-angle round trip -/

theorem angle2unitVecReal_norm (a b : ℝ) :
    (angle2unitVecReal a b).1 ^ 2 + (angle2unitVecReal a b).2.1 ^ 2
      + (angle2unitVecReal a b).2.2 ^ 2 = 1 := by
  simp only [angle2unitVecReal]
  have h1 := Real.sin_sq_add_cos_sq a
  have h2 := Real.sin_sq_add_cos_sq b
  nlinarith [h1, h2]

theorem angle_round_trip (x y z : ℝ) (ht : x ^ 2 + y ^ 2 + z ^ 2 = 1) :
    angle2unitVecReal (unitVec2angleReal (x, y, z)).1 (unitVec2angleReal (x, y, z)).2
      = (x, y, z) := by
  have hz1 : -1 ≤ z := by nlinarith [sq_nonneg x, sq_nonneg y, sq_nonneg (z + 1)]
  have hz2 : z ≤ 1 := by nlinarith [sq_nonneg x, sq_nonneg y, sq_nonneg (z - 1)]
  have hr : Complex.abs ⟨x, y⟩ = Real.sqrt (1 - z ^ 2) := by
    rw [Complex.abs_apply, Complex.normSq_mk]
    congr 1
    nlinarith
  simp only [angle2unitVecReal, unitVec2angleReal]
  rw [Real.cos_arccos hz1 hz2, Real.sin_arccos, ← hr, Complex.sin_arg]
  by_cases h0 : (⟨x, y⟩ : ℂ) = 0
  · have hx : x = 0 := congrArg Complex.re h0
    have hy : y = 0 := congrArg Complex.im h0
    subst hx hy
    simp
  · rw [Complex.cos_arg h0]
    have hne : Complex.abs ⟨x, y⟩ ≠ 0 := (map_ne_zero Complex.abs).mpr h0
    simp only []
    refine Prod.ext ?_ (Prod.ext ?_ rfl)
    · field_simp
    · field_simp

theorem intRange_cons (a b : Int) (h : a < b) : intRange a b = a :: intRange (a + 1) b := by
  unfold intRange
  have e1 : (b - a).toNat = (b - (a + 1)).toNat + 1 := by omega
  rw [e1, List.range_succ_eq_map]
  simp only [List.map_cons, List.map_map, Nat.cast_zero, add_zero, List.cons.injEq, true_and]
  apply List.map_congr_left
  intro k _
  simp only [Function.comp]
  push_cast
  ring

theorem ptLnVp_writeCams_other (h : Helpers) (para : List Rat) (is : List Int) (j : Int)
    (hj : j ∉ is) (st : Nat × List View) :
    vecAt (is.foldl (ptLnVp_writeCam h para) st).2 j = vecAt st.2 j := by
  induction is generalizing st with
  | nil => rfl
  | cons i rest ih =>
    simp only [List.mem_cons, not_or] at hj
    rw [List.foldl_cons, ih hj.2]
    unfold ptLnVp_writeCam
    simp only []
    split_ifs <;> exact vecAt_vecModify_ne _ _ _ _ (Ne.symm hj.1)

/-- Packing view 1 and writing it back with unchanged parameters: the translation stored
for view 1 is `angle2unitVec` of the two angles `unitVec2angle` gave for its translation
before the call. -/
theorem ptLnVp_view1_round_trip (h : Helpers) (lm : Map → PtLnVp → LmOutcome) (m : Map)
    (v1 : View) (hv1 : vecAt m.views 1 = some v1)
    (hfree : frontPosIdx m.views.length ptLnVp_numPos = 1)
    (hpara : (lm m (ptLnVp_vectorize h m)).para = (ptLnVp_vectorize h m).paraVec) :
    (vecAt (adjustBundle_PtLnVp h lm m).views 1).map (fun v => v.t)
      = some (h.angle2unitVec (h.unitVec2angle v1.t).1 (h.unitVec2angle v1.t).2) := by
  have hn : (1 : Int) < m.views.length := by
    unfold vecAt at hv1
    simp only [show ¬ ((1 : Int) < 0) by decide, if_false] at hv1
    have := (List.getElem?_eq_some_iff.mp hv1).1
    have e : (1 : Int).toNat = 1 := rfl
    rw [e] at this
    omega
  have hfv : (ptLnVp_vectorize h m).frontPosIdx = 1 := by
    rw [(ptLnVp_vectorize_front h m).1]; exact hfree
  have hrange : intRange (1 : Int) (m.views.length : Int)
      = 1 :: intRange 2 (m.views.length : Int) := intRange_cons 1 _ hn
  have hpv : ∃ rest, (ptLnVp_vectorize h m).paraVec
      = [(h.r2q v1.R).1, (h.r2q v1.R).2.1, (h.r2q v1.R).2.2.1, (h.r2q v1.R).2.2.2,
          (h.unitVec2angle v1.t).1, (h.unitVec2angle v1.t).2] ++ rest := by
    simp only [ptLnVp_vectorize, ptLnVp_addIdealLines_closed, ptLnVp_addKeyPoints_closed,
      ptLnVp_freeViews, hfree, hrange, List.flatMap_cons, camParams, hv1, if_true,
      List.append_assoc]
    exact ⟨_, rfl⟩
  obtain ⟨rest, hrest⟩ := hpv
  have h4 : rd (lm m (ptLnVp_vectorize h m)).para 4 = (h.unitVec2angle v1.t).1 := by
    rw [hpara, hrest]; rfl
  have h5 : rd (lm m (ptLnVp_vectorize h m)).para 5 = (h.unitVec2angle v1.t).2 := by
    rw [hpara, hrest]; rfl
  unfold adjustBundle_PtLnVp ptLnVp_writeBack
  simp only [hfv, hrange, List.foldl_cons]
  have hnot : (1 : Int) ∉ intRange 2 (m.views.length : Int) := by
    intro hc
    have := (mem_intRange _ _ _).mp hc
    omega
  have hc : vecAt ((intRange 2 (m.views.length : Int)).foldl
      (ptLnVp_writeCam h (lm m (ptLnVp_vectorize h m)).para)
      (ptLnVp_writeCam h (lm m (ptLnVp_vectorize h m)).para (0, m.views) 1)).2 1
      = some { v1 with
          R := h.quatMatrix (rd (lm m (ptLnVp_vectorize h m)).para 0)
            (rd (lm m (ptLnVp_vectorize h m)).para 1)
            (rd (lm m (ptLnVp_vectorize h m)).para 2)
            (rd (lm m (ptLnVp_vectorize h m)).para 3),
          t := h.angle2unitVec (h.unitVec2angle v1.t).1 (h.unitVec2angle v1.t).2 } := by
    rw [ptLnVp_writeCams_other _ _ _ _ hnot]
    simp only [ptLnVp_writeCam, if_true, Nat.zero_add]
    rw [vecAt_vecModify, hv1, h4, h5]
    rfl
  by_cases hlast : (m.views.length : Int) - 1 = 1
  · rw [hlast, vecAt_vecModify, hc]
    rfl
  · rw [vecAt_vecModify_ne _ _ _ _ hlast, hc]
    rfl

/-- C17, with the two helper functions as the spec describes them (inclination and
azimuth), over the reals: for every unit 3-vector `t`, decoding the two angles of `t`
gives back `t`, a vector of unit norm; and in `adjustBundle_PtLnVp`, packing a free view 1
and writing it back with unchanged parameters stores `angle2unitVec(unitVec2angle(t))`
as its translation, which is `t` whenever the helper functions round-trip on `t`. -/
theorem C17_angle_round_trip (x y z : ℝ) (ht : x ^ 2 + y ^ 2 + z ^ 2 = 1) :
    angle2unitVecReal (unitVec2angleReal (x, y, z)).1 (unitVec2angleReal (x, y, z)).2
        = (x, y, z)
    ∧ (∀ a b : ℝ, (angle2unitVecReal a b).1 ^ 2 + (angle2unitVecReal a b).2.1 ^ 2
        + (angle2unitVecReal a b).2.2 ^ 2 = 1)
    ∧ ∀ (h : Helpers) (lm : Map → PtLnVp → LmOutcome) (m : Map) (v1 : View),
        vecAt m.views 1 = some v1 →
        frontPosIdx m.views.length ptLnVp_numPos = 1 →
        (lm m (ptLnVp_vectorize h m)).para = (ptLnVp_vectorize h m).paraVec →
        h.angle2unitVec (h.unitVec2angle v1.t).1 (h.unitVec2angle v1.t).2 = v1.t →
        (vecAt (adjustBundle_PtLnVp h lm m).views 1).map (fun v => v.t) = some v1.t := by
  refine ⟨angle_round_trip x y z ht, angle2unitVecReal_norm, ?_⟩
  intro h lm m v1 hv1 hfree hpara hrt
  rw [ptLnVp_view1_round_trip h lm m v1 hv1 hfree hpara, hrt]

/-- C17 at the unit vector `(0, 0, 1)`. -/
theorem C17_angle_round_trip_witness :
    (0 : ℝ) ^ 2 + 0 ^ 2 + 1 ^ 2 = 1
    ∧ angle2unitVecReal (unitVec2angleReal (0, 0, 1)).1 (unitVec2angleReal (0, 0, 1)).2
        = (0, 0, 1) :=
  ⟨by norm_num, (C17_angle_round_trip 0 0 1 (by norm_num)).1⟩

/-! ## Reads that do not change what is read -/

theorem mapRead_mapIndex (m : IntMap) (k k' : Int) :
    mapRead (mapIndex m k).2 k' = mapRead m k' := by
  unfold mapRead mapIndex
  cases hk : m.lookup k with
  | some v => rfl
  | none =>
    simp only []
    by_cases he : k' = k
    · subst he
      simp [List.lookup, hk]
    · have hb : (k' == k) = false := by simpa using he
      simp only [List.lookup, hb]
      cases m.lookup k' <;> rfl

theorem sameReads_refl (g : Graph) : SameReads g g :=
  ⟨rfl, rfl, fun _ => rfl, fun _ => rfl, fun _ => rfl, fun _ => rfl, fun _ => rfl⟩

theorem sameReads_trans {a b c : Graph} (h1 : SameReads a b) (h2 : SameReads b c) :
    SameReads a c :=
  ⟨h2.1.trans h1.1, h2.2.1.trans h1.2.1,
   fun k => (h2.2.2.1 k).trans (h1.2.2.1 k),
   fun k => (h2.2.2.2.1 k).trans (h1.2.2.2.1 k),
   fun k => (h2.2.2.2.2.1 k).trans (h1.2.2.2.2.1 k),
   fun k => (h2.2.2.2.2.2.1 k).trans (h1.2.2.2.2.2.1 k),
   fun k => (h2.2.2.2.2.2.2 k).trans (h1.2.2.2.2.2.2 k)⟩

theorem lookupVertex_ok_id (vs : List Vertex) (id : Int) (v : Vertex)
    (h : lookupVertex vs id = Except.ok v) : v.id = id := by
  rcases lookupVertex_ok_or_undefined vs id with h1 | ⟨w, h1, h2⟩
  · rw [h1] at h; cases h
  · rw [h1] at h
    cases h
    exact findVertex_some_id _ _ _ h2

/-- A fallible loop whose steps append to a list what a function `E` of the state and the
element says, where `E` does not change along a reflexive and transitive relation the
steps establish: the result list is the start list followed by `E` of the start state on
every element. -/
theorem foldlM_closed {σ α β ε : Type} (f : σ → α → Except ε σ) (R : σ → σ → Prop)
    (out : σ → List β) (E : σ → α → List β)
    (hrefl : ∀ s, R s s) (htrans : ∀ a b c, R a b → R b c → R a c)
    (hE : ∀ a b x, R a b → E b x = E a x)
    (hstep : ∀ s x s', f s x = Except.ok s' → R s s' ∧ out s' = out s ++ E s x)
    (xs : List α) (s s' : σ) (h : xs.foldlM f s = Except.ok s') :
    R s s' ∧ out s' = out s ++ xs.flatMap (E s) := by
  induction xs generalizing s with
  | nil =>
    simp only [List.foldlM, pure, Except.pure] at h
    cases h
    exact ⟨hrefl _, by simp⟩
  | cons x rest ih =>
    simp only [List.foldlM, bind, Except.bind] at h
    cases hx : f s x with
    | error e => rw [hx] at h; cases h
    | ok s1 =>
      rw [hx] at h
      obtain ⟨r1, o1⟩ := hstep s x s1 hx
      obtain ⟨r2, o2⟩ := ih s1 h
      refine ⟨htrans _ _ _ r1 r2, ?_⟩
      rw [o2, o1, List.flatMap_cons, List.append_assoc]
      congr 2
      apply List.flatMap_congr
      intro y _
      exact hE s s1 y r1

theorem addKptEdge_closed (s : MfgSettings) (views : List View) (ff idx : Int)
    (x y : Graph) (o : Int × Int) (h : addKptEdge s views ff idx x o = Except.ok y) :
    SameReads x y ∧ y.vecEdgeKpt = x.vecEdgeKpt ++ kptEdgeOf s views ff x idx o
    ∧ y.vecEdgeVnpt = x.vecEdgeVnpt ∧ y.vecEdgeLine = x.vecEdgeLine := by
  unfold addKptEdge at h
  unfold kptEdgeOf
  cases hv : vecAt views o.1 with
  | none => rw [hv] at h; cases h
  | some view =>
    rw [hv] at h
    simp only [] at h ⊢
    by_cases hm : view.matchable = true
    · by_cases hf : ff ≤ o.1
      · simp only [hm, hf, Bool.not_true, Bool.false_eq_true, if_false, if_true,
          decide_True, Bool.and_self] at h ⊢
        cases h0 : lookupVertex x.vertices (mapIndex x.ptgid2vid idx).1 with
        | error e => rw [h0] at h; cases h
        | ok v0 =>
          rw [h0] at h
          simp only [] at h
          cases h1 : lookupVertex x.vertices (mapIndex x.camfid2vid o.1).1 with
          | error e => rw [h1] at h; cases h
          | ok v1 =>
            rw [h1] at h
            simp only [] at h
            cases hfp : vecAt view.featurePoints o.2 with
            | none => rw [hfp] at h; cases h
            | some fp =>
              rw [hfp] at h
              cases h
              refine ⟨⟨rfl, rfl, fun k => mapRead_mapIndex _ _ k,
                fun k => mapRead_mapIndex _ _ k, fun _ => rfl, fun _ => rfl, fun _ => rfl⟩,
                ?_, rfl, rfl⟩
              simp only [lookupVertex_ok_id _ _ _ h0, lookupVertex_ok_id _ _ _ h1, mapRead]
      · simp only [hm, hf, Bool.not_true, Bool.false_eq_true, if_false, decide_False,
          Bool.and_false] at h ⊢
        cases h
        exact ⟨sameReads_refl _, by simp, rfl, rfl⟩
    · have hm' : view.matchable = false := by simpa using hm
      simp only [hm', Bool.not_false, if_true, Bool.false_and, Bool.false_eq_true,
        if_false] at h ⊢
      cases h
      exact ⟨sameReads_refl _, by simp, rfl, rfl⟩

theorem addVnptEdge_closed (s : MfgSettings) (hp : Helpers) (bp : Mat3 → VanishPnt2d → Vec3)
    (m : Map) (fv vpGid : Int) (x y : Graph) (o : Int × Int)
    (h : addVnptEdge s hp bp m fv vpGid x o = Except.ok y) :
    SameReads x y ∧ y.vecEdgeVnpt = x.vecEdgeVnpt ++ vnptEdgeOf s hp bp m fv x vpGid o
    ∧ y.vecEdgeKpt = x.vecEdgeKpt ∧ y.vecEdgeLine = x.vecEdgeLine := by
  unfold addVnptEdge at h
  unfold vnptEdgeOf
  cases hv : vecAt m.views o.1 with
  | none => rw [hv] at h; cases h
  | some view =>
    rw [hv] at h
    simp only [] at h ⊢
    by_cases hm : view.matchable = true
    · by_cases hf : fv ≤ o.1
      · simp only [hm, hf, Bool.not_true, Bool.false_eq_true, if_false, if_true,
          decide_True, Bool.and_self] at h ⊢
        cases h0 : lookupVertex x.vertices (mapIndex x.vpgid2vid vpGid).1 with
        | error e => rw [h0] at h; cases h
        | ok v0 =>
          rw [h0] at h
          simp only [] at h
          cases h1 : lookupVertex x.vertices (mapIndex x.camfid2vid o.1).1 with
          | error e => rw [h1] at h; cases h
          | ok v1 =>
            rw [h1] at h
            simp only [] at h
            cases hfp : vecAt view.vanishPoints o.2 with
            | none => rw [hfp] at h; cases h
            | some fp =>
              rw [hfp] at h
              cases h
              refine ⟨⟨rfl, rfl, fun _ => rfl, fun k => mapRead_mapIndex _ _ k,
                fun k => mapRead_mapIndex _ _ k, fun _ => rfl, fun _ => rfl⟩,
                ?_, rfl, rfl⟩
              simp only [lookupVertex_ok_id _ _ _ h0, lookupVertex_ok_id _ _ _ h1, mapRead]
      · simp only [hm, hf, Bool.not_true, Bool.false_eq_true, if_false, decide_False,
          Bool.and_false] at h ⊢
        cases h
        exact ⟨sameReads_refl _, by simp, rfl, rfl⟩
    · have hm' : view.matchable = false := by simpa using hm
      simp only [hm', Bool.not_false, if_true, Bool.false_and, Bool.false_eq_true,
        if_false] at h ⊢
      cases h
      exact ⟨sameReads_refl _, by simp, rfl, rfl⟩

theorem addLineEdge_closed (s : MfgSettings) (views : List View) (ff idx : Int)
    (ln : IdealLine3d) (x y : Graph) (o : Int × Int)
    (h : addLineEdge s views ff idx ln x o = Except.ok y) :
    SameReads x y ∧ y.vecEdgeLine = x.vecEdgeLine ++ lineEdgeOf s views ff x idx ln o
    ∧ y.vecEdgeKpt = x.vecEdgeKpt ∧ y.vecEdgeVnpt = x.vecEdgeVnpt := by
  unfold addLineEdge at h
  unfold lineEdgeOf
  cases hv : vecAt views o.1 with
  | none => rw [hv] at h; cases h
  | some view =>
    rw [hv] at h
    simp only [] at h ⊢
    by_cases hm : view.matchable = true
    · by_cases hf : ff ≤ o.1
      · simp only [hm, hf, Bool.not_true, Bool.false_eq_true, if_false, if_true,
          decide_True, Bool.and_self] at h ⊢
        cases h0 : lookupVertex x.vertices (mapIndex x.lngid2vid idx).1 with
        | error e => rw [h0] at h; cases h
        | ok v0 =>
          rw [h0] at h
          simp only [] at h
          cases h1 : lookupVertex x.vertices (mapIndex x.vpgid2vid ln.vpGid).1 with
          | error e => rw [h1] at h; cases h
          | ok v1 =>
            rw [h1] at h
            simp only [] at h
            cases h2 : lookupVertex x.vertices (mapIndex x.camfid2vid o.1).1 with
            | error e => rw [h2] at h; cases h
            | ok v2 =>
              rw [h2] at h
              simp only [] at h
              cases hfp : vecAt view.idealLines o.2 with
              | none => rw [hfp] at h; cases h
              | some l2 =>
                rw [hfp] at h
                cases h
                refine ⟨⟨rfl, rfl, fun _ => rfl, fun k => mapRead_mapIndex _ _ k,
                  fun k => mapRead_mapIndex _ _ k, fun k => mapRead_mapIndex _ _ k,
                  fun _ => rfl⟩, ?_, rfl, rfl⟩
                simp only [lookupVertex_ok_id _ _ _ h0, lookupVertex_ok_id _ _ _ h1,
                  lookupVertex_ok_id _ _ _ h2, mapRead]
      · simp only [hm, hf, Bool.not_true, Bool.false_eq_true, if_false, decide_False,
          Bool.and_false] at h ⊢
        cases h
        exact ⟨sameReads_refl _, by simp, rfl, rfl⟩
    · have hm' : view.matchable = false := by simpa using hm
      simp only [hm', Bool.not_false, if_true, Bool.false_and, Bool.false_eq_true,
        if_false] at h ⊢
      cases h
      exact ⟨sameReads_refl _, by simp, rfl, rfl⟩

theorem addPointPlaneEdge_closed (s : MfgSettings) (plGid : Int) (x y : Graph) (ptGid : Int)
    (h : addPointPlaneEdge s plGid x ptGid = Except.ok y) :
    SameReads x y ∧ y.vecEdgeKpt = x.vecEdgeKpt ∧ y.vecEdgeVnpt = x.vecEdgeVnpt
    ∧ y.vecEdgeLine = x.vecEdgeLine := by
  unfold addPointPlaneEdge at h
  simp only [] at h
  repeat' split at h
  all_goals first
    | (cases h; done)
    | (cases h; exact ⟨sameReads_refl _, rfl, rfl, rfl⟩)
    | (cases h
       exact ⟨⟨rfl, rfl, fun k => mapRead_mapIndex _ _ k, fun _ => rfl, fun _ => rfl,
         fun _ => rfl, fun k => mapRead_mapIndex _ _ k⟩, rfl, rfl, rfl⟩)

theorem addLinePlaneEdge_closed (s : MfgSettings) (hp : Helpers) (m : Map) (plGid : Int)
    (x y : Graph) (lnGid : Int) (h : addLinePlaneEdge s hp m plGid x lnGid = Except.ok y) :
    SameReads x y ∧ y.vecEdgeKpt = x.vecEdgeKpt ∧ y.vecEdgeVnpt = x.vecEdgeVnpt
    ∧ y.vecEdgeLine = x.vecEdgeLine := by
  unfold addLinePlaneEdge at h
  simp only [] at h
  repeat' split at h
  all_goals first
    | (cases h; done)
    | (cases h; exact ⟨sameReads_refl _, rfl, rfl, rfl⟩)
    | (cases h
       exact ⟨⟨rfl, rfl, fun _ => rfl, fun _ => rfl, fun k => mapRead_mapIndex _ _ k,
         fun k => mapRead_mapIndex _ _ k, fun k => mapRead_mapIndex _ _ k⟩, rfl, rfl, rfl⟩)

theorem kptEdgeOf_congr (s : MfgSettings) (views : List View) (ff : Int) (a b : Graph)
    (h : SameReads a b) (idx : Int) (o : Int × Int) :
    kptEdgeOf s views ff b idx o = kptEdgeOf s views ff a idx o := by
  unfold kptEdgeOf
  rw [h.2.2.1 idx, h.2.2.2.1 o.1]

theorem vnptEdgeOf_congr (s : MfgSettings) (hp : Helpers) (bp : Mat3 → VanishPnt2d → Vec3)
    (m : Map) (fv : Int) (a b : Graph) (h : SameReads a b) (idx : Int) (o : Int × Int) :
    vnptEdgeOf s hp bp m fv b idx o = vnptEdgeOf s hp bp m fv a idx o := by
  unfold vnptEdgeOf
  rw [h.2.2.2.2.1 idx, h.2.2.2.1 o.1]

theorem lineEdgeOf_congr (s : MfgSettings) (views : List View) (ff : Int) (a b : Graph)
    (h : SameReads a b) (idx : Int) (ln : IdealLine3d) (o : Int × Int) :
    lineEdgeOf s views ff b idx ln o = lineEdgeOf s views ff a idx ln o := by
  unfold lineEdgeOf
  rw [h.2.2.2.2.2.1 idx, h.2.2.2.2.1 ln.vpGid, h.2.2.2.1 o.1]

theorem lineEdgesOf_congr (s : MfgSettings) (m : Map) (ff : Int) (a b : Graph)
    (h : SameReads a b) (idx : Int) :
    lineEdgesOf s m ff b idx = lineEdgesOf s m ff a idx := by
  unfold lineEdgesOf
  cases vecAt m.idealLines idx with
  | none => rfl
  | some ln =>
    apply List.flatMap_congr
    intro o _
    exact lineEdgeOf_congr s m.views ff a b h idx ln o

/-- The reprojection-edge loop over the index list `idxs`. -/
theorem addKptEdges_closed (s : MfgSettings) (m : Map) (ff : Int) (idxs : List Int)
    (a b : Graph) (h : addKptEdges s m ff idxs a = Except.ok b) :
    (SameReads a b ∧ b.vecEdgeVnpt = a.vecEdgeVnpt ∧ b.vecEdgeLine = a.vecEdgeLine)
    ∧ b.vecEdgeKpt = a.vecEdgeKpt
        ++ idxs.flatMap (fun idx => (kptObs m idx).flatMap (kptEdgeOf s m.views ff a idx)) := by
  have hrefl : ∀ g : Graph, SameReads g g ∧ g.vecEdgeVnpt = g.vecEdgeVnpt
      ∧ g.vecEdgeLine = g.vecEdgeLine := fun g => ⟨sameReads_refl g, rfl, rfl⟩
  have htrans : ∀ x y z : Graph,
      (SameReads x y ∧ y.vecEdgeVnpt = x.vecEdgeVnpt ∧ y.vecEdgeLine = x.vecEdgeLine) →
      (SameReads y z ∧ z.vecEdgeVnpt = y.vecEdgeVnpt ∧ z.vecEdgeLine = y.vecEdgeLine) →
      (SameReads x z ∧ z.vecEdgeVnpt = x.vecEdgeVnpt ∧ z.vecEdgeLine = x.vecEdgeLine) :=
    fun x y z h1 h2 => ⟨sameReads_trans h1.1 h2.1, h2.2.1.trans h1.2.1, h2.2.2.trans h1.2.2⟩
  refine foldlM_closed _ _ (fun g => g.vecEdgeKpt)
    (fun g idx => (kptObs m idx).flatMap (kptEdgeOf s m.views ff g idx)) hrefl htrans ?_ ?_
    idxs a b h
  · intro x y idx hxy
    simp only []
    apply List.flatMap_congr
    intro o _
    exact kptEdgeOf_congr s m.views ff x y hxy.1 idx o
  · intro st idx st' hst
    unfold kptObs
    split at hst
    · cases hst
    · rename_i kp hkp
      simp only [hkp]
      exact foldlM_closed _ _ (fun g => g.vecEdgeKpt)
        (fun g o => kptEdgeOf s m.views ff g idx o) hrefl htrans
        (fun x y o hxy => kptEdgeOf_congr s m.views ff x y hxy.1 idx o)
        (fun x o y hxy => by
          obtain ⟨r, e1, e2, e3⟩ := addKptEdge_closed s m.views ff idx x y o hxy
          exact ⟨⟨r, e2, e3⟩, e1⟩)
        kp.viewId_ptLid st st' hst

/-- The vanishing-point edge loop. -/
theorem addVnptEdges_closed (s : MfgSettings) (hp : Helpers) (bp : Mat3 → VanishPnt2d → Vec3)
    (m : Map) (fv : Int) (a b : Graph) (h : addVnptEdges s hp bp m fv a = Except.ok b) :
    (SameReads a b ∧ b.vecEdgeKpt = a.vecEdgeKpt ∧ b.vecEdgeLine = a.vecEdgeLine)
    ∧ b.vecEdgeVnpt = a.vecEdgeVnpt
        ++ a.vpIdx2Opt.flatMap
            (fun idx => (vnptObs m idx).flatMap (vnptEdgeOf s hp bp m fv a idx)) := by
  have hrefl : ∀ g : Graph, SameReads g g ∧ g.vecEdgeKpt = g.vecEdgeKpt
      ∧ g.vecEdgeLine = g.vecEdgeLine := fun g => ⟨sameReads_refl g, rfl, rfl⟩
  have htrans : ∀ x y z : Graph,
      (SameReads x y ∧ y.vecEdgeKpt = x.vecEdgeKpt ∧ y.vecEdgeLine = x.vecEdgeLine) →
      (SameReads y z ∧ z.vecEdgeKpt = y.vecEdgeKpt ∧ z.vecEdgeLine = y.vecEdgeLine) →
      (SameReads x z ∧ z.vecEdgeKpt = x.vecEdgeKpt ∧ z.vecEdgeLine = x.vecEdgeLine) :=
    fun x y z h1 h2 => ⟨sameReads_trans h1.1 h2.1, h2.2.1.trans h1.2.1, h2.2.2.trans h1.2.2⟩
  refine foldlM_closed _ _ (fun g => g.vecEdgeVnpt)
    (fun g idx => (vnptObs m idx).flatMap (vnptEdgeOf s hp bp m fv g idx)) hrefl htrans ?_ ?_
    a.vpIdx2Opt a b h
  · intro x y idx hxy
    simp only []
    apply List.flatMap_congr
    intro o _
    exact vnptEdgeOf_congr s hp bp m fv x y hxy.1 idx o
  · intro st idx st' hst
    unfold vnptObs
    split at hst
    · cases hst
    · rename_i vp hvp
      simp only [hvp]
      exact foldlM_closed _ _ (fun g => g.vecEdgeVnpt)
        (fun g o => vnptEdgeOf s hp bp m fv g idx o) hrefl htrans
        (fun x y o hxy => vnptEdgeOf_congr s hp bp m fv x y hxy.1 idx o)
        (fun x o y hxy => by
          obtain ⟨r, e1, e2, e3⟩ := addVnptEdge_closed s hp bp m fv idx x y o hxy
          exact ⟨⟨r, e2, e3⟩, e1⟩)
        vp.viewId_vpLid st st' hst

/-- The line-edge loop over the index list `idxs`. -/
theorem addLineEdges_closed (s : MfgSettings) (m : Map) (ff : Int) (idxs : List Int)
    (a b : Graph) (h : addLineEdges s m ff idxs a = Except.ok b) :
    (SameReads a b ∧ b.vecEdgeKpt = a.vecEdgeKpt ∧ b.vecEdgeVnpt = a.vecEdgeVnpt)
    ∧ b.vecEdgeLine = a.vecEdgeLine ++ idxs.flatMap (lineEdgesOf s m ff a) := by
  have hrefl : ∀ g : Graph, SameReads g g ∧ g.vecEdgeKpt = g.vecEdgeKpt
      ∧ g.vecEdgeVnpt = g.vecEdgeVnpt := fun g => ⟨sameReads_refl g, rfl, rfl⟩
  have htrans : ∀ x y z : Graph,
      (SameReads x y ∧ y.vecEdgeKpt = x.vecEdgeKpt ∧ y.vecEdgeVnpt = x.vecEdgeVnpt) →
      (SameReads y z ∧ z.vecEdgeKpt = y.vecEdgeKpt ∧ z.vecEdgeVnpt = y.vecEdgeVnpt) →
      (SameReads x z ∧ z.vecEdgeKpt = x.vecEdgeKpt ∧ z.vecEdgeVnpt = x.vecEdgeVnpt) :=
    fun x y z h1 h2 => ⟨sameReads_trans h1.1 h2.1, h2.2.1.trans h1.2.1, h2.2.2.trans h1.2.2⟩
  refine foldlM_closed _ _ (fun g => g.vecEdgeLine) (fun g idx => lineEdgesOf s m ff g idx)
    hrefl htrans ?_ ?_ idxs a b h
  · intro x y idx hxy
    exact lineEdgesOf_congr s m ff x y hxy.1 idx
  · intro st idx st' hst
    unfold lineEdgesOf
    split at hst
    · cases hst
    · rename_i ln hln
      simp only [hln]
      exact foldlM_closed _ _ (fun g => g.vecEdgeLine)
        (fun g o => lineEdgeOf s m.views ff g idx ln o) hrefl htrans
        (fun x y o hxy => lineEdgeOf_congr s m.views ff x y hxy.1 idx ln o)
        (fun x o y hxy => by
          obtain ⟨r, e1, e2, e3⟩ := addLineEdge_closed s m.views ff idx ln x y o hxy
          exact ⟨⟨r, e2, e3⟩, e1⟩)
        ln.viewId_lnLid st st' hst

/-- The plane-edge loops leave the three other edge lists alone. -/
theorem addPlaneEdges_closed (s : MfgSettings) (hp : Helpers) (m : Map) (a b : Graph)
    (h : addPlaneEdges s hp m a = Except.ok b) :
    SameReads a b ∧ b.vecEdgeKpt = a.vecEdgeKpt ∧ b.vecEdgeVnpt = a.vecEdgeVnpt
    ∧ b.vecEdgeLine = a.vecEdgeLine := by
  have hrefl : ∀ g : Graph, SameReads g g ∧ g.vecEdgeKpt = g.vecEdgeKpt
      ∧ g.vecEdgeVnpt = g.vecEdgeVnpt ∧ g.vecEdgeLine = g.vecEdgeLine :=
    fun g => ⟨sameReads_refl g, rfl, rfl, rfl⟩
  have htrans : ∀ x y z : Graph,
      (SameReads x y ∧ y.vecEdgeKpt = x.vecEdgeKpt ∧ y.vecEdgeVnpt = x.vecEdgeVnpt
        ∧ y.vecEdgeLine = x.vecEdgeLine) →
      (SameReads y z ∧ z.vecEdgeKpt = y.vecEdgeKpt ∧ z.vecEdgeVnpt = y.vecEdgeVnpt
        ∧ z.vecEdgeLine = y.vecEdgeLine) →
      (SameReads x z ∧ z.vecEdgeKpt = x.vecEdgeKpt ∧ z.vecEdgeVnpt = x.vecEdgeVnpt
        ∧ z.vecEdgeLine = x.vecEdgeLine) :=
    fun x y z h1 h2 => ⟨sameReads_trans h1.1 h2.1, h2.2.1.trans h1.2.1, h2.2.2.1.trans h1.2.2.1,
      h2.2.2.2.trans h1.2.2.2⟩
  refine foldlM_rel _ _ hrefl htrans ?_ a.plIdx2Opt a b h
  intro st plGid st' hst
  split at hst
  · cases hst
  · split at hst
    · cases hst
    · rename_i g1 hg1
      exact htrans _ _ _
        (foldlM_rel _ _ hrefl htrans
          (fun x o y hxy => addPointPlaneEdge_closed s plGid x y o hxy) _ st g1 hg1)
        (foldlM_rel _ _ hrefl htrans
          (fun x o y hxy => addLinePlaneEdge_closed s hp m plGid x y o hxy) _ g1 st' hst)

/-- The reprojection, vanishing-point and line edges of the problem in closed form: one
edge for each observation, in a matchable view of the window of its edge type, of each
listed landmark, in the order of the index lists and of the observation lists. -/
theorem addEdges_closed (s : MfgSettings) (hp : Helpers) (bp : Mat3 → VanishPnt2d → Vec3)
    (m : Map) (ff fv : Int) (g g' : Graph) (h : addEdges s hp bp m ff fv g = Except.ok g') :
    SameReads g g'
    ∧ g'.vecEdgeKpt = g.vecEdgeKpt
        ++ (g.kptIdx2Opt ++ g.kptIdx2Rpj_notOpt).flatMap
            (fun idx => (kptObs m idx).flatMap (kptEdgeOf s m.views ff g idx))
    ∧ g'.vecEdgeVnpt = g.vecEdgeVnpt
        ++ g.vpIdx2Opt.flatMap
            (fun idx => (vnptObs m idx).flatMap (vnptEdgeOf s hp bp m fv g idx))
    ∧ g'.vecEdgeLine = g.vecEdgeLine
        ++ (g.lnIdx2Opt ++ g.lnIdx2Rpj_notOpt).flatMap (lineEdgesOf s m ff g) := by
  unfold addEdges at h
  simp only [bind, Except.bind] at h
  repeat' split at h
  all_goals try cases h
  rename_i _ g1 h1 _ g2 h2 _ g3 h3 _ g4 h4 _ g5 h5
  obtain ⟨⟨r1, a1, b1⟩, c1⟩ := addKptEdges_closed s m ff _ g g1 h1
  obtain ⟨⟨r2, a2, b2⟩, c2⟩ := addKptEdges_closed s m ff _ g1 g2 h2
  obtain ⟨⟨r3, a3, b3⟩, c3⟩ := addVnptEdges_closed s hp bp m fv g2 g3 h3
  obtain ⟨⟨r4, a4, b4⟩, c4⟩ := addLineEdges_closed s m ff _ g3 g4 h4
  obtain ⟨⟨r5, a5, b5⟩, c5⟩ := addLineEdges_closed s m ff _ g4 g5 h5
  obtain ⟨r6, a6, b6, c6⟩ := addPlaneEdges_closed s hp m g5 g' h
  have l1 := r1.2.1
  have l2 := (sameReads_trans r1 r2).2.1
  have l3 := (sameReads_trans (sameReads_trans r1 r2) r3).2.1
  have l4 := (sameReads_trans (sameReads_trans (sameReads_trans r1 r2) r3) r4).2.1
  simp only [listFields, Prod.mk.injEq] at l1 l2 l3 l4
  refine ⟨sameReads_trans (sameReads_trans (sameReads_trans (sameReads_trans (sameReads_trans r1 r2) r3) r4) r5) r6, ?_, ?_, ?_⟩
  · rw [a6, a5, a4, a3, c2, c1, l1.2.1, List.flatMap_append, List.append_assoc]
    congr 2
    apply List.flatMap_congr
    intro idx _
    apply List.flatMap_congr
    intro o _
    exact kptEdgeOf_congr s m.views ff g g1 r1 idx o
  · rw [b6, b5, b4, c3, a2, a1, l2.2.2.1]
    congr 1
    apply List.flatMap_congr
    intro idx _
    apply List.flatMap_congr
    intro o _
    exact vnptEdgeOf_congr s hp bp m fv g g2 (sameReads_trans r1 r2) idx o
  · rw [c6, c5, c4, b3, b2, b1, l3.2.2.2.1, l4.2.2.2.2.1, List.flatMap_append,
      List.append_assoc]
    have e3 : lineEdgesOf s m ff g3 = lineEdgesOf s m ff g :=
      funext (lineEdgesOf_congr s m ff g g3 (sameReads_trans (sameReads_trans r1 r2) r3))
    have e4 : lineEdgesOf s m ff g4 = lineEdgesOf s m ff g :=
      funext (lineEdgesOf_congr s m ff g g4 (sameReads_trans (sameReads_trans (sameReads_trans r1 r2) r3) r4))
    rw [e3, e4]

/-! ## The residual edges of the problem handed to the solver -/

theorem addKeyPoint_edgeFields (fp ff nw : Int) (g : Graph) (i : Int) (kp : KeyPoint3d) :
    edgeFields (addKeyPoint fp ff nw g i kp) = edgeFields g := by
  unfold addKeyPoint edgeFields
  split_ifs <;> rfl

theorem addVanishingPoint_edgeFields (fp : Int) (g : Graph) (i : Int) (vp : VanishPnt3d) :
    edgeFields (addVanishingPoint fp g i vp) = edgeFields g := by
  unfold addVanishingPoint edgeFields
  split_ifs <;> rfl

theorem addIdealLine_edgeFields (cdt : Bool) (fp ff nw : Int) (g : Graph) (i : Int)
    (ln : IdealLine3d) :
    edgeFields (addIdealLine cdt fp ff nw g i ln) = edgeFields g := by
  unfold addIdealLine edgeFields
  split_ifs <;> rfl

theorem addPrimaryPlane_edgeFields (fp nw : Int) (g : Graph) (i : Int) (pl : PrimaryPlane3d) :
    edgeFields (addPrimaryPlane fp nw g i pl) = edgeFields g := by
  unfold addPrimaryPlane edgeFields
  split_ifs <;> rfl

/-- The structure loops add no residual edge. -/
theorem addStructure_edgeFields (cdt : Bool) (fp ff nw : Int) (m : Map) (g : Graph) :
    edgeFields (addStructure cdt fp ff nw m g) = edgeFields g := by
  unfold addStructure addPrimaryPlanes addIdealLines addVanishingPoints addKeyPoints
  simp only []
  rw [indexedLoop_frame _ edgeFields (addPrimaryPlane_edgeFields fp nw),
    indexedLoop_frame _ edgeFields (addIdealLine_edgeFields cdt fp ff nw),
    indexedLoop_frame _ edgeFields (addVanishingPoint_edgeFields fp),
    indexedLoop_frame _ edgeFields (addKeyPoint_edgeFields fp ff nw)]

/-- The vertex part of `adjustBundle_G2O` always ends normally and leaves the five edge
vectors empty. -/
theorem vertices_no_edges (s : MfgSettings) (m : Map) (numPos numFrm : Int) :
    ∃ g0, adjustBundle_G2O_vertices s m numPos numFrm = Except.ok g0
      ∧ edgeFields g0 = ([], [], [], [], []) := by
  obtain ⟨mi', es, hg⟩ := cameraPart_closed m.views
    (frontVptIdx m.views.length numFrm s.baNumFramesVPoint) (m.views.length : Int)
    (frontPosIdx m.views.length numPos) 20 (camDistRows m.camdist_constraints numFrm)
  unfold adjustBundle_G2O_vertices adjustBundle_G2O_cameras
  rw [hg]
  refine ⟨_, rfl, ?_⟩
  rw [addStructure_edgeFields]
  rfl

/-- The reprojection, vanishing-point and line edges of the problem handed to the solver,
in closed form: one list of edges per listed landmark and observation, with the vertex
ids as the maps of the problem return them. -/
theorem problem_closed (s : MfgSettings) (hp : Helpers) (bp : Mat3 → VanishPnt2d → Vec3)
    (m : Map) (numPos numFrm : Int) (g : Graph)
    (h : adjustBundle_G2O_problem s hp bp m numPos numFrm = Except.ok g) :
    g.vecEdgeKpt = (g.kptIdx2Opt ++ g.kptIdx2Rpj_notOpt).flatMap
        (fun idx => (kptObs m idx).flatMap
          (kptEdgeOf s m.views (frontFrmIdx m.views.length numFrm) g idx))
    ∧ g.vecEdgeVnpt = g.vpIdx2Opt.flatMap
        (fun idx => (vnptObs m idx).flatMap
          (vnptEdgeOf s hp bp m (frontVptIdx m.views.length numFrm s.baNumFramesVPoint) g idx))
    ∧ g.vecEdgeLine = (g.lnIdx2Opt ++ g.lnIdx2Rpj_notOpt).flatMap
        (lineEdgesOf s m (frontFrmIdx m.views.length numFrm) g) := by
  obtain ⟨g0, hg0, he⟩ := vertices_no_edges s m numPos numFrm
  unfold adjustBundle_G2O_problem at h
  rw [hg0] at h
  simp only [] at h
  obtain ⟨r, a, b, c⟩ := addEdges_closed s hp bp m _ _ g0 g h
  simp only [edgeFields, Prod.mk.injEq] at he
  have hl := r.2.1
  simp only [listFields, Prod.mk.injEq] at hl
  rw [a, b, c, he.1, he.2.1, he.2.2.1, hl.1, hl.2.1, hl.2.2.1, hl.2.2.2.1, hl.2.2.2.2.1]
  simp only [List.nil_append]
  refine ⟨?_, ?_, ?_⟩
  · apply List.flatMap_congr
    intro idx _
    apply List.flatMap_congr
    intro o _
    exact (kptEdgeOf_congr s m.views _ g0 g r idx o).symm
  · apply List.flatMap_congr
    intro idx _
    apply List.flatMap_congr
    intro o _
    exact (vnptEdgeOf_congr s hp bp m _ g0 g r idx o).symm
  · apply List.flatMap_congr
    intro idx _
    exact (lineEdgesOf_congr s m _ g0 g r idx).symm

/-- The information of a vanishing-point edge, computed: the off-diagonal entries of the
covariance are multiplied by zero before the inversion, so the information is diagonal. -/
theorem vnptInformation_eq (s : MfgSettings) (C : Mat2) :
    vnptInformation s C
      = [s.baWeightVPoint * (1 / max C.m00 (1 / 1000)), 0, 0,
         s.baWeightVPoint * (1 / max C.m11 (1 / 1000))] := by
  have ha : (0 : Rat) < max C.m00 (1 / 1000) := lt_of_lt_of_le (by norm_num) (le_max_right _ _)
  have hb : (0 : Rat) < max C.m11 (1 / 1000) := lt_of_lt_of_le (by norm_num) (le_max_right _ _)
  simp only [vnptInformation, Mat2.inverse]
  generalize max C.m00 (1 / 1000) = a at ha
  generalize max C.m11 (1 / 1000) = b at hb
  have ha' : a ≠ 0 := ne_of_gt ha
  have hb' : b ≠ 0 := ne_of_gt hb
  simp only [mul_zero, sub_zero, neg_zero, zero_div, List.cons.injEq, and_true, true_and]
  constructor
  · field_simp
    ring
  · field_simp
    ring

theorem vnptProblem_eq :
    adjustBundle_G2O_problem scenarioSettings sampleHelpers (fun _ _ => ⟨0, 0, 1⟩) vnptMap 3 5
      = Except.ok vnptProblem := rfl

/-- C21 (as the code does it): every vanishing-point edge of the problem
`adjustBundle_G2O` hands to the solver is the edge of one observation `(fid, lid)` of a
listed vanishing point, and its information matrix is `w` times the inverse of the
diagonal matrix of that observation's two variances floored at `1e-3`, that is
`[w / max(C00, 1e-3), 0; 0, w / max(C11, 1e-3)]`: the covariances `C01`, `C10` of the
observation do not enter. -/
theorem C21_vnpt_information (s : MfgSettings) (hp : Helpers)
    (bp : Mat3 → VanishPnt2d → Vec3) (m : Map) (numPos numFrm : Int) (g : Graph)
    (h : adjustBundle_G2O_problem s hp bp m numPos numFrm = Except.ok g) :
    ∀ e ∈ g.vecEdgeVnpt, ∃ idx ∈ g.vpIdx2Opt, ∃ o ∈ vnptObs m idx, ∃ view vp,
      vecAt m.views o.1 = some view ∧ vecAt view.vanishPoints o.2 = some vp
      ∧ e.information = vnptInformation s vp.cov_ab
      ∧ e.information
        = [s.baWeightVPoint * (1 / max vp.cov_ab.m00 (1 / 1000)), 0, 0,
           s.baWeightVPoint * (1 / max vp.cov_ab.m11 (1 / 1000))] := by
  intro e he
  rw [(problem_closed s hp bp m numPos numFrm g h).2.1] at he
  simp only [List.mem_flatMap] at he
  obtain ⟨idx, hidx, o, ho, heo⟩ := he
  refine ⟨idx, hidx, o, ho, ?_⟩
  unfold vnptEdgeOf at heo
  split at heo
  · simp at heo
  · rename_i view hview
    split at heo
    · split at heo
      · simp at heo
      · rename_i vp hvp
        simp only [List.mem_singleton] at heo
        refine ⟨view, vp, hview, hvp, ?_, ?_⟩
        · rw [heo]
        · rw [heo]
          exact vnptInformation_eq s vp.cov_ab
    · simp at heo

theorem C21_vnpt_information_witness :
    vnptProblem.vecEdgeVnpt.length = 2
    ∧ ∀ e ∈ vnptProblem.vecEdgeVnpt, ∃ idx ∈ vnptProblem.vpIdx2Opt,
      ∃ o ∈ vnptObs vnptMap idx, ∃ view vp,
      vecAt vnptMap.views o.1 = some view ∧ vecAt view.vanishPoints o.2 = some vp
      ∧ e.information = vnptInformation scenarioSettings vp.cov_ab
      ∧ e.information
        = [scenarioSettings.baWeightVPoint * (1 / max vp.cov_ab.m00 (1 / 1000)), 0, 0,
           scenarioSettings.baWeightVPoint * (1 / max vp.cov_ab.m11 (1 / 1000))] :=
  ⟨rfl, C21_vnpt_information scenarioSettings sampleHelpers (fun _ _ => ⟨0, 0, 1⟩) vnptMap 3 5
    vnptProblem vnptProblem_eq⟩

/-- C21 as stated fails: for the covariance `[2, 1; 1, 2]` and weight 1 the code's
information is `[1/2, 0; 0, 1/2]`, while the weighted inverse of the floored covariance
is `[2/3, -1/3; -1/3, 2/3]`. -/
theorem C21_counterexample :
    vnptInformation scenarioSettings correlatedCov = [1 / 2, 0, 0, 1 / 2]
    ∧ vnptInformation_spec scenarioSettings correlatedCov = [2 / 3, -1 / 3, -1 / 3, 2 / 3]
    ∧ vnptInformation scenarioSettings correlatedCov
        ≠ vnptInformation_spec scenarioSettings correlatedCov := by
  have h1 : vnptInformation scenarioSettings correlatedCov = [1 / 2, 0, 0, 1 / 2] := by
    simp only [vnptInformation, Mat2.inverse, correlatedCov, scenarioSettings]
    norm_num
  have h2 : vnptInformation_spec scenarioSettings correlatedCov
      = [2 / 3, -1 / 3, -1 / 3, 2 / 3] := by
    simp only [vnptInformation_spec, Mat2.inverse, correlatedCov, scenarioSettings]
    norm_num
  refine ⟨h1, h2, ?_⟩
  rw [h1, h2]
  norm_num

/-! ## Edges without a robust kernel -/

/-- With the kernel switched off the line-to-plane body ends normally only through its
`continue`: it never adds an edge. -/
theorem addLinePlaneEdge_kernel_off (s : MfgSettings) (h : Helpers) (m : Map) (plGid : Int)
    (g g' : Graph) (lnGid : Int) (hs : s.baUseKernel = false)
    (hg : addLinePlaneEdge s h m plGid g lnGid = Except.ok g') :
    (mapFind g.lngid2vid lnGid).isNone = true ∧ g' = g := by
  unfold addLinePlaneEdge at hg
  simp only [kernelOf, hs] at hg
  repeat' split at hg
  all_goals first
    | (cases hg; done)
    | (cases hg; rename_i hn; exact ⟨hn, rfl⟩)
    | skip
  all_goals simp at *

/-- C30: with the robust kernel switched off `adjustBundle_G2O` reaches
`e->robustKernel()->robustify(...)` through an absent kernel. On the six-view scenario
the cost aggregation after the solve does (the call ends in undefined behaviour); on a
map with a plane that has an admitted member line the line-to-plane edge construction
does; and in general, with the kernel off, the line-to-plane body never adds an edge
normally, and the cost of an edge without kernel that has a vertex which is not fixed is
never computed normally. -/
theorem C30_absent_kernel :
    adjustBundle_G2O kernelOffSettings sampleHelpers (fun _ _ => ⟨0, 0, 1⟩) sampleSolver
        scenarioMap 3 5 = Except.error BuildError.undefinedBehaviour
    ∧ adjustBundle_G2O_problem kernelOffSettings sampleHelpers (fun _ _ => ⟨0, 0, 1⟩)
        planeLineMap 3 5 = Except.error BuildError.undefinedBehaviour
    ∧ (adjustBundle_G2O_problem scenarioSettings sampleHelpers (fun _ _ => ⟨0, 0, 1⟩)
        planeLineMap 3 5).map (fun g => g.vecEdgeLinePlane.length) = Except.ok 1
    ∧ (∀ (s : MfgSettings) (h : Helpers) (m : Map) (plGid : Int) (g g' : Graph) (lnGid : Int),
        s.baUseKernel = false →
        addLinePlaneEdge s h m plGid g lnGid = Except.ok g' →
        (mapFind g.lngid2vid lnGid).isNone = true ∧ g' = g)
    ∧ (∀ (S : G2oSolver) (g : Graph) (e : Edge), e.robustKernel = none →
        allVerticesFixed g e = false →
        edgeCost S g e = Except.error BuildError.undefinedBehaviour) := by
  refine ⟨rfl, rfl, rfl, ?_, ?_⟩
  · intro s h m plGid g g' lnGid hs hg
    exact addLinePlaneEdge_kernel_off s h m plGid g g' lnGid hs hg
  · intro S g e he hf
    simp [edgeCost, he, hf]

/-- C24: on a map whose two key points carry each other's index as gid, every
reprojection edge built for the observations of `keyPoints[0]` (vertex 6, created from
position `(1, 2, 3)`) references vertex 7, the vertex created from `keyPoints[1]`, and
the other way round; and the Result Writer stores the solved estimate of vertex 6, the
free point `keyPoints[0]`, into `keyPoints[1]`, the fixed point, and leaves
`keyPoints[0]` as it was. -/
theorem C24_index_bookkeeping :
    (adjustBundle_G2O_problem scenarioSettings sampleHelpers (fun _ _ => ⟨0, 0, 1⟩)
        swappedGidMap 3 5).map (fun g =>
          (g.kptIdx2Opt, g.kptIdx2Rpj_notOpt,
           (findVertex g.vertices 6).map (fun v => (v.estimate, v.fixed)),
           (findVertex g.vertices 7).map (fun v => (v.estimate, v.fixed)),
           g.vecEdgeKpt.map (fun e => (e.vertices, e.measurement))))
      = Except.ok ([0], [1], some (Estimate.vec ⟨1, 2, 3⟩, false),
          some (Estimate.vec ⟨4, 5, 6⟩, true),
          [([7, 1], [10, 20]), ([7, 2], [10, 20]), ([7, 3], [10, 20]), ([7, 4], [10, 20]),
           ([7, 5], [10, 20]), ([6, 1], [30, 40]), ([6, 5], [30, 40])])
    ∧ (adjustBundle_G2O scenarioSettings sampleHelpers (fun _ _ => ⟨0, 0, 1⟩)
        liftSolver swappedGidMap 3 5).map (fun m' => m'.keyPoints.map (fun k => (k.x, k.y, k.z)))
      = Except.ok [(1, 2, 3), (9, 9, 9)] :=
  ⟨rfl, rfl⟩

/-! ## The cost aggregation -/

/-- A cost-aggregation loop that ends normally has added the cost of every edge with a
vertex that is not fixed, and nothing for the others. -/
theorem sumCosts_ok (S : G2oSolver) (g : Graph) (es : List Edge) (acc r : Rat)
    (h : sumCosts S g es acc = Except.ok r) : r = acc + activeCost S g es := by
  induction es generalizing acc with
  | nil =>
    simp only [sumCosts, List.foldlM, pure, Except.pure] at h
    cases h
    simp [activeCost]
  | cons e rest ih =>
    simp only [sumCosts, List.foldlM, bind, Except.bind] at h
    cases hc : edgeCost S g e with
    | error err => rw [hc] at h; cases h
    | ok c =>
      rw [hc] at h
      simp only [] at h
      have := ih (acc + c) h
      rw [this]
      unfold edgeCost at hc
      by_cases hf : allVerticesFixed g e = true
      · simp only [hf, if_true] at hc
        cases hc
        simp [activeCost, hf]
      · have hf' : allVerticesFixed g e = false := by simpa using hf
        simp only [hf', Bool.false_eq_true, if_false] at hc
        cases hk : e.robustKernel with
        | none => rw [hk] at hc; cases hc
        | some k =>
          rw [hk] at hc
          cases hc
          simp [activeCost, hf', add_assoc]

theorem length_foldl_writeCam (g : Graph) (vids : List Int) (views : List View) :
    (vids.foldl (writeCam g) views).length = views.length := by
  induction vids generalizing views with
  | nil => rfl
  | cons vid rest ih =>
    rw [List.foldl_cons, ih]
    unfold writeCam
    repeat' split
    all_goals first | rfl | exact length_vecModify _ _ _

theorem scenarioResult_eq :
    adjustBundle_G2O scenarioSettings sampleHelpers (fun _ _ => ⟨0, 0, 1⟩) unitCostSolver
      scenarioMap 3 5 = Except.ok scenarioResult := rfl

/-- C23 (as the code does it): when `adjustBundle_G2O` returns, the newest view's `errPt`,
`errLn` and `errPl` are the sums of the robustified costs `rho[0]`, evaluated on the
solved problem, over the reprojection edges, the line edges, and the point-to-plane plus
line-to-plane edges that have at least one vertex which is not fixed; an edge whose
vertices are all fixed adds nothing. `errAll` is the optimizer's `activeRobustChi2()`. -/
theorem C23_diagnostics (s : MfgSettings) (hp : Helpers) (bp : Mat3 → VanishPnt2d → Vec3)
    (S : G2oSolver) (m : Map) (numPos numFrm : Int) (m' : Map)
    (h : adjustBundle_G2O s hp bp S m numPos numFrm = Except.ok m') :
    ∃ g1, adjustBundle_G2O_problem s hp bp m numPos numFrm = Except.ok g1
      ∧ m'.views.length = m.views.length
      ∧ ∀ v, vecAt m'.views ((m.views.length : Int) - 1) = some v →
          v.errPt = activeCost S (runOptimizer S g1) (runOptimizer S g1).vecEdgeKpt
          ∧ v.errLn = activeCost S (runOptimizer S g1) (runOptimizer S g1).vecEdgeLine
          ∧ v.errPl = activeCost S (runOptimizer S g1) (runOptimizer S g1).vecEdgePointPlane
              + activeCost S (runOptimizer S g1) (runOptimizer S g1).vecEdgeLinePlane
          ∧ v.errAll = S.activeRobustChi2 (runOptimizer S g1) := by
  unfold adjustBundle_G2O at h
  simp only [bind, Except.bind] at h
  split at h
  · cases h
  · rename_i g1 hg1
    refine ⟨g1, hg1, ?_⟩
    unfold diagnostics at h
    simp only [bind, Except.bind, pure, Except.pure] at h
    repeat' split at h
    all_goals try cases h
    rename_i _ eK hK _ eV hV _ eL hL _ eP0 hP0 _ eP hP
    have hlen : (writeBack hp (runOptimizer S g1) m).views.length = m.views.length :=
      length_foldl_writeCam _ _ _
    refine ⟨?_, ?_⟩
    · simp only [length_vecModify]
      exact hlen
    · intro v hv
      simp only [hlen] at hv
      rw [vecAt_vecModify] at hv
      cases hw : vecAt (writeBack hp (runOptimizer S g1) m).views ((m.views.length : Int) - 1) with
      | none => rw [hw] at hv; cases hv
      | some w =>
        rw [hw] at hv
        simp only [Option.map_some', Option.some.injEq] at hv
        subst hv
        simp only []
        have e1 := sumCosts_ok S _ _ _ _ hK
        have e3 := sumCosts_ok S _ _ _ _ hL
        have e4 := sumCosts_ok S _ _ _ _ hP0
        have e5 := sumCosts_ok S _ _ _ _ hP
        refine ⟨?_, ?_, ?_, trivial⟩
        · rw [e1, zero_add]
        · rw [e3, zero_add]
        · rw [e5, e4, zero_add]

theorem C23_diagnostics_witness :
    ∃ g1, adjustBundle_G2O_problem scenarioSettings sampleHelpers (fun _ _ => ⟨0, 0, 1⟩)
        scenarioMap 3 5 = Except.ok g1
      ∧ scenarioResult.views.length = scenarioMap.views.length
      ∧ ∀ v, vecAt scenarioResult.views ((scenarioMap.views.length : Int) - 1) = some v →
          v.errPt = activeCost unitCostSolver (runOptimizer unitCostSolver g1)
              (runOptimizer unitCostSolver g1).vecEdgeKpt
          ∧ v.errLn = activeCost unitCostSolver (runOptimizer unitCostSolver g1)
              (runOptimizer unitCostSolver g1).vecEdgeLine
          ∧ v.errPl = activeCost unitCostSolver (runOptimizer unitCostSolver g1)
                (runOptimizer unitCostSolver g1).vecEdgePointPlane
              + activeCost unitCostSolver (runOptimizer unitCostSolver g1)
                (runOptimizer unitCostSolver g1).vecEdgeLinePlane
          ∧ v.errAll = unitCostSolver.activeRobustChi2 (runOptimizer unitCostSolver g1) :=
  C23_diagnostics scenarioSettings sampleHelpers (fun _ _ => ⟨0, 0, 1⟩) unitCostSolver
    scenarioMap 3 5 scenarioResult scenarioResult_eq

/-- C23 as stated fails: on the six-view scenario the problem has seven reprojection edges;
with a robustified cost of 1 per edge their sum is 7, while the newest view's `errPt` is
6, because the edge between the fixed second key point and the fixed camera of view 1 is
skipped. -/
theorem C23_counterexample :
    (adjustBundle_G2O scenarioSettings sampleHelpers (fun _ _ => ⟨0, 0, 1⟩) unitCostSolver
        scenarioMap 3 5).map (fun m' => (vecAt m'.views 5).map (fun v => v.errPt))
      = Except.ok (some 6)
    ∧ (adjustBundle_G2O_problem scenarioSettings sampleHelpers (fun _ _ => ⟨0, 0, 1⟩)
        scenarioMap 3 5).map (fun g =>
          totalCost unitCostSolver (runOptimizer unitCostSolver g)
            (runOptimizer unitCostSolver g).vecEdgeKpt)
      = Except.ok 7 := by
  constructor
  · have h : (adjustBundle_G2O scenarioSettings sampleHelpers (fun _ _ => ⟨0, 0, 1⟩)
        unitCostSolver scenarioMap 3 5).map (fun m' => (vecAt m'.views 5).map (fun v => v.errPt))
        = Except.ok (some (0 + 1 + 1 + 1 + 1 + 1 + 0 + 1)) := rfl
    rw [h]
    norm_num
  · have h : (adjustBundle_G2O_problem scenarioSettings sampleHelpers (fun _ _ => ⟨0, 0, 1⟩)
        scenarioMap 3 5).map (fun g =>
          totalCost unitCostSolver (runOptimizer unitCostSolver g)
            (runOptimizer unitCostSolver g).vecEdgeKpt)
        = Except.ok ([(1 : Rat), 1, 1, 1, 1, 1, 1].sum) := rfl
    rw [h]
    norm_num

/-! ## The camera vertices behind the residual edges -/

theorem vecAt_lt {α : Type} (xs : List α) (i : Int) (x : α) (h : vecAt xs i = some x) :
    0 ≤ i ∧ i < (xs.length : Int) := by
  unfold vecAt at h
  split_ifs at h with hi
  have := (List.getElem?_eq_some_iff.mp h).1
  omega

/-- C26: for every map with at least one view, every vanishing-point window size and
all window sizes `0 <= numPos < numFrm`, the camera part of `adjustBundle_G2O` returns a
graph with a fixed camera vertex for the oldest view of the window, `frontVptIdx`,
whether or not camera-distance edges were added (the un-fixing loop never touches the
first camera vertex), and this vertex is the camera vertex of that view, fixed, in every
problem handed to the solver. -/
theorem C26_fixed_front_camera (s : MfgSettings) (m : Map) (numPos numFrm : Int)
    (hn : 1 ≤ m.views.length) (hpos : 0 ≤ numPos) (hw : numPos < numFrm) :
    ∃ g0 v, adjustBundle_G2O_cameras s m numPos numFrm = Except.ok g0
      ∧ frontVptIdx m.views.length numFrm s.baNumFramesVPoint < (m.views.length : Int)
      ∧ CamVertexOf g0 (frontVptIdx m.views.length numFrm s.baNumFramesVPoint) v
      ∧ v.fixed = true
      ∧ ∀ (hp : Helpers) (bp : Mat3 → VanishPnt2d → Vec3) (g : Graph),
          adjustBundle_G2O_problem s hp bp m numPos numFrm = Except.ok g →
          CamVertexOf g (frontVptIdx m.views.length numFrm s.baNumFramesVPoint) v := by
  have hv : 1 ≤ numFrm := by omega
  obtain ⟨g0, hg0, hiff, hprob⟩ := cameras_in_problem m.views
    (frontVptIdx m.views.length numFrm s.baNumFramesVPoint) (m.views.length : Int)
    (frontPosIdx m.views.length numPos) 20 (camDistRows m.camdist_constraints numFrm)
  have hlt : frontVptIdx m.views.length numFrm s.baNumFramesVPoint
      < (m.views.length : Int) := by
    unfold frontVptIdx frontFrmIdx
    exact lt_of_le_of_lt (min_le_left _ _) (by rw [max_lt_iff]; omega)
  have hfix : (decide (frontVptIdx m.views.length numFrm s.baNumFramesVPoint < 1)
      || decide (frontVptIdx m.views.length numFrm s.baNumFramesVPoint
          < frontPosIdx m.views.length numPos)) = true := by
    have hle : frontVptIdx m.views.length numFrm s.baNumFramesVPoint
        ≤ frontFrmIdx m.views.length numFrm := min_le_left _ _
    simp only [Bool.or_eq_true, decide_eq_true_eq]
    unfold frontFrmIdx at hle
    unfold frontPosIdx
    rcases le_total ((m.views.length : Int) - numFrm) 0 with h0 | h0
    · left
      rw [max_eq_left h0] at hle
      omega
    · right
      rw [max_eq_right h0] at hle
      exact lt_of_le_of_lt hle (lt_of_lt_of_le (by omega) (le_max_right _ _))
  refine ⟨g0, _, hg0, hlt, (hiff _ _).mpr ⟨le_refl _, hlt, rfl⟩, ?_, ?_⟩
  · simp only [lt_irrefl, and_false, if_false]
    exact hfix
  · intro hp bp g hg
    unfold adjustBundle_G2O_problem adjustBundle_G2O_vertices adjustBundle_G2O_cameras at hg
    rw [hg0] at hg
    simp only [] at hg
    exact ((hprob false s hp bp m _ _ _ g hg).2 _ _).mpr
      ((hiff _ _).mpr ⟨le_refl _, hlt, rfl⟩)

theorem C26_fixed_front_camera_witness :
    ∃ g0 v, adjustBundle_G2O_cameras scenarioSettings scenarioMap 3 5 = Except.ok g0
      ∧ frontVptIdx scenarioMap.views.length 5 scenarioSettings.baNumFramesVPoint
          < (scenarioMap.views.length : Int)
      ∧ CamVertexOf g0
          (frontVptIdx scenarioMap.views.length 5 scenarioSettings.baNumFramesVPoint) v
      ∧ v.fixed = true
      ∧ ∀ (hp : Helpers) (bp : Mat3 → VanishPnt2d → Vec3) (g : Graph),
          adjustBundle_G2O_problem scenarioSettings hp bp scenarioMap 3 5 = Except.ok g →
          CamVertexOf g
            (frontVptIdx scenarioMap.views.length 5 scenarioSettings.baNumFramesVPoint) v :=
  C26_fixed_front_camera scenarioSettings scenarioMap 3 5 (by decide) (by decide)
    (by decide)

/-! ## Planes under a short pose window -/

theorem planesFixed_step (g g' : Graph) (nv : Vertex)
    (hv : g'.vertices = g.vertices ++ [nv]) (hid : nv.id = g.vertex_id)
    (hk : nv.kind ≠ VertexKind.plane) (hvid : g'.vertex_id = g.vertex_id + 1)
    (hpl : g'.plvertVec = g.plvertVec) (h : PlanesFixed g) : PlanesFixed g' := by
  obtain ⟨a, b, c⟩ := h
  obtain ⟨o1, o2, _⟩ := writerInv_old g nv hid a
  refine ⟨?_, ?_, ?_⟩
  · rw [hv, hvid]; exact o1
  · intro v hmem hkind
    rw [hv] at hmem
    rcases List.mem_append.mp hmem with h | h
    · exact b v h hkind
    · rw [List.mem_singleton.mp h] at hkind
      exact absurd hkind hk
  · intro vid hvid'
    rw [hpl] at hvid'
    obtain ⟨v, hf, hx⟩ := c vid hvid'
    rw [hv]
    exact ⟨v, (o2 vid v hf).1, hx⟩

theorem addKeyPoint_planesFixed (fp ff nw : Int) (g : Graph) (i : Int) (kp : KeyPoint3d)
    (h : PlanesFixed g) : PlanesFixed (addKeyPoint fp ff nw g i kp) := by
  obtain ⟨c1, c2, c3⟩ := addKeyPoint_cases fp ff nw g i kp
  by_cases ha : kp.is3D = true ∧ 0 ≤ kp.gid ∧ ∃ o ∈ kp.viewId_ptLid, fp ≤ o.1
  · by_cases hf : firstViewId kp.viewId_ptLid < ff ∧ kp.estViewId < nw ∧ g.edges_camdist = []
    · rw [c2 ha hf]
      exact planesFixed_step g _ _ rfl rfl (by simp) rfl rfl h
    · rw [c3 ha hf]
      exact planesFixed_step g _ _ rfl rfl (by simp) rfl rfl h
  · rw [c1 ha]
    exact h

theorem addVanishingPoint_planesFixed (fp : Int) (g : Graph) (i : Int) (vp : VanishPnt3d)
    (h : PlanesFixed g) : PlanesFixed (addVanishingPoint fp g i vp) := by
  obtain ⟨c1, c2⟩ := addVanishingPoint_cases fp g i vp
  by_cases ha : ∃ o ∈ vp.viewId_vpLid, fp ≤ o.1
  · rw [c2 ha]
    exact planesFixed_step g _ _ rfl rfl (by simp) rfl rfl h
  · rw [c1 ha]
    exact h

theorem addIdealLine_planesFixed (cdt : Bool) (fp ff nw : Int) (g : Graph) (i : Int)
    (ln : IdealLine3d) (h : PlanesFixed g) :
    PlanesFixed (addIdealLine cdt fp ff nw g i ln) := by
  obtain ⟨c1, c2, c3⟩ := addIdealLine_cases cdt fp ff nw g i ln
  by_cases ha : ln.is3D = true ∧ 0 ≤ ln.gid ∧ ∃ o ∈ ln.viewId_lnLid, fp ≤ o.1
  · by_cases hf : firstViewId ln.viewId_lnLid < ff ∧ ln.estViewId < nw
        ∧ (cdt = true → g.edges_camdist = [])
    · rw [c2 ha hf]
      exact planesFixed_step g _ _ rfl rfl (by simp) rfl rfl h
    · rw [c3 ha hf]
      exact planesFixed_step g _ _ rfl rfl (by simp) rfl rfl h
  · rw [c1 ha]
    exact h

/-- The plane body under `newest - 3 < frontPosIdx`: a plane that passes the test
`newest - estViewId >= 3` was estimated before `frontPosIdx`, so its vertex is fixed. -/
theorem addPrimaryPlane_planesFixed (fp nw : Int) (hw : nw - 3 < fp) (g : Graph) (i : Int)
    (pl : PrimaryPlane3d) (h : PlanesFixed g) :
    PlanesFixed (addPrimaryPlane fp nw g i pl) := by
  unfold addPrimaryPlane
  split_ifs with h1 h2
  · exact h
  · exact h
  · obtain ⟨a, b, c⟩ := h
    have hfix : decide (pl.estViewId < fp) = true := by
      simp only [decide_eq_true_eq]
      omega
    obtain ⟨o1, o2, o3⟩ := writerInv_old g
      { id := g.vertex_id, kind := VertexKind.plane, fixed := decide (pl.estViewId < fp),
        marginalized := false,
        estimate := Estimate.vec ⟨pl.n.x / pl.d, pl.n.y / pl.d, pl.n.z / pl.d⟩ } rfl a
    refine ⟨o1, ?_, ?_⟩
    · intro v hmem hkind
      rcases List.mem_append.mp hmem with h | h
      · exact b v h hkind
      · rw [List.mem_singleton.mp h]
        exact hfix
    · intro vid hvid
      rcases List.mem_append.mp hvid with h | h
      · obtain ⟨v, hf, hx⟩ := c vid h
        exact ⟨v, (o2 vid v hf).1, hx⟩
      · rw [List.mem_singleton.mp h]
        exact ⟨_, o3, rfl, hfix⟩

theorem addStructure_planesFixed (cdt : Bool) (fp ff nw : Int) (hw : nw - 3 < fp) (m : Map)
    (g : Graph) (h : PlanesFixed g) : PlanesFixed (addStructure cdt fp ff nw m g) := by
  unfold addStructure addPrimaryPlanes addIdealLines addVanishingPoints addKeyPoints
  simp only []
  apply indexedLoop_inv _ _ (fun st i x => addPrimaryPlane_planesFixed fp nw hw st i x)
  apply indexedLoop_inv _ _ (fun st i x => addIdealLine_planesFixed cdt fp ff nw st i x)
  apply indexedLoop_inv _ _ (fun st i x => addVanishingPoint_planesFixed fp st i x)
  apply indexedLoop_inv _ _ (fun st i x => addKeyPoint_planesFixed fp ff nw st i x)
  exact h

theorem cameraPart_planesFixed (views : List View) (front stop fp mi : Int)
    (rows : List CamDist) (g : Graph)
    (h : cameraPart views front stop fp mi rows = Except.ok g) : PlanesFixed g := by
  have hw := cameraPart_writerInv views front stop fp mi rows g h
  obtain ⟨mi', es, vs, hg, _, hkind, _⟩ := cameraPart_spec views front stop fp mi rows
  rw [hg] at h
  cases h
  refine ⟨hw.1, ?_, ?_⟩
  · intro v hv hk
    rw [hkind v hv] at hk
    cases hk
  · intro vid hvid
    simp [Graph.init] at hvid

/-- The plane loop of the Result Writer over vertices that are all found and fixed
changes nothing. -/
theorem writePlane_fixed (hp : Helpers) (g : Graph) (vids : List Int)
    (pls : List PrimaryPlane3d)
    (h : ∀ vid ∈ vids, ∃ v, findVertex g.vertices vid = some v ∧ v.fixed = true) :
    vids.foldl (writePlane hp g) pls = pls := by
  induction vids generalizing pls with
  | nil => rfl
  | cons vid rest ih =>
    rw [List.foldl_cons]
    obtain ⟨v, hf, hx⟩ := h vid (List.mem_cons_self _ _)
    have : writePlane hp g pls vid = pls := by
      unfold writePlane
      rw [hf]
      simp only [hx, if_true]
    rw [this]
    exact ih pls (fun w hw => h w (List.mem_cons_of_mem _ hw))

theorem planeLineResult_eq :
    adjustBundle_G2O scenarioSettings sampleHelpers (fun _ _ => ⟨0, 0, 1⟩) liftSolver
      planeLineMap 3 5 = Except.ok planeLineResult := rfl

/-- C27: in `adjustBundle_G2O`, when `numPos <= 3` and the newest view's id is
`views.size() - 1`, every plane vertex of the problem handed to the solver is fixed, and a
call that returns leaves every primary plane (normal and offset) as it was. -/
theorem C27_planes_fixed (s : MfgSettings) (hp : Helpers) (bp : Mat3 → VanishPnt2d → Vec3)
    (S : G2oSolver) (m : Map) (numPos numFrm : Int) (m' : Map) (hnp : numPos ≤ 3)
    (hid : backId m.views = (m.views.length : Int) - 1)
    (h : adjustBundle_G2O s hp bp S m numPos numFrm = Except.ok m') :
    m'.primaryPlanes = m.primaryPlanes
    ∧ ∃ g, adjustBundle_G2O_problem s hp bp m numPos numFrm = Except.ok g
      ∧ (∀ v ∈ g.vertices, v.kind = VertexKind.plane → v.fixed = true)
      ∧ ∀ vid ∈ g.plvertVec, ∃ v, findVertex g.vertices vid = some v
          ∧ v.kind = VertexKind.plane ∧ v.fixed = true := by
  obtain ⟨g1, hg1, _, _, _, hpl, _⟩ := adjustBundle_G2O_ok s hp bp S m numPos numFrm m' h
  have hprob := hg1
  unfold adjustBundle_G2O_problem adjustBundle_G2O_vertices at hg1
  cases hc : adjustBundle_G2O_cameras s m numPos numFrm with
  | error e => rw [hc] at hg1; cases hg1
  | ok g0 =>
    rw [hc] at hg1
    simp only [] at hg1
    unfold adjustBundle_G2O_cameras at hc
    have hw : backId m.views - 3 < frontPosIdx m.views.length numPos := by
      rw [hid]
      unfold frontPosIdx
      exact lt_of_lt_of_le (by omega) (le_max_right _ _)
    have hinv := addStructure_planesFixed false (frontPosIdx m.views.length numPos)
      (frontFrmIdx m.views.length numFrm) (backId m.views) hw m g0
      (cameraPart_planesFixed _ _ _ _ _ _ g0 hc)
    have hwi : ∀ vid ∈ (addStructure false (frontPosIdx m.views.length numPos)
        (frontFrmIdx m.views.length numFrm) (backId m.views) m g0).plvertVec,
        ∃ v, findVertex (addStructure false (frontPosIdx m.views.length numPos)
          (frontFrmIdx m.views.length numFrm) (backId m.views) m g0).vertices vid = some v
          ∧ v.kind = VertexKind.plane ∧ v.fixed = true := hinv.2.2
    obtain ⟨hv, hwf, _, _, _⟩ := addEdges_writerFields s hp bp m _ _ _ g1 hg1
    obtain ⟨rw1, _, _, _, _, _⟩ := runOptimizer_fields S g1
    simp only [writerFields, Prod.mk.injEq] at hwf rw1
    have hvec : (runOptimizer S g1).plvertVec
        = (addStructure false (frontPosIdx m.views.length numPos)
          (frontFrmIdx m.views.length numFrm) (backId m.views) m g0).plvertVec :=
      rw1.2.2.2.1.trans hwf.2.2.2.1
    refine ⟨?_, g1, hprob, ?_, ?_⟩
    · rw [hpl]
      unfold writeBack
      simp only []
      apply writePlane_fixed
      intro vid hvid
      rw [hvec] at hvid
      obtain ⟨v, hf, _, hx⟩ := hwi vid hvid
      rw [← hv] at hf
      obtain ⟨w, hw1, hs⟩ := runOptimizer_findVertex S g1 vid v hf
      exact ⟨w, hw1, hs.2.2.1.trans hx⟩
    · intro v hmem hk
      rw [hv] at hmem
      exact hinv.2.1 v hmem hk
    · intro vid hvid
      rw [hwf.2.2.2.1] at hvid
      rw [hv]
      exact hwi vid hvid

theorem C27_planes_fixed_witness :
    backId planeLineMap.views = (planeLineMap.views.length : Int) - 1
    ∧ planeLineResult.primaryPlanes = planeLineMap.primaryPlanes
    ∧ ∃ g, adjustBundle_G2O_problem scenarioSettings sampleHelpers (fun _ _ => ⟨0, 0, 1⟩)
        planeLineMap 3 5 = Except.ok g
      ∧ (∀ v ∈ g.vertices, v.kind = VertexKind.plane → v.fixed = true)
      ∧ ∀ vid ∈ g.plvertVec, ∃ v, findVertex g.vertices vid = some v
          ∧ v.kind = VertexKind.plane ∧ v.fixed = true :=
  ⟨by decide, C27_planes_fixed scenarioSettings sampleHelpers (fun _ _ => ⟨0, 0, 1⟩)
    liftSolver planeLineMap 3 5 planeLineResult (by decide) (by decide) planeLineResult_eq⟩

/-! ## The Result Writer of the G2O functions on the lines -/

/-- What a call of `bundle_adjust_between` that returns has written. -/
theorem bundle_adjust_between_ok (s : MfgSettings) (hp : Helpers)
    (bp : Mat3 → VanishPnt2d → Vec3) (S : G2oSolver) (m : Map) (vf vt cf : Int) (m' : Map)
    (h : bundle_adjust_between s hp bp S m vf vt cf = Except.ok m') :
    ∃ g1, bundle_adjust_between_problem s hp bp m vf vt cf = Except.ok g1
      ∧ m' = writeBack hp (runOptimizer S g1) m := by
  unfold bundle_adjust_between at h
  simp only [bind, Except.bind] at h
  split at h
  · cases h
  · rename_i g1 hg1
    refine ⟨g1, hg1, ?_⟩
    simp only [pure, Except.pure] at h
    repeat' split at h
    all_goals try cases h
    rfl

/-- The bookkeeping of the Result Writer for a problem built by the camera part, the
structure loops and the edge loops on a map with `GidIsIndex`. -/
theorem writer_of_cameras (cdt : Bool) (s : MfgSettings) (hp : Helpers)
    (bp : Mat3 → VanishPnt2d → Vec3) (S : G2oSolver) (m : Map) (fp ff nw ffe fve : Int)
    (views : List View) (front stop fpc mi : Int) (rows : List CamDist) (g0 g1 : Graph)
    (hm : GidIsIndex m) (hc : cameraPart views front stop fpc mi rows = Except.ok g0)
    (h : addEdges s hp bp m ffe fve (addStructure cdt fp ff nw m g0) = Except.ok g1) :
    (runOptimizer S g1).ptvertVec.map (gidOf (runOptimizer S g1).ptvid2gid) = g1.kptIdx2Opt
    ∧ (runOptimizer S g1).vpvertVec.map (gidOf (runOptimizer S g1).vpvid2gid) = g1.vpIdx2Opt
    ∧ (runOptimizer S g1).lnvertVec.map (gidOf (runOptimizer S g1).lnvid2gid) = g1.lnIdx2Opt
    ∧ (runOptimizer S g1).plvertVec.map (gidOf (runOptimizer S g1).plvid2gid) = g1.plIdx2Opt
    ∧ (∀ vid ∈ (runOptimizer S g1).ptvertVec ++ (runOptimizer S g1).vpvertVec
          ++ (runOptimizer S g1).lnvertVec, ∃ v e,
        findVertex (runOptimizer S g1).vertices vid = some v ∧ v.fixed = false
        ∧ v.estimate = Estimate.vec e)
    ∧ g1.lnIdx2Opt.Nodup := by
  have hinv := addStructure_writerInv cdt fp ff nw m g0 hm
    (cameraPart_writerInv _ _ _ _ _ _ g0 hc)
  obtain ⟨hv, hw, hl, _, _⟩ := addEdges_writerFields s hp bp m _ _ _ g1 h
  obtain ⟨rw1, rl, _, _, _, _⟩ := runOptimizer_fields S g1
  obtain ⟨i1, i2, i3, i4, i5, i6, i7⟩ := hinv
  have hw' := rw1.trans hw
  simp only [writerFields, Prod.mk.injEq] at hw'
  obtain ⟨⟨a1, a2⟩, ⟨b1, b2⟩, ⟨c1, c2⟩, ⟨d1, d2⟩⟩ := hw'
  simp only [listFields, Prod.mk.injEq] at hl
  obtain ⟨l1, l2, l3, l4, l5, l6⟩ := hl
  rw [a1, a2, b1, b2, c1, c2, d1, d2, l1, l3, l4, l6]
  refine ⟨i2, i3, i4, i5, ?_, ?_⟩
  · intro vid hvid
    obtain ⟨v, e, hf, hx, he⟩ := i6 vid hvid
    rw [← hv] at hf
    obtain ⟨w, hw1, hs⟩ := runOptimizer_findVertex S g1 vid v hf
    obtain ⟨e', he'⟩ := hs.2.2.2.2 ⟨e, he⟩
    exact ⟨w, e', hw1, hs.2.2.1.trans hx, he'⟩
  · obtain ⟨mi', es, hg⟩ := cameraPart_closed views front stop fpc mi rows
    rw [hg] at hc
    cases hc
    exact addStructure_lnIdx2Opt_nodup _ _ _ _ _ _ rfl

/-- The lines after the Result Writer, given its bookkeeping: every listed line is
rewritten once by the statements l.1779-1785 run with the estimate of its vertex, and
every other line is left as it was. -/
theorem writeBack_lines (hp : Helpers) (S : G2oSolver) (m : Map) (g1 : Graph)
    (hmap : (runOptimizer S g1).lnvertVec.map (gidOf (runOptimizer S g1).lnvid2gid)
      = g1.lnIdx2Opt)
    (hvert : ∀ vid ∈ (runOptimizer S g1).lnvertVec, ∃ v e,
        findVertex (runOptimizer S g1).vertices vid = some v ∧ v.fixed = false
        ∧ v.estimate = Estimate.vec e)
    (hnd : g1.lnIdx2Opt.Nodup) :
    (∀ idx ∈ g1.lnIdx2Opt, ∀ ln0, vecAt m.idealLines idx = some ln0 →
      ∃ (vid : Int) (v : Vertex) (e : Vec3),
        findVertex (runOptimizer S g1).vertices vid = some v
        ∧ gidOf (runOptimizer S g1).lnvid2gid vid = idx
        ∧ v.fixed = false ∧ v.estimate = Estimate.vec e
        ∧ vecAt (writeBack hp (runOptimizer S g1) m).idealLines idx
          = some (updateLine hp (writeBack hp (runOptimizer S g1) m).vanishingPoints e ln0))
    ∧ ∀ idx, idx ∉ g1.lnIdx2Opt →
        vecAt (writeBack hp (runOptimizer S g1) m).idealLines idx = vecAt m.idealLines idx := by
  constructor
  · intro idx hidx ln0 hln0
    have hidx' : idx ∈ (runOptimizer S g1).lnvertVec.map
        (gidOf (runOptimizer S g1).lnvid2gid) := by
      rw [hmap]; exact hidx
    obtain ⟨vid, hvid, hgid⟩ := List.mem_map.mp hidx'
    obtain ⟨v, e, hfv, hfx, he⟩ := hvert vid hvid
    have hat := writeLine_at hp (runOptimizer S g1)
      (writeBack hp (runOptimizer S g1) m).vanishingPoints (runOptimizer S g1).lnvertVec
      (by rw [hmap]; exact hnd) m.idealLines vid hvid v e hfv hfx he
    rw [hgid, hln0] at hat
    exact ⟨vid, v, e, hfv, hgid, hfx, he, hat⟩
  · intro idx hidx
    apply writeLine_frame
    intro vid hvid he
    apply hidx
    rw [← hmap, ← he]
    exact List.mem_map_of_mem _ hvid

/-- The midpoint the statements l.1779-1785 leave on a line, with the projection as
modelled: `oldMidPt` is read after the midpoint was overwritten with the estimate `e`, so
the point projected is the midpoint of the line projected onto, and the stored midpoint
is `e`. -/
theorem updateLine_midpt (h : Helpers) (hproj : h.projectPt3d2Ln3d = projectPt3d2Ln3d)
    (vps : List VanishPnt3d) (e : Vec3) (ln : IdealLine3d) :
    (updateLine h vps e ln).midpt = e := by
  unfold updateLine
  simp only [hproj]
  cases hv : vecAt vps ln.vpGid with
  | none => rfl
  | some vp =>
    simp only []
    exact projectPt3d2Ln3d_self _

/-- The direction the statements l.1779-1785 leave on a line: the normalised vanishing
point `vanishingPoints[vpGid]`. -/
theorem updateLine_direct (h : Helpers) (vps : List VanishPnt3d) (e : Vec3)
    (ln : IdealLine3d) (vp : VanishPnt3d) (hv : vecAt vps ln.vpGid = some vp) :
    (updateLine h vps e ln).direct
      = ⟨vp.x / h.norm ⟨vp.x, vp.y, vp.z⟩, vp.y / h.norm ⟨vp.x, vp.y, vp.z⟩,
         vp.z / h.norm ⟨vp.x, vp.y, vp.z⟩⟩ := by
  unfold updateLine
  simp only [hv]

theorem vecAt_singleton {α : Type} (x y : α) (i : Int) (h : vecAt [x] i = some y) :
    i = 0 ∧ y = x := by
  unfold vecAt at h
  split_ifs at h with hi
  have hlt := (List.getElem?_eq_some_iff.mp h).1
  simp only [List.length_singleton, Nat.lt_one_iff] at hlt
  rw [hlt] at h
  simp only [List.getElem?_cons_zero, Option.some.injEq] at h
  exact ⟨by omega, h.symm⟩

theorem vecAt_nil {α : Type} (y : α) (i : Int) (h : vecAt ([] : List α) i = some y) :
    False := by
  unfold vecAt at h
  split_ifs at h
  simp at h

theorem gidIsIndex_planeLineMap : GidIsIndex planeLineMap := by
  refine ⟨?_, ?_, ?_⟩
  · intro i kp h
    exact (vecAt_nil kp i h).elim
  · intro i ln h
    obtain ⟨h1, h2⟩ := vecAt_singleton _ _ _ h
    rw [h1, h2]
    rfl
  · intro i vp h
    obtain ⟨h1, h2⟩ := vecAt_singleton _ _ _ h
    rw [h1, h2]

theorem planeLineProblem_eq :
    adjustBundle_G2O_problem scenarioSettings sampleHelpers (fun _ _ => ⟨0, 0, 1⟩)
      planeLineMap 3 5 = Except.ok planeLineProblem := rfl

/-- On `swappedLineMap` the write-back of `adjustBundle_G2O(3, 5)` and of
`bundle_adjust_between(3, 5, 1)` stores the estimate `(9, 9, 9)` of the free vertex as
the midpoint of `idealLines[1]`, the fixed line. -/
theorem swappedLine_fixed_overwritten :
    (adjustBundle_G2O scenarioSettings projHelpers (fun _ _ => ⟨0, 0, 1⟩) liftSolver
        swappedLineMap 3 5).map (fun m' => (vecAt m'.idealLines 1).map (fun l => l.midpt))
      = Except.ok (some ⟨9, 9, 9⟩)
    ∧ (bundle_adjust_between scenarioSettings projHelpers (fun _ _ => ⟨0, 0, 1⟩) liftSolver
        swappedLineMap 3 5 1).map (fun m' => (vecAt m'.idealLines 1).map (fun l => l.midpt))
      = Except.ok (some ⟨9, 9, 9⟩) := by
  have h1 : (adjustBundle_G2O scenarioSettings projHelpers (fun _ _ => ⟨0, 0, 1⟩) liftSolver
        swappedLineMap 3 5).map (fun m' => vecAt m'.idealLines 1)
      = Except.ok (some (updateLine projHelpers
          [{ x := 9, y := 9, z := 9, gid := 0, viewId_vpLid := [(4, 0), (5, 0)] }]
          ⟨9, 9, 9⟩ staleLine)) := rfl
  have h2 : (bundle_adjust_between scenarioSettings projHelpers (fun _ _ => ⟨0, 0, 1⟩)
        liftSolver swappedLineMap 3 5 1).map (fun m' => vecAt m'.idealLines 1)
      = Except.ok (some (updateLine projHelpers
          [{ x := 9, y := 9, z := 9, gid := 0, viewId_vpLid := [(4, 0), (5, 0)] }]
          ⟨9, 9, 9⟩ staleLine)) := rfl
  constructor
  · cases hX : adjustBundle_G2O scenarioSettings projHelpers (fun _ _ => ⟨0, 0, 1⟩) liftSolver
        swappedLineMap 3 5 with
    | error e => rw [hX] at h1; cases h1
    | ok m' =>
      rw [hX] at h1
      simp only [Except.map, Except.ok.injEq] at h1 ⊢
      rw [h1]
      simp only [Option.map, Option.some.injEq]
      exact updateLine_midpt projHelpers rfl _ _ _
  · cases hX : bundle_adjust_between scenarioSettings projHelpers (fun _ _ => ⟨0, 0, 1⟩)
        liftSolver swappedLineMap 3 5 1 with
    | error e => rw [hX] at h2; cases h2
    | ok m' =>
      rw [hX] at h2
      simp only [Except.map, Except.ok.injEq] at h2 ⊢
      rw [h2]
      simp only [Option.map, Option.some.injEq]
      exact updateLine_midpt projHelpers rfl _ _ _

/-- C28. The code at a failing input: on `swappedLineMap`, whose two ideal lines carry
each other's index as gid, `idealLines[0]` is the only free line; its vertex 7 has the
solver's estimate `(9, 9, 9)`, yet after `adjustBundle_G2O(3, 5)` and after
`bundle_adjust_between(3, 5, 1)` its stored midpoint is still the pre-solve `(1, 1, 1)`,
and the estimate sits in the fixed line `idealLines[1]`. What the code does do, with
`projectPt3d2Ln3d` the orthogonal projection onto the line through the line's midpoint
along its direction: the statements of the line write-back leave the solver's estimate
as the midpoint of the line they rewrite, for every direction; and on a map whose
landmarks carry their index as gid, after `adjustBundle_G2O` and after
`bundle_adjust_between` the stored midpoint of every free ideal line (every index of
`lnIdx2Opt`) is the estimate of its vertex in the solved problem, whatever the pre-solve
midpoint was. -/
theorem C28_midpoint_is_estimate :
    (adjustBundle_G2O_problem scenarioSettings projHelpers (fun _ _ => ⟨0, 0, 1⟩)
        swappedLineMap 3 5).map (fun g =>
          (g.lnIdx2Opt, g.lnIdx2Rpj_notOpt, g.lnvertVec,
            ((runOptimizer liftSolver g).vertices.filter
              (fun v => v.kind = VertexKind.lnpt)).map
                (fun v => (v.id, v.fixed, v.estimate))))
      = Except.ok ([0], [1], [7],
          [(7, false, Estimate.vec ⟨9, 9, 9⟩), (8, true, Estimate.vec ⟨0, 0, 0⟩)])
    ∧ swappedLineMap.idealLines.map (fun l => (l.gid, l.midpt))
        = [(1, ⟨1, 1, 1⟩), (0, ⟨0, 0, 0⟩)]
    ∧ (adjustBundle_G2O scenarioSettings projHelpers (fun _ _ => ⟨0, 0, 1⟩) liftSolver
        swappedLineMap 3 5).map (fun m' => (vecAt m'.idealLines 0).map (fun l => l.midpt))
      = Except.ok (some ⟨1, 1, 1⟩)
    ∧ (bundle_adjust_between scenarioSettings projHelpers (fun _ _ => ⟨0, 0, 1⟩) liftSolver
        swappedLineMap 3 5 1).map (fun m' => (vecAt m'.idealLines 0).map (fun l => l.midpt))
      = Except.ok (some ⟨1, 1, 1⟩)
    ∧ (adjustBundle_G2O scenarioSettings projHelpers (fun _ _ => ⟨0, 0, 1⟩) liftSolver
        swappedLineMap 3 5).map (fun m' => (vecAt m'.idealLines 1).map (fun l => l.midpt))
      = Except.ok (some ⟨9, 9, 9⟩)
    ∧ (bundle_adjust_between scenarioSettings projHelpers (fun _ _ => ⟨0, 0, 1⟩) liftSolver
        swappedLineMap 3 5 1).map (fun m' => (vecAt m'.idealLines 1).map (fun l => l.midpt))
      = Except.ok (some ⟨9, 9, 9⟩)
    ∧ ∀ (s : MfgSettings) (h : Helpers) (bp : Mat3 → VanishPnt2d → Vec3) (S : G2oSolver)
        (m : Map), h.projectPt3d2Ln3d = projectPt3d2Ln3d →
        (∀ (vps : List VanishPnt3d) (e : Vec3) (ln : IdealLine3d),
          (updateLine h vps e ln).midpt = e)
        ∧ (GidIsIndex m → ∀ numPos numFrm g1 m',
            adjustBundle_G2O_problem s h bp m numPos numFrm = Except.ok g1 →
            adjustBundle_G2O s h bp S m numPos numFrm = Except.ok m' →
            ∀ idx ∈ g1.lnIdx2Opt, ∀ ln0, vecAt m.idealLines idx = some ln0 →
              ∃ (vid : Int) (v : Vertex) (e : Vec3) (ln' : IdealLine3d),
                findVertex (runOptimizer S g1).vertices vid = some v
                ∧ gidOf (runOptimizer S g1).lnvid2gid vid = idx
                ∧ v.fixed = false ∧ v.estimate = Estimate.vec e
                ∧ vecAt m'.idealLines idx = some ln' ∧ ln'.midpt = e)
        ∧ (GidIsIndex m → ∀ view_from view_to cam_from g1 m',
            bundle_adjust_between_problem s h bp m view_from view_to cam_from
              = Except.ok g1 →
            bundle_adjust_between s h bp S m view_from view_to cam_from = Except.ok m' →
            ∀ idx ∈ g1.lnIdx2Opt, ∀ ln0, vecAt m.idealLines idx = some ln0 →
              ∃ (vid : Int) (v : Vertex) (e : Vec3) (ln' : IdealLine3d),
                findVertex (runOptimizer S g1).vertices vid = some v
                ∧ gidOf (runOptimizer S g1).lnvid2gid vid = idx
                ∧ v.fixed = false ∧ v.estimate = Estimate.vec e
                ∧ vecAt m'.idealLines idx = some ln' ∧ ln'.midpt = e) := by
  refine ⟨rfl, rfl, rfl, rfl, swappedLine_fixed_overwritten.1,
    swappedLine_fixed_overwritten.2, ?_⟩
  intro s h bp S m hproj
  refine ⟨fun vps e ln => updateLine_midpt h hproj vps e ln, ?_, ?_⟩
  · intro hm numPos numFrm g1 m' hg1 hm' idx hidx ln0 hln0
    obtain ⟨g1', hg1', _, hlines, _⟩ := adjustBundle_G2O_ok s h bp S m numPos numFrm m' hm'
    rw [hg1] at hg1'
    cases hg1'
    obtain ⟨_, _, hmap, _, hvert, hnd⟩ := problem_writer s h bp S m numPos numFrm g1 hm hg1
    obtain ⟨vid, v, e, h1, h2, h3, h4, h5⟩ :=
      (writeBack_lines h S m g1 hmap (fun vid hvid => hvert vid (by simp [hvid])) hnd).1
        idx hidx ln0 hln0
    refine ⟨vid, v, e,
      updateLine h (writeBack h (runOptimizer S g1) m).vanishingPoints e ln0,
      h1, h2, h3, h4, ?_, updateLine_midpt h hproj _ e ln0⟩
    rw [hlines]
    exact h5
  · intro hm vf vt cf g1 m' hg1 hm' idx hidx ln0 hln0
    obtain ⟨g1', hg1', hw⟩ := bundle_adjust_between_ok s h bp S m vf vt cf m' hm'
    rw [hg1] at hg1'
    cases hg1'
    unfold bundle_adjust_between_problem bundle_adjust_between_vertices at hg1
    cases hc : bundle_adjust_between_cameras m vf vt cf with
    | error e => rw [hc] at hg1; cases hg1
    | ok g0 =>
      rw [hc] at hg1
      simp only [] at hg1
      unfold bundle_adjust_between_cameras at hc
      obtain ⟨_, _, hmap, _, hvert, hnd⟩ :=
        writer_of_cameras true s h bp S m _ _ _ _ _ _ _ _ _ _ _ g0 g1 hm hc hg1
      obtain ⟨vid, v, e, h1, h2, h3, h4, h5⟩ :=
        (writeBack_lines h S m g1 hmap (fun vid hvid => hvert vid (by simp [hvid])) hnd).1
          idx hidx ln0 hln0
      refine ⟨vid, v, e,
        updateLine h (writeBack h (runOptimizer S g1) m).vanishingPoints e ln0,
        h1, h2, h3, h4, ?_, updateLine_midpt h hproj _ e ln0⟩
      rw [hw]
      exact h5

/-- C22 (as the code does it): on a map whose landmarks carry their index as gid, after
the Result Writer of `adjustBundle_G2O` every free 3D ideal line (every index of
`lnIdx2Opt`) has as stored direction the normalised post-solve direction of its vanishing
point, and every other ideal line (fixed, or outside the window) is stored exactly as
before the call, its direction included. -/
theorem C22_line_direction (s : MfgSettings) (h : Helpers) (bp : Mat3 → VanishPnt2d → Vec3)
    (S : G2oSolver) (m : Map) (numPos numFrm : Int) (g1 : Graph) (m' : Map)
    (hm : GidIsIndex m)
    (hg1 : adjustBundle_G2O_problem s h bp m numPos numFrm = Except.ok g1)
    (hm' : adjustBundle_G2O s h bp S m numPos numFrm = Except.ok m') :
    (∀ idx ∈ g1.lnIdx2Opt, ∀ ln0, vecAt m.idealLines idx = some ln0 →
      ∃ ln', vecAt m'.idealLines idx = some ln'
        ∧ ∀ vp, vecAt m'.vanishingPoints ln0.vpGid = some vp →
          ln'.direct = ⟨vp.x / h.norm ⟨vp.x, vp.y, vp.z⟩, vp.y / h.norm ⟨vp.x, vp.y, vp.z⟩,
            vp.z / h.norm ⟨vp.x, vp.y, vp.z⟩⟩)
    ∧ ∀ idx, idx ∉ g1.lnIdx2Opt → vecAt m'.idealLines idx = vecAt m.idealLines idx := by
  obtain ⟨g1', hg1', _, hlines, hvps, _⟩ := adjustBundle_G2O_ok s h bp S m numPos numFrm m' hm'
  rw [hg1] at hg1'
  cases hg1'
  obtain ⟨_, _, hmap, _, hvert, hnd⟩ := problem_writer s h bp S m numPos numFrm g1 hm hg1
  obtain ⟨w1, w2⟩ :=
    writeBack_lines h S m g1 hmap (fun vid hvid => hvert vid (by simp [hvid])) hnd
  constructor
  · intro idx hidx ln0 hln0
    obtain ⟨vid, v, e, h1, h2, h3, h4, h5⟩ := w1 idx hidx ln0 hln0
    refine ⟨_, by rw [hlines]; exact h5, ?_⟩
    intro vp hvp
    rw [hvps] at hvp
    exact updateLine_direct h _ e ln0 vp hvp
  · intro idx hidx
    rw [hlines]
    exact w2 idx hidx

theorem C22_line_direction_witness :
    planeLineProblem.lnIdx2Opt = [0]
    ∧ (∀ idx ∈ planeLineProblem.lnIdx2Opt, ∀ ln0,
        vecAt planeLineMap.idealLines idx = some ln0 →
        ∃ ln', vecAt planeLineResult.idealLines idx = some ln'
          ∧ ∀ vp, vecAt planeLineResult.vanishingPoints ln0.vpGid = some vp →
            ln'.direct = ⟨vp.x / sampleHelpers.norm ⟨vp.x, vp.y, vp.z⟩,
              vp.y / sampleHelpers.norm ⟨vp.x, vp.y, vp.z⟩,
              vp.z / sampleHelpers.norm ⟨vp.x, vp.y, vp.z⟩⟩)
    ∧ ∀ idx, idx ∉ planeLineProblem.lnIdx2Opt →
        vecAt planeLineResult.idealLines idx = vecAt planeLineMap.idealLines idx :=
  ⟨rfl, C22_line_direction scenarioSettings sampleHelpers (fun _ _ => ⟨0, 0, 1⟩) liftSolver
    planeLineMap 3 5 planeLineProblem planeLineResult gidIsIndex_planeLineMap
    planeLineProblem_eq planeLineResult_eq⟩

/-- C22 as stated fails: on the six-view map with the fixed line `staleLine` along the
free vanishing point 0, a solve that moves the vanishing point from `(0, 0, 1)` to
`(9, 9, 9)` stores the new vanishing point and leaves the direction of the line at
`(0, 0, 1)`. -/
theorem C22_counterexample :
    (adjustBundle_G2O_problem scenarioSettings sampleHelpers (fun _ _ => ⟨0, 0, 1⟩)
        staleLineMap 3 5).map (fun g => (g.lnIdx2Opt, g.lnIdx2Rpj_notOpt, g.vpIdx2Opt))
      = Except.ok ([], [0], [0])
    ∧ (adjustBundle_G2O scenarioSettings sampleHelpers (fun _ _ => ⟨0, 0, 1⟩) liftSolver
        staleLineMap 3 5).map (fun m' =>
          (m'.vanishingPoints.map (fun v => (v.x, v.y, v.z)),
           m'.idealLines.map (fun l => l.direct)))
      = Except.ok ([(9, 9, 9)], [⟨0, 0, 1⟩]) :=
  ⟨rfl, rfl⟩

/-! ## The residual array, loop by loop -/

/-- A loop whose steps append to a list what `E` says of the element, where `E` does not
change along a reflexive and transitive relation the steps establish. -/
theorem foldl_closed {σ α β : Type} (f : σ → α → σ) (R : σ → σ → Prop) (out : σ → List β)
    (E : σ → α → List β) (hrefl : ∀ s, R s s) (htrans : ∀ a b c, R a b → R b c → R a c)
    (hE : ∀ a b x, R a b → E b x = E a x)
    (hstep : ∀ s x, R s (f s x) ∧ out (f s x) = out s ++ E s x)
    (xs : List α) (s : σ) :
    R s (xs.foldl f s) ∧ out (xs.foldl f s) = out s ++ xs.flatMap (E s) := by
  induction xs generalizing s with
  | nil => exact ⟨hrefl _, by simp⟩
  | cons x rest ih =>
    simp only [List.foldl_cons]
    obtain ⟨r1, o1⟩ := hstep s x
    obtain ⟨r2, o2⟩ := ih (f s x)
    refine ⟨htrans _ _ _ r1 r2, ?_⟩
    rw [o2, o1, List.flatMap_cons, List.append_assoc]
    congr 2
    apply List.flatMap_congr
    intro y _
    exact hE s (f s x) y r1

/-- The same for a loop that advances an offset by the length of each element and whose
output depends on the offset it finds. -/
theorem foldl_closed_off {σ α β : Type} (f : σ → α → σ) (R : σ → σ → Prop)
    (off : σ → Nat) (out : σ → List β) (len : α → Nat) (E : σ → α → Nat → List β)
    (hrefl : ∀ s, R s s) (htrans : ∀ a b c, R a b → R b c → R a c)
    (hE : ∀ a b x o, R a b → E b x o = E a x o)
    (hstep : ∀ s x, R s (f s x) ∧ off (f s x) = off s + len x
      ∧ out (f s x) = out s ++ E s x (off s))
    (xs : List α) (s : σ) :
    R s (xs.foldl f s)
    ∧ out (xs.foldl f s)
      = out s ++ (xs.zip (offsets (off s) (xs.map len))).flatMap (fun q => E s q.1 q.2) := by
  induction xs generalizing s with
  | nil => exact ⟨hrefl _, by simp [offsets]⟩
  | cons x rest ih =>
    simp only [List.foldl_cons, List.map_cons, offsets, List.zip_cons_cons,
      List.flatMap_cons]
    obtain ⟨r1, f1, o1⟩ := hstep s x
    obtain ⟨r2, o2⟩ := ih (f s x)
    refine ⟨htrans _ _ _ r1 r2, ?_⟩
    rw [o2, o1, f1, List.append_assoc]
    congr 2
    apply List.flatMap_congr
    intro q _
    exact hE s (f s x) q.1 q.2 r1

theorem costPtObs_error (c : CostHelpers) (m : Map) (d : PtLnVp) (X : Vec3) (st : CostState)
    (o : Int × Int) :
    (costPtObs c m d X st o).error = st.error ++ ptResidual c m d st.cams X o := by
  unfold costPtObs ptResidual
  split_ifs
  · rfl
  · simp

theorem costPtObs_fold_error (c : CostHelpers) (m : Map) (d : PtLnVp) (X : Vec3)
    (obs : List (Int × Int)) (st : CostState) :
    (obs.foldl (costPtObs c m d X) st).error
      = st.error ++ obs.flatMap (ptResidual c m d st.cams X) := by
  have := foldl_closed (costPtObs c m d X) (fun a b => b.cams = a.cams)
    (fun s => s.error) (fun s o => ptResidual c m d s.cams X o) (fun _ => rfl)
    (fun _ _ _ h1 h2 => h2.trans h1)
    (fun a b x hab => by simp only [hab])
    (fun s o => ⟨congrArg (fun t => t.2.2.1) (costPtObs_keeps c m d X s o),
      costPtObs_error c m d X s o⟩) obs st
  exact this.2

theorem costSegment_error (c : CostHelpers) (lneq : Vec3) (ls : List Pt2) (st : CostState) :
    (costSegment c lneq ls st).error = st.error ++ segResidual c lneq ls := by
  unfold costSegment segResidual
  generalize pairSteps ls.length = ks
  induction ks generalizing st with
  | nil => simp
  | cons k rest ih =>
    rw [List.foldl_cons, ih]
    simp


/-- The loop over `kptIdx2Opt`, one step. -/
theorem costPoint_closed (c : CostHelpers) (m : Map) (d : PtLnVp) (p : List Rat)
    (st : CostState) (idx : Int) :
    ((costPoint c m d p st idx).cams = st.cams ∧ (costPoint c m d p st idx).VPs = st.VPs)
    ∧ (costPoint c m d p st idx).pidx = st.pidx + 3
    ∧ (costPoint c m d p st idx).error
        = st.error ++ freePtResiduals c m d p st.cams idx st.pidx := by
  have hk := foldl_keeps (costPtObs c m d ⟨rd p st.pidx, rd p (st.pidx + 1), rd p (st.pidx + 2)⟩)
    (fun s => (s.pidx, s.reads, s.cams, s.VPs)) (fun s o => costPtObs_keeps c m d _ s o)
  simp only [Prod.mk.injEq] at hk
  unfold costPoint freePtResiduals kptObs
  simp only []
  refine ⟨⟨(hk _ _).2.2.1, (hk _ _).2.2.2⟩, ?_, ?_⟩
  · rw [(hk _ _).1]
  · exact costPtObs_fold_error c m d _ _ st

/-- The loop over `kptIdx2Rpj_notOpt`, one step. -/
theorem costFixedPoint_closed (c : CostHelpers) (m : Map) (d : PtLnVp) (st : CostState)
    (idx : Int) :
    ((costFixedPoint c m d st idx).cams = st.cams ∧ (costFixedPoint c m d st idx).VPs = st.VPs)
    ∧ (costFixedPoint c m d st idx).pidx = st.pidx
    ∧ (costFixedPoint c m d st idx).error = st.error ++ fixedPtResiduals c m d st.cams idx := by
  unfold costFixedPoint fixedPtResiduals
  cases hv : vecAt m.keyPoints idx with
  | none => simp
  | some kp =>
    have hk := foldl_keeps (costPtObs c m d ⟨kp.x, kp.y, kp.z⟩)
      (fun s => (s.pidx, s.reads, s.cams, s.VPs)) (fun s o => costPtObs_keeps c m d _ s o)
      kp.viewId_ptLid st
    simp only [Prod.mk.injEq] at hk
    exact ⟨⟨hk.2.2.1, hk.2.2.2⟩, hk.1, costPtObs_fold_error c m d _ _ st⟩

/-- The loop over the observations of one line: the segments are projected with the
poses `cams`, which the loop does not change. -/
theorem costObs_closed (c : CostHelpers) (m : Map) (d : PtLnVp)
    (lneq : Option (Mat3 × Vec3) → Vec3) (obs : List (Int × Int)) (st : CostState) :
    ((obs.foldl (fun (s : CostState) (o : Int × Int) =>
        if d.frontFrmIdx ≤ o.1 then
          costSegment c (lneq (costPs m d s.cams o.1)) (segmentAt m o.1 o.2) s
        else s) st).pidx = st.pidx
      ∧ (obs.foldl (fun (s : CostState) (o : Int × Int) =>
        if d.frontFrmIdx ≤ o.1 then
          costSegment c (lneq (costPs m d s.cams o.1)) (segmentAt m o.1 o.2) s
        else s) st).cams = st.cams
      ∧ (obs.foldl (fun (s : CostState) (o : Int × Int) =>
        if d.frontFrmIdx ≤ o.1 then
          costSegment c (lneq (costPs m d s.cams o.1)) (segmentAt m o.1 o.2) s
        else s) st).VPs = st.VPs)
    ∧ (obs.foldl (fun (s : CostState) (o : Int × Int) =>
        if d.frontFrmIdx ≤ o.1 then
          costSegment c (lneq (costPs m d s.cams o.1)) (segmentAt m o.1 o.2) s
        else s) st).error
      = st.error ++ obs.flatMap (fun o =>
          if d.frontFrmIdx ≤ o.1 then
            segResidual c (lneq (costPs m d st.cams o.1)) (segmentAt m o.1 o.2)
          else []) := by
  have hT : ∀ a b e : CostState, (b.pidx = a.pidx ∧ b.cams = a.cams ∧ b.VPs = a.VPs) →
      (e.pidx = b.pidx ∧ e.cams = b.cams ∧ e.VPs = b.VPs) →
      (e.pidx = a.pidx ∧ e.cams = a.cams ∧ e.VPs = a.VPs) :=
    fun _ _ _ h1 h2 => ⟨h2.1.trans h1.1, h2.2.1.trans h1.2.1, h2.2.2.trans h1.2.2⟩
  refine foldl_closed _
    (fun (a b : CostState) => b.pidx = a.pidx ∧ b.cams = a.cams ∧ b.VPs = a.VPs)
    (fun s => s.error)
    (fun s o => if d.frontFrmIdx ≤ o.1 then
        segResidual c (lneq (costPs m d s.cams o.1)) (segmentAt m o.1 o.2) else [])
    (fun _ => ⟨rfl, rfl, rfl⟩) hT
    (fun a b x hab => by simp only [hab.2.1]) ?_ obs st
  intro s o
  simp only []
  split_ifs
  · have hk := costSegment_keeps c (lneq (costPs m d s.cams o.1)) (segmentAt m o.1 o.2) s
    simp only [Prod.mk.injEq] at hk
    exact ⟨⟨hk.1, hk.2.2.1, hk.2.2.2⟩, costSegment_error c _ _ s⟩
  · exact ⟨⟨rfl, rfl, rfl⟩, by simp⟩

/-- The loop over `idlIdx2Opt`, one step. -/
theorem costLine_closed (c : CostHelpers) (m : Map) (d : PtLnVp) (p : List Rat)
    (st : CostState) (idx : Int) :
    ((costLine c m d p st idx).cams = st.cams ∧ (costLine c m d p st idx).VPs = st.VPs)
    ∧ (costLine c m d p st idx).pidx = st.pidx + 3
    ∧ (costLine c m d p st idx).error
        = st.error ++ freeLineResiduals c m d p st.cams st.VPs idx st.pidx := by
  unfold costLine freeLineResiduals
  simp only []
  cases hv : vecAt m.idealLines idx with
  | none => simp
  | some ln =>
    simp only []
    obtain ⟨⟨h1, h2, h3⟩, h4⟩ := costObs_closed c m d
      (fun P => c.lineThrough m.K P ⟨rd p st.pidx, rd p (st.pidx + 1), rd p (st.pidx + 2)⟩
        ((vecAt st.VPs ln.vpGid).getD ⟨0, 0, 0⟩)) ln.viewId_lnLid
      { st with pidx := st.pidx + 3, reads := st.reads ++ [(Block.line idx, st.pidx)] }
    exact ⟨⟨h2, h3⟩, h1, h4⟩

/-- The loop over `idlIdx2Rpj_notOpt`, one step. -/
theorem costFixedLine_closed (c : CostHelpers) (m : Map) (d : PtLnVp) (st : CostState)
    (idx : Int) :
    ((costFixedLine c m d st idx).cams = st.cams ∧ (costFixedLine c m d st idx).VPs = st.VPs)
    ∧ (costFixedLine c m d st idx).pidx = st.pidx
    ∧ (costFixedLine c m d st idx).error = st.error ++ fixedLineResiduals c m d st.cams idx := by
  unfold costFixedLine fixedLineResiduals
  cases hv : vecAt m.idealLines idx with
  | none => simp
  | some ln =>
    simp only []
    obtain ⟨⟨h1, h2, h3⟩, h4⟩ := costObs_closed c m d
      (fun P => c.projectLine m.K P ln) ln.viewId_lnLid st
    exact ⟨⟨h2, h3⟩, h1, h4⟩

/-- The residual array `error` of `costFun_BA_PtLnVp` in closed form: the residuals of the
points of `kptIdx2Opt` (positions read from `p`), of the points of `kptIdx2Rpj_notOpt`
(stored positions), of the lines of `idlIdx2Opt` and of the lines of `idlIdx2Rpj_notOpt`,
in this order; `o1` and `o2` are the offsets of the first point block and of the first
line block. -/
theorem costFun_error (h : Helpers) (c : CostHelpers) (m : Map) (d : PtLnVp) (p : List Rat) :
    ∃ o1 o2 : Nat,
      (costFun_BA_PtLnVp h c m d p).error
        = (d.kptIdx2Opt.zip (offsets o1 (d.kptIdx2Opt.map (fun _ => 3)))).flatMap
            (fun q => freePtResiduals c m d p (costFun_BA_PtLnVp h c m d p).cams q.1 q.2)
          ++ d.kptIdx2Rpj_notOpt.flatMap
              (fixedPtResiduals c m d (costFun_BA_PtLnVp h c m d p).cams)
          ++ (d.idlIdx2Opt.zip (offsets o2 (d.idlIdx2Opt.map (fun _ => 3)))).flatMap
              (fun q => freeLineResiduals c m d p (costFun_BA_PtLnVp h c m d p).cams
                (costFun_BA_PtLnVp h c m d p).VPs q.1 q.2)
          ++ d.idlIdx2Rpj_notOpt.flatMap
              (fixedLineResiduals c m d (costFun_BA_PtLnVp h c m d p).cams) := by
  have hR : ∀ s : CostState, (fun a b : CostState => b.cams = a.cams ∧ b.VPs = a.VPs) s s :=
    fun _ => ⟨rfl, rfl⟩
  have hT : ∀ a b e : CostState, (b.cams = a.cams ∧ b.VPs = a.VPs) →
      (e.cams = b.cams ∧ e.VPs = b.VPs) → (e.cams = a.cams ∧ e.VPs = a.VPs) :=
    fun _ _ _ h1 h2 => ⟨h2.1.trans h1.1, h2.2.trans h1.2⟩
  -- stage 1: the poses
  generalize hs1 : (intRange d.frontPosIdx (m.views.length : Int)).foldl (costCam h p)
    { pidx := 0, cams := [], VPs := [], error := [], err_pt_vec := [], err_ln_vec := [],
      reads := [] } = s1
  have e1 : s1.error = [] := by
    rw [← hs1]
    exact foldl_keeps (costCam h p) (fun s => s.error)
      (fun s i => by unfold costCam; split_ifs <;> rfl) _ _
  -- stage 2: the free points
  obtain ⟨r2, x2⟩ := foldl_closed_off (costPoint c m d p)
    (fun a b => b.cams = a.cams ∧ b.VPs = a.VPs) (fun s => s.pidx) (fun s => s.error)
    (fun _ => 3) (fun s idx off => freePtResiduals c m d p s.cams idx off) hR hT
    (fun a b x o hab => by simp only [hab.1])
    (fun s x => ⟨(costPoint_closed c m d p s x).1, (costPoint_closed c m d p s x).2⟩)
    d.kptIdx2Opt s1
  -- stage 3: the fixed points
  obtain ⟨r3, x3⟩ := foldl_closed (costFixedPoint c m d)
    (fun a b => b.cams = a.cams ∧ b.VPs = a.VPs) (fun s => s.error)
    (fun s idx => fixedPtResiduals c m d s.cams idx) hR hT
    (fun a b x hab => by simp only [hab.1])
    (fun s x => ⟨(costFixedPoint_closed c m d s x).1, (costFixedPoint_closed c m d s x).2.2⟩)
    d.kptIdx2Rpj_notOpt (d.kptIdx2Opt.foldl (costPoint c m d p) s1)
  -- stage 4: the vanishing points
  generalize hs3 : d.kptIdx2Rpj_notOpt.foldl (costFixedPoint c m d)
    (d.kptIdx2Opt.foldl (costPoint c m d p) s1) = s3 at r3 x3
  generalize hs4 : (intRange 0 (m.vanishingPoints.length : Int)).foldl (costVnpt p) s3 = s4
  have e4 : s4.error = s3.error ∧ s4.cams = s3.cams := by
    rw [← hs4]
    exact ⟨foldl_keeps (costVnpt p) (fun s => s.error) (fun s i => rfl) _ _,
      foldl_keeps (costVnpt p) (fun s => s.cams) (fun s i => rfl) _ _⟩
  -- stage 5: the free lines
  obtain ⟨r5, x5⟩ := foldl_closed_off (costLine c m d p)
    (fun a b => b.cams = a.cams ∧ b.VPs = a.VPs) (fun s => s.pidx) (fun s => s.error)
    (fun _ => 3) (fun s idx off => freeLineResiduals c m d p s.cams s.VPs idx off) hR hT
    (fun a b x o hab => by simp only [hab.1, hab.2])
    (fun s x => ⟨(costLine_closed c m d p s x).1, (costLine_closed c m d p s x).2⟩)
    d.idlIdx2Opt s4
  -- stage 6: the fixed lines
  obtain ⟨r6, x6⟩ := foldl_closed (costFixedLine c m d)
    (fun a b => b.cams = a.cams ∧ b.VPs = a.VPs) (fun s => s.error)
    (fun s idx => fixedLineResiduals c m d s.cams idx) hR hT
    (fun a b x hab => by simp only [hab.1])
    (fun s x => ⟨(costFixedLine_closed c m d s x).1, (costFixedLine_closed c m d s x).2.2⟩)
    d.idlIdx2Rpj_notOpt (d.idlIdx2Opt.foldl (costLine c m d p) s4)
  have hfin : costFun_BA_PtLnVp h c m d p
      = d.idlIdx2Rpj_notOpt.foldl (costFixedLine c m d)
          (d.idlIdx2Opt.foldl (costLine c m d p) s4) := by
    unfold costFun_BA_PtLnVp
    simp only []
    rw [hs1, hs3, hs4]
  refine ⟨s1.pidx, s4.pidx, ?_⟩
  rw [hfin, x6, x5, e4.1, x3, x2, e1]
  have c6 := r6.1
  have c5 := r5.1
  have v6 := r6.2
  have v5 := r5.2
  have c3 := r3.1
  have c2 := r2.1
  simp only [] at c6 c5 v6 v5 c3 c2
  have hc4 : (d.idlIdx2Rpj_notOpt.foldl (costFixedLine c m d)
      (d.idlIdx2Opt.foldl (costLine c m d p) s4)).cams = s4.cams := c6.trans c5
  have hv4 : (d.idlIdx2Rpj_notOpt.foldl (costFixedLine c m d)
      (d.idlIdx2Opt.foldl (costLine c m d p) s4)).VPs = s4.VPs := v6.trans v5
  have hc1 : s4.cams = s1.cams := e4.2.trans (c3.trans c2)
  rw [hc4, hv4, hc1]
  simp only [List.nil_append, c5, c2]
  rw [hc1]

/-! ## The number of residuals -/

theorem length_flatMap_filterMap {α β γ δ : Type} (xs : List α) (F : α → List β)
    (g : α → Option γ) (G : γ → List δ)
    (h : ∀ x, (F x).length = match g x with
      | none => 0
      | some y => (G y).length) :
    (xs.flatMap F).length = ((xs.filterMap g).flatMap G).length := by
  induction xs with
  | nil => rfl
  | cons x rest ih =>
    rw [List.flatMap_cons, List.length_append, ih, h x, List.filterMap_cons]
    cases g x with
    | none => simp
    | some y => simp

theorem length_flatMap_zip {α β γ δ : Type} (xs : List α) (offs : List Nat)
    (F : α → Nat → List β) (g : α → Option γ) (G : γ → List δ)
    (hlen : offs.length = xs.length)
    (h : ∀ x o, (F x o).length = match g x with
      | none => 0
      | some y => (G y).length) :
    ((xs.zip offs).flatMap (fun q => F q.1 q.2)).length
      = ((xs.filterMap g).flatMap G).length := by
  induction xs generalizing offs with
  | nil => rfl
  | cons x rest ih =>
    cases offs with
    | nil => simp at hlen
    | cons o os =>
      simp only [List.length_cons, add_left_inj] at hlen
      rw [List.zip_cons_cons, List.flatMap_cons, List.length_append, ih os hlen, h x o,
        List.filterMap_cons]
      cases g x with
      | none => simp
      | some y => simp

theorem length_flatMap_congr {α β γ : Type} (xs : List α) (F : α → List β) (G : α → List γ)
    (h : ∀ x ∈ xs, (F x).length = (G x).length) :
    (xs.flatMap F).length = (xs.flatMap G).length := by
  induction xs with
  | nil => rfl
  | cons x rest ih =>
    rw [List.flatMap_cons, List.flatMap_cons, List.length_append, List.length_append,
      h x (List.mem_cons_self _ _), ih (fun y hy => h y (List.mem_cons_of_mem _ hy))]

theorem segResidual_length (c : CostHelpers) (lneq : Vec3) (ls : List Pt2) :
    (segResidual c lneq ls).length = 2 * ((ls.length + 1) / 2) := by
  unfold segResidual pairSteps
  generalize (ls.length + 1) / 2 = n
  induction n with
  | zero => rfl
  | succ k ih =>
    rw [List.range_succ, List.map_append, List.flatMap_append, List.length_append, ih]
    simp
    omega

theorem ptResidual_length (c : CostHelpers) (m : Map) (d : PtLnVp)
    (cams : List (Int × Mat3 × Vec3)) (X : Vec3) (o : Int × Int) :
    (ptResidual c m d cams X o).length = (obsMeas d.frontFrmIdx o).length := by
  unfold ptResidual obsMeas
  split_ifs <;> rfl

/-- The sampled end points of an observed segment, in a map whose observed 2D lines all
have an even number of them. -/
theorem segmentAt_even (m : Map)
    (heven : ∀ v ∈ m.views, ∀ l ∈ v.idealLines, l.lsEndpoints.length % 2 = 0)
    (vid lid : Int) : (segmentAt m vid lid).length % 2 = 0 := by
  unfold segmentAt
  cases hv : vecAt m.views vid with
  | none => rfl
  | some v =>
    simp only []
    cases hl : vecAt v.idealLines lid with
    | none => rfl
    | some l =>
      simp only []
      have hvm : v ∈ m.views := by
        unfold vecAt at hv
        split_ifs at hv
        exact List.getElem?_mem hv
      have hlm : l ∈ v.idealLines := by
        unfold vecAt at hl
        split_ifs at hl
        exact List.getElem?_mem hl
      exact heven v hvm l hlm

theorem lineObs_length (c : CostHelpers) (m : Map) (ff : Int)
    (heven : ∀ v ∈ m.views, ∀ l ∈ v.idealLines, l.lsEndpoints.length % 2 = 0)
    (lneq : Int × Int → Vec3) (ln : IdealLine3d) :
    (ln.viewId_lnLid.flatMap (fun o =>
        if ff ≤ o.1 then segResidual c (lneq o) (segmentAt m o.1 o.2) else [])).length
      = (idlMeas m.views ff ln).length := by
  unfold idlMeas
  apply length_flatMap_congr
  intro o _
  split_ifs
  · rw [segResidual_length]
    have he := segmentAt_even m heven o.1 o.2
    have hs : (match vecAt m.views o.1 with
        | none => ([] : List Rat)
        | some v =>
          match vecAt v.idealLines o.2 with
          | none => []
          | some l2 => l2.lsEndpoints.map (fun _ => 0)).length
        = (segmentAt m o.1 o.2).length := by
      unfold segmentAt
      cases vecAt m.views o.1 with
      | none => rfl
      | some v =>
        simp only []
        cases vecAt v.idealLines o.2 with
        | none => rfl
        | some l => simp
    exact Eq.trans (by omega) hs.symm
  · rfl

/-- The number of entries the cost function writes, for any index lists `d`: the length
of the measurement vector formed from the same lists. -/
theorem costFun_error_length (h : Helpers) (c : CostHelpers) (m : Map) (d : PtLnVp)
    (p : List Rat)
    (heven : ∀ v ∈ m.views, ∀ l ∈ v.idealLines, l.lsEndpoints.length % 2 = 0) :
    (costFun_BA_PtLnVp h c m d p).error.length = (ptLnVp_measVec m d).length := by
  obtain ⟨o1, o2, he⟩ := costFun_error h c m d p
  rw [he]
  unfold ptLnVp_measVec
  simp only [List.length_append]
  congr 1
  congr 1
  congr 1
  · apply length_flatMap_zip
    · rw [offsets_length, List.length_map]
    · intro idx off
      unfold freePtResiduals kptObs
      cases vecAt m.keyPoints idx with
      | none => rfl
      | some kp =>
        simp only []
        unfold kptMeas
        exact length_flatMap_congr _ _ _ (fun o _ => ptResidual_length c m d _ _ o)
  · apply length_flatMap_filterMap
    intro idx
    unfold fixedPtResiduals
    cases vecAt m.keyPoints idx with
    | none => rfl
    | some kp =>
      simp only []
      unfold kptMeas
      exact length_flatMap_congr _ _ _ (fun o _ => ptResidual_length c m d _ _ o)
  · apply length_flatMap_zip
    · rw [offsets_length, List.length_map]
    · intro idx off
      unfold freeLineResiduals
      cases vecAt m.idealLines idx with
      | none => rfl
      | some ln =>
        simp only []
        exact lineObs_length c m d.frontFrmIdx heven _ ln
  · apply length_flatMap_filterMap
    intro idx
    unfold fixedLineResiduals
    cases vecAt m.idealLines idx with
    | none => rfl
    | some ln =>
      simp only []
      exact lineObs_length c m d.frontFrmIdx heven _ ln

/-- C29: in `adjustBundle_PtLnVp`, on a map in which every observed 2D line has an even
number of sampled end points, the number of entries the cost function
`costFun_BA_PtLnVp` writes into `error` (its final `eidx`), for every parameter array, is
`numMeas`, the length of the measurement vector the caller allocates. -/
theorem C29_residual_count (h : Helpers) (c : CostHelpers) (m : Map) (p : List Rat)
    (heven : ∀ v ∈ m.views, ∀ l ∈ v.idealLines, l.lsEndpoints.length % 2 = 0) :
    (costFun_BA_PtLnVp h c m (ptLnVp_vectorize h m) p).error.length
      = (ptLnVp_vectorize h m).measVec.length := by
  rw [costFun_error_length h c m (ptLnVp_vectorize h m) p heven]
  rfl

theorem C29_residual_count_witness :
    (∀ v ∈ originLineMap.views, ∀ l ∈ v.idealLines, l.lsEndpoints.length % 2 = 0)
    ∧ (ptLnVp_vectorize sampleHelpers originLineMap).measVec.length = 4
    ∧ (costFun_BA_PtLnVp sampleHelpers sampleCostHelpers originLineMap
        (ptLnVp_vectorize sampleHelpers originLineMap) shiftedLineOutcome.para).error.length
      = (ptLnVp_vectorize sampleHelpers originLineMap).measVec.length :=
  ⟨by decide, rfl, C29_residual_count sampleHelpers sampleCostHelpers originLineMap
    shiftedLineOutcome.para (by decide)⟩

/-! ## The views behind the residual edges -/

theorem vecAt_map {α β : Type} (f : α → β) (xs : List α) (i : Int) :
    vecAt (xs.map f) i = (vecAt xs i).map f := by
  unfold vecAt
  split_ifs
  · rfl
  · simp

theorem unmatchableProblem_eq :
    adjustBundle_G2O_problem scenarioSettings sampleHelpers (fun _ _ => ⟨0, 0, 1⟩)
      unmatchableMap 3 5 = Except.ok unmatchableProblem := rfl

/-- The keys of `ptgid2vid` and `lngid2vid` after the structure loops, for a start state
with empty maps: the gids of the admitted key points and of the admitted ideal lines. -/
theorem addStructure_keys (cdt : Bool) (fp ff nw : Int) (m : Map) (g : Graph)
    (hpt : g.ptgid2vid = []) (hln : g.lngid2vid = []) :
    (∀ gid, (mapFind (addStructure cdt fp ff nw m g).ptgid2vid gid).isSome
      ↔ ∃ kp ∈ m.keyPoints,
          (kp.is3D = true ∧ 0 ≤ kp.gid ∧ ∃ o ∈ kp.viewId_ptLid, fp ≤ o.1) ∧ kp.gid = gid)
    ∧ (∀ gid, (mapFind (addStructure cdt fp ff nw m g).lngid2vid gid).isSome
      ↔ ∃ ln ∈ m.idealLines,
          (ln.is3D = true ∧ 0 ≤ ln.gid ∧ ∃ o ∈ ln.viewId_lnLid, fp ≤ o.1) ∧ ln.gid = gid) := by
  let g1 := addKeyPoints fp ff nw g 0 m.keyPoints
  let g2 := addVanishingPoints fp g1 0 m.vanishingPoints
  let g3 := addIdealLines cdt fp ff nw g2 0 m.idealLines
  have hfin : addStructure cdt fp ff nw m g = addPrimaryPlanes fp nw g3 0 m.primaryPlanes := rfl
  have f1 : g1.lngid2vid = g.lngid2vid :=
    indexedLoop_frame (addKeyPoint fp ff nw) (fun g => g.lngid2vid)
      (by intro st j x; unfold addKeyPoint; split_ifs <;> rfl) m.keyPoints g 0
  have f2 : (g2.ptgid2vid, g2.lngid2vid) = (g1.ptgid2vid, g1.lngid2vid) :=
    indexedLoop_frame (addVanishingPoint fp) (fun g => (g.ptgid2vid, g.lngid2vid))
      (by intro st j x; unfold addVanishingPoint; split_ifs <;> rfl) m.vanishingPoints g1 0
  have f3 : g3.ptgid2vid = g2.ptgid2vid :=
    indexedLoop_frame (addIdealLine cdt fp ff nw) (fun g => g.ptgid2vid)
      (by intro st j x; unfold addIdealLine; split_ifs <;> rfl) m.idealLines g2 0
  have f4 : ((addPrimaryPlanes fp nw g3 0 m.primaryPlanes).ptgid2vid,
      (addPrimaryPlanes fp nw g3 0 m.primaryPlanes).lngid2vid)
      = (g3.ptgid2vid, g3.lngid2vid) :=
    indexedLoop_frame (addPrimaryPlane fp nw) (fun g => (g.ptgid2vid, g.lngid2vid))
      (by intro st j x; unfold addPrimaryPlane; split_ifs <;> rfl) m.primaryPlanes g3 0
  simp only [Prod.mk.injEq] at f2 f4
  rw [hfin]
  constructor
  · intro gid
    rw [f4.1, f3, f2.1, addKeyPoints_keys, hpt]
    simp [mapFind]
  · intro gid
    rw [f4.2, addIdealLines_keys, f2.2, f1, hln]
    simp [mapFind]

/-! ## What the Result Writer of `adjustBundle_G2O` leaves alone -/

/-- An update of one element that keeps a projection of it keeps the projection of the
whole vector. -/
theorem map_vecModify {α β : Type} (proj : α → β) (xs : List α) (i : Int) (f : α → α)
    (hf : ∀ x, proj (f x) = proj x) : (vecModify xs i f).map proj = xs.map proj := by
  unfold vecModify
  split_ifs
  · rfl
  · cases hx : xs[i.toNat]? with
    | none => rfl
    | some x =>
      simp only []
      apply List.ext_getElem?
      intro n
      simp only [List.getElem?_map, List.getElem?_set]
      by_cases hn : i.toNat = n
      · subst hn
        simp only [if_true]
        have hlt := (List.getElem?_eq_some_iff.mp hx).1
        simp [hlt, hx, hf]
      · simp [hn]

theorem writePoint_obs (g : Graph) (vids : List Int) (kps : List KeyPoint3d) :
    (vids.foldl (writePoint g) kps).map (fun k => (k.gid, k.is3D, k.viewId_ptLid, k.estViewId))
      = kps.map (fun k => (k.gid, k.is3D, k.viewId_ptLid, k.estViewId)) := by
  induction vids generalizing kps with
  | nil => rfl
  | cons vid rest ih =>
    rw [List.foldl_cons, ih]
    unfold writePoint
    repeat' split
    all_goals first | rfl | exact map_vecModify _ _ _ _ (fun _ => rfl)

theorem writeVnpt_obs (g : Graph) (vids : List Int) (vps : List VanishPnt3d) :
    (vids.foldl (writeVnpt g) vps).map (fun k => (k.gid, k.viewId_vpLid))
      = vps.map (fun k => (k.gid, k.viewId_vpLid)) := by
  induction vids generalizing vps with
  | nil => rfl
  | cons vid rest ih =>
    rw [List.foldl_cons, ih]
    unfold writeVnpt
    repeat' split
    all_goals first | rfl | exact map_vecModify _ _ _ _ (fun _ => rfl)

theorem updateLine_obs (h : Helpers) (vps : List VanishPnt3d) (e : Vec3) (ln : IdealLine3d) :
    ((updateLine h vps e ln).gid, (updateLine h vps e ln).vpGid, (updateLine h vps e ln).is3D,
      (updateLine h vps e ln).viewId_lnLid, (updateLine h vps e ln).estViewId)
      = (ln.gid, ln.vpGid, ln.is3D, ln.viewId_lnLid, ln.estViewId) := by
  unfold updateLine
  simp only []
  split <;> rfl

theorem writeLine_obs (h : Helpers) (g : Graph) (vps : List VanishPnt3d) (vids : List Int)
    (lns : List IdealLine3d) :
    (vids.foldl (writeLine h g vps) lns).map
        (fun k => (k.gid, k.vpGid, k.is3D, k.viewId_lnLid, k.estViewId))
      = lns.map (fun k => (k.gid, k.vpGid, k.is3D, k.viewId_lnLid, k.estViewId)) := by
  induction vids generalizing lns with
  | nil => rfl
  | cons vid rest ih =>
    rw [List.foldl_cons, ih]
    unfold writeLine
    repeat' split
    all_goals first | rfl | exact map_vecModify _ _ _ _ (fun x => updateLine_obs h vps _ x)

/-- The camera loop of the Result Writer leaves `views[j]` alone when every listed vertex
that it would store into `views[j]` is fixed. -/
theorem writeCam_frame (g : Graph) (vids : List Int) (views : List View) (j : Int)
    (h : ∀ vid ∈ vids, (mapIndex g.camvid2fid vid).1 ≠ j
      ∨ ∀ v, findVertex g.vertices vid = some v → v.fixed = true) :
    vecAt (vids.foldl (writeCam g) views) j = vecAt views j := by
  induction vids generalizing views with
  | nil => rfl
  | cons vid rest ih =>
    rw [List.foldl_cons, ih _ (fun w hw => h w (List.mem_cons_of_mem _ hw))]
    unfold writeCam
    cases hv : findVertex g.vertices vid with
    | none => rfl
    | some v =>
      simp only []
      rcases h vid (List.mem_cons_self _ _) with hne | hfx
      · split_ifs
        · rfl
        · split
          · exact vecAt_vecModify_ne _ _ _ _ hne
          · rfl
      · rw [if_pos (hfx v hv)]

/-- Two vertex lists with the same ids and fixed flags, position by position, find
vertices with the same fixed flag. -/
theorem findVertex_of_flags (vs vs' : List Vertex)
    (h : vs.map (fun v => (v.id, v.kind, v.fixed)) = vs'.map (fun v => (v.id, v.kind, v.fixed)))
    (vid : Int) (v : Vertex) (hv : findVertex vs vid = some v) :
    ∃ v', findVertex vs' vid = some v' ∧ v'.fixed = v.fixed := by
  induction vs generalizing vs' with
  | nil => simp [findVertex] at hv
  | cons a rest ih =>
    cases vs' with
    | nil => simp at h
    | cons b rest' =>
      simp only [List.map_cons, List.cons.injEq, Prod.mk.injEq] at h
      obtain ⟨⟨h1, _, h3⟩, h4⟩ := h
      unfold findVertex at hv ⊢
      simp only [List.find?_cons] at hv ⊢
      by_cases ha : (a.id == vid) = true
      · rw [ha] at hv
        simp only [Option.some.injEq] at hv
        rw [← h1, ha]
        exact ⟨b, rfl, by rw [← h3, hv]⟩
      · have ha' : (a.id == vid) = false := by simpa using ha
        rw [ha'] at hv
        rw [← h1, ha']
        exact ih rest' h4 hv

/-- Every entry of `camvertVec` is a key of `camvid2fid` in the problem handed to the
solver. -/
theorem problem_camKeys (s : MfgSettings) (hp : Helpers) (bp : Mat3 → VanishPnt2d → Vec3)
    (m : Map) (numPos numFrm : Int) (g1 : Graph)
    (h : adjustBundle_G2O_problem s hp bp m numPos numFrm = Except.ok g1) :
    ∀ vid ∈ g1.camvertVec, ∃ fid, mapFind g1.camvid2fid vid = some fid := by
  unfold adjustBundle_G2O_problem adjustBundle_G2O_vertices at h
  cases hc : adjustBundle_G2O_cameras s m numPos numFrm with
  | error e => rw [hc] at h; cases h
  | ok g0 =>
    rw [hc] at h
    simp only [] at h
    obtain ⟨_, _, _, hcv, hcf⟩ := addEdges_writerFields s hp bp m _ _ _ g1 h
    have hcam := addStructure_camFields false (frontPosIdx m.views.length numPos)
      (frontFrmIdx m.views.length numFrm) (backId m.views) m g0
    simp only [camFields, Prod.mk.injEq] at hcam
    obtain ⟨mi', es, hg⟩ := cameraPart_closed m.views
      (frontVptIdx m.views.length numFrm s.baNumFramesVPoint) (m.views.length : Int)
      (frontPosIdx m.views.length numPos) 20 (camDistRows m.camdist_constraints numFrm)
    unfold adjustBundle_G2O_cameras at hc
    rw [hg] at hc
    injection hc with hc
    intro vid hvid
    rw [hcv, hcam.1, ← hc] at hvid
    rw [hcf, hcam.2.1, ← hc]
    simp only [List.mem_map, List.mem_range] at hvid
    obtain ⟨k, hk, rfl⟩ := hvid
    refine ⟨frontVptIdx m.views.length numFrm s.baNumFramesVPoint + (k : Int), ?_⟩
    unfold mapFind
    simp only []
    rw [lookup_camvid2fid]
    rw [if_pos ⟨by omega, by exact_mod_cast hk⟩]

/-- C20. The code at a failing input: on `swappedGidMap`, whose two key points carry each
other's index as gid, `keyPoints[1]` is admitted and fixed, and after the call its
position is the solver's estimate `(9, 9, 9)` of the free point instead of `(4, 5, 6)`.
What the code does keep, for every solver: the camera-distance log, the gid, the flags
and the observation lists of every key point, vanishing point and ideal line, the pose of
every view to which `camvid2fid` binds no vertex that is not fixed; and, on a map whose
landmarks carry their index as gid, every key point outside `kptIdx2Opt`, every ideal
line outside `lnIdx2Opt` and every plane outside `plIdx2Opt`. -/
theorem C20_frame :
    (adjustBundle_G2O_problem scenarioSettings sampleHelpers (fun _ _ => ⟨0, 0, 1⟩)
        swappedGidMap 3 5).map (fun g => (g.kptIdx2Opt, g.kptIdx2Rpj_notOpt))
      = Except.ok ([0], [1])
    ∧ (vecAt swappedGidMap.keyPoints 1).map (fun k => (k.x, k.y, k.z)) = some (4, 5, 6)
    ∧ (adjustBundle_G2O scenarioSettings sampleHelpers (fun _ _ => ⟨0, 0, 1⟩) liftSolver
        swappedGidMap 3 5).map (fun m' => (vecAt m'.keyPoints 1).map (fun k => (k.x, k.y, k.z)))
      = Except.ok (some (9, 9, 9))
    ∧ ∀ (s : MfgSettings) (hp : Helpers) (bp : Mat3 → VanishPnt2d → Vec3) (S : G2oSolver)
        (m : Map) (numPos numFrm : Int) (g1 : Graph) (m' : Map),
        adjustBundle_G2O_problem s hp bp m numPos numFrm = Except.ok g1 →
        adjustBundle_G2O s hp bp S m numPos numFrm = Except.ok m' →
        m'.camdist_constraints = m.camdist_constraints
        ∧ m'.keyPoints.map (fun k => (k.gid, k.is3D, k.viewId_ptLid, k.estViewId))
            = m.keyPoints.map (fun k => (k.gid, k.is3D, k.viewId_ptLid, k.estViewId))
        ∧ m'.vanishingPoints.map (fun k => (k.gid, k.viewId_vpLid))
            = m.vanishingPoints.map (fun k => (k.gid, k.viewId_vpLid))
        ∧ m'.idealLines.map (fun k => (k.gid, k.vpGid, k.is3D, k.viewId_lnLid, k.estViewId))
            = m.idealLines.map (fun k => (k.gid, k.vpGid, k.is3D, k.viewId_lnLid, k.estViewId))
        ∧ (∀ j w, vecAt m.views j = some w →
            (∀ vid v, mapFind g1.camvid2fid vid = some j →
              findVertex g1.vertices vid = some v → v.fixed = true) →
            ∃ w', vecAt m'.views j = some w' ∧ w'.R = w.R ∧ w'.t = w.t)
        ∧ (GidIsIndex m →
            (∀ j, j ∉ g1.kptIdx2Opt → vecAt m'.keyPoints j = vecAt m.keyPoints j)
            ∧ (∀ j, j ∉ g1.lnIdx2Opt → vecAt m'.idealLines j = vecAt m.idealLines j)
            ∧ (∀ j, j ∉ g1.plIdx2Opt → vecAt m'.primaryPlanes j = vecAt m.primaryPlanes j)) := by
  refine ⟨rfl, rfl, rfl, ?_⟩
  intro s hp bp S m numPos numFrm g1 m' hg1 hm'
  obtain ⟨g1', hg1', hkp, hlines, hvps, hpls, hcd, _, f, hf, hviews⟩ :=
    adjustBundle_G2O_ok s hp bp S m numPos numFrm m' hm'
  rw [hg1] at hg1'
  cases hg1'
  refine ⟨hcd, ?_, ?_, ?_, ?_, ?_⟩
  · rw [hkp]
    exact writePoint_obs _ _ _
  · rw [hvps]
    exact writeVnpt_obs _ _ _
  · rw [hlines]
    exact writeLine_obs _ _ _ _ _
  · intro j w hw hfixed
    obtain ⟨_, _, hcv, hcf, hflags, _⟩ := runOptimizer_fields S g1
    have hkeys := problem_camKeys s hp bp m numPos numFrm g1 hg1
    have hwb : vecAt (writeBack hp (runOptimizer S g1) m).views j = some w := by
      rw [← hw]
      unfold writeBack
      simp only []
      apply writeCam_frame
      intro vid hvid
      rw [hcv] at hvid
      obtain ⟨fid, hfid⟩ := hkeys vid hvid
      by_cases hj : (mapIndex (runOptimizer S g1).camvid2fid vid).1 = j
      · right
        intro v2 hv2
        rw [hcf, mapIndex_of_find _ _ _ hfid] at hj
        simp only [] at hj
        subst hj
        obtain ⟨v1, hv1, hfx⟩ := findVertex_of_flags _ _ hflags vid v2 hv2
        rw [← hfx]
        exact hfixed vid v1 hfid hv1
      · exact Or.inl hj
    rw [hviews]
    by_cases hlast : ((writeBack hp (runOptimizer S g1) m).views.length : Int) - 1 = j
    · rw [hlast, vecAt_vecModify, hwb]
      exact ⟨f w, rfl, (hf w).1, (hf w).2.1⟩
    · rw [vecAt_vecModify_ne _ _ _ _ hlast, hwb]
      exact ⟨w, rfl, rfl, rfl⟩
  · intro hm
    obtain ⟨hmap1, _, hmap3, hmap4, hvert, hnd⟩ :=
      problem_writer s hp bp S m numPos numFrm g1 hm hg1
    refine ⟨?_, ?_, ?_⟩
    · intro j hj
      rw [hkp]
      unfold writeBack
      simp only []
      apply writePoint_frame
      intro vid hvid he
      apply hj
      rw [← hmap1, ← he]
      exact List.mem_map_of_mem _ hvid
    · intro j hj
      rw [hlines]
      exact (writeBack_lines hp S m g1 hmap3
        (fun vid hvid => hvert vid (by simp [hvid])) hnd).2 j hj
    · intro j hj
      rw [hpls]
      unfold writeBack
      simp only []
      apply writePlane_frame
      intro vid hvid
      left
      intro he
      apply hj
      rw [← hmap4, ← he]
      exact List.mem_map_of_mem _ hvid

/-! ## Fixed landmarks: vertices, factors and write-back -/

/-- An invariant that may mention the running index and that the body carries from `i`
to `i + 1` at every visited pair holds after the loop at the end index. -/
theorem indexedLoop_inv_idx {σ α : Type} (body : σ → Int → α → σ) (I : σ → Int → Prop)
    (xs : List α) (i0 : Int)
    (hbody : ∀ st p, p ∈ indexed i0 xs → I st p.1 → I (body st p.1 p.2) (p.1 + 1))
    (st : σ) (h : I st i0) : I (indexedLoop body st i0 xs) (i0 + xs.length) := by
  induction xs generalizing st i0 with
  | nil => simpa using h
  | cons x rest ih =>
    simp only [indexedLoop]
    have := ih (i0 + 1) (fun st' p hp hst' => hbody st' p (by simp [indexed, hp]) hst')
      (body st i0 x) (hbody st (i0, x) (by simp [indexed]) h)
    have e : i0 + ((x :: rest).length : Int) = i0 + 1 + (rest.length : Int) := by
      simp only [List.length_cons, Nat.cast_add, Nat.cast_one]
      ring
    rw [e]
    exact this

theorem findVertex_fresh (g : Graph) (nv : Vertex) (hid : nv.id = g.vertex_id)
    (hids : ∀ v ∈ g.vertices, v.id < g.vertex_id) :
    findVertex (g.vertices ++ [nv]) nv.id = some nv := by
  rw [hid]
  exact (writerInv_old g nv hid hids).2.2

theorem fixedPts_old (m : Map) (g : Graph) (nv : Vertex) (pm : IntMap)
    (hid : nv.id = g.vertex_id) (hids : ∀ v ∈ g.vertices, v.id < g.vertex_id)
    (hpm : ∀ idx ∈ g.kptIdx2Rpj_notOpt, mapFind pm idx = mapFind g.ptgid2vid idx)
    (h : FixedPts m g) :
    ∀ idx ∈ g.kptIdx2Rpj_notOpt, ∃ kp v, vecAt m.keyPoints idx = some kp
      ∧ mapFind pm idx = some v.id ∧ findVertex (g.vertices ++ [nv]) v.id = some v
      ∧ v.fixed = true ∧ v.estimate = Estimate.vec ⟨kp.x, kp.y, kp.z⟩ := by
  intro idx hidx
  obtain ⟨kp, v, a, b, c, d, e⟩ := h idx hidx
  exact ⟨kp, v, a, (hpm idx hidx).trans b, ((writerInv_old g nv hid hids).2.1 _ _ c).1, d, e⟩

theorem fixedLns_old (m : Map) (g : Graph) (nv : Vertex) (lm : IntMap)
    (hid : nv.id = g.vertex_id) (hids : ∀ v ∈ g.vertices, v.id < g.vertex_id)
    (hlm : ∀ idx ∈ g.lnIdx2Rpj_notOpt, mapFind lm idx = mapFind g.lngid2vid idx)
    (h : FixedLns m g) :
    ∀ idx ∈ g.lnIdx2Rpj_notOpt, ∃ ln v, vecAt m.idealLines idx = some ln
      ∧ mapFind lm idx = some v.id ∧ findVertex (g.vertices ++ [nv]) v.id = some v
      ∧ v.fixed = true ∧ v.estimate = Estimate.vec ln.midpt := by
  intro idx hidx
  obtain ⟨ln, v, a, b, c, d, e⟩ := h idx hidx
  exact ⟨ln, v, a, (hlm idx hidx).trans b, ((writerInv_old g nv hid hids).2.1 _ _ c).1, d, e⟩

/-- The key-point body keeps `FixedInv`, on a key point that carries its index as gid
and with every index listed so far below the current one. -/
theorem addKeyPoint_fixedInv (fp ff nw : Int) (m : Map) (g : Graph) (i : Int)
    (kp : KeyPoint3d) (hi : vecAt m.keyPoints i = some kp) (hg : kp.gid = i)
    (h : FixedInv m g ∧ ∀ idx ∈ g.kptIdx2Rpj_notOpt, idx < i) :
    FixedInv m (addKeyPoint fp ff nw g i kp)
    ∧ ∀ idx ∈ (addKeyPoint fp ff nw g i kp).kptIdx2Rpj_notOpt, idx < i + 1 := by
  obtain ⟨c1, c2, c3⟩ := addKeyPoint_cases fp ff nw g i kp
  obtain ⟨⟨h1, h2, h3⟩, hlt⟩ := h
  have hpm : ∀ idx ∈ g.kptIdx2Rpj_notOpt,
      mapFind (mapSet g.ptgid2vid kp.gid g.vertex_id) idx = mapFind g.ptgid2vid idx := by
    intro idx hidx
    rw [mapFind_mapSet, if_neg]
    have := hlt idx hidx
    omega
  by_cases ha : kp.is3D = true ∧ 0 ≤ kp.gid ∧ ∃ o ∈ kp.viewId_ptLid, fp ≤ o.1
  · by_cases hf : firstViewId kp.viewId_ptLid < ff ∧ kp.estViewId < nw ∧ g.edges_camdist = []
    · rw [c2 ha hf]
      obtain ⟨o1, _, o3⟩ := writerInv_old g
        { id := g.vertex_id, kind := VertexKind.point, fixed := true,
          marginalized := true, estimate := Estimate.vec ⟨kp.x, kp.y, kp.z⟩ } rfl h1
      refine ⟨⟨o1, ?_, ?_⟩, ?_⟩
      · intro idx hidx
        simp only [List.mem_append, List.mem_singleton] at hidx
        rcases hidx with ho | rfl
        · exact fixedPts_old m g _ _ rfl h1 hpm h2 idx ho
        · refine ⟨kp, _, hi, ?_, findVertex_fresh g _ rfl h1, ?_, ?_⟩
          · simp only []
            rw [mapFind_mapSet, if_pos hg.symm]
          · rfl
          · rfl
      · exact fixedLns_old m g _ _ rfl h1 (fun _ _ => rfl) h3
      · intro idx hidx
        simp only [List.mem_append, List.mem_singleton] at hidx
        rcases hidx with ho | rfl
        · have := hlt idx ho
          omega
        · omega
    · rw [c3 ha hf]
      obtain ⟨o1, _, _⟩ := writerInv_old g
        { id := g.vertex_id, kind := VertexKind.point, fixed := false,
          marginalized := true, estimate := Estimate.vec ⟨kp.x, kp.y, kp.z⟩ } rfl h1
      refine ⟨⟨o1, ?_, ?_⟩, ?_⟩
      · exact fixedPts_old m g _ _ rfl h1 hpm h2
      · exact fixedLns_old m g _ _ rfl h1 (fun _ _ => rfl) h3
      · intro idx hidx
        have := hlt idx hidx
        omega
  · rw [c1 ha]
    refine ⟨⟨h1, h2, h3⟩, ?_⟩
    intro idx hidx
    have := hlt idx hidx
    omega

/-- The ideal-line body keeps `FixedInv`, likewise. -/
theorem addIdealLine_fixedInv (cdt : Bool) (fp ff nw : Int) (m : Map) (g : Graph) (i : Int)
    (ln : IdealLine3d) (hi : vecAt m.idealLines i = some ln) (hg : ln.gid = i)
    (h : FixedInv m g ∧ ∀ idx ∈ g.lnIdx2Rpj_notOpt, idx < i) :
    FixedInv m (addIdealLine cdt fp ff nw g i ln)
    ∧ ∀ idx ∈ (addIdealLine cdt fp ff nw g i ln).lnIdx2Rpj_notOpt, idx < i + 1 := by
  obtain ⟨c1, c2, c3⟩ := addIdealLine_cases cdt fp ff nw g i ln
  obtain ⟨⟨h1, h2, h3⟩, hlt⟩ := h
  have hlm : ∀ idx ∈ g.lnIdx2Rpj_notOpt,
      mapFind (mapSet g.lngid2vid ln.gid g.vertex_id) idx = mapFind g.lngid2vid idx := by
    intro idx hidx
    rw [mapFind_mapSet, if_neg]
    have := hlt idx hidx
    omega
  by_cases ha : ln.is3D = true ∧ 0 ≤ ln.gid ∧ ∃ o ∈ ln.viewId_lnLid, fp ≤ o.1
  · by_cases hf : firstViewId ln.viewId_lnLid < ff ∧ ln.estViewId < nw
        ∧ (cdt = true → g.edges_camdist = [])
    · rw [c2 ha hf]
      obtain ⟨o1, _, o3⟩ := writerInv_old g
        { id := g.vertex_id, kind := VertexKind.lnpt, fixed := true,
          marginalized := false, estimate := Estimate.vec ln.midpt } rfl h1
      refine ⟨⟨o1, ?_, ?_⟩, ?_⟩
      · exact fixedPts_old m g _ _ rfl h1 (fun _ _ => rfl) h2
      · intro idx hidx
        simp only [List.mem_append, List.mem_singleton] at hidx
        rcases hidx with ho | rfl
        · exact fixedLns_old m g _ _ rfl h1 hlm h3 idx ho
        · refine ⟨ln, _, hi, ?_, findVertex_fresh g _ rfl h1, ?_, ?_⟩
          · simp only []
            rw [mapFind_mapSet, if_pos hg.symm]
          · rfl
          · rfl
      · intro idx hidx
        simp only [List.mem_append, List.mem_singleton] at hidx
        rcases hidx with ho | rfl
        · have := hlt idx ho
          omega
        · omega
    · rw [c3 ha hf]
      obtain ⟨o1, _, _⟩ := writerInv_old g
        { id := g.vertex_id, kind := VertexKind.lnpt, fixed := false,
          marginalized := false, estimate := Estimate.vec ln.midpt } rfl h1
      refine ⟨⟨o1, ?_, ?_⟩, ?_⟩
      · exact fixedPts_old m g _ _ rfl h1 (fun _ _ => rfl) h2
      · exact fixedLns_old m g _ _ rfl h1 hlm h3
      · intro idx hidx
        have := hlt idx hidx
        omega
  · rw [c1 ha]
    refine ⟨⟨h1, h2, h3⟩, ?_⟩
    intro idx hidx
    have := hlt idx hidx
    omega

theorem addVanishingPoint_fixedInv (fp : Int) (m : Map) (g : Graph) (i : Int)
    (vp : VanishPnt3d) (h : FixedInv m g) : FixedInv m (addVanishingPoint fp g i vp) := by
  obtain ⟨c1, c2⟩ := addVanishingPoint_cases fp g i vp
  obtain ⟨h1, h2, h3⟩ := h
  by_cases ha : ∃ o ∈ vp.viewId_vpLid, fp ≤ o.1
  · rw [c2 ha]
    obtain ⟨o1, _, _⟩ := writerInv_old g
      { id := g.vertex_id, kind := VertexKind.vnpt, fixed := false,
        marginalized := false, estimate := Estimate.vec ⟨vp.x, vp.y, vp.z⟩ } rfl h1
    exact ⟨o1, fixedPts_old m g _ _ rfl h1 (fun _ _ => rfl) h2,
      fixedLns_old m g _ _ rfl h1 (fun _ _ => rfl) h3⟩
  · rw [c1 ha]
    exact ⟨h1, h2, h3⟩

theorem addPrimaryPlane_fixedInv (fp nw : Int) (m : Map) (g : Graph) (i : Int)
    (pl : PrimaryPlane3d) (h : FixedInv m g) : FixedInv m (addPrimaryPlane fp nw g i pl) := by
  obtain ⟨h1, h2, h3⟩ := h
  rcases addPrimaryPlane_cases fp nw g i pl with c | c
  · rw [c]
    exact ⟨h1, h2, h3⟩
  · rw [c]
    obtain ⟨o1, _, _⟩ := writerInv_old g
      { id := g.vertex_id, kind := VertexKind.plane,
        fixed := decide (pl.estViewId < fp), marginalized := false,
        estimate := Estimate.vec ⟨pl.n.x / pl.d, pl.n.y / pl.d, pl.n.z / pl.d⟩ } rfl h1
    exact ⟨o1, fixedPts_old m g _ _ rfl h1 (fun _ _ => rfl) h2,
      fixedLns_old m g _ _ rfl h1 (fun _ _ => rfl) h3⟩

/-- The structure loops establish `FixedInv` on a map with `GidIsIndex`. -/
theorem addStructure_fixedInv (cdt : Bool) (fp ff nw : Int) (m : Map) (g : Graph)
    (hm : GidIsIndex m) (hk : g.kptIdx2Rpj_notOpt = []) (hl : g.lnIdx2Rpj_notOpt = [])
    (hv : ∀ v ∈ g.vertices, v.id < g.vertex_id) :
    FixedInv m (addStructure cdt fp ff nw m g) := by
  have e1 := indexedLoop_frame (addKeyPoint fp ff nw)
    (fun g => (g.vpIdx2Opt, g.lnIdx2Opt, g.lnIdx2Rpj_notOpt))
    (addKeyPoint_vp_ln fp ff nw) m.keyPoints g 0
  have e2 := indexedLoop_frame (addVanishingPoint fp)
    (fun g => (g.lnIdx2Opt, g.lnIdx2Rpj_notOpt))
    (addVanishingPoint_ln fp) m.vanishingPoints (addKeyPoints fp ff nw g 0 m.keyPoints) 0
  simp only [Prod.mk.injEq] at e1 e2
  have hk0 : FixedPts m g := by
    intro idx hidx
    rw [hk] at hidx
    cases hidx
  have hl0 : FixedLns m g := by
    intro idx hidx
    rw [hl] at hidx
    cases hidx
  have hk1 : ∀ idx ∈ g.kptIdx2Rpj_notOpt, idx < 0 := by
    intro idx hidx
    rw [hk] at hidx
    cases hidx
  have s1 := indexedLoop_inv_idx (addKeyPoint fp ff nw)
    (fun st i => FixedInv m st ∧ ∀ idx ∈ st.kptIdx2Rpj_notOpt, idx < i) m.keyPoints 0
    (fun st p hp hst => addKeyPoint_fixedInv fp ff nw m st p.1 p.2 (indexed_vecAt _ _ hp)
      (hm.1 _ _ (indexed_vecAt _ _ hp)) hst) g
    ⟨⟨hv, hk0, hl0⟩, hk1⟩
  have s2 : FixedInv m (addVanishingPoints fp (addKeyPoints fp ff nw g 0 m.keyPoints) 0
      m.vanishingPoints) :=
    indexedLoop_inv _ _ (fun st i x => addVanishingPoint_fixedInv fp m st i x) _ _ _ s1.1
  have hl3 : ∀ idx ∈ (addVanishingPoints fp (addKeyPoints fp ff nw g 0 m.keyPoints) 0
      m.vanishingPoints).lnIdx2Rpj_notOpt, idx < 0 := by
    intro idx hidx
    unfold addVanishingPoints at hidx
    rw [e2.2] at hidx
    unfold addKeyPoints at hidx
    rw [e1.2.2, hl] at hidx
    cases hidx
  have s3 := indexedLoop_inv_idx (addIdealLine cdt fp ff nw)
    (fun st i => FixedInv m st ∧ ∀ idx ∈ st.lnIdx2Rpj_notOpt, idx < i) m.idealLines 0
    (fun st p hp hst => addIdealLine_fixedInv cdt fp ff nw m st p.1 p.2 (indexed_vecAt _ _ hp)
      (hm.2.1 _ _ (indexed_vecAt _ _ hp)) hst)
    (addVanishingPoints fp (addKeyPoints fp ff nw g 0 m.keyPoints) 0 m.vanishingPoints)
    ⟨s2, hl3⟩
  unfold addStructure addPrimaryPlanes
  simp only []
  exact indexedLoop_inv _ _ (fun st i x => addPrimaryPlane_fixedInv fp nw m st i x) _ _ _ s3.1

/-- In every problem handed to the solver on a map with `GidIsIndex`, the key points and
ideal lines listed as fixed have a fixed vertex each, bound to their index, whose
estimate is the stored position; no solver changes that vertex. -/
theorem problem_fixed (s : MfgSettings) (hp : Helpers) (bp : Mat3 → VanishPnt2d → Vec3)
    (S : G2oSolver) (m : Map) (numPos numFrm : Int) (g1 : Graph) (hm : GidIsIndex m)
    (h : adjustBundle_G2O_problem s hp bp m numPos numFrm = Except.ok g1) :
    (∀ idx ∈ g1.kptIdx2Rpj_notOpt, ∃ kp v, vecAt m.keyPoints idx = some kp
      ∧ mapRead g1.ptgid2vid idx = v.id ∧ findVertex g1.vertices v.id = some v
      ∧ v.fixed = true ∧ v.estimate = Estimate.vec ⟨kp.x, kp.y, kp.z⟩
      ∧ findVertex (runOptimizer S g1).vertices v.id = some v)
    ∧ (∀ idx ∈ g1.lnIdx2Rpj_notOpt, ∃ ln v, vecAt m.idealLines idx = some ln
      ∧ mapRead g1.lngid2vid idx = v.id ∧ findVertex g1.vertices v.id = some v
      ∧ v.fixed = true ∧ v.estimate = Estimate.vec ln.midpt
      ∧ findVertex (runOptimizer S g1).vertices v.id = some v) := by
  unfold adjustBundle_G2O_problem adjustBundle_G2O_vertices at h
  cases hc : adjustBundle_G2O_cameras s m numPos numFrm with
  | error e => rw [hc] at h; cases h
  | ok g0 =>
    rw [hc] at h
    simp only [] at h
    unfold adjustBundle_G2O_cameras at hc
    have hids := (cameraPart_writerInv _ _ _ _ _ _ g0 hc).1
    have hkl : g0.kptIdx2Rpj_notOpt = [] ∧ g0.lnIdx2Rpj_notOpt = [] := by
      obtain ⟨mi', es, hg⟩ := cameraPart_closed m.views
        (frontVptIdx m.views.length numFrm s.baNumFramesVPoint) (m.views.length : Int)
        (frontPosIdx m.views.length numPos) 20 (camDistRows m.camdist_constraints numFrm)
      rw [hg] at hc
      cases hc
      exact ⟨rfl, rfl⟩
    have hinv := addStructure_fixedInv false (frontPosIdx m.views.length numPos)
      (frontFrmIdx m.views.length numFrm) (backId m.views) m g0 hm hkl.1 hkl.2 hids
    obtain ⟨sr, _⟩ := addEdges_closed s hp bp m _ _ _ g1 h
    obtain ⟨sv, sl, sp, _, _, sln, _⟩ := sr
    simp only [listFields, Prod.mk.injEq] at sl
    constructor
    · intro idx hidx
      rw [sl.2.1] at hidx
      obtain ⟨kp, v, a, b, c, d, e⟩ := hinv.2.1 idx hidx
      have c' : findVertex g1.vertices v.id = some v := by rw [sv]; exact c
      obtain ⟨w, hw, hs⟩ := runOptimizer_findVertex S g1 v.id v c'
      refine ⟨kp, v, a, ?_, c', d, e, ?_⟩
      · rw [sp]
        unfold mapRead
        rw [mapIndex_of_find _ _ _ b]
      · rw [hw, hs.2.2.2.1 d]
    · intro idx hidx
      rw [sl.2.2.2.2.1] at hidx
      obtain ⟨ln, v, a, b, c, d, e⟩ := hinv.2.2 idx hidx
      have c' : findVertex g1.vertices v.id = some v := by rw [sv]; exact c
      obtain ⟨w, hw, hs⟩ := runOptimizer_findVertex S g1 v.id v c'
      refine ⟨ln, v, a, ?_, c', d, e, ?_⟩
      · rw [sln]
        unfold mapRead
        rw [mapIndex_of_find _ _ _ b]
      · rw [hw, hs.2.2.2.1 d]

/-- In every problem handed to the solver, no key point and no ideal line is on both of
its index lists. -/
theorem problem_disjoint (s : MfgSettings) (hp : Helpers) (bp : Mat3 → VanishPnt2d → Vec3)
    (m : Map) (numPos numFrm : Int) (g1 : Graph)
    (h : adjustBundle_G2O_problem s hp bp m numPos numFrm = Except.ok g1) :
    (∀ idx kp, vecAt m.keyPoints idx = some kp → idx ∈ g1.kptIdx2Rpj_notOpt →
      idx ∉ g1.kptIdx2Opt)
    ∧ (∀ idx ln, vecAt m.idealLines idx = some ln → idx ∈ g1.lnIdx2Rpj_notOpt →
      idx ∉ g1.lnIdx2Opt) := by
  unfold adjustBundle_G2O_problem adjustBundle_G2O_vertices at h
  cases hc : adjustBundle_G2O_cameras s m numPos numFrm with
  | error e => rw [hc] at h; cases h
  | ok g0 =>
    rw [hc] at h
    simp only [] at h
    unfold adjustBundle_G2O_cameras at hc
    have hkl : g0.kptIdx2Opt = [] ∧ g0.kptIdx2Rpj_notOpt = [] ∧ g0.vpIdx2Opt = []
        ∧ g0.lnIdx2Opt = [] ∧ g0.lnIdx2Rpj_notOpt = [] := by
      obtain ⟨mi', es, hg⟩ := cameraPart_closed m.views
        (frontVptIdx m.views.length numFrm s.baNumFramesVPoint) (m.views.length : Int)
        (frontPosIdx m.views.length numPos) 20 (camDistRows m.camdist_constraints numFrm)
      rw [hg] at hc
      cases hc
      exact ⟨rfl, rfl, rfl, rfl, rfl⟩
    obtain ⟨mk, _, ml⟩ := addStructure_mem false (frontPosIdx m.views.length numPos)
      (frontFrmIdx m.views.length numFrm) (backId m.views) m g0 hkl.1 hkl.2.1 hkl.2.2.1
      hkl.2.2.2.1 hkl.2.2.2.2
    obtain ⟨_, _, hl, _, _⟩ := addEdges_writerFields s hp bp m _ _ _ g1 h
    simp only [listFields, Prod.mk.injEq] at hl
    obtain ⟨l1, l2, l3, l4, l5, l6⟩ := hl
    rw [l1, l2, l4, l5]
    constructor
    · intro idx kp hkp hin hopt
      exact ((mk idx kp hkp).2.mp hopt).2 ((mk idx kp hkp).1.mp hin).2
    · intro idx ln hln hin hopt
      exact ((ml idx ln hln).2.mp hopt).2 ((ml idx ln hln).1.mp hin).2

/-- The point write-back of `adjustBundle_PtLnVp` leaves every key point that is not on
the list. -/
theorem ptLnVp_writePoints_frame (para : List Rat) (idxs : List Int) (j : Int)
    (hj : j ∉ idxs) (st : Nat × List KeyPoint3d) :
    vecAt (idxs.foldl (ptLnVp_writePoint para) st).2 j = vecAt st.2 j := by
  induction idxs generalizing st with
  | nil => rfl
  | cons i rest ih =>
    simp only [List.foldl_cons]
    rw [ih (fun hmem => hj (List.mem_cons_of_mem _ hmem))]
    unfold ptLnVp_writePoint
    simp only []
    apply vecAt_vecModify_ne
    intro he
    exact hj (by rw [he]; exact List.mem_cons_self _ _)

/-- The fixed key points and ideal lines of the dense backend: they are on no list of
optimized landmarks, own no block of the parameter array, and the Result Writer leaves
them as stored. -/
theorem ptLnVp_fixed_frame (h : Helpers) (lm : Map → PtLnVp → LmOutcome) (m : Map) :
    (∀ idx ∈ (ptLnVp_vectorize h m).kptIdx2Rpj_notOpt, ∃ kp,
      vecAt m.keyPoints idx = some kp
      ∧ idx ∉ (ptLnVp_vectorize h m).kptIdx2Opt
      ∧ Block.point idx ∉ ptLnVp_blocks m (ptLnVp_vectorize h m)
      ∧ vecAt (adjustBundle_PtLnVp h lm m).keyPoints idx = some kp)
    ∧ (∀ idx ∈ (ptLnVp_vectorize h m).idlIdx2Rpj_notOpt, ∃ ln,
      vecAt m.idealLines idx = some ln
      ∧ idx ∉ (ptLnVp_vectorize h m).idlIdx2Opt
      ∧ Block.line idx ∉ ptLnVp_blocks m (ptLnVp_vectorize h m)
      ∧ vecAt (adjustBundle_PtLnVp h lm m).idealLines idx = some ln) := by
  obtain ⟨mk, ml⟩ := ptLnVp_vectorize_mem h m
  constructor
  · intro idx hidx
    have hkp : ∃ kp, vecAt m.keyPoints idx = some kp := by
      simp only [ptLnVp_vectorize, ptLnVp_addIdealLines_closed, ptLnVp_addKeyPoints_closed,
        List.nil_append] at hidx
      obtain ⟨q, hq, rfl⟩ := List.mem_map.mp hidx
      exact ⟨q.2, indexed_vecAt _ q (List.mem_of_mem_filter hq)⟩
    obtain ⟨kp, hkp⟩ := hkp
    have hd : idx ∉ (ptLnVp_vectorize h m).kptIdx2Opt := fun hopt =>
      ((mk idx kp hkp).2.mp hopt).2 ((mk idx kp hkp).1.mp hidx).2
    refine ⟨kp, hkp, hd, ?_, ?_⟩
    · simp only [ptLnVp_blocks, List.mem_append, List.mem_map, not_or, not_exists, not_and]
      refine ⟨⟨⟨?_, ?_⟩, ?_⟩, ?_⟩
      · intro x _ hx
        cases hx
      · intro x hx he
        cases he
        exact hd hx
      · intro x _ hx
        cases hx
      · intro x _ hx
        cases hx
    · rw [← hkp]
      unfold adjustBundle_PtLnVp ptLnVp_writeBack
      simp only []
      exact ptLnVp_writePoints_frame _ _ _ hd _
  · intro idx hidx
    have hln : ∃ ln, vecAt m.idealLines idx = some ln := by
      simp only [ptLnVp_vectorize, ptLnVp_addIdealLines_closed, ptLnVp_addKeyPoints_closed,
        List.nil_append] at hidx
      obtain ⟨q, hq, rfl⟩ := List.mem_map.mp hidx
      exact ⟨q.2, indexed_vecAt _ q (List.mem_of_mem_filter hq)⟩
    obtain ⟨ln, hln⟩ := hln
    have hd : idx ∉ (ptLnVp_vectorize h m).idlIdx2Opt := fun hopt =>
      ((ml idx ln hln).2.mp hopt).2 ((ml idx ln hln).1.mp hidx).2
    have hn : (ptLnVp_vectorize h m).idlIdx2Opt.Nodup := by
      simp only [ptLnVp_vectorize, ptLnVp_addIdealLines_closed, ptLnVp_addKeyPoints_closed,
        List.nil_append]
      exact indexed_filter_nodup _ _ _
    refine ⟨ln, hln, hd, ?_, ?_⟩
    · simp only [ptLnVp_blocks, List.mem_append, List.mem_map, not_or, not_exists, not_and]
      refine ⟨⟨⟨?_, ?_⟩, ?_⟩, ?_⟩
      · intro x _ hx
        cases hx
      · intro x _ hx
        cases hx
      · intro x _ hx
        cases hx
      · intro x hx he
        cases he
        exact hd hx
    · rw [← hln]
      unfold adjustBundle_PtLnVp ptLnVp_writeBack
      simp only []
      exact (ptLnVp_writeLines_at h _ _ _ hn _).2.1 idx hd

theorem gidIsIndex_unmatchableMap : GidIsIndex unmatchableMap := by
  refine ⟨?_, ?_, ?_⟩
  · intro i kp h
    have hi := vecAt_lt _ _ _ h
    have hlen : (unmatchableMap.keyPoints.length : Int) = 2 := rfl
    rw [hlen] at hi
    have : i = 0 ∨ i = 1 := by omega
    rcases this with rfl | rfl
    · have e : vecAt unmatchableMap.keyPoints 0 = some scenarioPointA := rfl
      rw [e] at h
      cases h
      rfl
    · have e : vecAt unmatchableMap.keyPoints 1 = some scenarioPointB := rfl
      rw [e] at h
      cases h
      rfl
  · intro i ln h
    exact (vecAt_nil ln i h).elim
  · intro i vp h
    exact (vecAt_nil vp i h).elim

/-- C14 (as the code does it). In every problem `adjustBundle_G2O` hands to the solver the
reprojection and line edges are one group per listed landmark, fixed ones included, and
the group of a landmark is built observation by observation: an observation in a view
marked unmatchable yields no edge, and an observation in a matchable view with index
`>= frontFrmIdx` yields exactly one edge, whose measurement is the observed feature point
(for a line: whose segment is the observed segment). On a map whose landmarks carry
their index as gid, a key point or ideal line on the fixed list is not on the optimized
list, the vertex its edges attach to is fixed and holds the stored position, no solver
changes that vertex, and the Result Writer leaves the landmark as stored. In
`adjustBundle_PtLnVp` a fixed key point or ideal line is not on the optimized list, owns
no block of the parameter array, is left as stored by the Result Writer, and its entries
of the residual array are one pair (for a line: one segment group) per observation with
view index `>= frontFrmIdx`, computed from the stored position and the observed
feature. -/
theorem C14_fixed_landmarks (s : MfgSettings) (hp : Helpers) (bp : Mat3 → VanishPnt2d → Vec3)
    (c : CostHelpers) (lm : Map → PtLnVp → LmOutcome) (S : G2oSolver) (m : Map)
    (numPos numFrm : Int) (g : Graph)
    (hg : adjustBundle_G2O_problem s hp bp m numPos numFrm = Except.ok g) :
    (g.vecEdgeKpt = (g.kptIdx2Opt ++ g.kptIdx2Rpj_notOpt).flatMap (fun idx =>
        (kptObs m idx).flatMap
          (kptEdgeOf s m.views (frontFrmIdx m.views.length numFrm) g idx))
      ∧ g.vecEdgeLine = (g.lnIdx2Opt ++ g.lnIdx2Rpj_notOpt).flatMap
          (lineEdgesOf s m (frontFrmIdx m.views.length numFrm) g))
    ∧ (∀ idx o view, vecAt m.views o.1 = some view →
        (view.matchable = false →
          kptEdgeOf s m.views (frontFrmIdx m.views.length numFrm) g idx o = [])
        ∧ (∀ fp, view.matchable = true → frontFrmIdx m.views.length numFrm ≤ o.1 →
            vecAt view.featurePoints o.2 = some fp →
            kptEdgeOf s m.views (frontFrmIdx m.views.length numFrm) g idx o
              = [{ kind := EdgeKind.projectP2MC,
                   vertices := [mapRead g.ptgid2vid idx, mapRead g.camfid2vid o.1],
                   measurement := [fp.x, fp.y], information := [1, 0, 0, 1],
                   robustKernel := kernelOf s s.baKernelDeltaPoint, segpts := [] }]))
    ∧ (∀ idx ln o view, vecAt m.views o.1 = some view →
        (view.matchable = false →
          lineEdgeOf s m.views (frontFrmIdx m.views.length numFrm) g idx ln o = [])
        ∧ (∀ l2, view.matchable = true → frontFrmIdx m.views.length numFrm ≤ o.1 →
            vecAt view.idealLines o.2 = some l2 →
            lineEdgeOf s m.views (frontFrmIdx m.views.length numFrm) g idx ln o
              = [{ kind := EdgeKind.lineVpCam,
                   vertices := [mapRead g.lngid2vid idx, mapRead g.vpgid2vid ln.vpGid,
                     mapRead g.camfid2vid o.1],
                   measurement := [0], information := [1 * s.baWeightLine],
                   robustKernel := kernelOf s s.baKernelDeltaLine,
                   segpts := l2.lsEndpoints }]))
    ∧ (GidIsIndex m →
        (∀ idx ∈ g.kptIdx2Rpj_notOpt, idx ∉ g.kptIdx2Opt ∧ ∃ kp v,
          vecAt m.keyPoints idx = some kp
          ∧ mapRead g.ptgid2vid idx = v.id ∧ findVertex g.vertices v.id = some v
          ∧ v.fixed = true ∧ v.estimate = Estimate.vec ⟨kp.x, kp.y, kp.z⟩
          ∧ findVertex (runOptimizer S g).vertices v.id = some v
          ∧ ∀ m', adjustBundle_G2O s hp bp S m numPos numFrm = Except.ok m' →
              vecAt m'.keyPoints idx = some kp)
        ∧ (∀ idx ∈ g.lnIdx2Rpj_notOpt, idx ∉ g.lnIdx2Opt ∧ ∃ ln v,
          vecAt m.idealLines idx = some ln
          ∧ mapRead g.lngid2vid idx = v.id ∧ findVertex g.vertices v.id = some v
          ∧ v.fixed = true ∧ v.estimate = Estimate.vec ln.midpt
          ∧ findVertex (runOptimizer S g).vertices v.id = some v
          ∧ ∀ m', adjustBundle_G2O s hp bp S m numPos numFrm = Except.ok m' →
              vecAt m'.idealLines idx = some ln))
    ∧ (∀ idx ∈ (ptLnVp_vectorize hp m).kptIdx2Rpj_notOpt, ∃ kp,
        vecAt m.keyPoints idx = some kp
        ∧ idx ∉ (ptLnVp_vectorize hp m).kptIdx2Opt
        ∧ Block.point idx ∉ ptLnVp_blocks m (ptLnVp_vectorize hp m)
        ∧ vecAt (adjustBundle_PtLnVp hp lm m).keyPoints idx = some kp
        ∧ ∀ cams, fixedPtResiduals c m (ptLnVp_vectorize hp m) cams idx
            = kp.viewId_ptLid.flatMap (fun o =>
                if (ptLnVp_vectorize hp m).frontFrmIdx ≤ o.1 then
                  [c.robust ((c.reproject m.K (costPs m (ptLnVp_vectorize hp m) cams o.1)
                      ⟨kp.x, kp.y, kp.z⟩).x - (featureAt m o.1 o.2).x) 2,
                   c.robust ((c.reproject m.K (costPs m (ptLnVp_vectorize hp m) cams o.1)
                      ⟨kp.x, kp.y, kp.z⟩).y - (featureAt m o.1 o.2).y) 2]
                else []))
    ∧ (∀ idx ∈ (ptLnVp_vectorize hp m).idlIdx2Rpj_notOpt, ∃ ln,
        vecAt m.idealLines idx = some ln
        ∧ idx ∉ (ptLnVp_vectorize hp m).idlIdx2Opt
        ∧ Block.line idx ∉ ptLnVp_blocks m (ptLnVp_vectorize hp m)
        ∧ vecAt (adjustBundle_PtLnVp hp lm m).idealLines idx = some ln
        ∧ ∀ cams, fixedLineResiduals c m (ptLnVp_vectorize hp m) cams idx
            = ln.viewId_lnLid.flatMap (fun o =>
                if (ptLnVp_vectorize hp m).frontFrmIdx ≤ o.1 then
                  segResidual c
                    (c.projectLine m.K (costPs m (ptLnVp_vectorize hp m) cams o.1) ln)
                    (segmentAt m o.1 o.2)
                else []))
    ∧ (∀ p, ∃ o1 o2 : Nat,
        (costFun_BA_PtLnVp hp c m (ptLnVp_vectorize hp m) p).error
          = ((ptLnVp_vectorize hp m).kptIdx2Opt.zip
                (offsets o1 ((ptLnVp_vectorize hp m).kptIdx2Opt.map (fun _ => 3)))).flatMap
              (fun q => freePtResiduals c m (ptLnVp_vectorize hp m) p
                (costFun_BA_PtLnVp hp c m (ptLnVp_vectorize hp m) p).cams q.1 q.2)
            ++ (ptLnVp_vectorize hp m).kptIdx2Rpj_notOpt.flatMap
              (fixedPtResiduals c m (ptLnVp_vectorize hp m)
                (costFun_BA_PtLnVp hp c m (ptLnVp_vectorize hp m) p).cams)
            ++ ((ptLnVp_vectorize hp m).idlIdx2Opt.zip
                (offsets o2 ((ptLnVp_vectorize hp m).idlIdx2Opt.map (fun _ => 3)))).flatMap
              (fun q => freeLineResiduals c m (ptLnVp_vectorize hp m) p
                (costFun_BA_PtLnVp hp c m (ptLnVp_vectorize hp m) p).cams
                (costFun_BA_PtLnVp hp c m (ptLnVp_vectorize hp m) p).VPs q.1 q.2)
            ++ (ptLnVp_vectorize hp m).idlIdx2Rpj_notOpt.flatMap
              (fixedLineResiduals c m (ptLnVp_vectorize hp m)
                (costFun_BA_PtLnVp hp c m (ptLnVp_vectorize hp m) p).cams)) := by
  obtain ⟨pk, _, pl⟩ := problem_closed s hp bp m numPos numFrm g hg
  obtain ⟨dk, dl⟩ := problem_disjoint s hp bp m numPos numFrm g hg
  obtain ⟨fk, fl⟩ := ptLnVp_fixed_frame hp lm m
  refine ⟨⟨pk, pl⟩, ?_, ?_, ?_, ?_, ?_, ?_⟩
  · intro idx o view hview
    constructor
    · intro hm
      simp [kptEdgeOf, hview, hm]
    · intro fp hm hle hfp
      simp [kptEdgeOf, hview, hm, hle, hfp]
  · intro idx ln o view hview
    constructor
    · intro hm
      simp [lineEdgeOf, hview, hm]
    · intro l2 hm hle hl2
      simp [lineEdgeOf, hview, hm, hle, hl2]
  · intro hm
    obtain ⟨xk, xl⟩ := problem_fixed s hp bp S m numPos numFrm g hm hg
    obtain ⟨hmap1, _, hmap3, _, hvert, hnd⟩ :=
      problem_writer s hp bp S m numPos numFrm g hm hg
    constructor
    · intro idx hidx
      obtain ⟨kp, v, a1, a2, a3, a4, a5, a6⟩ := xk idx hidx
      have hd := dk idx kp a1 hidx
      refine ⟨hd, kp, v, a1, a2, a3, a4, a5, a6, ?_⟩
      intro m' hm'
      obtain ⟨g1', hg1', hkp, _⟩ := adjustBundle_G2O_ok s hp bp S m numPos numFrm m' hm'
      rw [hg] at hg1'
      cases hg1'
      rw [hkp, ← a1]
      unfold writeBack
      simp only []
      apply writePoint_frame
      intro vid hvid he
      apply hd
      rw [← hmap1, ← he]
      exact List.mem_map_of_mem _ hvid
    · intro idx hidx
      obtain ⟨ln, v, a1, a2, a3, a4, a5, a6⟩ := xl idx hidx
      have hd := dl idx ln a1 hidx
      refine ⟨hd, ln, v, a1, a2, a3, a4, a5, a6, ?_⟩
      intro m' hm'
      obtain ⟨g1', hg1', _, hlines, _⟩ := adjustBundle_G2O_ok s hp bp S m numPos numFrm m' hm'
      rw [hg] at hg1'
      cases hg1'
      rw [hlines, ← a1]
      exact (writeBack_lines hp S m g hmap3
        (fun vid hvid => hvert vid (by simp [hvid])) hnd).2 idx hd
  · intro idx hidx
    obtain ⟨kp, b1, b2, b3, b4⟩ := fk idx hidx
    refine ⟨kp, b1, b2, b3, b4, ?_⟩
    intro cams
    unfold fixedPtResiduals
    rw [b1]
    rfl
  · intro idx hidx
    obtain ⟨ln, b1, b2, b3, b4⟩ := fl idx hidx
    refine ⟨ln, b1, b2, b3, b4, ?_⟩
    intro cams
    unfold fixedLineResiduals
    rw [b1]
  · intro p
    exact costFun_error hp c m (ptLnVp_vectorize hp m) p

theorem C14_fixed_landmarks_witness :
    adjustBundle_G2O_problem scenarioSettings sampleHelpers (fun _ _ => ⟨0, 0, 1⟩)
        unmatchableMap 3 5 = Except.ok unmatchableProblem
    ∧ GidIsIndex unmatchableMap
    ∧ (1 : Int) ∈ unmatchableProblem.kptIdx2Rpj_notOpt
    ∧ ((1 : Int) ∉ unmatchableProblem.kptIdx2Opt ∧ ∃ kp v,
        vecAt unmatchableMap.keyPoints 1 = some kp
        ∧ mapRead unmatchableProblem.ptgid2vid 1 = v.id
        ∧ findVertex unmatchableProblem.vertices v.id = some v
        ∧ v.fixed = true ∧ v.estimate = Estimate.vec ⟨kp.x, kp.y, kp.z⟩
        ∧ findVertex (runOptimizer liftSolver unmatchableProblem).vertices v.id = some v
        ∧ ∀ m', adjustBundle_G2O scenarioSettings sampleHelpers (fun _ _ => ⟨0, 0, 1⟩)
              liftSolver unmatchableMap 3 5 = Except.ok m' →
            vecAt m'.keyPoints 1 = some kp) :=
  ⟨unmatchableProblem_eq, gidIsIndex_unmatchableMap, List.mem_singleton.mpr rfl,
    ((C14_fixed_landmarks scenarioSettings sampleHelpers (fun _ _ => ⟨0, 0, 1⟩)
      sampleCostHelpers (fun _ _ => shiftedLineOutcome) liftSolver unmatchableMap 3 5
      unmatchableProblem unmatchableProblem_eq).2.2.2.1 gidIsIndex_unmatchableMap).1 1
      (List.mem_singleton.mpr rfl)⟩

/-- C14 as stated fails. In the six-view scenario with view 1 marked unmatchable,
`adjustBundle_G2O(3, 5)` has `frontFrmIdx = 1`; the key point `keyPoints[1]` is admitted
and fixed (its vertex is 7) and is observed in the views 0, 1 and 5. Its observations in
the views 1 and 5 have view index `>= frontFrmIdx`, yet the problem carries a single
reprojection edge on vertex 7, to the camera of view 5: the observation in the
unmatchable view 1 yields no factor. -/
theorem C14_counterexample :
    (adjustBundle_G2O_problem scenarioSettings sampleHelpers (fun _ _ => ⟨0, 0, 1⟩)
        unmatchableMap 3 5).map (fun g =>
          (g.kptIdx2Rpj_notOpt, mapRead g.ptgid2vid 1, mapRead g.camfid2vid 5,
            (g.vecEdgeKpt.map (fun e => e.vertices)).filter (fun vs => vs.head? = some 7)))
      = Except.ok ([1], 7, 5, [[7, 5]])
    ∧ (vecAt unmatchableMap.keyPoints 1).map (fun k => k.viewId_ptLid)
        = some [(0, 1), (1, 1), (5, 1)]
    ∧ frontFrmIdx unmatchableMap.views.length 5 = 1
    ∧ (vecAt unmatchableMap.views 1).map (fun v => v.matchable) = some false
    ∧ (vecAt unmatchableMap.views 5).map (fun v => v.matchable) = some true := by
  refine ⟨rfl, rfl, rfl, rfl, rfl⟩

/-! ## The blocks of the parameter array, read and written at the offsets of the layout -/

theorem intRange_nodup (a b : Int) : (intRange a b).Nodup := by
  unfold intRange
  refine List.Nodup.map ?_ (List.nodup_range _)
  intro x y hxy
  simp only [add_right_inj, Nat.cast_inj] at hxy
  exact hxy

theorem mem_zip_left {α β : Type} (as : List α) (bs : List β)
    (hlen : as.length = bs.length) (a : α) (ha : a ∈ as) : ∃ b, (a, b) ∈ as.zip bs := by
  induction as generalizing bs with
  | nil => cases ha
  | cons x rest ih =>
    cases bs with
    | nil => simp at hlen
    | cons y ys =>
      simp only [List.zip_cons_cons, List.mem_cons, Prod.mk.injEq]
      rcases List.mem_cons.mp ha with rfl | hmem
      · exact ⟨y, Or.inl ⟨rfl, rfl⟩⟩
      · obtain ⟨b, hb⟩ := ih ys (by simpa using hlen) hmem
        exact ⟨b, Or.inr hb⟩

/-- Every block has an offset in the layout. -/
theorem layout_has_offset (m : Map) (d : PtLnVp) (b : Block) (hb : b ∈ ptLnVp_blocks m d) :
    ∃ off, (b, off) ∈ ptLnVp_layout m d :=
  mem_zip_left _ _ (by rw [offsets_length, List.length_map]) b hb

theorem not_mem_zip_map (mk : Int → Block) (b : Block) (hb : ∀ i, mk i ≠ b)
    (is : List Int) (offs : List Nat) (off : Nat) : (b, off) ∉ (is.map mk).zip offs := by
  intro hmem
  obtain ⟨i, _, hi⟩ := List.mem_map.mp (List.of_mem_zip hmem).1
  exact hb i hi

/-- A write-back loop that advances its offset by the length of each block and rewrites
element `i` from the offset it finds: the element of every block of the loop's segment
of the layout is rewritten from the offset the layout gives the block, every other
element is kept. -/
theorem foldl_at_offset {α : Type} (mk : Int → Block) (hmk : ∀ i j, mk i = mk j → i = j)
    (upd : Nat → Int → α → α) (step : Nat × List α → Int → Nat × List α)
    (hstep : ∀ st i, step st i = (st.1 + blockLen (mk i), vecModify st.2 i (upd st.1 i)))
    (is : List Int) (hn : is.Nodup) (st : Nat × List α) :
    (∀ i off, (mk i, off) ∈ (is.map mk).zip (offsets st.1 (is.map (fun i => blockLen (mk i)))) →
        vecAt (is.foldl step st).2 i = (vecAt st.2 i).map (upd off i))
    ∧ (∀ j, j ∉ is → vecAt (is.foldl step st).2 j = vecAt st.2 j)
    ∧ (is.foldl step st).1 = st.1 + (is.map (fun i => blockLen (mk i))).sum := by
  induction is generalizing st with
  | nil =>
    refine ⟨?_, fun _ _ => rfl, by simp⟩
    intro i off hmem
    simp at hmem
  | cons i0 rest ih =>
    obtain ⟨hnot, hn'⟩ := List.nodup_cons.mp hn
    obtain ⟨a1, a2, a3⟩ := ih hn' (step st i0)
    simp only [List.foldl_cons]
    have hs := hstep st i0
    refine ⟨?_, ?_, ?_⟩
    · intro i off hmem
      simp only [List.map_cons, offsets, List.zip_cons_cons, List.mem_cons,
        Prod.mk.injEq] at hmem
      rcases hmem with ⟨e1, e2⟩ | hmem
      · have hi : i = i0 := hmk _ _ e1
        subst hi
        rw [a2 i hnot, hs, e2]
        exact vecAt_vecModify _ _ _
      · have hmem' : (mk i, off) ∈ (rest.map mk).zip
            (offsets (step st i0).1 (rest.map (fun i => blockLen (mk i)))) := by
          rw [hs]
          exact hmem
        have hin : i ∈ rest := by
          obtain ⟨j, hj, hji⟩ := List.mem_map.mp (List.of_mem_zip hmem).1
          rw [← hmk _ _ hji]
          exact hj
        rw [a1 i off hmem', hs]
        simp only []
        rw [vecAt_vecModify_ne]
        intro he
        exact hnot (he ▸ hin)
    · intro j hj
      simp only [List.mem_cons, not_or] at hj
      rw [a2 j hj.2, hs]
      exact vecAt_vecModify_ne _ _ _ _ (Ne.symm hj.1)
    · rw [a3, hs]
      simp only [List.map_cons, List.sum_cons]
      omega

/-- The Result Writer of `adjustBundle_PtLnVp`, block by block: the pose of a free view,
a free key point, a vanishing point and a free ideal line are rewritten from the values
of `para` at the offset the layout gives their block. -/
theorem ptLnVp_writeBack_at (h : Helpers) (d : PtLnVp) (out : LmOutcome) (m : Map)
    (hk : d.kptIdx2Opt.Nodup) (hl : d.idlIdx2Opt.Nodup) :
    (∀ i off, (Block.cam i, off) ∈ ptLnVp_layout m d →
      (vecAt (ptLnVp_writeBack h d out m).views i).map (fun v => (v.R, v.t))
        = (vecAt m.views i).map (fun _ =>
            (h.quatMatrix (rd out.para off) (rd out.para (off + 1)) (rd out.para (off + 2))
                (rd out.para (off + 3)),
             if i = 1 then h.angle2unitVec (rd out.para (off + 4)) (rd out.para (off + 5))
             else ⟨rd out.para (off + 4), rd out.para (off + 5), rd out.para (off + 6)⟩)))
    ∧ (∀ idx off, (Block.point idx, off) ∈ ptLnVp_layout m d →
      vecAt (ptLnVp_writeBack h d out m).keyPoints idx
        = (vecAt m.keyPoints idx).map (fun k =>
            { k with x := rd out.para off, y := rd out.para (off + 1),
                     z := rd out.para (off + 2) }))
    ∧ (∀ i off, (Block.vnpt i, off) ∈ ptLnVp_layout m d →
      vecAt (ptLnVp_writeBack h d out m).vanishingPoints i
        = (vecAt m.vanishingPoints i).map (fun v =>
            { v with x := rd out.para off, y := rd out.para (off + 1),
                     z := rd out.para (off + 2) }))
    ∧ (∀ idx off, (Block.line idx, off) ∈ ptLnVp_layout m d →
      vecAt (ptLnVp_writeBack h d out m).idealLines idx
        = (vecAt m.idealLines idx).map (fun ln =>
            match vecAt (ptLnVp_writeBack h d out m).vanishingPoints ln.vpGid with
            | none =>
              { ln with midpt := ⟨rd out.para off, rd out.para (off + 1),
                                  rd out.para (off + 2)⟩ }
            | some vp =>
              { ln with
                midpt := h.projectPt3d2Ln3d
                  { ln with midpt := ⟨rd out.para off, rd out.para (off + 1),
                                      rd out.para (off + 2)⟩,
                            direct := ⟨vp.x, vp.y, vp.z⟩ } ln.midpt,
                direct := ⟨vp.x, vp.y, vp.z⟩ })) := by
  have hcam := foldl_at_offset Block.cam (fun i j e => by cases e; rfl)
    (fun (p : Nat) (i : Int) (v : View) =>
      if i = 1 then
        { v with R := h.quatMatrix (rd out.para p) (rd out.para (p + 1)) (rd out.para (p + 2))
                   (rd out.para (p + 3)),
                 t := h.angle2unitVec (rd out.para (p + 4)) (rd out.para (p + 5)) }
      else
        { v with R := h.quatMatrix (rd out.para p) (rd out.para (p + 1)) (rd out.para (p + 2))
                   (rd out.para (p + 3)),
                 t := ⟨rd out.para (p + 4), rd out.para (p + 5), rd out.para (p + 6)⟩ })
    (ptLnVp_writeCam h out.para)
    (fun st i => by by_cases hi : i = 1 <;> simp [ptLnVp_writeCam, blockLen, hi])
    (intRange d.frontPosIdx (m.views.length : Int)) (intRange_nodup _ _) (0, m.views)
  have hpt := foldl_at_offset Block.point (fun i j e => by cases e; rfl)
    (fun (p : Nat) (_ : Int) (k : KeyPoint3d) =>
      { k with x := rd out.para p, y := rd out.para (p + 1), z := rd out.para (p + 2) })
    (ptLnVp_writePoint out.para) (fun st i => rfl) d.kptIdx2Opt hk
    (((intRange d.frontPosIdx (m.views.length : Int)).map
        (fun i => blockLen (Block.cam i))).sum, m.keyPoints)
  have hvp := foldl_at_offset Block.vnpt (fun i j e => by cases e; rfl)
    (fun (p : Nat) (_ : Int) (v : VanishPnt3d) =>
      { v with x := rd out.para p, y := rd out.para (p + 1), z := rd out.para (p + 2) })
    (ptLnVp_writeVnpt out.para) (fun st i => rfl)
    (intRange 0 (m.vanishingPoints.length : Int)) (intRange_nodup _ _)
    (((intRange d.frontPosIdx (m.views.length : Int)).map
        (fun i => blockLen (Block.cam i))).sum
      + (d.kptIdx2Opt.map (fun i => blockLen (Block.point i))).sum, m.vanishingPoints)
  obtain ⟨c1, _, c3⟩ := hcam
  obtain ⟨p1, _, p3⟩ := hpt
  obtain ⟨v1, _, v3⟩ := hvp
  simp only [Nat.zero_add] at c3 p3 v3
  have hV : (ptLnVp_writeBack h d out m).vanishingPoints
      = ((intRange 0 (m.vanishingPoints.length : Int)).foldl (ptLnVp_writeVnpt out.para)
          (((intRange d.frontPosIdx (m.views.length : Int)).map
              (fun i => blockLen (Block.cam i))).sum
            + (d.kptIdx2Opt.map (fun i => blockLen (Block.point i))).sum,
            m.vanishingPoints)).2 := by
    unfold ptLnVp_writeBack
    simp only [c3, p3]
  have hln := foldl_at_offset Block.line (fun i j e => by cases e; rfl)
    (fun (p : Nat) (_ : Int) (ln : IdealLine3d) =>
      ptLnVp_updateLine h (ptLnVp_writeBack h d out m).vanishingPoints out.para p ln)
    (ptLnVp_writeLine h (ptLnVp_writeBack h d out m).vanishingPoints out.para)
    (fun st i => rfl) d.idlIdx2Opt hl
    (((intRange d.frontPosIdx (m.views.length : Int)).map
        (fun i => blockLen (Block.cam i))).sum
      + (d.kptIdx2Opt.map (fun i => blockLen (Block.point i))).sum
      + ((intRange 0 (m.vanishingPoints.length : Int)).map
          (fun i => blockLen (Block.vnpt i))).sum, m.idealLines)
  obtain ⟨l1, _, _⟩ := hln
  have hlay := ptLnVp_layout_eq m d
  refine ⟨?_, ?_, ?_, ?_⟩
  · intro i off hmem
    rw [hlay] at hmem
    simp only [List.mem_append] at hmem
    rcases hmem with ((hmem | hmem) | hmem) | hmem
    · have e := c1 i off hmem
      have hv : (ptLnVp_writeBack h d out m).views.map (fun v => (v.R, v.t))
          = ((intRange d.frontPosIdx (m.views.length : Int)).foldl
              (ptLnVp_writeCam h out.para) (0, m.views)).2.map (fun v => (v.R, v.t)) := by
        unfold ptLnVp_writeBack
        simp only []
        exact map_vecModify _ _ _ _ (fun _ => rfl)
      rw [← vecAt_map, hv, vecAt_map, e, Option.map_map]
      congr 1
      funext v
      by_cases hi : i = 1 <;> simp [hi]
    · exact absurd hmem (not_mem_zip_map Block.point _ (fun _ e => by cases e) _ _ _)
    · exact absurd hmem (not_mem_zip_map Block.vnpt _ (fun _ e => by cases e) _ _ _)
    · exact absurd hmem (not_mem_zip_map Block.line _ (fun _ e => by cases e) _ _ _)
  · intro idx off hmem
    rw [hlay] at hmem
    simp only [List.mem_append] at hmem
    rcases hmem with ((hmem | hmem) | hmem) | hmem
    · exact absurd hmem (not_mem_zip_map Block.cam _ (fun _ e => by cases e) _ _ _)
    · have e := p1 idx off hmem
      have hw : (ptLnVp_writeBack h d out m).keyPoints
          = (d.kptIdx2Opt.foldl (ptLnVp_writePoint out.para)
              (((intRange d.frontPosIdx (m.views.length : Int)).map
                (fun i => blockLen (Block.cam i))).sum, m.keyPoints)).2 := by
        unfold ptLnVp_writeBack
        simp only [c3]
      rw [hw]
      exact e
    · exact absurd hmem (not_mem_zip_map Block.vnpt _ (fun _ e => by cases e) _ _ _)
    · exact absurd hmem (not_mem_zip_map Block.line _ (fun _ e => by cases e) _ _ _)
  · intro i off hmem
    rw [hlay] at hmem
    simp only [List.mem_append] at hmem
    rcases hmem with ((hmem | hmem) | hmem) | hmem
    · exact absurd hmem (not_mem_zip_map Block.cam _ (fun _ e => by cases e) _ _ _)
    · exact absurd hmem (not_mem_zip_map Block.point _ (fun _ e => by cases e) _ _ _)
    · have e := v1 i off hmem
      rw [hV]
      exact e
    · exact absurd hmem (not_mem_zip_map Block.line _ (fun _ e => by cases e) _ _ _)
  · intro idx off hmem
    rw [hlay] at hmem
    simp only [List.mem_append] at hmem
    rcases hmem with ((hmem | hmem) | hmem) | hmem
    · exact absurd hmem (not_mem_zip_map Block.cam _ (fun _ e => by cases e) _ _ _)
    · exact absurd hmem (not_mem_zip_map Block.point _ (fun _ e => by cases e) _ _ _)
    · exact absurd hmem (not_mem_zip_map Block.vnpt _ (fun _ e => by cases e) _ _ _)
    · have e := l1 idx off hmem
      have hw : (ptLnVp_writeBack h d out m).idealLines
          = (d.idlIdx2Opt.foldl
              (ptLnVp_writeLine h (ptLnVp_writeBack h d out m).vanishingPoints out.para)
              (((intRange d.frontPosIdx (m.views.length : Int)).map
                  (fun i => blockLen (Block.cam i))).sum
                + (d.kptIdx2Opt.map (fun i => blockLen (Block.point i))).sum
                + ((intRange 0 (m.vanishingPoints.length : Int)).map
                    (fun i => blockLen (Block.vnpt i))).sum, m.idealLines)).2 := by
        rw [hV]
        unfold ptLnVp_writeBack
        simp only [c3, p3, v3]
      rw [hw, e]
      rfl

theorem flatMap_zip_map {β : Type} (mk : Int → Block) (G : Block × Nat → List β)
    (F : Int → Nat → List β) (hG : ∀ i o, G (mk i, o) = F i o) (is : List Int)
    (offs : List Nat) :
    ((is.map mk).zip offs).flatMap G = (is.zip offs).flatMap (fun q => F q.1 q.2) := by
  induction is generalizing offs with
  | nil => rfl
  | cons i rest ih =>
    cases offs with
    | nil => rfl
    | cons o os =>
      simp only [List.map_cons, List.zip_cons_cons, List.flatMap_cons, hG, ih]

theorem flatMap_zip_nil {β : Type} (mk : Int → Block) (G : Block × Nat → List β)
    (hG : ∀ i o, G (mk i, o) = []) (is : List Int) (offs : List Nat) :
    ((is.map mk).zip offs).flatMap G = [] := by
  induction is generalizing offs with
  | nil => rfl
  | cons i rest ih =>
    cases offs with
    | nil => rfl
    | cons o os =>
      simp only [List.map_cons, List.zip_cons_cons, List.flatMap_cons, hG, ih,
        List.append_nil]

/-- The pose loop of the cost function from any state. -/
theorem costCams_at (h : Helpers) (p : List Rat) (is : List Int) (st : CostState) :
    (is.foldl (costCam h p) st).pidx
        = st.pidx + (is.map (fun i => blockLen (Block.cam i))).sum
    ∧ (is.foldl (costCam h p) st).cams
        = st.cams ++ (is.zip (offsets st.pidx (is.map (fun i => blockLen (Block.cam i))))).flatMap
            (fun q => [(q.1, h.quatMatrix (rd p q.2) (rd p (q.2 + 1)) (rd p (q.2 + 2))
                  (rd p (q.2 + 3)),
                if q.1 = 1 then h.angle2unitVec (rd p (q.2 + 4)) (rd p (q.2 + 5))
                else ⟨rd p (q.2 + 4), rd p (q.2 + 5), rd p (q.2 + 6)⟩)])
    ∧ (is.foldl (costCam h p) st).VPs = st.VPs
    ∧ (is.foldl (costCam h p) st).error = st.error := by
  induction is generalizing st with
  | nil => simp [offsets]
  | cons i rest ih =>
    obtain ⟨a1, a2, a3, a4⟩ := ih (costCam h p st i)
    simp only [List.foldl_cons, List.map_cons, List.sum_cons, offsets, List.zip_cons_cons,
      List.flatMap_cons]
    rw [a1, a2, a3, a4]
    by_cases hi : i = 1
    · simp [costCam, blockLen, hi]
      omega
    · simp [costCam, blockLen, hi]
      omega

/-- The loop over the free points from any state. -/
theorem costPoints_at (c : CostHelpers) (m : Map) (d : PtLnVp) (p : List Rat)
    (is : List Int) (st : CostState) :
    (is.foldl (costPoint c m d p) st).pidx
        = st.pidx + (is.map (fun i => blockLen (Block.point i))).sum
    ∧ (is.foldl (costPoint c m d p) st).cams = st.cams
    ∧ (is.foldl (costPoint c m d p) st).VPs = st.VPs
    ∧ (is.foldl (costPoint c m d p) st).error
        = st.error ++ (is.zip (offsets st.pidx
            (is.map (fun i => blockLen (Block.point i))))).flatMap
              (fun q => freePtResiduals c m d p st.cams q.1 q.2) := by
  induction is generalizing st with
  | nil => simp [offsets]
  | cons i rest ih =>
    obtain ⟨a1, a2, a3, a4⟩ := ih (costPoint c m d p st i)
    obtain ⟨⟨b1, b2⟩, b3, b4⟩ := costPoint_closed c m d p st i
    simp only [List.foldl_cons, List.map_cons, List.sum_cons, offsets, List.zip_cons_cons,
      List.flatMap_cons]
    rw [a1, a2, a3, a4, b1, b2, b3, b4]
    refine ⟨?_, rfl, rfl, ?_⟩
    · simp only [blockLen]
      omega
    · simp only [blockLen, List.append_assoc]

/-- The loop over the fixed points from any state. -/
theorem costFixedPoints_at (c : CostHelpers) (m : Map) (d : PtLnVp) (is : List Int)
    (st : CostState) :
    (is.foldl (costFixedPoint c m d) st).pidx = st.pidx
    ∧ (is.foldl (costFixedPoint c m d) st).cams = st.cams
    ∧ (is.foldl (costFixedPoint c m d) st).VPs = st.VPs
    ∧ (is.foldl (costFixedPoint c m d) st).error
        = st.error ++ is.flatMap (fixedPtResiduals c m d st.cams) := by
  induction is generalizing st with
  | nil => simp
  | cons i rest ih =>
    obtain ⟨a1, a2, a3, a4⟩ := ih (costFixedPoint c m d st i)
    obtain ⟨⟨b1, b2⟩, b3, b4⟩ := costFixedPoint_closed c m d st i
    simp only [List.foldl_cons, List.flatMap_cons]
    rw [a1, a2, a3, a4, b1, b2, b3, b4]
    exact ⟨rfl, rfl, rfl, by rw [List.append_assoc]⟩

/-- The loop over the vanishing points from any state. -/
theorem costVnpts_at (p : List Rat) (is : List Int) (st : CostState) :
    (is.foldl (costVnpt p) st).pidx
        = st.pidx + (is.map (fun i => blockLen (Block.vnpt i))).sum
    ∧ (is.foldl (costVnpt p) st).cams = st.cams
    ∧ (is.foldl (costVnpt p) st).VPs
        = st.VPs ++ (is.zip (offsets st.pidx
            (is.map (fun i => blockLen (Block.vnpt i))))).flatMap
              (fun q => [(⟨rd p q.2, rd p (q.2 + 1), rd p (q.2 + 2)⟩ : Vec3)])
    ∧ (is.foldl (costVnpt p) st).error = st.error := by
  induction is generalizing st with
  | nil => simp [offsets]
  | cons i rest ih =>
    obtain ⟨a1, a2, a3, a4⟩ := ih (costVnpt p st i)
    simp only [List.foldl_cons, List.map_cons, List.sum_cons, offsets, List.zip_cons_cons,
      List.flatMap_cons]
    rw [a1, a2, a3, a4]
    simp only [costVnpt, blockLen, List.append_assoc, List.singleton_append]
    refine ⟨by omega, ?_, ?_, ?_⟩ <;> trivial

/-- The loop over the free lines from any state. -/
theorem costLines_at (c : CostHelpers) (m : Map) (d : PtLnVp) (p : List Rat)
    (is : List Int) (st : CostState) :
    (is.foldl (costLine c m d p) st).pidx
        = st.pidx + (is.map (fun i => blockLen (Block.line i))).sum
    ∧ (is.foldl (costLine c m d p) st).cams = st.cams
    ∧ (is.foldl (costLine c m d p) st).VPs = st.VPs
    ∧ (is.foldl (costLine c m d p) st).error
        = st.error ++ (is.zip (offsets st.pidx
            (is.map (fun i => blockLen (Block.line i))))).flatMap
              (fun q => freeLineResiduals c m d p st.cams st.VPs q.1 q.2) := by
  induction is generalizing st with
  | nil => simp [offsets]
  | cons i rest ih =>
    obtain ⟨a1, a2, a3, a4⟩ := ih (costLine c m d p st i)
    obtain ⟨⟨b1, b2⟩, b3, b4⟩ := costLine_closed c m d p st i
    simp only [List.foldl_cons, List.map_cons, List.sum_cons, offsets, List.zip_cons_cons,
      List.flatMap_cons]
    rw [a1, a2, a3, a4, b1, b2, b3, b4]
    refine ⟨?_, rfl, rfl, ?_⟩
    · simp only [blockLen]
      omega
    · simp only [blockLen, List.append_assoc]

/-- The loop over the fixed lines from any state. -/
theorem costFixedLines_at (c : CostHelpers) (m : Map) (d : PtLnVp) (is : List Int)
    (st : CostState) :
    (is.foldl (costFixedLine c m d) st).pidx = st.pidx
    ∧ (is.foldl (costFixedLine c m d) st).cams = st.cams
    ∧ (is.foldl (costFixedLine c m d) st).VPs = st.VPs
    ∧ (is.foldl (costFixedLine c m d) st).error
        = st.error ++ is.flatMap (fixedLineResiduals c m d st.cams) := by
  induction is generalizing st with
  | nil => simp
  | cons i rest ih =>
    obtain ⟨a1, a2, a3, a4⟩ := ih (costFixedLine c m d st i)
    obtain ⟨⟨b1, b2⟩, b3, b4⟩ := costFixedLine_closed c m d st i
    simp only [List.foldl_cons, List.flatMap_cons]
    rw [a1, a2, a3, a4, b1, b2, b3, b4]
    exact ⟨rfl, rfl, rfl, by rw [List.append_assoc]⟩

/-- The cost function in closed form: the poses and the vanishing points it decodes and
the residuals it writes, each from the values of `p` at explicit offsets, which are the
offsets the layout gives the blocks (`ptLnVp_layout_eq`); its final `pidx` is the sum of
the block lengths. -/
theorem costFun_at (h : Helpers) (c : CostHelpers) (m : Map) (d : PtLnVp) (p : List Rat) :
    (costFun_BA_PtLnVp h c m d p).cams
      = ((intRange d.frontPosIdx (m.views.length : Int)).zip
          (offsets 0 ((intRange d.frontPosIdx (m.views.length : Int)).map
            (fun i => blockLen (Block.cam i))))).flatMap
          (fun q => [(q.1, h.quatMatrix (rd p q.2) (rd p (q.2 + 1)) (rd p (q.2 + 2))
                (rd p (q.2 + 3)),
              if q.1 = 1 then h.angle2unitVec (rd p (q.2 + 4)) (rd p (q.2 + 5))
              else ⟨rd p (q.2 + 4), rd p (q.2 + 5), rd p (q.2 + 6)⟩)])
    ∧ (costFun_BA_PtLnVp h c m d p).VPs
      = ((intRange 0 (m.vanishingPoints.length : Int)).zip
          (offsets (((intRange d.frontPosIdx (m.views.length : Int)).map
              (fun i => blockLen (Block.cam i))).sum
              + (d.kptIdx2Opt.map (fun i => blockLen (Block.point i))).sum)
            ((intRange 0 (m.vanishingPoints.length : Int)).map
              (fun i => blockLen (Block.vnpt i))))).flatMap
          (fun q => [(⟨rd p q.2, rd p (q.2 + 1), rd p (q.2 + 2)⟩ : Vec3)])
    ∧ (costFun_BA_PtLnVp h c m d p).error
      = (d.kptIdx2Opt.zip
          (offsets (((intRange d.frontPosIdx (m.views.length : Int)).map
              (fun i => blockLen (Block.cam i))).sum)
            (d.kptIdx2Opt.map (fun i => blockLen (Block.point i))))).flatMap
          (fun q => freePtResiduals c m d p (costFun_BA_PtLnVp h c m d p).cams q.1 q.2)
        ++ d.kptIdx2Rpj_notOpt.flatMap
            (fixedPtResiduals c m d (costFun_BA_PtLnVp h c m d p).cams)
        ++ (d.idlIdx2Opt.zip
          (offsets (((intRange d.frontPosIdx (m.views.length : Int)).map
              (fun i => blockLen (Block.cam i))).sum
              + (d.kptIdx2Opt.map (fun i => blockLen (Block.point i))).sum
              + ((intRange 0 (m.vanishingPoints.length : Int)).map
                  (fun i => blockLen (Block.vnpt i))).sum)
            (d.idlIdx2Opt.map (fun i => blockLen (Block.line i))))).flatMap
          (fun q => freeLineResiduals c m d p (costFun_BA_PtLnVp h c m d p).cams
            (costFun_BA_PtLnVp h c m d p).VPs q.1 q.2)
        ++ d.idlIdx2Rpj_notOpt.flatMap
            (fixedLineResiduals c m d (costFun_BA_PtLnVp h c m d p).cams) := by
  unfold costFun_BA_PtLnVp
  simp only []
  obtain ⟨a1, a2, a3, a4⟩ := costCams_at h p (intRange d.frontPosIdx (m.views.length : Int))
    { pidx := 0, cams := [], VPs := [], error := [], err_pt_vec := [], err_ln_vec := [],
      reads := [] }
  simp only [Nat.zero_add, List.nil_append] at a1 a2 a3 a4
  generalize (intRange d.frontPosIdx (m.views.length : Int)).foldl (costCam h p)
    { pidx := 0, cams := [], VPs := [], error := [], err_pt_vec := [], err_ln_vec := [],
      reads := [] } = s1 at a1 a2 a3 a4 ⊢
  obtain ⟨b1, b2, b3, b4⟩ := costPoints_at c m d p d.kptIdx2Opt s1
  generalize d.kptIdx2Opt.foldl (costPoint c m d p) s1 = s2 at b1 b2 b3 b4 ⊢
  obtain ⟨c1, c2, c3, c4⟩ := costFixedPoints_at c m d d.kptIdx2Rpj_notOpt s2
  generalize d.kptIdx2Rpj_notOpt.foldl (costFixedPoint c m d) s2 = s3 at c1 c2 c3 c4 ⊢
  obtain ⟨d1, d2, d3, d4⟩ := costVnpts_at p (intRange 0 (m.vanishingPoints.length : Int)) s3
  generalize (intRange 0 (m.vanishingPoints.length : Int)).foldl (costVnpt p) s3 = s4
    at d1 d2 d3 d4 ⊢
  obtain ⟨e1, e2, e3, e4⟩ := costLines_at c m d p d.idlIdx2Opt s4
  generalize d.idlIdx2Opt.foldl (costLine c m d p) s4 = s5 at e1 e2 e3 e4 ⊢
  obtain ⟨f1, f2, f3, f4⟩ := costFixedLines_at c m d d.idlIdx2Rpj_notOpt s5
  generalize d.idlIdx2Rpj_notOpt.foldl (costFixedLine c m d) s5 = s6 at f1 f2 f3 f4 ⊢
  have hp1 : s1.pidx = ((intRange d.frontPosIdx (m.views.length : Int)).map
      (fun i => blockLen (Block.cam i))).sum := a1
  have hp3 : s3.pidx = ((intRange d.frontPosIdx (m.views.length : Int)).map
      (fun i => blockLen (Block.cam i))).sum
      + (d.kptIdx2Opt.map (fun i => blockLen (Block.point i))).sum := by
    rw [c1, b1, hp1]
  have hp4 : s4.pidx = ((intRange d.frontPosIdx (m.views.length : Int)).map
      (fun i => blockLen (Block.cam i))).sum
      + (d.kptIdx2Opt.map (fun i => blockLen (Block.point i))).sum
      + ((intRange 0 (m.vanishingPoints.length : Int)).map
          (fun i => blockLen (Block.vnpt i))).sum := by
    rw [d1, hp3]
  have hc1 : s1.cams = ((intRange d.frontPosIdx (m.views.length : Int)).zip
          (offsets 0 ((intRange d.frontPosIdx (m.views.length : Int)).map
            (fun i => blockLen (Block.cam i))))).flatMap
          (fun q => [(q.1, h.quatMatrix (rd p q.2) (rd p (q.2 + 1)) (rd p (q.2 + 2))
                (rd p (q.2 + 3)),
              if q.1 = 1 then h.angle2unitVec (rd p (q.2 + 4)) (rd p (q.2 + 5))
              else ⟨rd p (q.2 + 4), rd p (q.2 + 5), rd p (q.2 + 6)⟩)]) := a2
  have hc2 : s2.cams = s1.cams := b2
  have hc3 : s3.cams = s1.cams := c2.trans hc2
  have hc4 : s4.cams = s1.cams := d2.trans hc3
  have hc5 : s5.cams = s1.cams := e2.trans hc4
  have hc6 : s6.cams = s1.cams := f2.trans hc5
  have hv3 : s3.VPs = [] := by rw [c3, b3, a3]
  have hv6 : s6.VPs = s4.VPs := f3.trans e3
  refine ⟨hc6.trans hc1, ?_, ?_⟩
  · rw [hv6, d3, hv3, hp3, List.nil_append]
  · rw [f4, e4, d4, c4, b4, a4, hc6, hv6, hc5, hc4, hc2, hp4, hp1, List.nil_append]

theorem ptLnVp_vectorize_nodup (h : Helpers) (m : Map) :
    (ptLnVp_vectorize h m).kptIdx2Opt.Nodup ∧ (ptLnVp_vectorize h m).idlIdx2Opt.Nodup := by
  constructor
  · simp only [ptLnVp_vectorize, ptLnVp_addIdealLines_closed, ptLnVp_addKeyPoints_closed,
      List.nil_append]
    exact indexed_filter_nodup _ _ _
  · simp only [ptLnVp_vectorize, ptLnVp_addIdealLines_closed, ptLnVp_addKeyPoints_closed,
      List.nil_append]
    exact indexed_filter_nodup _ _ _

/-- The Result Writer of `adjustBundle_PtLnVp` at the blocks of the vectorizer's
layout. -/
theorem adjustBundle_PtLnVp_at (h : Helpers) (lm : Map → PtLnVp → LmOutcome) (m : Map) :
    (∀ i off, (Block.cam i, off) ∈ ptLnVp_layout m (ptLnVp_vectorize h m) →
      (vecAt (adjustBundle_PtLnVp h lm m).views i).map (fun v => (v.R, v.t))
        = (vecAt m.views i).map (fun _ =>
            (h.quatMatrix (rd (lm m (ptLnVp_vectorize h m)).para off) (rd (lm m (ptLnVp_vectorize h m)).para (off + 1)) (rd (lm m (ptLnVp_vectorize h m)).para (off + 2))
                (rd (lm m (ptLnVp_vectorize h m)).para (off + 3)),
             if i = 1 then h.angle2unitVec (rd (lm m (ptLnVp_vectorize h m)).para (off + 4)) (rd (lm m (ptLnVp_vectorize h m)).para (off + 5))
             else ⟨rd (lm m (ptLnVp_vectorize h m)).para (off + 4), rd (lm m (ptLnVp_vectorize h m)).para (off + 5), rd (lm m (ptLnVp_vectorize h m)).para (off + 6)⟩)))
    ∧ (∀ idx off, (Block.point idx, off) ∈ ptLnVp_layout m (ptLnVp_vectorize h m) →
      vecAt (adjustBundle_PtLnVp h lm m).keyPoints idx
        = (vecAt m.keyPoints idx).map (fun k =>
            { k with x := rd (lm m (ptLnVp_vectorize h m)).para off, y := rd (lm m (ptLnVp_vectorize h m)).para (off + 1),
                     z := rd (lm m (ptLnVp_vectorize h m)).para (off + 2) }))
    ∧ (∀ i off, (Block.vnpt i, off) ∈ ptLnVp_layout m (ptLnVp_vectorize h m) →
      vecAt (adjustBundle_PtLnVp h lm m).vanishingPoints i
        = (vecAt m.vanishingPoints i).map (fun v =>
            { v with x := rd (lm m (ptLnVp_vectorize h m)).para off, y := rd (lm m (ptLnVp_vectorize h m)).para (off + 1),
                     z := rd (lm m (ptLnVp_vectorize h m)).para (off + 2) }))
    ∧ (∀ idx off, (Block.line idx, off) ∈ ptLnVp_layout m (ptLnVp_vectorize h m) →
      vecAt (adjustBundle_PtLnVp h lm m).idealLines idx
        = (vecAt m.idealLines idx).map (fun ln =>
            match vecAt (adjustBundle_PtLnVp h lm m).vanishingPoints ln.vpGid with
            | none =>
              { ln with midpt := ⟨rd (lm m (ptLnVp_vectorize h m)).para off, rd (lm m (ptLnVp_vectorize h m)).para (off + 1),
                                  rd (lm m (ptLnVp_vectorize h m)).para (off + 2)⟩ }
            | some vp =>
              { ln with
                midpt := h.projectPt3d2Ln3d
                  { ln with midpt := ⟨rd (lm m (ptLnVp_vectorize h m)).para off, rd (lm m (ptLnVp_vectorize h m)).para (off + 1),
                                      rd (lm m (ptLnVp_vectorize h m)).para (off + 2)⟩,
                            direct := ⟨vp.x, vp.y, vp.z⟩ } ln.midpt,
                direct := ⟨vp.x, vp.y, vp.z⟩ })) :=
  ptLnVp_writeBack_at h (ptLnVp_vectorize h m) (lm m (ptLnVp_vectorize h m)) m
    (ptLnVp_vectorize_nodup h m).1 (ptLnVp_vectorize_nodup h m).2

/-- C18: in `adjustBundle_PtLnVp`, for every map state, the parameter vector is the
concatenation of the blocks of the layout: the poses of the free views in view order (6
values for view 1, 7 for every other view), then the free points, then all vanishing
points, then the free lines (3 values each), every block starting where the previous one
ends. The block listed at offset `off` occupies `paraVec[off .. off + len)`. The cost
function decodes the pose of every free view and every vanishing point, and computes the
residuals of every free point and free line, from the values `p[off], p[off + 1], ...` at
the offset `off` the layout gives the block, and ends with `pidx = numPara`. The Result
Writer stores for every block the values `para[off], para[off + 1], ...` at the offset
of the layout: rotation and translation (for view 1 the unit vector of the two angles)
of a free view, position of a free point, vanishing point, and for a free line the
midpoint that is then projected with the updated direction; the block lengths add up to
`numPara`. -/
theorem C18_layout (h : Helpers) (c : CostHelpers) (lm : Map → PtLnVp → LmOutcome) (m : Map)
    (p : List Rat) :
    (ptLnVp_vectorize h m).paraVec
        = (ptLnVp_blocks m (ptLnVp_vectorize h m)).flatMap (blockValues h m)
    ∧ (∀ b ∈ ptLnVp_blocks m (ptLnVp_vectorize h m),
        (blockValues h m b).length = blockLen b)
    ∧ (∀ (k : Nat) (b : Block) (off : Nat),
        (ptLnVp_layout m (ptLnVp_vectorize h m))[k]? = some (b, off) →
        ((ptLnVp_vectorize h m).paraVec.drop off).take (blockLen b) = blockValues h m b)
    ∧ (costFun_BA_PtLnVp h c m (ptLnVp_vectorize h m) p).reads
        = ptLnVp_layout m (ptLnVp_vectorize h m)
    ∧ (costFun_BA_PtLnVp h c m (ptLnVp_vectorize h m) p).pidx
        = (ptLnVp_vectorize h m).paraVec.length
    ∧ adjustBundle_PtLnVp h lm m
        = ptLnVp_writeErr (lm m (ptLnVp_vectorize h m))
            ((ptLnVp_layout m (ptLnVp_vectorize h m)).foldl
              (ptLnVp_writeBlock h (lm m (ptLnVp_vectorize h m)).para) m)
    ∧ ((ptLnVp_blocks m (ptLnVp_vectorize h m)).map blockLen).sum
        = (ptLnVp_vectorize h m).paraVec.length
    ∧ (∀ b ∈ ptLnVp_blocks m (ptLnVp_vectorize h m),
        ∃ off, (b, off) ∈ ptLnVp_layout m (ptLnVp_vectorize h m))
    ∧ (ptLnVp_layout m (ptLnVp_vectorize h m)
      = ((intRange (ptLnVp_vectorize h m).frontPosIdx (m.views.length : Int)).map Block.cam).zip
          (offsets 0 ((intRange (ptLnVp_vectorize h m).frontPosIdx (m.views.length : Int)).map
            (fun i => blockLen (Block.cam i))))
        ++ ((ptLnVp_vectorize h m).kptIdx2Opt.map Block.point).zip
          (offsets (((intRange (ptLnVp_vectorize h m).frontPosIdx (m.views.length : Int)).map
              (fun i => blockLen (Block.cam i))).sum)
            ((ptLnVp_vectorize h m).kptIdx2Opt.map (fun i => blockLen (Block.point i))))
        ++ ((intRange 0 (m.vanishingPoints.length : Int)).map Block.vnpt).zip
          (offsets (((intRange (ptLnVp_vectorize h m).frontPosIdx (m.views.length : Int)).map
              (fun i => blockLen (Block.cam i))).sum
              + ((ptLnVp_vectorize h m).kptIdx2Opt.map (fun i => blockLen (Block.point i))).sum)
            ((intRange 0 (m.vanishingPoints.length : Int)).map
              (fun i => blockLen (Block.vnpt i))))
        ++ ((ptLnVp_vectorize h m).idlIdx2Opt.map Block.line).zip
          (offsets (((intRange (ptLnVp_vectorize h m).frontPosIdx (m.views.length : Int)).map
              (fun i => blockLen (Block.cam i))).sum
              + ((ptLnVp_vectorize h m).kptIdx2Opt.map (fun i => blockLen (Block.point i))).sum
              + ((intRange 0 (m.vanishingPoints.length : Int)).map
                  (fun i => blockLen (Block.vnpt i))).sum)
            ((ptLnVp_vectorize h m).idlIdx2Opt.map (fun i => blockLen (Block.line i)))))
    ∧ ((costFun_BA_PtLnVp h c m (ptLnVp_vectorize h m) p).cams
      = ((intRange (ptLnVp_vectorize h m).frontPosIdx (m.views.length : Int)).zip
          (offsets 0 ((intRange (ptLnVp_vectorize h m).frontPosIdx (m.views.length : Int)).map
            (fun i => blockLen (Block.cam i))))).flatMap
          (fun q => [(q.1, h.quatMatrix (rd p q.2) (rd p (q.2 + 1)) (rd p (q.2 + 2))
                (rd p (q.2 + 3)),
              if q.1 = 1 then h.angle2unitVec (rd p (q.2 + 4)) (rd p (q.2 + 5))
              else ⟨rd p (q.2 + 4), rd p (q.2 + 5), rd p (q.2 + 6)⟩)])
    ∧ (costFun_BA_PtLnVp h c m (ptLnVp_vectorize h m) p).VPs
      = ((intRange 0 (m.vanishingPoints.length : Int)).zip
          (offsets (((intRange (ptLnVp_vectorize h m).frontPosIdx (m.views.length : Int)).map
              (fun i => blockLen (Block.cam i))).sum
              + ((ptLnVp_vectorize h m).kptIdx2Opt.map (fun i => blockLen (Block.point i))).sum)
            ((intRange 0 (m.vanishingPoints.length : Int)).map
              (fun i => blockLen (Block.vnpt i))))).flatMap
          (fun q => [(⟨rd p q.2, rd p (q.2 + 1), rd p (q.2 + 2)⟩ : Vec3)])
    ∧ (costFun_BA_PtLnVp h c m (ptLnVp_vectorize h m) p).error
      = ((ptLnVp_vectorize h m).kptIdx2Opt.zip
          (offsets (((intRange (ptLnVp_vectorize h m).frontPosIdx (m.views.length : Int)).map
              (fun i => blockLen (Block.cam i))).sum)
            ((ptLnVp_vectorize h m).kptIdx2Opt.map (fun i => blockLen (Block.point i))))).flatMap
          (fun q => freePtResiduals c m (ptLnVp_vectorize h m) p (costFun_BA_PtLnVp h c m (ptLnVp_vectorize h m) p).cams q.1 q.2)
        ++ (ptLnVp_vectorize h m).kptIdx2Rpj_notOpt.flatMap
            (fixedPtResiduals c m (ptLnVp_vectorize h m) (costFun_BA_PtLnVp h c m (ptLnVp_vectorize h m) p).cams)
        ++ ((ptLnVp_vectorize h m).idlIdx2Opt.zip
          (offsets (((intRange (ptLnVp_vectorize h m).frontPosIdx (m.views.length : Int)).map
              (fun i => blockLen (Block.cam i))).sum
              + ((ptLnVp_vectorize h m).kptIdx2Opt.map (fun i => blockLen (Block.point i))).sum
              + ((intRange 0 (m.vanishingPoints.length : Int)).map
                  (fun i => blockLen (Block.vnpt i))).sum)
            ((ptLnVp_vectorize h m).idlIdx2Opt.map (fun i => blockLen (Block.line i))))).flatMap
          (fun q => freeLineResiduals c m (ptLnVp_vectorize h m) p (costFun_BA_PtLnVp h c m (ptLnVp_vectorize h m) p).cams
            (costFun_BA_PtLnVp h c m (ptLnVp_vectorize h m) p).VPs q.1 q.2)
        ++ (ptLnVp_vectorize h m).idlIdx2Rpj_notOpt.flatMap
            (fixedLineResiduals c m (ptLnVp_vectorize h m) (costFun_BA_PtLnVp h c m (ptLnVp_vectorize h m) p).cams))
    ∧ ((∀ i off, (Block.cam i, off) ∈ ptLnVp_layout m (ptLnVp_vectorize h m) →
      (vecAt (adjustBundle_PtLnVp h lm m).views i).map (fun v => (v.R, v.t))
        = (vecAt m.views i).map (fun _ =>
            (h.quatMatrix (rd (lm m (ptLnVp_vectorize h m)).para off) (rd (lm m (ptLnVp_vectorize h m)).para (off + 1)) (rd (lm m (ptLnVp_vectorize h m)).para (off + 2))
                (rd (lm m (ptLnVp_vectorize h m)).para (off + 3)),
             if i = 1 then h.angle2unitVec (rd (lm m (ptLnVp_vectorize h m)).para (off + 4)) (rd (lm m (ptLnVp_vectorize h m)).para (off + 5))
             else ⟨rd (lm m (ptLnVp_vectorize h m)).para (off + 4), rd (lm m (ptLnVp_vectorize h m)).para (off + 5), rd (lm m (ptLnVp_vectorize h m)).para (off + 6)⟩)))
    ∧ (∀ idx off, (Block.point idx, off) ∈ ptLnVp_layout m (ptLnVp_vectorize h m) →
      vecAt (adjustBundle_PtLnVp h lm m).keyPoints idx
        = (vecAt m.keyPoints idx).map (fun k =>
            { k with x := rd (lm m (ptLnVp_vectorize h m)).para off, y := rd (lm m (ptLnVp_vectorize h m)).para (off + 1),
                     z := rd (lm m (ptLnVp_vectorize h m)).para (off + 2) }))
    ∧ (∀ i off, (Block.vnpt i, off) ∈ ptLnVp_layout m (ptLnVp_vectorize h m) →
      vecAt (adjustBundle_PtLnVp h lm m).vanishingPoints i
        = (vecAt m.vanishingPoints i).map (fun v =>
            { v with x := rd (lm m (ptLnVp_vectorize h m)).para off, y := rd (lm m (ptLnVp_vectorize h m)).para (off + 1),
                     z := rd (lm m (ptLnVp_vectorize h m)).para (off + 2) }))
    ∧ (∀ idx off, (Block.line idx, off) ∈ ptLnVp_layout m (ptLnVp_vectorize h m) →
      vecAt (adjustBundle_PtLnVp h lm m).idealLines idx
        = (vecAt m.idealLines idx).map (fun ln =>
            match vecAt (adjustBundle_PtLnVp h lm m).vanishingPoints ln.vpGid with
            | none =>
              { ln with midpt := ⟨rd (lm m (ptLnVp_vectorize h m)).para off, rd (lm m (ptLnVp_vectorize h m)).para (off + 1),
                                  rd (lm m (ptLnVp_vectorize h m)).para (off + 2)⟩ }
            | some vp =>
              { ln with
                midpt := h.projectPt3d2Ln3d
                  { ln with midpt := ⟨rd (lm m (ptLnVp_vectorize h m)).para off, rd (lm m (ptLnVp_vectorize h m)).para (off + 1),
                                      rd (lm m (ptLnVp_vectorize h m)).para (off + 2)⟩,
                            direct := ⟨vp.x, vp.y, vp.z⟩ } ln.midpt,
                direct := ⟨vp.x, vp.y, vp.z⟩ }))) := by
  obtain ⟨hpv, hlen⟩ := ptLnVp_paraVec_blocks h m
  obtain ⟨hr, hp⟩ := costFun_reads h c m (ptLnVp_vectorize h m) p
  have hsum : ((ptLnVp_blocks m (ptLnVp_vectorize h m)).map blockLen).sum
      = (ptLnVp_vectorize h m).paraVec.length := by
    rw [hpv, List.length_flatMap]
    congr 1
    apply List.map_congr_left
    intro b hb
    exact (hlen b hb).symm
  refine ⟨hpv, hlen, ?_, hr, hp.trans hsum, ?_, hsum,
    fun b hb => layout_has_offset m _ b hb, ptLnVp_layout_eq m _,
    costFun_at h c m _ p, adjustBundle_PtLnVp_at h lm m⟩
  · intro k b off hk
    have := flatMap_at_offset (blockValues h m) blockLen
      (ptLnVp_blocks m (ptLnVp_vectorize h m)) hlen 0 k b off hk
    rw [hpv]
    simpa using this.2
  · unfold adjustBundle_PtLnVp
    simp only []
    exact ptLnVp_writeBack_layout h _ _ m

/-- C11 (as the code does it), with `projectPt3d2Ln3d` the orthogonal projection onto
the line through the line's midpoint along its direction: after a solve, the stored
midpoint of every free ideal line lies exactly on the line through the solver's midpoint
for that line with the stored (post-solve) direction. In `adjustBundle_PtLnVp` every free
line has a block in the layout of the parameter array, the solver's midpoint is the
three values of the solver's array at the offset of that block, the stored direction is
the updated vanishing point, and the step from the pre-solve midpoint to the stored one
is orthogonal to that direction (the stored midpoint is the point of the new line nearest
to the pre-solve midpoint). In `adjustBundle_G2O`, on a map whose landmarks carry their
index as gid, the solver's midpoint is the estimate of the line's vertex. -/
theorem C11_line_midpoint (s : MfgSettings) (h : Helpers) (bp : Mat3 → VanishPnt2d → Vec3)
    (lm : Map → PtLnVp → LmOutcome) (S : G2oSolver) (m : Map) (numPos numFrm : Int)
    (hproj : h.projectPt3d2Ln3d = projectPt3d2Ln3d) :
    (∀ idx ∈ (ptLnVp_vectorize h m).idlIdx2Opt, ∀ ln0, vecAt m.idealLines idx = some ln0 →
      (∃ off, (Block.line idx, off) ∈ ptLnVp_layout m (ptLnVp_vectorize h m))
      ∧ ∀ off, (Block.line idx, off) ∈ ptLnVp_layout m (ptLnVp_vectorize h m) →
        ∃ ln' : IdealLine3d,
          vecAt (adjustBundle_PtLnVp h lm m).idealLines idx = some ln'
          ∧ OnLine ⟨rd (lm m (ptLnVp_vectorize h m)).para off,
                rd (lm m (ptLnVp_vectorize h m)).para (off + 1),
                rd (lm m (ptLnVp_vectorize h m)).para (off + 2)⟩ ln'.direct ln'.midpt
          ∧ ∀ vp, vecAt (adjustBundle_PtLnVp h lm m).vanishingPoints ln0.vpGid = some vp →
              ln'.direct = ⟨vp.x, vp.y, vp.z⟩
              ∧ (ln'.direct.dot ln'.direct ≠ 0 →
                  (ln0.midpt.sub ln'.midpt).dot ln'.direct = 0))
    ∧ (GidIsIndex m → ∀ g1 m', adjustBundle_G2O_problem s h bp m numPos numFrm = Except.ok g1 →
        adjustBundle_G2O s h bp S m numPos numFrm = Except.ok m' →
        ∀ idx ∈ g1.lnIdx2Opt, ∀ ln0, vecAt m.idealLines idx = some ln0 →
          ∃ (vid : Int) (v : Vertex) (e : Vec3) (ln' : IdealLine3d),
            findVertex (runOptimizer S g1).vertices vid = some v
            ∧ gidOf (runOptimizer S g1).lnvid2gid vid = idx
            ∧ v.estimate = Estimate.vec e
            ∧ vecAt m'.idealLines idx = some ln'
            ∧ OnLine e ln'.direct ln'.midpt) := by
  constructor
  · intro idx hidx ln0 hln0
    refine ⟨layout_has_offset m _ _ ?_, ?_⟩
    · simp only [ptLnVp_blocks, List.mem_append, List.mem_map]
      exact Or.inr ⟨idx, hidx, rfl⟩
    · intro off hoff
      have hat : vecAt (adjustBundle_PtLnVp h lm m).idealLines idx
          = (vecAt m.idealLines idx).map
              (ptLnVp_updateLine h (adjustBundle_PtLnVp h lm m).vanishingPoints
                (lm m (ptLnVp_vectorize h m)).para off) :=
        (adjustBundle_PtLnVp_at h lm m).2.2.2 idx off hoff
      rw [hln0] at hat
      exact ⟨_, hat, ptLnVp_updateLine_onLine h hproj
        (adjustBundle_PtLnVp h lm m).vanishingPoints (lm m (ptLnVp_vectorize h m)).para off ln0⟩
  · intro hm g1 m' hg1 hm' idx hidx ln0 hln0
    obtain ⟨g1', hg1', _, hlines, _⟩ := adjustBundle_G2O_ok s h bp S m numPos numFrm m' hm'
    rw [hg1] at hg1'
    cases hg1'
    obtain ⟨_, _, hmap, _, hvert, hnd⟩ := problem_writer s h bp S m numPos numFrm g1 hm hg1
    have hidx' : idx ∈ (runOptimizer S g1).lnvertVec.map (gidOf (runOptimizer S g1).lnvid2gid) := by
      rw [hmap]; exact hidx
    obtain ⟨vid, hvid, hgid⟩ := List.mem_map.mp hidx'
    obtain ⟨v, e, hfv, hfx, he⟩ := hvert vid (by simp [hvid])
    have hat := writeLine_at h (runOptimizer S g1)
      (writeBack h (runOptimizer S g1) m).vanishingPoints (runOptimizer S g1).lnvertVec
      (by rw [hmap]; exact hnd) m.idealLines vid hvid v e hfv hfx he
    rw [hgid, hln0] at hat
    refine ⟨vid, v, e,
      updateLine h (writeBack h (runOptimizer S g1) m).vanishingPoints e ln0,
      hfv, hgid, he, ?_, updateLine_onLine h hproj _ e ln0⟩
    rw [hlines]
    exact hat

/-- C11 at the six-view map with one free line and the projection as modelled: the block
of the line starts at offset 24 of the solver's array. -/
theorem C11_line_midpoint_witness :
    projHelpers.projectPt3d2Ln3d = projectPt3d2Ln3d
    ∧ (0 : Int) ∈ (ptLnVp_vectorize projHelpers originLineMap).idlIdx2Opt
    ∧ vecAt originLineMap.idealLines 0 = some originLine
    ∧ (Block.line 0, 24) ∈ ptLnVp_layout originLineMap
        (ptLnVp_vectorize projHelpers originLineMap)
    ∧ ∃ ln' : IdealLine3d,
        vecAt (adjustBundle_PtLnVp projHelpers (fun _ _ => shiftedLineOutcome)
          originLineMap).idealLines 0 = some ln'
        ∧ OnLine ⟨rd shiftedLineOutcome.para 24, rd shiftedLineOutcome.para (24 + 1),
              rd shiftedLineOutcome.para (24 + 2)⟩ ln'.direct ln'.midpt
        ∧ ∀ vp, vecAt (adjustBundle_PtLnVp projHelpers (fun _ _ => shiftedLineOutcome)
              originLineMap).vanishingPoints originLine.vpGid = some vp →
            ln'.direct = ⟨vp.x, vp.y, vp.z⟩
            ∧ (ln'.direct.dot ln'.direct ≠ 0 →
                (originLine.midpt.sub ln'.midpt).dot ln'.direct = 0) :=
  ⟨rfl, by decide, rfl, by decide,
    ((C11_line_midpoint scenarioSettings projHelpers (fun _ _ => ⟨0, 0, 1⟩)
      (fun _ _ => shiftedLineOutcome) sampleSolver originLineMap 3 5 rfl).1 0 (by decide)
      originLine rfl).2 24 (by decide)⟩

/-! ## The six-view scenario -/

/-- Which index list a key point is on in a problem handed to the solver. -/
theorem problem_kpt_lists (s : MfgSettings) (hp : Helpers) (bp : Mat3 → VanishPnt2d → Vec3)
    (m : Map) (numPos numFrm : Int) (g1 : Graph)
    (h : adjustBundle_G2O_problem s hp bp m numPos numFrm = Except.ok g1) :
    ∃ g0, adjustBundle_G2O_cameras s m numPos numFrm = Except.ok g0
      ∧ (m.camdist_constraints = [] → g0.edges_camdist = [])
      ∧ ∀ i kp, vecAt m.keyPoints i = some kp →
        (i ∈ g1.kptIdx2Rpj_notOpt
          ↔ (kp.is3D = true ∧ 0 ≤ kp.gid
              ∧ ∃ o ∈ kp.viewId_ptLid, frontPosIdx m.views.length numPos ≤ o.1)
            ∧ (firstViewId kp.viewId_ptLid < frontFrmIdx m.views.length numFrm
              ∧ kp.estViewId < backId m.views ∧ g0.edges_camdist = []))
        ∧ (i ∈ g1.kptIdx2Opt
          ↔ (kp.is3D = true ∧ 0 ≤ kp.gid
              ∧ ∃ o ∈ kp.viewId_ptLid, frontPosIdx m.views.length numPos ≤ o.1)
            ∧ ¬ (firstViewId kp.viewId_ptLid < frontFrmIdx m.views.length numFrm
              ∧ kp.estViewId < backId m.views ∧ g0.edges_camdist = [])) := by
  unfold adjustBundle_G2O_problem adjustBundle_G2O_vertices at h
  cases hc : adjustBundle_G2O_cameras s m numPos numFrm with
  | error e => rw [hc] at h; cases h
  | ok g0 =>
    rw [hc] at h
    simp only [] at h
    refine ⟨g0, rfl, ?_, ?_⟩
    · intro hcd
      unfold adjustBundle_G2O_cameras at hc
      have he := cameraPart_edges _ _ _ _ _ _ _ g0 hc
      rw [hcd] at he
      apply List.eq_nil_iff_forall_not_mem.mpr
      intro e hmem
      obtain ⟨c, hcm, _⟩ := he e hmem
      cases hcm
    · unfold adjustBundle_G2O_cameras at hc
      have hkl : g0.kptIdx2Opt = [] ∧ g0.kptIdx2Rpj_notOpt = [] ∧ g0.vpIdx2Opt = []
          ∧ g0.lnIdx2Opt = [] ∧ g0.lnIdx2Rpj_notOpt = [] := by
        obtain ⟨mi', es, hg⟩ := cameraPart_closed m.views
          (frontVptIdx m.views.length numFrm s.baNumFramesVPoint) (m.views.length : Int)
          (frontPosIdx m.views.length numPos) 20 (camDistRows m.camdist_constraints numFrm)
        rw [hg] at hc
        cases hc
        exact ⟨rfl, rfl, rfl, rfl, rfl⟩
      obtain ⟨mk, _, _⟩ := addStructure_mem false (frontPosIdx m.views.length numPos)
        (frontFrmIdx m.views.length numFrm) (backId m.views) m g0 hkl.1 hkl.2.1 hkl.2.2.1
        hkl.2.2.2.1 hkl.2.2.2.2
      obtain ⟨_, _, hl, _, _⟩ := addEdges_writerFields s hp bp m _ _ _ g1 h
      simp only [listFields, Prod.mk.injEq] at hl
      obtain ⟨l1, l2, _⟩ := hl
      rw [l1, l2]
      exact mk

theorem obs_three (obs : List (Int × Int)) (a b c : Int)
    (h : obs.map Prod.fst = [a, b, c]) : ∃ x y z, obs = [(a, x), (b, y), (c, z)] := by
  match obs, h with
  | [(a', x), (b', y), (c', z)], h =>
    simp only [List.map_cons, List.map_nil, List.cons.injEq, and_true] at h
    obtain ⟨rfl, rfl, rfl⟩ := h
    exact ⟨x, y, z, rfl⟩

theorem append_split {α : Type} (A Mid C D pre post X : List α)
    (h : Mid = pre ++ X ++ post) : ∃ pre' post', A ++ Mid ++ C ++ D = pre' ++ X ++ post' :=
  ⟨A ++ pre, post ++ C ++ D, by rw [h]; simp only [List.append_assoc]⟩

theorem scenarioProblem_eq :
    adjustBundle_G2O_problem scenarioSettings sampleHelpers (fun _ _ => ⟨0, 0, 1⟩)
      scenarioMap 3 5 = Except.ok scenarioProblem := rfl

theorem freePts_old (m : Map) (g : Graph) (nv : Vertex) (pm : IntMap)
    (hid : nv.id = g.vertex_id) (hids : ∀ v ∈ g.vertices, v.id < g.vertex_id)
    (hpm : ∀ idx ∈ g.kptIdx2Opt, mapFind pm idx = mapFind g.ptgid2vid idx)
    (h : FreePts m g) :
    ∀ idx ∈ g.kptIdx2Opt, ∃ kp v, vecAt m.keyPoints idx = some kp
      ∧ mapFind pm idx = some v.id ∧ findVertex (g.vertices ++ [nv]) v.id = some v
      ∧ v.fixed = false ∧ v.estimate = Estimate.vec ⟨kp.x, kp.y, kp.z⟩ := by
  intro idx hidx
  obtain ⟨kp, v, a, b, c, d, e⟩ := h idx hidx
  exact ⟨kp, v, a, (hpm idx hidx).trans b, ((writerInv_old g nv hid hids).2.1 _ _ c).1, d, e⟩

/-- The key-point body keeps `FreeInv`, on a key point that carries its index as gid and
with every index listed so far below the current one. -/
theorem addKeyPoint_freeInv (fp ff nw : Int) (m : Map) (g : Graph) (i : Int)
    (kp : KeyPoint3d) (hi : vecAt m.keyPoints i = some kp) (hg : kp.gid = i)
    (h : FreeInv m g ∧ ∀ idx ∈ g.kptIdx2Opt, idx < i) :
    FreeInv m (addKeyPoint fp ff nw g i kp)
    ∧ ∀ idx ∈ (addKeyPoint fp ff nw g i kp).kptIdx2Opt, idx < i + 1 := by
  obtain ⟨c1, c2, c3⟩ := addKeyPoint_cases fp ff nw g i kp
  obtain ⟨⟨h1, h2⟩, hlt⟩ := h
  have hpm : ∀ idx ∈ g.kptIdx2Opt,
      mapFind (mapSet g.ptgid2vid kp.gid g.vertex_id) idx = mapFind g.ptgid2vid idx := by
    intro idx hidx
    rw [mapFind_mapSet, if_neg]
    have := hlt idx hidx
    omega
  by_cases ha : kp.is3D = true ∧ 0 ≤ kp.gid ∧ ∃ o ∈ kp.viewId_ptLid, fp ≤ o.1
  · by_cases hf : firstViewId kp.viewId_ptLid < ff ∧ kp.estViewId < nw ∧ g.edges_camdist = []
    · rw [c2 ha hf]
      obtain ⟨o1, _, _⟩ := writerInv_old g
        { id := g.vertex_id, kind := VertexKind.point, fixed := true,
          marginalized := true, estimate := Estimate.vec ⟨kp.x, kp.y, kp.z⟩ } rfl h1
      refine ⟨⟨o1, ?_⟩, ?_⟩
      · exact freePts_old m g _ _ rfl h1 hpm h2
      · intro idx hidx
        have := hlt idx hidx
        omega
    · rw [c3 ha hf]
      obtain ⟨o1, _, _⟩ := writerInv_old g
        { id := g.vertex_id, kind := VertexKind.point, fixed := false,
          marginalized := true, estimate := Estimate.vec ⟨kp.x, kp.y, kp.z⟩ } rfl h1
      refine ⟨⟨o1, ?_⟩, ?_⟩
      · intro idx hidx
        simp only [List.mem_append, List.mem_singleton] at hidx
        rcases hidx with ho | rfl
        · exact freePts_old m g _ _ rfl h1 hpm h2 idx ho
        · refine ⟨kp, _, hi, ?_, findVertex_fresh g _ rfl h1, ?_, ?_⟩
          · simp only []
            rw [mapFind_mapSet, if_pos hg.symm]
          · rfl
          · rfl
      · intro idx hidx
        simp only [List.mem_append, List.mem_singleton] at hidx
        rcases hidx with ho | rfl
        · have := hlt idx ho
          omega
        · omega
  · rw [c1 ha]
    refine ⟨⟨h1, h2⟩, ?_⟩
    intro idx hidx
    have := hlt idx hidx
    omega

theorem addVanishingPoint_freeInv (fp : Int) (m : Map) (g : Graph) (i : Int)
    (vp : VanishPnt3d) (h : FreeInv m g) : FreeInv m (addVanishingPoint fp g i vp) := by
  obtain ⟨c1, c2⟩ := addVanishingPoint_cases fp g i vp
  obtain ⟨h1, h2⟩ := h
  by_cases ha : ∃ o ∈ vp.viewId_vpLid, fp ≤ o.1
  · rw [c2 ha]
    obtain ⟨o1, _, _⟩ := writerInv_old g
      { id := g.vertex_id, kind := VertexKind.vnpt, fixed := false,
        marginalized := false, estimate := Estimate.vec ⟨vp.x, vp.y, vp.z⟩ } rfl h1
    exact ⟨o1, freePts_old m g _ _ rfl h1 (fun _ _ => rfl) h2⟩
  · rw [c1 ha]
    exact ⟨h1, h2⟩

theorem addIdealLine_freeInv (cdt : Bool) (fp ff nw : Int) (m : Map) (g : Graph) (i : Int)
    (ln : IdealLine3d) (h : FreeInv m g) : FreeInv m (addIdealLine cdt fp ff nw g i ln) := by
  obtain ⟨c1, c2, c3⟩ := addIdealLine_cases cdt fp ff nw g i ln
  obtain ⟨h1, h2⟩ := h
  by_cases ha : ln.is3D = true ∧ 0 ≤ ln.gid ∧ ∃ o ∈ ln.viewId_lnLid, fp ≤ o.1
  · by_cases hf : firstViewId ln.viewId_lnLid < ff ∧ ln.estViewId < nw
        ∧ (cdt = true → g.edges_camdist = [])
    · rw [c2 ha hf]
      obtain ⟨o1, _, _⟩ := writerInv_old g
        { id := g.vertex_id, kind := VertexKind.lnpt, fixed := true,
          marginalized := false, estimate := Estimate.vec ln.midpt } rfl h1
      exact ⟨o1, freePts_old m g _ _ rfl h1 (fun _ _ => rfl) h2⟩
    · rw [c3 ha hf]
      obtain ⟨o1, _, _⟩ := writerInv_old g
        { id := g.vertex_id, kind := VertexKind.lnpt, fixed := false,
          marginalized := false, estimate := Estimate.vec ln.midpt } rfl h1
      exact ⟨o1, freePts_old m g _ _ rfl h1 (fun _ _ => rfl) h2⟩
  · rw [c1 ha]
    exact ⟨h1, h2⟩

theorem addPrimaryPlane_freeInv (fp nw : Int) (m : Map) (g : Graph) (i : Int)
    (pl : PrimaryPlane3d) (h : FreeInv m g) : FreeInv m (addPrimaryPlane fp nw g i pl) := by
  obtain ⟨h1, h2⟩ := h
  rcases addPrimaryPlane_cases fp nw g i pl with c | c
  · rw [c]
    exact ⟨h1, h2⟩
  · rw [c]
    obtain ⟨o1, _, _⟩ := writerInv_old g
      { id := g.vertex_id, kind := VertexKind.plane,
        fixed := decide (pl.estViewId < fp), marginalized := false,
        estimate := Estimate.vec ⟨pl.n.x / pl.d, pl.n.y / pl.d, pl.n.z / pl.d⟩ } rfl h1
    exact ⟨o1, freePts_old m g _ _ rfl h1 (fun _ _ => rfl) h2⟩

/-- The structure loops establish `FreeInv` on a map with `GidIsIndex`. -/
theorem addStructure_freeInv (cdt : Bool) (fp ff nw : Int) (m : Map) (g : Graph)
    (hm : GidIsIndex m) (hk : g.kptIdx2Opt = [])
    (hv : ∀ v ∈ g.vertices, v.id < g.vertex_id) :
    FreeInv m (addStructure cdt fp ff nw m g) := by
  have hk0 : FreePts m g := by
    intro idx hidx
    rw [hk] at hidx
    cases hidx
  have hk1 : ∀ idx ∈ g.kptIdx2Opt, idx < 0 := by
    intro idx hidx
    rw [hk] at hidx
    cases hidx
  have s1 := indexedLoop_inv_idx (addKeyPoint fp ff nw)
    (fun st i => FreeInv m st ∧ ∀ idx ∈ st.kptIdx2Opt, idx < i) m.keyPoints 0
    (fun st p hp hst => addKeyPoint_freeInv fp ff nw m st p.1 p.2 (indexed_vecAt _ _ hp)
      (hm.1 _ _ (indexed_vecAt _ _ hp)) hst) g ⟨⟨hv, hk0⟩, hk1⟩
  unfold addStructure addPrimaryPlanes addIdealLines addVanishingPoints addKeyPoints
  simp only []
  apply indexedLoop_inv _ _ (fun st i x => addPrimaryPlane_freeInv fp nw m st i x)
  apply indexedLoop_inv _ _ (fun st i x => addIdealLine_freeInv cdt fp ff nw m st i x)
  apply indexedLoop_inv _ _ (fun st i x => addVanishingPoint_freeInv fp m st i x)
  exact s1.1

/-- In every problem handed to the solver on a map with `GidIsIndex`, each key point
listed as free has a vertex that is not fixed, bound to its index, whose estimate is the
stored position. -/
theorem problem_free (s : MfgSettings) (hp : Helpers) (bp : Mat3 → VanishPnt2d → Vec3)
    (m : Map) (numPos numFrm : Int) (g1 : Graph) (hm : GidIsIndex m)
    (h : adjustBundle_G2O_problem s hp bp m numPos numFrm = Except.ok g1) :
    ∀ idx ∈ g1.kptIdx2Opt, ∃ kp v, vecAt m.keyPoints idx = some kp
      ∧ mapRead g1.ptgid2vid idx = v.id ∧ findVertex g1.vertices v.id = some v
      ∧ v.fixed = false ∧ v.estimate = Estimate.vec ⟨kp.x, kp.y, kp.z⟩ := by
  unfold adjustBundle_G2O_problem adjustBundle_G2O_vertices at h
  cases hc : adjustBundle_G2O_cameras s m numPos numFrm with
  | error e => rw [hc] at h; cases h
  | ok g0 =>
    rw [hc] at h
    simp only [] at h
    unfold adjustBundle_G2O_cameras at hc
    have hids := (cameraPart_writerInv _ _ _ _ _ _ g0 hc).1
    have hkl : g0.kptIdx2Opt = [] := by
      obtain ⟨mi', es, hg⟩ := cameraPart_closed m.views
        (frontVptIdx m.views.length numFrm s.baNumFramesVPoint) (m.views.length : Int)
        (frontPosIdx m.views.length numPos) 20 (camDistRows m.camdist_constraints numFrm)
      rw [hg] at hc
      cases hc
      rfl
    have hinv := addStructure_freeInv false (frontPosIdx m.views.length numPos)
      (frontFrmIdx m.views.length numFrm) (backId m.views) m g0 hm hkl hids
    obtain ⟨sr, _⟩ := addEdges_closed s hp bp m _ _ _ g1 h
    obtain ⟨sv, sl, sp, _⟩ := sr
    simp only [listFields, Prod.mk.injEq] at sl
    intro idx hidx
    rw [sl.1] at hidx
    obtain ⟨kp, v, a, b, c, d, e⟩ := hinv.2 idx hidx
    refine ⟨kp, v, a, ?_, by rw [sv]; exact c, d, e⟩
    rw [sp]
    unfold mapRead
    rw [mapIndex_of_find _ _ _ b]

/-- C2 (as the code does it): the scenario `numPos = 3`, `numFrm = 5`, six views, no
camera-distance constraint, with `keyPoints[i]` a 3D point `p` observed in views 1..5 and
`keyPoints[j]` a 3D point `q` observed in views 0, 1, 5. Both selectors yield
`frontFrmIdx = 1`, `frontPosIdx = 3`. In `adjustBundle_PtLnVp`, `p` is on `kptIdx2Opt`
and owns exactly one block of the parameter array, of three values, its coordinates; `q`
is on `kptIdx2Rpj_notOpt` and owns no block, and the cost function writes for it the
residual pair of its view-1 observation and the residual pair of its view-5 observation,
computed from its stored position. In every problem `adjustBundle_G2O(3, 5)` hands to
the solver, `p` is on `kptIdx2Opt` when its gid is not negative, and `q` is on
`kptIdx2Rpj_notOpt` when its gid is not negative and it was established before the
newest view; the reprojection edges are one group per listed point, and the view-5
observation of `q` yields exactly one edge with a 2-component measurement when view 5 is
marked matchable. On a map whose landmarks carry their index as gid the vertex of `p` is
not fixed, the vertex of `q` is fixed, and each holds the stored position. -/
theorem C2_scenario (s : MfgSettings) (hp : Helpers) (bp : Mat3 → VanishPnt2d → Vec3)
    (c : CostHelpers) (m : Map) (i j : Int) (p q : KeyPoint3d)
    (hviews : m.views.length = 6) (hcd : m.camdist_constraints = [])
    (hi : vecAt m.keyPoints i = some p) (hj : vecAt m.keyPoints j = some q)
    (hp3 : p.is3D = true) (hpobs : p.viewId_ptLid.map Prod.fst = [1, 2, 3, 4, 5])
    (hq3 : q.is3D = true) (hqobs : q.viewId_ptLid.map Prod.fst = [0, 1, 5]) :
    (frontFrmIdx m.views.length 5 = 1 ∧ frontPosIdx m.views.length 3 = 3
      ∧ (ptLnVp_vectorize hp m).frontFrmIdx = 1 ∧ (ptLnVp_vectorize hp m).frontPosIdx = 3)
    ∧ (i ∈ (ptLnVp_vectorize hp m).kptIdx2Opt
      ∧ i ∉ (ptLnVp_vectorize hp m).kptIdx2Rpj_notOpt
      ∧ (ptLnVp_blocks m (ptLnVp_vectorize hp m)).count (Block.point i) = 1
      ∧ blockLen (Block.point i) = 3
      ∧ (∃ off, (Block.point i, off) ∈ ptLnVp_layout m (ptLnVp_vectorize hp m))
      ∧ ∀ off, (Block.point i, off) ∈ ptLnVp_layout m (ptLnVp_vectorize hp m) →
          ((ptLnVp_vectorize hp m).paraVec.drop off).take 3 = [p.x, p.y, p.z])
    ∧ (j ∈ (ptLnVp_vectorize hp m).kptIdx2Rpj_notOpt
      ∧ j ∉ (ptLnVp_vectorize hp m).kptIdx2Opt
      ∧ Block.point j ∉ ptLnVp_blocks m (ptLnVp_vectorize hp m))
    ∧ (∃ l0 l1 l5, q.viewId_ptLid = [(0, l0), (1, l1), (5, l5)]
      ∧ (∀ cams, fixedPtResiduals c m (ptLnVp_vectorize hp m) cams j
          = [c.robust ((c.reproject m.K (costPs m (ptLnVp_vectorize hp m) cams 1)
                ⟨q.x, q.y, q.z⟩).x - (featureAt m 1 l1).x) 2,
             c.robust ((c.reproject m.K (costPs m (ptLnVp_vectorize hp m) cams 1)
                ⟨q.x, q.y, q.z⟩).y - (featureAt m 1 l1).y) 2,
             c.robust ((c.reproject m.K (costPs m (ptLnVp_vectorize hp m) cams 5)
                ⟨q.x, q.y, q.z⟩).x - (featureAt m 5 l5).x) 2,
             c.robust ((c.reproject m.K (costPs m (ptLnVp_vectorize hp m) cams 5)
                ⟨q.x, q.y, q.z⟩).y - (featureAt m 5 l5).y) 2])
      ∧ ∀ pp, ∃ pre post,
          (costFun_BA_PtLnVp hp c m (ptLnVp_vectorize hp m) pp).error
            = pre ++ fixedPtResiduals c m (ptLnVp_vectorize hp m)
                (costFun_BA_PtLnVp hp c m (ptLnVp_vectorize hp m) pp).cams j ++ post)
    ∧ (∀ g, adjustBundle_G2O_problem s hp bp m 3 5 = Except.ok g →
        (0 ≤ p.gid → i ∈ g.kptIdx2Opt ∧ i ∉ g.kptIdx2Rpj_notOpt)
        ∧ (0 ≤ q.gid → q.estViewId < backId m.views →
            j ∈ g.kptIdx2Rpj_notOpt ∧ j ∉ g.kptIdx2Opt)
        ∧ g.vecEdgeKpt = (g.kptIdx2Opt ++ g.kptIdx2Rpj_notOpt).flatMap (fun idx =>
            (kptObs m idx).flatMap
              (kptEdgeOf s m.views (frontFrmIdx m.views.length 5) g idx))
        ∧ kptObs m j = q.viewId_ptLid
        ∧ (∀ o ∈ q.viewId_ptLid, o.1 = 5 → ∀ view fp, vecAt m.views 5 = some view →
            view.matchable = true → vecAt view.featurePoints o.2 = some fp →
            kptEdgeOf s m.views (frontFrmIdx m.views.length 5) g j o
              = [{ kind := EdgeKind.projectP2MC,
                   vertices := [mapRead g.ptgid2vid j, mapRead g.camfid2vid 5],
                   measurement := [fp.x, fp.y], information := [1, 0, 0, 1],
                   robustKernel := kernelOf s s.baKernelDeltaPoint, segpts := [] }])
        ∧ (GidIsIndex m →
            (∃ v, mapRead g.ptgid2vid i = v.id ∧ findVertex g.vertices v.id = some v
              ∧ v.fixed = false ∧ v.estimate = Estimate.vec ⟨p.x, p.y, p.z⟩)
            ∧ (q.estViewId < backId m.views →
                ∃ v, mapRead g.ptgid2vid j = v.id ∧ findVertex g.vertices v.id = some v
                  ∧ v.fixed = true ∧ v.estimate = Estimate.vec ⟨q.x, q.y, q.z⟩))) := by
  have hsel : frontFrmIdx m.views.length 5 = 1 ∧ frontPosIdx m.views.length 3 = 3 := by
    rw [hviews]
    exact ⟨by decide, by decide⟩
  obtain ⟨hfp, hff⟩ := ptLnVp_vectorize_front hp m
  have hff1 : (ptLnVp_vectorize hp m).frontFrmIdx = 1 := by
    rw [hff, hviews]
    decide
  have hfp3 : (ptLnVp_vectorize hp m).frontPosIdx = 3 := by
    rw [hfp, hviews]
    decide
  have hfpd : frontPosIdx m.views.length ptLnVp_numPos = 3 := by rw [hviews]; decide
  have hffd : frontFrmIdx m.views.length ptLnVp_numFrm = 1 := by rw [hviews]; decide
  obtain ⟨mk, _⟩ := ptLnVp_vectorize_mem hp m
  obtain ⟨hpv, hlen⟩ := ptLnVp_paraVec_blocks hp m
  obtain ⟨l0, l1, l5, hql⟩ := obs_three q.viewId_ptLid 0 1 5 hqobs
  -- admission and fixing of the two points
  have hpadm : ∀ fp : Int, fp = 3 → ∃ o ∈ p.viewId_ptLid, fp ≤ o.1 := by
    intro fp hfp'
    have h5 : (5 : Int) ∈ p.viewId_ptLid.map Prod.fst := by rw [hpobs]; simp
    obtain ⟨o, ho, ho5⟩ := List.mem_map.mp h5
    exact ⟨o, ho, by rw [ho5, hfp']; decide⟩
  have hpfirst : firstViewId p.viewId_ptLid = 1 := by rw [firstViewId_eq, hpobs]; rfl
  have hqadm : ∀ fp : Int, fp = 3 → ∃ o ∈ q.viewId_ptLid, fp ≤ o.1 := by
    intro fp hfp'
    subst hfp'
    exact ⟨(5, l5), by rw [hql]; simp, by show (3 : Int) ≤ 5; decide⟩
  have hqfirst : firstViewId q.viewId_ptLid = 0 := by rw [hql]; rfl
  have hpOpt : i ∈ (ptLnVp_vectorize hp m).kptIdx2Opt :=
    (mk i p hi).2.mpr ⟨⟨hp3, hpadm _ hfpd⟩, by rw [hpfirst, hffd]; decide⟩
  have hpNot : i ∉ (ptLnVp_vectorize hp m).kptIdx2Rpj_notOpt := by
    intro hmem
    have := ((mk i p hi).1.mp hmem).2
    rw [hpfirst, hffd] at this
    exact absurd this (by decide)
  have hqNot : j ∈ (ptLnVp_vectorize hp m).kptIdx2Rpj_notOpt :=
    (mk j q hj).1.mpr ⟨⟨hq3, hqadm _ hfpd⟩, by rw [hqfirst, hffd]; decide⟩
  obtain ⟨q', hq', hqOpt, hqBlk, _⟩ := (ptLnVp_fixed_frame hp (fun _ _ => failedOutcome) m).1
    j hqNot
  have hblk : Block.point i ∈ ptLnVp_blocks m (ptLnVp_vectorize hp m) := by
    simp only [ptLnVp_blocks, List.mem_append, List.mem_map]
    exact Or.inl (Or.inl (Or.inr ⟨i, hpOpt, rfl⟩))
  refine ⟨⟨hsel.1, hsel.2, hff1, hfp3⟩, ⟨hpOpt, hpNot, ?_, rfl,
    layout_has_offset m _ _ hblk, ?_⟩, ⟨hqNot, hqOpt, hqBlk⟩, ⟨l0, l1, l5, hql, ?_, ?_⟩, ?_⟩
  · unfold ptLnVp_blocks
    rw [List.count_append, List.count_append, List.count_append,
      List.count_map_of_injective _ Block.point (fun a b e => by cases e; rfl),
      List.count_eq_one_of_mem (ptLnVp_vectorize_nodup hp m).1 hpOpt,
      List.count_eq_zero.mpr, List.count_eq_zero.mpr, List.count_eq_zero.mpr]
    · intro hmem
      obtain ⟨x, _, hx⟩ := List.mem_map.mp hmem
      cases hx
    · intro hmem
      obtain ⟨x, _, hx⟩ := List.mem_map.mp hmem
      cases hx
    · intro hmem
      obtain ⟨x, _, hx⟩ := List.mem_map.mp hmem
      cases hx
  · intro off hoff
    obtain ⟨k, hk⟩ := List.getElem?_of_mem hoff
    have := flatMap_at_offset (blockValues hp m) blockLen
      (ptLnVp_blocks m (ptLnVp_vectorize hp m)) hlen 0 k (Block.point i) off hk
    rw [hpv]
    have hb : blockValues hp m (Block.point i) = [p.x, p.y, p.z] := by
      simp only [blockValues, hi]
    rw [← hb]
    simpa [blockLen] using this.2
  · intro cams
    simp only [fixedPtResiduals, hj, hql, ptResidual, hff1, List.flatMap_cons,
      List.flatMap_nil]
    simp
  · intro pp
    obtain ⟨_, _, herr⟩ := costFun_at hp c m (ptLnVp_vectorize hp m) pp
    obtain ⟨a, b, hab⟩ := List.append_of_mem hqNot
    rw [herr]
    apply append_split _ _ _ _ (a.flatMap (fixedPtResiduals c m (ptLnVp_vectorize hp m)
        (costFun_BA_PtLnVp hp c m (ptLnVp_vectorize hp m) pp).cams))
      (b.flatMap (fixedPtResiduals c m (ptLnVp_vectorize hp m)
        (costFun_BA_PtLnVp hp c m (ptLnVp_vectorize hp m) pp).cams))
    rw [hab, List.flatMap_append, List.flatMap_cons, List.append_assoc]
  · intro g hg
    obtain ⟨g0, _, hcam, hmem⟩ := problem_kpt_lists s hp bp m 3 5 g hg
    obtain ⟨pk, _, _⟩ := problem_closed s hp bp m 3 5 g hg
    have hcd0 := hcam hcd
    refine ⟨?_, ?_, pk, by simp only [kptObs, hj], ?_, ?_⟩
    · intro hgid
      constructor
      · exact (hmem i p hi).2.mpr ⟨⟨hp3, hgid, hpadm _ hsel.2⟩,
          fun hfix => absurd hfix.1 (by rw [hpfirst, hsel.1]; decide)⟩
      · intro hin
        have := ((hmem i p hi).1.mp hin).2.1
        rw [hpfirst, hsel.1] at this
        exact absurd this (by decide)
    · intro hgid hest
      have hin : j ∈ g.kptIdx2Rpj_notOpt :=
        (hmem j q hj).1.mpr ⟨⟨hq3, hgid, hqadm _ hsel.2⟩,
          by rw [hqfirst, hsel.1]; decide, hest, hcd0⟩
      exact ⟨hin, fun hopt => ((hmem j q hj).2.mp hopt).2 ((hmem j q hj).1.mp hin).2⟩
    · intro o _ ho view fp hview hmat hfeat
      have hle : frontFrmIdx m.views.length 5 ≤ o.1 := by rw [hsel.1, ho]; decide
      rw [ho] at hle
      simp [kptEdgeOf, ho, hview, hmat, hle, hfeat]
    · intro hm
      have hgp : 0 ≤ p.gid := by
        rw [hm.1 i p hi]
        exact (vecAt_lt _ _ _ hi).1
      have hgq : 0 ≤ q.gid := by
        rw [hm.1 j q hj]
        exact (vecAt_lt _ _ _ hj).1
      constructor
      · have hin : i ∈ g.kptIdx2Opt := (hmem i p hi).2.mpr ⟨⟨hp3, hgp, hpadm _ hsel.2⟩,
          fun hfix => absurd hfix.1 (by rw [hpfirst, hsel.1]; decide)⟩
        obtain ⟨kp, v, a1, a2, a3, a4, a5⟩ := problem_free s hp bp m 3 5 g hm hg i hin
        rw [hi] at a1
        cases a1
        exact ⟨v, a2, a3, a4, a5⟩
      · intro hest
        have hin : j ∈ g.kptIdx2Rpj_notOpt :=
          (hmem j q hj).1.mpr ⟨⟨hq3, hgq, hqadm _ hsel.2⟩,
            by rw [hqfirst, hsel.1]; decide, hest, hcd0⟩
        obtain ⟨kp, v, a1, a2, a3, a4, a5, _⟩ :=
          (problem_fixed s hp bp sampleSolver m 3 5 g hm hg).1 j hin
        rw [hj] at a1
        cases a1
        exact ⟨v, a2, a3, a4, a5⟩

/-- C2 at the concrete scenario map: key point 0 is `scenarioPointA`, key point 1 is
`scenarioPointB`. -/
theorem C2_scenario_witness :
    scenarioMap.views.length = 6 ∧ scenarioMap.camdist_constraints = []
    ∧ vecAt scenarioMap.keyPoints 0 = some scenarioPointA
    ∧ vecAt scenarioMap.keyPoints 1 = some scenarioPointB
    ∧ ((0 : Int) ∈ (ptLnVp_vectorize sampleHelpers scenarioMap).kptIdx2Opt
      ∧ (0 : Int) ∉ (ptLnVp_vectorize sampleHelpers scenarioMap).kptIdx2Rpj_notOpt
      ∧ (ptLnVp_blocks scenarioMap (ptLnVp_vectorize sampleHelpers scenarioMap)).count
          (Block.point 0) = 1
      ∧ blockLen (Block.point 0) = 3
      ∧ (∃ off, (Block.point 0, off)
          ∈ ptLnVp_layout scenarioMap (ptLnVp_vectorize sampleHelpers scenarioMap))
      ∧ ∀ off, (Block.point 0, off)
          ∈ ptLnVp_layout scenarioMap (ptLnVp_vectorize sampleHelpers scenarioMap) →
          ((ptLnVp_vectorize sampleHelpers scenarioMap).paraVec.drop off).take 3
            = [scenarioPointA.x, scenarioPointA.y, scenarioPointA.z])
    ∧ ((1 : Int) ∈ (ptLnVp_vectorize sampleHelpers scenarioMap).kptIdx2Rpj_notOpt
      ∧ (1 : Int) ∉ (ptLnVp_vectorize sampleHelpers scenarioMap).kptIdx2Opt
      ∧ Block.point 1 ∉ ptLnVp_blocks scenarioMap (ptLnVp_vectorize sampleHelpers scenarioMap))
    ∧ ((1 : Int) ∈ scenarioProblem.kptIdx2Rpj_notOpt ∧ (1 : Int) ∉ scenarioProblem.kptIdx2Opt) :=
  have h := C2_scenario scenarioSettings sampleHelpers (fun _ _ => ⟨0, 0, 1⟩)
    sampleCostHelpers scenarioMap 0 1 scenarioPointA scenarioPointB rfl rfl rfl rfl rfl rfl
    rfl rfl
  ⟨rfl, rfl, rfl, rfl, h.2.1, h.2.2.1,
    (h.2.2.2.2 scenarioProblem scenarioProblem_eq).2.1 (by decide) (by decide)⟩

/-- C2 as stated fails for `adjustBundle_G2O`: in the six-view scenario without
camera-distance constraint, the 3D key point 1 observed in views 0, 1, 5 whose
`estViewId` is the id 5 of the newest view is admitted free: `adjustBundle_G2O(3, 5)`
lists it on `kptIdx2Opt`, not on `kptIdx2Rpj_notOpt`, and its vertex 7 is not fixed.
With the gid -1 the 3D key point 0 observed in views 1..5 is not admitted at all: it is
on no index list and has no vertex. And with view 5 marked unmatchable the fixed key
point 1 (vertex 7) gets the edge of its view-1 observation only: no edge joins the
vertex 7 and the camera vertex 5 of view 5. -/
theorem C2_counterexample :
    reestimatedScenarioMap.views.length = 6
    ∧ reestimatedScenarioMap.camdist_constraints = []
    ∧ (vecAt reestimatedScenarioMap.keyPoints 1).map
        (fun k => (k.is3D, k.gid, k.viewId_ptLid.map Prod.fst, k.estViewId))
      = some (true, 1, [0, 1, 5], 5)
    ∧ backId reestimatedScenarioMap.views = 5
    ∧ (adjustBundle_G2O_problem scenarioSettings sampleHelpers (fun _ _ => ⟨0, 0, 1⟩)
        reestimatedScenarioMap 3 5).map (fun g =>
          (g.kptIdx2Opt, g.kptIdx2Rpj_notOpt, mapRead g.ptgid2vid 1,
            (g.vertices.filter (fun v => v.kind = VertexKind.point)).map
              (fun v => (v.id, v.fixed))))
      = Except.ok ([0, 1], [], 7, [(6, false), (7, false)])
    ∧ (negativeGidScenarioMap.views.length = 6
      ∧ negativeGidScenarioMap.camdist_constraints = []
      ∧ (vecAt negativeGidScenarioMap.keyPoints 0).map
          (fun k => (k.is3D, k.gid, k.viewId_ptLid.map Prod.fst))
        = some (true, -1, [1, 2, 3, 4, 5])
      ∧ (adjustBundle_G2O_problem scenarioSettings sampleHelpers (fun _ _ => ⟨0, 0, 1⟩)
          negativeGidScenarioMap 3 5).map (fun g =>
            (g.kptIdx2Opt, g.kptIdx2Rpj_notOpt,
              (g.vertices.filter (fun v => v.kind = VertexKind.point)).map
                (fun v => (v.id, v.fixed))))
        = Except.ok ([], [1], [(6, true)]))
    ∧ (lastUnmatchableMap.views.length = 6
      ∧ lastUnmatchableMap.camdist_constraints = []
      ∧ lastUnmatchableMap.views.map (fun v => v.matchable)
        = [true, true, true, true, true, false]
      ∧ (vecAt lastUnmatchableMap.keyPoints 1).map
          (fun k => (k.is3D, k.gid, k.viewId_ptLid.map Prod.fst, k.estViewId))
        = some (true, 1, [0, 1, 5], 1)
      ∧ (adjustBundle_G2O_problem scenarioSettings sampleHelpers (fun _ _ => ⟨0, 0, 1⟩)
          lastUnmatchableMap 3 5).map (fun g =>
            (g.kptIdx2Opt, g.kptIdx2Rpj_notOpt, mapRead g.ptgid2vid 1,
              mapRead g.camfid2vid 5,
              g.vecEdgeKpt.map (fun e => (e.vertices, e.measurement))))
        = Except.ok ([0], [1], 7, 5,
            [([6, 1], [10, 20]), ([6, 2], [10, 20]), ([6, 3], [10, 20]),
             ([6, 4], [10, 20]), ([7, 1], [30, 40])])) :=
  ⟨rfl, rfl, rfl, rfl, rfl, ⟨rfl, rfl, rfl, rfl⟩, ⟨rfl, rfl, rfl, rfl, rfl⟩⟩

/-! ## The plane edges of the problem handed to the solver -/

theorem sameKeys_refl (g : Graph) : SameKeys g g := ⟨sameReads_refl g, rfl, rfl⟩

theorem sameKeys_trans {a b c : Graph} (h1 : SameKeys a b) (h2 : SameKeys b c) :
    SameKeys a c :=
  ⟨sameReads_trans h1.1 h2.1, h2.2.1.trans h1.2.1, h2.2.2.trans h1.2.2⟩

/-- A property of the state that every step of a fallible loop carries on, for the
elements of the list, holds after the loop. -/
theorem foldlM_inv_mem {σ α ε : Type} (f : σ → α → Except ε σ) (I : σ → Prop)
    (xs : List α) (hstep : ∀ s x s', x ∈ xs → I s → f s x = Except.ok s' → I s')
    (s s' : σ) (hI : I s) (h : xs.foldlM f s = Except.ok s') : I s' := by
  induction xs generalizing s with
  | nil =>
    simp only [List.foldlM, pure, Except.pure] at h
    cases h
    exact hI
  | cons x rest ih =>
    simp only [List.foldlM, bind, Except.bind] at h
    cases hx : f s x with
    | error e => rw [hx] at h; cases h
    | ok s1 =>
      rw [hx] at h
      exact ih (fun a b c hb => hstep a b c (List.mem_cons_of_mem _ hb)) s1
        (hstep s x s1 (List.mem_cons_self _ _) hI hx) h

theorem mapIndex_of_isSome (m : IntMap) (k : Int) (h : (mapFind m k).isSome = true) :
    (mapIndex m k).2 = m := by
  cases hf : mapFind m k with
  | none => rw [hf] at h; cases h
  | some v => rw [mapIndex_of_find m k v hf]

/-- A reprojection edge body, run for an index that is a key of `ptgid2vid`, leaves
`ptgid2vid`, `lngid2vid` and the plane edge vectors as they are. -/
theorem addKptEdge_keys (s : MfgSettings) (views : List View) (ff idx : Int)
    (x y : Graph) (o : Int × Int) (hkey : (mapFind x.ptgid2vid idx).isSome = true)
    (h : addKptEdge s views ff idx x o = Except.ok y) :
    SameKeys x y ∧ y.vecEdgePointPlane = x.vecEdgePointPlane
    ∧ y.vecEdgeLinePlane = x.vecEdgeLinePlane := by
  have hr := (addKptEdge_closed s views ff idx x y o h).1
  unfold addKptEdge at h
  simp only [] at h
  repeat' split at h
  all_goals first
    | (cases h; done)
    | (cases h; exact ⟨⟨hr, rfl, rfl⟩, rfl, rfl⟩)
    | (cases h; exact ⟨⟨hr, mapIndex_of_isSome _ _ hkey, rfl⟩, rfl, rfl⟩)

theorem addVnptEdge_keys (s : MfgSettings) (hp : Helpers) (bp : Mat3 → VanishPnt2d → Vec3)
    (m : Map) (fv idx : Int) (x y : Graph) (o : Int × Int)
    (h : addVnptEdge s hp bp m fv idx x o = Except.ok y) :
    SameKeys x y ∧ y.vecEdgePointPlane = x.vecEdgePointPlane
    ∧ y.vecEdgeLinePlane = x.vecEdgeLinePlane := by
  have hr := (addVnptEdge_closed s hp bp m fv idx x y o h).1
  unfold addVnptEdge at h
  simp only [] at h
  repeat' split at h
  all_goals first
    | (cases h; done)
    | (cases h; exact ⟨⟨hr, rfl, rfl⟩, rfl, rfl⟩)

theorem addLineEdge_keys (s : MfgSettings) (views : List View) (ff idx : Int)
    (ln : IdealLine3d) (x y : Graph) (o : Int × Int)
    (hkey : (mapFind x.lngid2vid idx).isSome = true)
    (h : addLineEdge s views ff idx ln x o = Except.ok y) :
    SameKeys x y ∧ y.vecEdgePointPlane = x.vecEdgePointPlane
    ∧ y.vecEdgeLinePlane = x.vecEdgeLinePlane := by
  have hr := (addLineEdge_closed s views ff idx ln x y o h).1
  unfold addLineEdge at h
  simp only [] at h
  repeat' split at h
  all_goals first
    | (cases h; done)
    | (cases h; exact ⟨⟨hr, rfl, rfl⟩, rfl, rfl⟩)
    | (cases h; exact ⟨⟨hr, rfl, mapIndex_of_isSome _ _ hkey⟩, rfl, rfl⟩)

/-- The relation the reprojection, vanishing-point and line edge stages establish when
every listed index is a key: the keys and the plane edge vectors stay. -/
theorem planeKeep_trans {a b c : Graph}
    (h1 : SameKeys a b ∧ b.vecEdgePointPlane = a.vecEdgePointPlane
      ∧ b.vecEdgeLinePlane = a.vecEdgeLinePlane)
    (h2 : SameKeys b c ∧ c.vecEdgePointPlane = b.vecEdgePointPlane
      ∧ c.vecEdgeLinePlane = b.vecEdgeLinePlane) :
    SameKeys a c ∧ c.vecEdgePointPlane = a.vecEdgePointPlane
      ∧ c.vecEdgeLinePlane = a.vecEdgeLinePlane :=
  ⟨sameKeys_trans h1.1 h2.1, h2.2.1.trans h1.2.1, h2.2.2.trans h1.2.2⟩

theorem addKptEdges_keys (s : MfgSettings) (m : Map) (ff : Int) (idxs : List Int)
    (a b : Graph)
    (hkeys : ∀ idx ∈ idxs, ∀ kp, vecAt m.keyPoints idx = some kp →
      (mapFind a.ptgid2vid idx).isSome = true)
    (h : addKptEdges s m ff idxs a = Except.ok b) :
    SameKeys a b ∧ b.vecEdgePointPlane = a.vecEdgePointPlane
    ∧ b.vecEdgeLinePlane = a.vecEdgeLinePlane := by
  unfold addKptEdges at h
  refine foldlM_inv_mem _
    (fun st => SameKeys a st ∧ st.vecEdgePointPlane = a.vecEdgePointPlane
      ∧ st.vecEdgeLinePlane = a.vecEdgeLinePlane) idxs ?_ a b
    ⟨sameKeys_refl a, rfl, rfl⟩ h
  intro st idx st' hidx hI hst
  cases hkp : vecAt m.keyPoints idx with
  | none => rw [hkp] at hst; cases hst
  | some kp =>
    rw [hkp] at hst
    simp only [] at hst
    refine foldlM_inv_mem _
      (fun y => SameKeys a y ∧ y.vecEdgePointPlane = a.vecEdgePointPlane
        ∧ y.vecEdgeLinePlane = a.vecEdgeLinePlane) kp.viewId_ptLid ?_ st st' hI hst
    intro y o y' _ hy hyy
    have hk : (mapFind y.ptgid2vid idx).isSome = true := by
      rw [hy.1.2.1]
      exact hkeys idx hidx kp hkp
    exact planeKeep_trans hy (addKptEdge_keys s m.views ff idx y y' o hk hyy)

theorem addVnptEdges_keys (s : MfgSettings) (hp : Helpers) (bp : Mat3 → VanishPnt2d → Vec3)
    (m : Map) (fv : Int) (a b : Graph) (h : addVnptEdges s hp bp m fv a = Except.ok b) :
    SameKeys a b ∧ b.vecEdgePointPlane = a.vecEdgePointPlane
    ∧ b.vecEdgeLinePlane = a.vecEdgeLinePlane := by
  unfold addVnptEdges at h
  refine foldlM_rel _
    (fun x y => SameKeys x y ∧ y.vecEdgePointPlane = x.vecEdgePointPlane
      ∧ y.vecEdgeLinePlane = x.vecEdgeLinePlane)
    (fun g => ⟨sameKeys_refl g, rfl, rfl⟩) (fun _ _ _ h1 h2 => planeKeep_trans h1 h2) ?_
    a.vpIdx2Opt a b h
  intro st idx st' hst
  cases hvp : vecAt m.vanishingPoints idx with
  | none => rw [hvp] at hst; cases hst
  | some vp =>
    rw [hvp] at hst
    simp only [] at hst
    exact foldlM_rel _
      (fun x y => SameKeys x y ∧ y.vecEdgePointPlane = x.vecEdgePointPlane
        ∧ y.vecEdgeLinePlane = x.vecEdgeLinePlane)
      (fun g => ⟨sameKeys_refl g, rfl, rfl⟩) (fun _ _ _ h1 h2 => planeKeep_trans h1 h2)
      (fun x o y hxy => addVnptEdge_keys s hp bp m fv idx x y o hxy) vp.viewId_vpLid st st' hst

theorem addLineEdges_keys (s : MfgSettings) (m : Map) (ff : Int) (idxs : List Int)
    (a b : Graph)
    (hkeys : ∀ idx ∈ idxs, ∀ ln, vecAt m.idealLines idx = some ln →
      (mapFind a.lngid2vid idx).isSome = true)
    (h : addLineEdges s m ff idxs a = Except.ok b) :
    SameKeys a b ∧ b.vecEdgePointPlane = a.vecEdgePointPlane
    ∧ b.vecEdgeLinePlane = a.vecEdgeLinePlane := by
  unfold addLineEdges at h
  refine foldlM_inv_mem _
    (fun st => SameKeys a st ∧ st.vecEdgePointPlane = a.vecEdgePointPlane
      ∧ st.vecEdgeLinePlane = a.vecEdgeLinePlane) idxs ?_ a b
    ⟨sameKeys_refl a, rfl, rfl⟩ h
  intro st idx st' hidx hI hst
  cases hln : vecAt m.idealLines idx with
  | none => rw [hln] at hst; cases hst
  | some ln =>
    rw [hln] at hst
    simp only [] at hst
    refine foldlM_inv_mem _
      (fun y => SameKeys a y ∧ y.vecEdgePointPlane = a.vecEdgePointPlane
        ∧ y.vecEdgeLinePlane = a.vecEdgeLinePlane) ln.viewId_lnLid ?_ st st' hI hst
    intro y o y' _ hy hyy
    have hk : (mapFind y.lngid2vid idx).isSome = true := by
      rw [hy.1.2.2]
      exact hkeys idx hidx ln hln
    exact planeKeep_trans hy (addLineEdge_keys s m.views ff idx ln y y' o hk hyy)

/-- The point-to-plane body in closed form. -/
theorem addPointPlaneEdge_plane (s : MfgSettings) (plGid : Int) (x y : Graph) (ptGid : Int)
    (h : addPointPlaneEdge s plGid x ptGid = Except.ok y) :
    SameKeys x y ∧ y.vecEdgePointPlane = x.vecEdgePointPlane ++ pointPlaneEdgeOf s x plGid ptGid
    ∧ y.vecEdgeLinePlane = x.vecEdgeLinePlane := by
  have hr := (addPointPlaneEdge_closed s plGid x y ptGid h).1
  unfold addPointPlaneEdge at h
  unfold pointPlaneEdgeOf
  by_cases hn : (mapFind x.ptgid2vid ptGid).isNone = true
  · rw [if_pos hn] at h
    cases h
    rw [if_pos hn]
    exact ⟨sameKeys_refl _, by simp, rfl⟩
  · rw [if_neg hn] at h
    rw [if_neg hn]
    have hs : (mapFind x.ptgid2vid ptGid).isSome = true := by
      cases hf : mapFind x.ptgid2vid ptGid with
      | none => rw [hf] at hn; exact absurd rfl hn
      | some v => rfl
    simp only [] at h
    cases h0 : lookupVertex x.vertices (mapIndex x.ptgid2vid ptGid).1 with
    | error e => rw [h0] at h; cases h
    | ok v0 =>
      rw [h0] at h
      simp only [] at h
      cases h1 : lookupVertex x.vertices (mapIndex x.plgid2vid plGid).1 with
      | error e => rw [h1] at h; cases h
      | ok v1 =>
        rw [h1] at h
        cases h
        refine ⟨⟨hr, mapIndex_of_isSome _ _ hs, rfl⟩, ?_, rfl⟩
        simp only [lookupVertex_ok_id _ _ _ h0, lookupVertex_ok_id _ _ _ h1, mapRead]

/-- The line-to-plane body in closed form. -/
theorem addLinePlaneEdge_plane (s : MfgSettings) (hp : Helpers) (m : Map) (plGid : Int)
    (x y : Graph) (lnGid : Int) (h : addLinePlaneEdge s hp m plGid x lnGid = Except.ok y) :
    SameKeys x y ∧ y.vecEdgeLinePlane = x.vecEdgeLinePlane ++ linePlaneEdgeOf s hp m x plGid lnGid
    ∧ y.vecEdgePointPlane = x.vecEdgePointPlane := by
  have hr := (addLinePlaneEdge_closed s hp m plGid x y lnGid h).1
  unfold addLinePlaneEdge at h
  unfold linePlaneEdgeOf
  by_cases hn : (mapFind x.lngid2vid lnGid).isNone = true
  · rw [if_pos hn] at h
    cases h
    rw [if_pos hn]
    exact ⟨sameKeys_refl _, by simp, rfl⟩
  · rw [if_neg hn] at h
    rw [if_neg hn]
    have hs : (mapFind x.lngid2vid lnGid).isSome = true := by
      cases hf : mapFind x.lngid2vid lnGid with
      | none => rw [hf] at hn; exact absurd rfl hn
      | some v => rfl
    simp only [] at h
    cases h0 : lookupVertex x.vertices (mapIndex x.lngid2vid lnGid).1 with
    | error e => rw [h0] at h; cases h
    | ok v0 =>
      rw [h0] at h
      simp only [] at h
      cases hl : vecAt m.idealLines lnGid with
      | none => rw [hl] at h; cases h
      | some ln =>
        rw [hl] at h
        simp only [] at h
        cases h1 : lookupVertex x.vertices (mapIndex x.vpgid2vid ln.vpGid).1 with
        | error e => rw [h1] at h; cases h
        | ok v1 =>
          rw [h1] at h
          simp only [] at h
          cases h2 : lookupVertex x.vertices (mapIndex x.plgid2vid plGid).1 with
          | error e => rw [h2] at h; cases h
          | ok v2 =>
            rw [h2] at h
            simp only [] at h
            cases hk : kernelOf s (s.baKernelDeltaPlane * hp.sqrt2) with
            | none => rw [hk] at h; cases h
            | some delta =>
              rw [hk] at h
              cases h
              refine ⟨⟨hr, rfl, mapIndex_of_isSome _ _ hs⟩, ?_, rfl⟩
              simp only [lookupVertex_ok_id _ _ _ h0, lookupVertex_ok_id _ _ _ h1,
                lookupVertex_ok_id _ _ _ h2, mapRead]

theorem pointPlaneEdgeOf_congr (s : MfgSettings) (a b : Graph) (h : SameKeys a b)
    (plGid ptGid : Int) : pointPlaneEdgeOf s b plGid ptGid = pointPlaneEdgeOf s a plGid ptGid := by
  unfold pointPlaneEdgeOf
  rw [h.2.1, h.1.2.2.2.2.2.2 plGid]

theorem linePlaneEdgeOf_congr (s : MfgSettings) (hp : Helpers) (m : Map) (a b : Graph)
    (h : SameKeys a b) (plGid lnGid : Int) :
    linePlaneEdgeOf s hp m b plGid lnGid = linePlaneEdgeOf s hp m a plGid lnGid := by
  unfold linePlaneEdgeOf
  rw [h.2.2]
  cases vecAt m.idealLines lnGid with
  | none => rfl
  | some ln => simp only [h.1.2.2.2.2.2.2 plGid, h.1.2.2.2.2.1 ln.vpGid]

/-- The point-to-plane edges of the plane-edge loops: for each admitted plane, one edge
for each member gid that is a key of `ptgid2vid`. -/
theorem addPlaneEdges_points (s : MfgSettings) (hp : Helpers) (m : Map) (a b : Graph)
    (h : addPlaneEdges s hp m a = Except.ok b) :
    SameKeys a b
    ∧ b.vecEdgePointPlane = a.vecEdgePointPlane
        ++ a.plIdx2Opt.flatMap
            (fun plGid => (planeKptGids m plGid).flatMap (pointPlaneEdgeOf s a plGid)) := by
  unfold addPlaneEdges at h
  refine foldlM_closed _ SameKeys (fun g => g.vecEdgePointPlane)
    (fun g plGid => (planeKptGids m plGid).flatMap (pointPlaneEdgeOf s g plGid))
    sameKeys_refl (fun _ _ _ h1 h2 => sameKeys_trans h1 h2) ?_ ?_ a.plIdx2Opt a b h
  · intro x y plGid hxy
    apply List.flatMap_congr
    intro ptGid _
    exact pointPlaneEdgeOf_congr s x y hxy plGid ptGid
  · intro st plGid st' hst
    unfold planeKptGids
    cases hpl : vecAt m.primaryPlanes plGid with
    | none => rw [hpl] at hst; cases hst
    | some pl =>
      rw [hpl] at hst
      simp only [] at hst
      simp only [hpl]
      cases hg1 : pl.kptGids.foldlM (addPointPlaneEdge s plGid) st with
      | error e => rw [hg1] at hst; cases hst
      | ok g1 =>
        rw [hg1] at hst
        simp only [] at hst
        have p1 := foldlM_closed (addPointPlaneEdge s plGid)
          (fun x y => SameKeys x y ∧ y.vecEdgeLinePlane = x.vecEdgeLinePlane)
          (fun g => g.vecEdgePointPlane) (fun g ptGid => pointPlaneEdgeOf s g plGid ptGid)
          (fun g => ⟨sameKeys_refl g, rfl⟩)
          (fun _ _ _ h1 h2 => ⟨sameKeys_trans h1.1 h2.1, h2.2.trans h1.2⟩)
          (fun x y ptGid hxy => pointPlaneEdgeOf_congr s x y hxy.1 plGid ptGid)
          (fun x ptGid y hxy => by
            obtain ⟨r, e1, e2⟩ := addPointPlaneEdge_plane s plGid x y ptGid hxy
            exact ⟨⟨r, e2⟩, e1⟩)
          pl.kptGids st g1 hg1
        have p2 := foldlM_rel (addLinePlaneEdge s hp m plGid)
          (fun x y => SameKeys x y ∧ y.vecEdgePointPlane = x.vecEdgePointPlane)
          (fun g => ⟨sameKeys_refl g, rfl⟩)
          (fun _ _ _ h1 h2 => ⟨sameKeys_trans h1.1 h2.1, h2.2.trans h1.2⟩)
          (fun x lnGid y hxy => by
            obtain ⟨r, _, e2⟩ := addLinePlaneEdge_plane s hp m plGid x y lnGid hxy
            exact ⟨r, e2⟩)
          pl.ilnGids g1 st' hst
        have e1 := p1.2
        simp only [] at e1
        refine ⟨sameKeys_trans p1.1.1 p2.1, ?_⟩
        rw [p2.2, e1]

/-- The line-to-plane edges of the plane-edge loops: for each admitted plane, one edge
for each member gid that is a key of `lngid2vid`. -/
theorem addPlaneEdges_lines (s : MfgSettings) (hp : Helpers) (m : Map) (a b : Graph)
    (h : addPlaneEdges s hp m a = Except.ok b) :
    SameKeys a b
    ∧ b.vecEdgeLinePlane = a.vecEdgeLinePlane
        ++ a.plIdx2Opt.flatMap
            (fun plGid => (planeLnGids m plGid).flatMap (linePlaneEdgeOf s hp m a plGid)) := by
  unfold addPlaneEdges at h
  refine foldlM_closed _ SameKeys (fun g => g.vecEdgeLinePlane)
    (fun g plGid => (planeLnGids m plGid).flatMap (linePlaneEdgeOf s hp m g plGid))
    sameKeys_refl (fun _ _ _ h1 h2 => sameKeys_trans h1 h2) ?_ ?_ a.plIdx2Opt a b h
  · intro x y plGid hxy
    apply List.flatMap_congr
    intro lnGid _
    exact linePlaneEdgeOf_congr s hp m x y hxy plGid lnGid
  · intro st plGid st' hst
    unfold planeLnGids
    cases hpl : vecAt m.primaryPlanes plGid with
    | none => rw [hpl] at hst; cases hst
    | some pl =>
      rw [hpl] at hst
      simp only [] at hst
      simp only [hpl]
      cases hg1 : pl.kptGids.foldlM (addPointPlaneEdge s plGid) st with
      | error e => rw [hg1] at hst; cases hst
      | ok g1 =>
        rw [hg1] at hst
        simp only [] at hst
        have p1 := foldlM_rel (addPointPlaneEdge s plGid)
          (fun x y => SameKeys x y ∧ y.vecEdgeLinePlane = x.vecEdgeLinePlane)
          (fun g => ⟨sameKeys_refl g, rfl⟩)
          (fun _ _ _ h1 h2 => ⟨sameKeys_trans h1.1 h2.1, h2.2.trans h1.2⟩)
          (fun x ptGid y hxy => by
            obtain ⟨r, _, e2⟩ := addPointPlaneEdge_plane s plGid x y ptGid hxy
            exact ⟨r, e2⟩)
          pl.kptGids st g1 hg1
        have p2 := foldlM_closed (addLinePlaneEdge s hp m plGid)
          (fun x y => SameKeys x y ∧ y.vecEdgePointPlane = x.vecEdgePointPlane)
          (fun g => g.vecEdgeLinePlane) (fun g lnGid => linePlaneEdgeOf s hp m g plGid lnGid)
          (fun g => ⟨sameKeys_refl g, rfl⟩)
          (fun _ _ _ h1 h2 => ⟨sameKeys_trans h1.1 h2.1, h2.2.trans h1.2⟩)
          (fun x y lnGid hxy => linePlaneEdgeOf_congr s hp m x y hxy.1 plGid lnGid)
          (fun x lnGid y hxy => by
            obtain ⟨r, e1, e2⟩ := addLinePlaneEdge_plane s hp m plGid x y lnGid hxy
            exact ⟨⟨r, e2⟩, e1⟩)
          pl.ilnGids g1 st' hst
        have e2 := p2.2
        simp only [] at e2
        refine ⟨sameKeys_trans p1.1 p2.1.1, ?_⟩
        rw [e2, p1.2]
        congr 1
        apply List.flatMap_congr
        intro lnGid _
        exact linePlaneEdgeOf_congr s hp m st g1 p1.1 plGid lnGid

theorem vecAt_mem {α : Type} (xs : List α) (i : Int) (x : α) (h : vecAt xs i = some x) :
    x ∈ xs := by
  unfold vecAt at h
  split_ifs at h
  obtain ⟨hlt, he⟩ := List.getElem?_eq_some.mp h
  rw [← he]
  exact List.getElem_mem hlt

/-- On a map whose landmarks carry their index as gid, every listed index of a key point
is a key of `ptgid2vid` and every listed index of an ideal line a key of `lngid2vid`
after the vertex part, whose keys are the gids of the admitted key points and lines. -/
theorem vertices_keys (s : MfgSettings) (m : Map) (numPos numFrm : Int)
    (hm : GidIsIndex m) (g0 : Graph)
    (h : adjustBundle_G2O_vertices s m numPos numFrm = Except.ok g0) :
    (∀ idx ∈ g0.kptIdx2Opt ++ g0.kptIdx2Rpj_notOpt, ∀ kp, vecAt m.keyPoints idx = some kp →
      (mapFind g0.ptgid2vid idx).isSome = true)
    ∧ (∀ idx ∈ g0.lnIdx2Opt ++ g0.lnIdx2Rpj_notOpt, ∀ ln, vecAt m.idealLines idx = some ln →
      (mapFind g0.lngid2vid idx).isSome = true)
    ∧ (∀ gid, (mapFind g0.ptgid2vid gid).isSome
        ↔ ∃ kp ∈ m.keyPoints, (kp.is3D = true ∧ 0 ≤ kp.gid
            ∧ ∃ o ∈ kp.viewId_ptLid, frontPosIdx m.views.length numPos ≤ o.1)
          ∧ kp.gid = gid)
    ∧ (∀ gid, (mapFind g0.lngid2vid gid).isSome
        ↔ ∃ ln ∈ m.idealLines, (ln.is3D = true ∧ 0 ≤ ln.gid
            ∧ ∃ o ∈ ln.viewId_lnLid, frontPosIdx m.views.length numPos ≤ o.1)
          ∧ ln.gid = gid) := by
  obtain ⟨gc, hgc, hk1, hk2, hv, hl1, hl2, _, _⟩ :=
    vertices_spec false m.views (frontVptIdx m.views.length numFrm s.baNumFramesVPoint)
      (m.views.length : Int) (frontPosIdx m.views.length numPos)
      (frontFrmIdx m.views.length numFrm) (backId m.views) 20
      (camDistRows m.camdist_constraints numFrm) m
  obtain ⟨hkp, _, hln⟩ := addStructure_mem false (frontPosIdx m.views.length numPos)
    (frontFrmIdx m.views.length numFrm) (backId m.views) m gc hk1 hk2 hv hl1 hl2
  obtain ⟨_, hpt0, hln0, _⟩ := cameraPart_planeInv (frontPosIdx m.views.length numPos)
    m.primaryPlanes _ _ _ _ _ _ gc hgc
  obtain ⟨hkeys1, hkeys2⟩ := addStructure_keys false (frontPosIdx m.views.length numPos)
    (frontFrmIdx m.views.length numFrm) (backId m.views) m gc hpt0 hln0
  have hvert : adjustBundle_G2O_vertices s m numPos numFrm
      = Except.ok (addStructure false (frontPosIdx m.views.length numPos)
        (frontFrmIdx m.views.length numFrm) (backId m.views) m gc) := by
    unfold adjustBundle_G2O_vertices adjustBundle_G2O_cameras
    rw [hgc]
  rw [hvert] at h
  cases h
  refine ⟨?_, ?_, hkeys1, hkeys2⟩
  · intro idx hidx kp hkpi
    rw [hkeys1]
    refine ⟨kp, vecAt_mem _ _ _ hkpi, ?_, hm.1 idx kp hkpi⟩
    rcases List.mem_append.mp hidx with h1 | h1
    · exact ((hkp idx kp hkpi).2.mp h1).1
    · exact ((hkp idx kp hkpi).1.mp h1).1
  · intro idx hidx ln hlni
    rw [hkeys2]
    refine ⟨ln, vecAt_mem _ _ _ hlni, ?_, hm.2.1 idx ln hlni⟩
    rcases List.mem_append.mp hidx with h1 | h1
    · exact ((hln idx ln hlni).2.mp h1).1
    · exact ((hln idx ln hlni).1.mp h1).1

/-- The edge stages before the plane loops, on a state whose listed indices are keys:
the keys stay and no plane edge is added. -/
theorem addEdges_planes (s : MfgSettings) (hp : Helpers) (bp : Mat3 → VanishPnt2d → Vec3)
    (m : Map) (ff fv : Int) (g g' : Graph)
    (hk : ∀ idx ∈ g.kptIdx2Opt ++ g.kptIdx2Rpj_notOpt, ∀ kp,
      vecAt m.keyPoints idx = some kp → (mapFind g.ptgid2vid idx).isSome = true)
    (hl : ∀ idx ∈ g.lnIdx2Opt ++ g.lnIdx2Rpj_notOpt, ∀ ln,
      vecAt m.idealLines idx = some ln → (mapFind g.lngid2vid idx).isSome = true)
    (h : addEdges s hp bp m ff fv g = Except.ok g') :
    SameKeys g g'
    ∧ g'.vecEdgePointPlane = g.vecEdgePointPlane
        ++ g'.plIdx2Opt.flatMap
            (fun plGid => (planeKptGids m plGid).flatMap (pointPlaneEdgeOf s g' plGid))
    ∧ g'.vecEdgeLinePlane = g.vecEdgeLinePlane
        ++ g'.plIdx2Opt.flatMap
            (fun plGid => (planeLnGids m plGid).flatMap (linePlaneEdgeOf s hp m g' plGid)) := by
  unfold addEdges at h
  simp only [bind, Except.bind] at h
  repeat' split at h
  all_goals try cases h
  rename_i _ g1 h1 _ g2 h2 _ g3 h3 _ g4 h4 _ g5 h5
  have k1 := addKptEdges_keys s m ff _ g g1
    (fun idx hi => hk idx (List.mem_append_left _ hi)) h1
  have l1 := k1.1.1.2.1
  simp only [listFields, Prod.mk.injEq] at l1
  have k2 := planeKeep_trans k1 (addKptEdges_keys s m ff _ g1 g2
    (fun idx hi kp hkp => by
      rw [k1.1.2.1]
      rw [l1.2.1] at hi
      exact hk idx (List.mem_append_right _ hi) kp hkp) h2)
  have k3 := planeKeep_trans k2 (addVnptEdges_keys s hp bp m fv g2 g3 h3)
  have l3 := k3.1.1.2.1
  simp only [listFields, Prod.mk.injEq] at l3
  have k4 := planeKeep_trans k3 (addLineEdges_keys s m ff _ g3 g4
    (fun idx hi ln hln => by
      rw [k3.1.2.2]
      rw [l3.2.2.2.1] at hi
      exact hl idx (List.mem_append_left _ hi) ln hln) h4)
  have l4 := k4.1.1.2.1
  simp only [listFields, Prod.mk.injEq] at l4
  have k5 := planeKeep_trans k4 (addLineEdges_keys s m ff _ g4 g5
    (fun idx hi ln hln => by
      rw [k4.1.2.2]
      rw [l4.2.2.2.2.1] at hi
      exact hl idx (List.mem_append_right _ hi) ln hln) h5)
  obtain ⟨r6, p6⟩ := addPlaneEdges_points s hp m g5 g' h
  obtain ⟨_, q6⟩ := addPlaneEdges_lines s hp m g5 g' h
  have l6 := r6.1.2.1
  simp only [listFields, Prod.mk.injEq] at l6
  refine ⟨sameKeys_trans k5.1 r6, ?_, ?_⟩
  · rw [p6, k5.2.1, l6.2.2.2.2.2]
    congr 1
    apply List.flatMap_congr
    intro plGid _
    apply List.flatMap_congr
    intro ptGid _
    exact (pointPlaneEdgeOf_congr s g5 g' r6 plGid ptGid).symm
  · rw [q6, k5.2.2, l6.2.2.2.2.2]
    congr 1
    apply List.flatMap_congr
    intro plGid _
    apply List.flatMap_congr
    intro lnGid _
    exact (linePlaneEdgeOf_congr s hp m g5 g' r6 plGid lnGid).symm

/-- The plane edges of the problem handed to the solver on a map whose landmarks carry
their index as gid: the maps `ptgid2vid` and `lngid2vid` are those of the vertex part,
and the two plane edge vectors are, for each admitted plane, one edge for each member gid
that is a key. -/
theorem problem_planes (s : MfgSettings) (hp : Helpers) (bp : Mat3 → VanishPnt2d → Vec3)
    (m : Map) (numPos numFrm : Int) (hm : GidIsIndex m) (g : Graph)
    (h : adjustBundle_G2O_problem s hp bp m numPos numFrm = Except.ok g) :
    (∀ gid, (mapFind g.ptgid2vid gid).isSome
        ↔ ∃ kp ∈ m.keyPoints, (kp.is3D = true ∧ 0 ≤ kp.gid
            ∧ ∃ o ∈ kp.viewId_ptLid, frontPosIdx m.views.length numPos ≤ o.1)
          ∧ kp.gid = gid)
    ∧ (∀ gid, (mapFind g.lngid2vid gid).isSome
        ↔ ∃ ln ∈ m.idealLines, (ln.is3D = true ∧ 0 ≤ ln.gid
            ∧ ∃ o ∈ ln.viewId_lnLid, frontPosIdx m.views.length numPos ≤ o.1)
          ∧ ln.gid = gid)
    ∧ g.vecEdgePointPlane = g.plIdx2Opt.flatMap
        (fun plGid => (planeKptGids m plGid).flatMap (pointPlaneEdgeOf s g plGid))
    ∧ g.vecEdgeLinePlane = g.plIdx2Opt.flatMap
        (fun plGid => (planeLnGids m plGid).flatMap (linePlaneEdgeOf s hp m g plGid)) := by
  obtain ⟨g0, hg0, he⟩ := vertices_no_edges s m numPos numFrm
  obtain ⟨hk, hl, hkeys1, hkeys2⟩ := vertices_keys s m numPos numFrm hm g0 hg0
  unfold adjustBundle_G2O_problem at h
  rw [hg0] at h
  simp only [] at h
  obtain ⟨r, p, q⟩ := addEdges_planes s hp bp m _ _ g0 g hk hl h
  simp only [edgeFields, Prod.mk.injEq] at he
  refine ⟨?_, ?_, ?_, ?_⟩
  · intro gid
    rw [r.2.1]
    exact hkeys1 gid
  · intro gid
    rw [r.2.2]
    exact hkeys2 gid
  · rw [p, he.2.2.2.1, List.nil_append]
  · rw [q, he.2.2.2.2, List.nil_append]

theorem mem_vecAt {α : Type} (xs : List α) (x : α) (h : x ∈ xs) :
    ∃ i : Int, vecAt xs i = some x := by
  obtain ⟨n, hn⟩ := List.mem_iff_getElem?.mp h
  refine ⟨(n : Int), ?_⟩
  unfold vecAt
  rw [if_neg (by omega)]
  simpa using hn

/-- C13 (as the code does it). In `adjustBundle_G2O`: the keys of `ptgid2vid` and
`lngid2vid` after the vertex part are the gids of the admitted key points and ideal
lines; after the vertex part and in every problem handed to the solver each listed index
stands for one vertex, and a key point, ideal line or vanishing point all of whose
observations come from views `< frontPosIdx` is on no index list; the reprojection,
vanishing-point and line edges of the problem are one group per listed index and
observation. On a map whose landmarks carry their index as gid, the keys of `ptgid2vid`
and `lngid2vid` in the problem handed to the solver are still the gids of the admitted
key points and ideal lines, the point-to-plane and line-to-plane edges of the problem
are, for each admitted plane, one edge for each member gid that is a key, and the gid of
a key point or ideal line observed before `frontPosIdx` only is no key and gets no plane
edge; on the six-view map `indexedPlaneMap` the plane with the member points 0 and 1
gets the one edge of point 0. In `adjustBundle_PtLnVp`: such a key point or ideal line
is on no index list and has no block in the parameter array, the residual array is one
group per listed index, and every vanishing point has a block. -/
theorem C13_old_landmarks (s : MfgSettings) (hp : Helpers) (bp : Mat3 → VanishPnt2d → Vec3)
    (c : CostHelpers) (m : Map) (numPos numFrm : Int) :
    (∃ g0, adjustBundle_G2O_vertices s m numPos numFrm = Except.ok g0
      ∧ (∀ gid, (mapFind g0.ptgid2vid gid).isSome
          ↔ ∃ kp ∈ m.keyPoints, (kp.is3D = true ∧ 0 ≤ kp.gid
              ∧ ∃ o ∈ kp.viewId_ptLid, frontPosIdx m.views.length numPos ≤ o.1)
            ∧ kp.gid = gid)
      ∧ (∀ gid, (mapFind g0.lngid2vid gid).isSome
          ↔ ∃ ln ∈ m.idealLines, (ln.is3D = true ∧ 0 ≤ ln.gid
              ∧ ∃ o ∈ ln.viewId_lnLid, frontPosIdx m.views.length numPos ≤ o.1)
            ∧ ln.gid = gid)
      ∧ ∀ g, (g = g0 ∨ adjustBundle_G2O_problem s hp bp m numPos numFrm = Except.ok g) →
          VertexPerIndex g
          ∧ (∀ i kp, vecAt m.keyPoints i = some kp →
              (∀ o ∈ kp.viewId_ptLid, o.1 < frontPosIdx m.views.length numPos) →
              i ∉ g.kptIdx2Opt ∧ i ∉ g.kptIdx2Rpj_notOpt)
          ∧ (∀ i ln, vecAt m.idealLines i = some ln →
              (∀ o ∈ ln.viewId_lnLid, o.1 < frontPosIdx m.views.length numPos) →
              i ∉ g.lnIdx2Opt ∧ i ∉ g.lnIdx2Rpj_notOpt)
          ∧ (∀ i vp, vecAt m.vanishingPoints i = some vp →
              (∀ o ∈ vp.viewId_vpLid, o.1 < frontPosIdx m.views.length numPos) →
              i ∉ g.vpIdx2Opt))
    ∧ (∀ g, adjustBundle_G2O_problem s hp bp m numPos numFrm = Except.ok g →
        g.vecEdgeKpt = (g.kptIdx2Opt ++ g.kptIdx2Rpj_notOpt).flatMap
            (fun idx => (kptObs m idx).flatMap
              (kptEdgeOf s m.views (frontFrmIdx m.views.length numFrm) g idx))
        ∧ g.vecEdgeVnpt = g.vpIdx2Opt.flatMap
            (fun idx => (vnptObs m idx).flatMap
              (vnptEdgeOf s hp bp m
                (frontVptIdx m.views.length numFrm s.baNumFramesVPoint) g idx))
        ∧ g.vecEdgeLine = (g.lnIdx2Opt ++ g.lnIdx2Rpj_notOpt).flatMap
            (lineEdgesOf s m (frontFrmIdx m.views.length numFrm) g))
    ∧ (GidIsIndex m → ∀ g, adjustBundle_G2O_problem s hp bp m numPos numFrm = Except.ok g →
        (∀ gid, (mapFind g.ptgid2vid gid).isSome
          ↔ ∃ kp ∈ m.keyPoints, (kp.is3D = true ∧ 0 ≤ kp.gid
              ∧ ∃ o ∈ kp.viewId_ptLid, frontPosIdx m.views.length numPos ≤ o.1)
            ∧ kp.gid = gid)
        ∧ (∀ gid, (mapFind g.lngid2vid gid).isSome
          ↔ ∃ ln ∈ m.idealLines, (ln.is3D = true ∧ 0 ≤ ln.gid
              ∧ ∃ o ∈ ln.viewId_lnLid, frontPosIdx m.views.length numPos ≤ o.1)
            ∧ ln.gid = gid)
        ∧ g.vecEdgePointPlane = g.plIdx2Opt.flatMap
            (fun plGid => (planeKptGids m plGid).flatMap (pointPlaneEdgeOf s g plGid))
        ∧ g.vecEdgeLinePlane = g.plIdx2Opt.flatMap
            (fun plGid => (planeLnGids m plGid).flatMap (linePlaneEdgeOf s hp m g plGid))
        ∧ (∀ i kp, vecAt m.keyPoints i = some kp →
            (∀ o ∈ kp.viewId_ptLid, o.1 < frontPosIdx m.views.length numPos) →
            (mapFind g.ptgid2vid kp.gid).isNone = true
            ∧ ∀ plGid, pointPlaneEdgeOf s g plGid kp.gid = [])
        ∧ (∀ i ln, vecAt m.idealLines i = some ln →
            (∀ o ∈ ln.viewId_lnLid, o.1 < frontPosIdx m.views.length numPos) →
            (mapFind g.lngid2vid ln.gid).isNone = true
            ∧ ∀ plGid, linePlaneEdgeOf s hp m g plGid ln.gid = []))
    ∧ (indexedPlaneMap.keyPoints.map (fun kp => kp.gid) = [0, 1]
      ∧ indexedPlaneMap.idealLines = [] ∧ indexedPlaneMap.vanishingPoints = []
      ∧ (vecAt indexedPlaneMap.keyPoints 1).map (fun kp => kp.viewId_ptLid)
          = some [(0, 1), (1, 1)]
      ∧ planeKptGids indexedPlaneMap 0 = [0, 1]
      ∧ (adjustBundle_G2O_problem scenarioSettings sampleHelpers (fun _ _ => ⟨0, 0, 1⟩)
          indexedPlaneMap 3 5).map (fun g =>
            (g.plIdx2Opt, g.ptgid2vid, g.plgid2vid,
              g.vecEdgePointPlane.map (fun e => (e.kind, e.vertices)), g.vecEdgeLinePlane))
        = Except.ok ([0], [(0, 6)], [(0, 7)], [(EdgeKind.pointPlane, [6, 7])], []))
    ∧ (∀ i kp, vecAt m.keyPoints i = some kp →
        (∀ o ∈ kp.viewId_ptLid, o.1 < frontPosIdx m.views.length ptLnVp_numPos) →
        i ∉ (ptLnVp_vectorize hp m).kptIdx2Opt ∧ i ∉ (ptLnVp_vectorize hp m).kptIdx2Rpj_notOpt
        ∧ Block.point i ∉ ptLnVp_blocks m (ptLnVp_vectorize hp m))
    ∧ (∀ i ln, vecAt m.idealLines i = some ln →
        (∀ o ∈ ln.viewId_lnLid, o.1 < frontPosIdx m.views.length ptLnVp_numPos) →
        i ∉ (ptLnVp_vectorize hp m).idlIdx2Opt ∧ i ∉ (ptLnVp_vectorize hp m).idlIdx2Rpj_notOpt
        ∧ Block.line i ∉ ptLnVp_blocks m (ptLnVp_vectorize hp m))
    ∧ (∀ i : Int, 0 ≤ i → i < (m.vanishingPoints.length : Int) →
        Block.vnpt i ∈ ptLnVp_blocks m (ptLnVp_vectorize hp m))
    ∧ (∀ p : List Rat, ∃ o1 o2 : Nat,
        (costFun_BA_PtLnVp hp c m (ptLnVp_vectorize hp m) p).error
          = ((ptLnVp_vectorize hp m).kptIdx2Opt.zip
                (offsets o1 ((ptLnVp_vectorize hp m).kptIdx2Opt.map (fun _ => 3)))).flatMap
              (fun q => freePtResiduals c m (ptLnVp_vectorize hp m) p
                (costFun_BA_PtLnVp hp c m (ptLnVp_vectorize hp m) p).cams q.1 q.2)
            ++ (ptLnVp_vectorize hp m).kptIdx2Rpj_notOpt.flatMap
                (fixedPtResiduals c m (ptLnVp_vectorize hp m)
                  (costFun_BA_PtLnVp hp c m (ptLnVp_vectorize hp m) p).cams)
            ++ ((ptLnVp_vectorize hp m).idlIdx2Opt.zip
                (offsets o2 ((ptLnVp_vectorize hp m).idlIdx2Opt.map (fun _ => 3)))).flatMap
                (fun q => freeLineResiduals c m (ptLnVp_vectorize hp m) p
                  (costFun_BA_PtLnVp hp c m (ptLnVp_vectorize hp m) p).cams
                  (costFun_BA_PtLnVp hp c m (ptLnVp_vectorize hp m) p).VPs q.1 q.2)
            ++ (ptLnVp_vectorize hp m).idlIdx2Rpj_notOpt.flatMap
                (fixedLineResiduals c m (ptLnVp_vectorize hp m)
                  (costFun_BA_PtLnVp hp c m (ptLnVp_vectorize hp m) p).cams)) := by
  refine ⟨?_, fun g hg => problem_closed s hp bp m numPos numFrm g hg, ?_,
    ⟨rfl, rfl, rfl, rfl, rfl, rfl⟩, ?_, ?_, ?_,
    fun p => costFun_error hp c m _ p⟩
  · obtain ⟨g0, hg0, hk1, hk2, hv, hl1, hl2, _, hcount⟩ :=
      vertices_spec false m.views (frontVptIdx m.views.length numFrm s.baNumFramesVPoint)
        (m.views.length : Int) (frontPosIdx m.views.length numPos)
        (frontFrmIdx m.views.length numFrm) (backId m.views) 20
        (camDistRows m.camdist_constraints numFrm) m
    obtain ⟨hkp, hvp, hln⟩ := addStructure_mem false (frontPosIdx m.views.length numPos)
      (frontFrmIdx m.views.length numFrm) (backId m.views) m g0 hk1 hk2 hv hl1 hl2
    obtain ⟨_, hpt0, hln0, _⟩ := cameraPart_planeInv (frontPosIdx m.views.length numPos)
      m.primaryPlanes _ _ _ _ _ _ g0 hg0
    obtain ⟨hkeys1, hkeys2⟩ := addStructure_keys false (frontPosIdx m.views.length numPos)
      (frontFrmIdx m.views.length numFrm) (backId m.views) m g0 hpt0 hln0
    have hvert : adjustBundle_G2O_vertices s m numPos numFrm
        = Except.ok (addStructure false (frontPosIdx m.views.length numPos)
          (frontFrmIdx m.views.length numFrm) (backId m.views) m g0) := by
      unfold adjustBundle_G2O_vertices adjustBundle_G2O_cameras
      rw [hg0]
    refine ⟨_, hvert, hkeys1, hkeys2, ?_⟩
    have hbase : ∀ g : Graph,
        g.vertices = (addStructure false (frontPosIdx m.views.length numPos)
          (frontFrmIdx m.views.length numFrm) (backId m.views) m g0).vertices →
        listFields g = listFields (addStructure false (frontPosIdx m.views.length numPos)
          (frontFrmIdx m.views.length numFrm) (backId m.views) m g0) →
        VertexPerIndex g
          ∧ (∀ i kp, vecAt m.keyPoints i = some kp →
              (∀ o ∈ kp.viewId_ptLid, o.1 < frontPosIdx m.views.length numPos) →
              i ∉ g.kptIdx2Opt ∧ i ∉ g.kptIdx2Rpj_notOpt)
          ∧ (∀ i ln, vecAt m.idealLines i = some ln →
              (∀ o ∈ ln.viewId_lnLid, o.1 < frontPosIdx m.views.length numPos) →
              i ∉ g.lnIdx2Opt ∧ i ∉ g.lnIdx2Rpj_notOpt)
          ∧ (∀ i vp, vecAt m.vanishingPoints i = some vp →
              (∀ o ∈ vp.viewId_vpLid, o.1 < frontPosIdx m.views.length numPos) →
              i ∉ g.vpIdx2Opt) := by
      intro g hv' hl'
      simp only [listFields, Prod.mk.injEq] at hl'
      obtain ⟨l1, l2, l3, l4, l5, l6⟩ := hl'
      refine ⟨?_, ?_, ?_, ?_⟩
      · unfold VertexPerIndex
        rw [hv', l1, l2, l3, l4, l5]
        exact hcount
      · intro i kp hi hold
        rw [l1, l2]
        have hno : ¬ ∃ o ∈ kp.viewId_ptLid, frontPosIdx m.views.length numPos ≤ o.1 := by
          rintro ⟨o, ho, hle⟩
          exact absurd (hold o ho) (not_lt.mpr hle)
        constructor
        · intro hmem
          exact hno (((hkp i kp hi).2.mp hmem).1.2.2)
        · intro hmem
          exact hno (((hkp i kp hi).1.mp hmem).1.2.2)
      · intro i ln hi hold
        rw [l4, l5]
        have hno : ¬ ∃ o ∈ ln.viewId_lnLid, frontPosIdx m.views.length numPos ≤ o.1 := by
          rintro ⟨o, ho, hle⟩
          exact absurd (hold o ho) (not_lt.mpr hle)
        constructor
        · intro hmem
          exact hno (((hln i ln hi).2.mp hmem).1.2.2)
        · intro hmem
          exact hno (((hln i ln hi).1.mp hmem).1.2.2)
      · intro i vp hi hold
        rw [l3]
        intro hmem
        obtain ⟨o, ho, hle⟩ := (hvp i vp hi).mp hmem
        exact absurd (hold o ho) (not_lt.mpr hle)
    intro g hg
    rcases hg with rfl | hg
    · exact hbase _ rfl rfl
    · unfold adjustBundle_G2O_problem at hg
      rw [hvert] at hg
      simp only [] at hg
      obtain ⟨hv', _, hl', _, _⟩ := addEdges_writerFields s hp bp m _ _ _ g hg
      exact hbase g hv' hl'
  · intro hm g hg
    obtain ⟨k1, k2, e1, e2⟩ := problem_planes s hp bp m numPos numFrm hm g hg
    refine ⟨k1, k2, e1, e2, ?_, ?_⟩
    · intro i kp hi hold
      have hnone : (mapFind g.ptgid2vid kp.gid).isNone = true := by
        cases hf : mapFind g.ptgid2vid kp.gid with
        | none => rfl
        | some v =>
          have hs : (mapFind g.ptgid2vid kp.gid).isSome = true := by rw [hf]; rfl
          obtain ⟨kp', hmem, hadm, hgid⟩ := (k1 kp.gid).mp hs
          obtain ⟨j, hj⟩ := mem_vecAt _ _ hmem
          have hji : j = i := by
            rw [← hm.1 j kp' hj, ← hm.1 i kp hi]
            exact hgid
          rw [hji, hi] at hj
          cases hj
          obtain ⟨o, ho, hle⟩ := hadm.2.2
          exact absurd (hold o ho) (not_lt.mpr hle)
      refine ⟨hnone, fun plGid => ?_⟩
      unfold pointPlaneEdgeOf
      rw [if_pos hnone]
    · intro i ln hi hold
      have hnone : (mapFind g.lngid2vid ln.gid).isNone = true := by
        cases hf : mapFind g.lngid2vid ln.gid with
        | none => rfl
        | some v =>
          have hs : (mapFind g.lngid2vid ln.gid).isSome = true := by rw [hf]; rfl
          obtain ⟨ln', hmem, hadm, hgid⟩ := (k2 ln.gid).mp hs
          obtain ⟨j, hj⟩ := mem_vecAt _ _ hmem
          have hji : j = i := by
            rw [← hm.2.1 j ln' hj, ← hm.2.1 i ln hi]
            exact hgid
          rw [hji, hi] at hj
          cases hj
          obtain ⟨o, ho, hle⟩ := hadm.2.2
          exact absurd (hold o ho) (not_lt.mpr hle)
      refine ⟨hnone, fun plGid => ?_⟩
      unfold linePlaneEdgeOf
      rw [if_pos hnone]
  · intro i kp hi hold
    obtain ⟨hkp, _⟩ := ptLnVp_vectorize_mem hp m
    have hno : ¬ ∃ o ∈ kp.viewId_ptLid, frontPosIdx m.views.length ptLnVp_numPos ≤ o.1 := by
      rintro ⟨o, ho, hle⟩
      exact absurd (hold o ho) (not_lt.mpr hle)
    have h1 : i ∉ (ptLnVp_vectorize hp m).kptIdx2Opt :=
      fun hmem => hno (((hkp i kp hi).2.mp hmem).1.2)
    have h2 : i ∉ (ptLnVp_vectorize hp m).kptIdx2Rpj_notOpt :=
      fun hmem => hno (((hkp i kp hi).1.mp hmem).1.2)
    refine ⟨h1, h2, ?_⟩
    simp [ptLnVp_blocks, h1]
  · intro i ln hi hold
    obtain ⟨_, hln⟩ := ptLnVp_vectorize_mem hp m
    have hno : ¬ ∃ o ∈ ln.viewId_lnLid, frontPosIdx m.views.length ptLnVp_numPos ≤ o.1 := by
      rintro ⟨o, ho, hle⟩
      exact absurd (hold o ho) (not_lt.mpr hle)
    have h1 : i ∉ (ptLnVp_vectorize hp m).idlIdx2Opt :=
      fun hmem => hno (((hln i ln hi).2.mp hmem).1.2)
    have h2 : i ∉ (ptLnVp_vectorize hp m).idlIdx2Rpj_notOpt :=
      fun hmem => hno (((hln i ln hi).1.mp hmem).1.2)
    refine ⟨h1, h2, ?_⟩
    simp [ptLnVp_blocks, h1]
  · intro i h0 h1
    simp only [ptLnVp_blocks, List.mem_append, List.mem_map]
    exact Or.inl (Or.inr ⟨i, (mem_intRange 0 _ i).mpr ⟨h0, h1⟩, rfl⟩)

/-- C13 as stated fails: on the six-view map `orphanLineMap` the vanishing point 0 is
observed in view 0 only, before `frontPosIdx = 3`, and `adjustBundle_PtLnVp` gives it the
block at offset 21 of the parameter array, filled with its coordinates `(0, 0, 1)`;
`adjustBundle_G2O` creates no vertex for it. And on the six-view map `oldPointPlaneMap`,
whose key points do not carry their index as gid, the key point 1 (gid 0) is observed in
views 0 and 1 only and is on no index list, while the reprojection edges of the listed
index 0 read `ptgid2vid[0]` and so make gid 0 a key: the plane with the member gids 1
and 0 gets a point-to-plane edge for each, the second one on the vertex with id 0, a
camera. -/
theorem C13_counterexample :
    (∀ o ∈ oldVanishingPoint.viewId_vpLid,
      o.1 < frontPosIdx orphanLineMap.views.length ptLnVp_numPos)
    ∧ orphanLineMap.vanishingPoints = [oldVanishingPoint]
    ∧ ptLnVp_layout orphanLineMap (ptLnVp_vectorize sampleHelpers orphanLineMap)
      = [(Block.cam 3, 0), (Block.cam 4, 7), (Block.cam 5, 14), (Block.vnpt 0, 21),
         (Block.line 0, 24)]
    ∧ ((ptLnVp_vectorize sampleHelpers orphanLineMap).paraVec.drop 21).take 3 = [0, 0, 1]
    ∧ (adjustBundle_G2O_problem scenarioSettings sampleHelpers (fun _ _ => ⟨0, 0, 1⟩)
        orphanLineMap 3 5).map (fun g => (g.vpIdx2Opt, countKind VertexKind.vnpt g.vertices))
      = Except.ok ([], 0)
    ∧ vecAt oldPointPlaneMap.keyPoints 1 = some oldKeyPoint
    ∧ (∀ o ∈ oldKeyPoint.viewId_ptLid, o.1 < frontPosIdx oldPointPlaneMap.views.length 3)
    ∧ planeKptGids oldPointPlaneMap 0 = [1, 0]
    ∧ (adjustBundle_G2O_vertices scenarioSettings oldPointPlaneMap 3 5).map (fun g =>
          (g.kptIdx2Opt, g.kptIdx2Rpj_notOpt, g.plIdx2Opt, g.ptgid2vid))
      = Except.ok ([0], [], [0], [(1, 6)])
    ∧ (adjustBundle_G2O_problem scenarioSettings sampleHelpers (fun _ _ => ⟨0, 0, 1⟩)
        oldPointPlaneMap 3 5).map (fun g =>
          (g.kptIdx2Opt, g.kptIdx2Rpj_notOpt, g.plIdx2Opt, g.ptgid2vid,
            g.vertices.map (fun v => (v.id, v.kind)),
            g.vecEdgePointPlane.map (fun e => (e.kind, e.vertices))))
      = Except.ok ([0], [], [0], [(0, 0), (1, 6)],
          [(0, VertexKind.cam), (1, VertexKind.cam), (2, VertexKind.cam),
           (3, VertexKind.cam), (4, VertexKind.cam), (5, VertexKind.cam),
           (6, VertexKind.point), (7, VertexKind.plane)],
          [(EdgeKind.pointPlane, [6, 7]), (EdgeKind.pointPlane, [0, 7])]) :=
  ⟨by decide, rfl, rfl, rfl, rfl, rfl, by decide, rfl, rfl, rfl⟩

end Mfg
